import Mathlib

/-!
Parametric minimum cut by pseudoflow: a model of `libhpf.c`

The C program keeps its working data in file-level variables and in arrays of
`Node` and `Arc` records linked by pointers.  Here a pointer into the node
array or the arc array is the index of the record, a null pointer is `none`,
`double` values are exact rationals, and `uint` counters are natural numbers
reduced modulo `2 ^ 32`.  Every loop whose length is not fixed by a counter
takes a `fuel` argument; running out of fuel is reported as `Err.outOfFuel`,
so "the C function returns" is "some fuel gives `Except.ok`".
-/

deriving instance DecidableEq for Except

namespace HPF

/-! ## Outcomes -/

/-- Ways a run can end without returning: the loop budget of the model is
used up, the C code would touch memory it does not own (a null pointer or an
index past the end of an array), `exit(0)` is reached after the
"Negative capacity" message, or a `double` division has a zero divisor (its
IEEE result, an infinity or a NaN, is not a rational number). -/
inductive Err where
  | outOfFuel
  | fault
  | negativeCapacity (lambda : ℚ)
  | divisionByZero
  deriving DecidableEq, Repr

/-- Value of a pointer that must not be null. -/
def deref {α : Type} : Option α → Except Err α
  | some a => .ok a
  | none => .error .fault

/-! ## Machine integers -/

/-- Size of the C type `uint`. -/
def U32 : Nat := 4294967296

/-- Increment of a `uint`. -/
def incU (x : Nat) : Nat := (x + 1) % U32

/-- Decrement of a `uint`. -/
def decU (x : Nat) : Nat := (x + (U32 - 1)) % U32

/-- Difference of two `uint` values. -/
def subU (x y : Nat) : Nat := (x + (U32 - y % U32)) % U32

/-! ## Records -/

/-- The C struct `Arc`; `from_` and `to_` (the C fields `from` and `to`) index the node array. -/
structure Arc where
  from_ : Nat
  to_ : Nat
  flow : ℚ
  capacity : ℚ
  constant : ℚ
  multiplier : ℚ
  direction : Nat
  deriving DecidableEq, Repr

/-- The C struct `Node`.  `outOfTree` holds the live entries
`outOfTree[0 .. numOutOfTree-1]` of the C array, whose allocated length is
`numAdjacent`. -/
structure Node where
  parent : Option Nat
  childList : Option Nat
  nextScan : Option Nat
  outOfTree : List Nat
  arcToParent : Option Nat
  next : Option Nat
  excess : ℚ
  numAdjacent : Nat
  number : Nat
  originalIndex : Int
  label : Nat
  nextArc : Nat
  deriving DecidableEq, Repr

/-- The C field `numOutOfTree`. -/
def Node.numOutOfTree (nd : Node) : Nat := nd.outOfTree.length

/-- The C struct `Root`: a bucket of strong roots chained through `next`. -/
structure Root where
  start : Option Nat
  end_ : Option Nat
  deriving DecidableEq, Repr

/-- The C function `initializeArc`. -/
def initializeArc : Arc :=
  { from_ := 0, to_ := 0, flow := 0, capacity := 0, constant := 0, multiplier := 0,
    direction := 1 }

/-- The C function `initializeNode`. -/
def initializeNode (n : Nat) : Node :=
  { parent := none, childList := none, nextScan := none, outOfTree := [],
    arcToParent := none, next := none, excess := 0, numAdjacent := 0, number := n,
    originalIndex := -10, label := 0, nextArc := 0 }

/-- The C function `initializeRoot`. -/
def initializeRoot : Root := { start := none, end_ := none }

/-! ## Sign tests and small helpers -/

/-- The C function `isExcess`. -/
def isExcess (excess : ℚ) : Int :=
  if excess < 0 then -1 else if excess > 0 then 1 else 0

/-- The C function `math_min`. -/
def math_min (x y : ℚ) : ℚ := if x ≥ y then y else x

/-- The C function `math_max`. -/
def math_max (x y : ℚ) : ℚ := if x ≥ y then x else y

/-- The C variable `TOL`. -/
def TOL : ℚ := 1 / 10000000

/-! ## State of one engine run -/

/-- The file-level variables the pseudoflow engine works on. -/
structure State where
  numNodes : Nat
  source : Nat
  sink : Nat
  highestStrongLabel : Nat
  nodesList : List Node
  arcList : List Arc
  strongRoots : List Root
  labelCount : List Nat
  numArcScans : Nat
  numPushes : Nat
  numMergers : Nat
  numRelabels : Nat
  numGaps : Nat
  deriving DecidableEq, Repr

/-- Read `nodesList[i]`. -/
def State.node (s : State) (i : Nat) : Except Err Node := deref s.nodesList[i]?

/-- Read `arcList[i]`. -/
def State.arc (s : State) (i : Nat) : Except Err Arc := deref s.arcList[i]?

/-- Read `strongRoots[i]`. -/
def State.root (s : State) (i : Nat) : Except Err Root := deref s.strongRoots[i]?

/-- Read `labelCount[i]`. -/
def State.count (s : State) (i : Nat) : Except Err Nat := deref s.labelCount[i]?

/-- Write through a node pointer. -/
def State.modNode (s : State) (i : Nat) (f : Node → Node) : Except Err State :=
  match s.nodesList[i]? with
  | some nd => .ok { s with nodesList := s.nodesList.set i (f nd) }
  | none => .error .fault

/-- Write through an arc pointer. -/
def State.modArc (s : State) (i : Nat) (f : Arc → Arc) : Except Err State :=
  match s.arcList[i]? with
  | some a => .ok { s with arcList := s.arcList.set i (f a) }
  | none => .error .fault

/-- Write `strongRoots[i]`. -/
def State.modRoot (s : State) (i : Nat) (f : Root → Root) : Except Err State :=
  match s.strongRoots[i]? with
  | some r => .ok { s with strongRoots := s.strongRoots.set i (f r) }
  | none => .error .fault

/-- Write `labelCount[i]`. -/
def State.modCount (s : State) (i : Nat) (f : Nat → Nat) : Except Err State :=
  match s.labelCount[i]? with
  | some c => .ok { s with labelCount := s.labelCount.set i (f c) }
  | none => .error .fault

/-! ## Forest and bucket primitives -/

/-- The C function `addOutOfTreeNode`; the write faults when the array
allocated by `createOutOfTree` is full. -/
def addOutOfTreeNode (s : State) (n : Nat) (out : Nat) : Except Err State := do
  let nd ← s.node n
  if nd.numOutOfTree < nd.numAdjacent then
    s.modNode n (fun x => { x with outOfTree := x.outOfTree ++ [out] })
  else
    .error .fault

/-- The C function `addToStrongBucket`, on the bucket `strongRoots[bucket]`. -/
def addToStrongBucket (s : State) (newRoot : Nat) (bucket : Nat) : Except Err State := do
  let rb ← s.root bucket
  match rb.start with
  | some _ =>
    let e ← deref rb.end_
    let s ← s.modNode e (fun x => { x with next := some newRoot })
    let s ← s.modRoot bucket (fun r => { r with end_ := some newRoot })
    s.modNode newRoot (fun x => { x with next := none })
  | none =>
    let s ← s.modRoot bucket (fun _ => { start := some newRoot, end_ := some newRoot })
    s.modNode newRoot (fun x => { x with next := none })

/-- The C function `addRelationship`. -/
def addRelationship (s : State) (newParent child : Nat) : Except Err State := do
  let p ← s.node newParent
  let s ← s.modNode child (fun x => { x with parent := some newParent, next := p.childList })
  s.modNode newParent (fun x => { x with childList := some child })

/-- The sibling search of `breakRelationship`: the node of the chain starting
at `current` whose `next` is `child`. -/
def findPrevSibling (s : State) (child : Nat) : Nat → Nat → Except Err Nat
  | 0, _ => .error .outOfFuel
  | fuel + 1, current => do
    let c ← s.node current
    if c.next = some child then .ok current
    else
      let nx ← deref c.next
      findPrevSibling s child fuel nx

/-- The C function `breakRelationship`. -/
def breakRelationship (fuel : Nat) (s : State) (oldParent child : Nat) :
    Except Err State := do
  let s ← s.modNode child (fun x => { x with parent := none })
  let p ← s.node oldParent
  let c ← s.node child
  if p.childList = some child then
    let s ← s.modNode oldParent (fun x => { x with childList := c.next })
    s.modNode child (fun x => { x with next := none })
  else
    let first ← deref p.childList
    let current ← findPrevSibling s child fuel first
    let s ← s.modNode current (fun x => { x with next := c.next })
    s.modNode child (fun x => { x with next := none })

/-- The `while (current->parent)` loop of `merge`. -/
def mergeLoop (s : State) : Nat → Nat → Nat → Nat → Except Err (State × Nat × Nat × Nat)
  | 0, _, _, _ => .error .outOfFuel
  | fuel + 1, current, newParent, newArc => do
    let cur ← s.node current
    match cur.parent with
    | none => .ok (s, current, newParent, newArc)
    | some oldParent =>
      let oldArc ← deref cur.arcToParent
      let s ← s.modNode current (fun x => { x with arcToParent := some newArc })
      let s ← breakRelationship (fuel + 1) s oldParent current
      let s ← addRelationship s newParent current
      let s ← s.modArc oldArc (fun a => { a with direction := subU 1 a.direction })
      mergeLoop s fuel oldParent current oldArc

/-- The C function `merge`. -/
def merge (fuel : Nat) (s : State) (parent child newArc : Nat) : Except Err State := do
  let s := { s with numMergers := incU s.numMergers }
  let (s, current, newParent, newArc) ← mergeLoop s fuel child parent newArc
  let s ← s.modNode current (fun x => { x with arcToParent := some newArc })
  addRelationship s newParent current

/-- The C function `pushUpward`. -/
def pushUpward (fuel : Nat) (s : State) (currentArc child parent : Nat) (resCap : ℚ) :
    Except Err State := do
  let s := { s with numPushes := incU s.numPushes }
  let c ← s.node child
  if isExcess (resCap - c.excess) ≥ 0 then
    let s ← s.modNode parent (fun x => { x with excess := x.excess + c.excess })
    let s ← s.modArc currentArc (fun a => { a with flow := a.flow + c.excess })
    s.modNode child (fun x => { x with excess := 0 })
  else
    let s ← s.modArc currentArc (fun a => { a with direction := 0 })
    let s ← s.modNode parent (fun x => { x with excess := x.excess + resCap })
    let s ← s.modNode child (fun x => { x with excess := x.excess - resCap })
    let s ← s.modArc currentArc (fun a => { a with flow := a.capacity })
    let s ← addOutOfTreeNode s parent currentArc
    let s ← breakRelationship fuel s parent child
    let c ← s.node child
    addToStrongBucket s child c.label

/-- The C function `pushDownward`. -/
def pushDownward (fuel : Nat) (s : State) (currentArc child parent : Nat) (flow : ℚ) :
    Except Err State := do
  let s := { s with numPushes := incU s.numPushes }
  let c ← s.node child
  if isExcess (flow - c.excess) ≥ 0 then
    let s ← s.modNode parent (fun x => { x with excess := x.excess + c.excess })
    let s ← s.modArc currentArc (fun a => { a with flow := a.flow - c.excess })
    s.modNode child (fun x => { x with excess := 0 })
  else
    let s ← s.modArc currentArc (fun a => { a with direction := 1 })
    let s ← s.modNode child (fun x => { x with excess := x.excess - flow })
    let s ← s.modNode parent (fun x => { x with excess := x.excess + flow })
    let s ← s.modArc currentArc (fun a => { a with flow := 0 })
    let s ← addOutOfTreeNode s parent currentArc
    let s ← breakRelationship fuel s parent child
    let c ← s.node child
    addToStrongBucket s child c.label

/-- The `for` loop of `pushExcess`; returns the final `current` and `prevEx`. -/
def pushExcessLoop (bfuel : Nat) (s : State) : Nat → Nat → ℚ →
    Except Err (State × Nat × ℚ)
  | 0, _, _ => .error .outOfFuel
  | fuel + 1, current, prevEx => do
    let cur ← s.node current
    if isExcess cur.excess = 0 then .ok (s, current, prevEx)
    else
      match cur.parent with
      | none => .ok (s, current, prevEx)
      | some parent =>
        let p ← s.node parent
        let prevEx := p.excess
        let arcToParent ← deref cur.arcToParent
        let a ← s.arc arcToParent
        let s ←
          if a.direction ≠ 0 then
            pushUpward bfuel s arcToParent current parent (a.capacity - a.flow)
          else
            pushDownward bfuel s arcToParent current parent a.flow
        pushExcessLoop bfuel s fuel parent prevEx

/-- The C function `pushExcess`. -/
def pushExcess (fuel : Nat) (s : State) (strongRoot : Nat) : Except Err State := do
  let (s, current, prevEx) ← pushExcessLoop fuel s fuel strongRoot 1
  let cur ← s.node current
  if isExcess cur.excess > 0 ∧ isExcess prevEx ≤ 0 then
    addToStrongBucket s current cur.label
  else
    .ok s

/-! ## Scanning a strong tree -/

/-- The removal `-- numOutOfTree; outOfTree[i] = outOfTree[numOutOfTree]`. -/
def swapRemove (l : List Nat) (i : Nat) : List Nat :=
  (l.set i (l.getLastD 0)).dropLast

/-- The `for` loop of `findWeakNode`, with `k` iterations left at index `i`. -/
def findWeakNodeLoop (strongNode : Nat) : Nat → State → Nat →
    Except Err (State × Option (Nat × Nat))
  | 0, s, _ => do
    let s ← s.modNode strongNode (fun x => { x with nextArc := x.numOutOfTree })
    .ok (s, none)
  | k + 1, s, i => do
    let s := { s with numArcScans := incU s.numArcScans }
    let nd ← s.node strongNode
    let out ← deref nd.outOfTree[i]?
    let a ← s.arc out
    let t ← s.node a.to_
    if t.label = subU s.highestStrongLabel 1 then
      let s ← s.modNode strongNode
        (fun x => { x with nextArc := i, outOfTree := swapRemove x.outOfTree i })
      .ok (s, some (out, a.to_))
    else
      let f ← s.node a.from_
      if f.label = subU s.highestStrongLabel 1 then
        let s ← s.modNode strongNode
          (fun x => { x with nextArc := i, outOfTree := swapRemove x.outOfTree i })
        .ok (s, some (out, a.from_))
      else
        findWeakNodeLoop strongNode k s (i + 1)

/-- The C function `findWeakNode`: the arc found and the weak node, if any. -/
def findWeakNode (s : State) (strongNode : Nat) :
    Except Err (State × Option (Nat × Nat)) := do
  let nd ← s.node strongNode
  findWeakNodeLoop strongNode (nd.numOutOfTree - nd.nextArc) s nd.nextArc

/-- The `for` loop of `checkChildren`: `true` when a child with the label of
`curNode` was found. -/
def checkChildrenLoop (curNode : Nat) : Nat → State → Except Err (State × Bool)
  | 0, _ => .error .outOfFuel
  | fuel + 1, s => do
    let cur ← s.node curNode
    match cur.nextScan with
    | none => .ok (s, false)
    | some c =>
      let ch ← s.node c
      if ch.label = cur.label then .ok (s, true)
      else
        let s ← s.modNode curNode (fun x => { x with nextScan := ch.next })
        checkChildrenLoop curNode fuel s

/-- The C function `checkChildren`. -/
def checkChildren (fuel : Nat) (s : State) (curNode : Nat) : Except Err State := do
  let (s, found) ← checkChildrenLoop curNode fuel s
  if found then .ok s
  else
    let cur ← s.node curNode
    let s ← s.modCount cur.label decU
    let s ← s.modNode curNode (fun x => { x with label := incU x.label })
    let cur ← s.node curNode
    let s ← s.modCount cur.label incU
    let s := { s with numRelabels := incU s.numRelabels }
    s.modNode curNode (fun x => { x with nextArc := 0 })

/-- One visit of `liftAll`: `-- labelCount[current->label]; current->label = numNodes`. -/
def liftNode (s : State) (current : Nat) : Except Err State := do
  let cur ← s.node current
  let s ← s.modCount cur.label decU
  s.modNode current (fun x => { x with label := s.numNodes })

/-- The two nested loops of `liftAll`, as one loop on `current`. -/
def liftAllLoop : Nat → State → Option Nat → Except Err State
  | 0, _, _ => .error .outOfFuel
  | _ + 1, s, none => .ok s
  | fuel + 1, s, some current => do
    let cur ← s.node current
    match cur.nextScan with
    | some temp =>
      let t ← s.node temp
      let s ← s.modNode current (fun x => { x with nextScan := t.next })
      let s ← s.modNode temp (fun x => { x with nextScan := x.childList })
      let s ← liftNode s temp
      liftAllLoop fuel s (some temp)
    | none => liftAllLoop fuel s cur.parent

/-- The C function `liftAll`. -/
def liftAll (fuel : Nat) (s : State) (rootNode : Nat) : Except Err State := do
  let s ← s.modNode rootNode (fun x => { x with nextScan := x.childList })
  let s ← liftNode s rootNode
  liftAllLoop fuel s (some rootNode)

/-! ## Choosing and processing a strong root -/

/-- The gap loop of `getHighestStrongRoot`: empty bucket `i`, lifting every
tree in it. -/
def gapLoop (lfuel : Nat) (i : Nat) : Nat → State → Except Err State
  | 0, _ => .error .outOfFuel
  | fuel + 1, s => do
    let rb ← s.root i
    match rb.start with
    | none => .ok s
    | some strongRoot =>
      let s := { s with numGaps := incU s.numGaps }
      let r ← s.node strongRoot
      let s ← s.modRoot i (fun b => { b with start := r.next })
      let s ← liftAll lfuel s strongRoot
      gapLoop lfuel i fuel s

/-- The loop `for (i = highestStrongLabel; i > 0; --i)` of
`getHighestStrongRoot`; `some r` when the loop returns the root `r`. -/
def scanBuckets (fuel : Nat) : Nat → State → Except Err (State × Option Nat)
  | 0, s => .ok (s, none)
  | j + 1, s => do
    let i := j + 1
    let rb ← s.root i
    match rb.start with
    | none => scanBuckets fuel j s
    | some strongRoot =>
      let s := { s with highestStrongLabel := i }
      let c ← s.count (i - 1)
      if c ≠ 0 then
        let r ← s.node strongRoot
        let s ← s.modRoot i (fun b => { b with start := r.next })
        let s ← s.modNode strongRoot (fun x => { x with next := none })
        .ok (s, some strongRoot)
      else
        let s ← gapLoop fuel i fuel s
        scanBuckets fuel j s

/-- The loop of `getHighestStrongRoot` that moves the roots of bucket 0 to
bucket 1. -/
def liftZeroLoop : Nat → State → Except Err State
  | 0, _ => .error .outOfFuel
  | fuel + 1, s => do
    let rb ← s.root 0
    match rb.start with
    | none => .ok s
    | some strongRoot =>
      let r ← s.node strongRoot
      let s ← s.modRoot 0 (fun b => { b with start := r.next })
      let s ← s.modNode strongRoot (fun x => { x with label := 1 })
      let s ← s.modCount 0 decU
      let s ← s.modCount 1 incU
      let s := { s with numRelabels := incU s.numRelabels }
      let r ← s.node strongRoot
      let s ← addToStrongBucket s strongRoot r.label
      liftZeroLoop fuel s

/-- The C function `getHighestStrongRoot`; `none` is the null result. -/
def getHighestStrongRoot (fuel : Nat) (s : State) : Except Err (State × Option Nat) := do
  let (s, found) ← scanBuckets fuel s.highestStrongLabel s
  match found with
  | some r => .ok (s, some r)
  | none =>
    let rb ← s.root 0
    match rb.start with
    | none => .ok (s, none)
    | some _ =>
      let s ← liftZeroLoop fuel s
      let s := { s with highestStrongLabel := 1 }
      let rb ← s.root 1
      let strongRoot ← deref rb.start
      let r ← s.node strongRoot
      let s ← s.modRoot 1 (fun b => { b with start := r.next })
      let s ← s.modNode strongRoot (fun x => { x with next := none })
      .ok (s, some strongRoot)

/-- The scan of `processRoot` below the root: the two nested `while` loops as
one loop on `strongNode`. -/
def processRootLoop (bfuel : Nat) (strongRoot : Nat) : Nat → State → Nat →
    Except Err State
  | 0, _, _ => .error .outOfFuel
  | fuel + 1, s, strongNode => do
    let nd ← s.node strongNode
    match nd.nextScan with
    | some temp =>
      let t ← s.node temp
      let s ← s.modNode strongNode (fun x => { x with nextScan := t.next })
      let s ← s.modNode temp (fun x => { x with nextScan := x.childList })
      let (s, found) ← findWeakNode s temp
      match found with
      | some (out, weakNode) =>
        let s ← merge bfuel s weakNode temp out
        pushExcess bfuel s strongRoot
      | none =>
        let s ← checkChildren bfuel s temp
        processRootLoop bfuel strongRoot fuel s temp
    | none =>
      match nd.parent with
      | some p =>
        let s ← checkChildren bfuel s p
        processRootLoop bfuel strongRoot fuel s p
      | none =>
        let r ← s.node strongRoot
        let s ← addToStrongBucket s strongRoot r.label
        .ok { s with highestStrongLabel := incU s.highestStrongLabel }

/-- The C function `processRoot`. -/
def processRoot (fuel : Nat) (s : State) (strongRoot : Nat) : Except Err State := do
  let s ← s.modNode strongRoot (fun x => { x with nextScan := x.childList })
  let (s, found) ← findWeakNode s strongRoot
  match found with
  | some (out, weakNode) =>
    let s ← merge fuel s weakNode strongRoot out
    pushExcess fuel s strongRoot
  | none =>
    let s ← checkChildren fuel s strongRoot
    processRootLoop fuel strongRoot fuel s strongRoot

/-- The C function `pseudoflowPhase1`. -/
def pseudoflowPhase1 (ifuel : Nat) : Nat → State → Except Err State
  | 0, _ => .error .outOfFuel
  | fuel + 1, s => do
    let (s, r) ← getHighestStrongRoot ifuel s
    match r with
    | none => .ok s
    | some strongRoot =>
      let s ← processRoot ifuel s strongRoot
      pseudoflowPhase1 ifuel fuel s

/-! ## Setting up an engine run -/

/-- Body of the first loop of `simpleInitialization`. -/
def saturateSourceArc (s : State) (tempArc : Nat) : Except Err State := do
  let s ← s.modArc tempArc (fun a => { a with flow := a.capacity })
  let a ← s.arc tempArc
  s.modNode a.to_ (fun x => { x with excess := x.excess + a.capacity })

/-- Body of the second loop of `simpleInitialization`. -/
def saturateSinkArc (s : State) (tempArc : Nat) : Except Err State := do
  let s ← s.modArc tempArc (fun a => { a with flow := a.capacity })
  let a ← s.arc tempArc
  s.modNode a.from_ (fun x => { x with excess := x.excess - a.capacity })

/-- Body of the third loop of `simpleInitialization`. -/
def labelStrong (s : State) (i : Nat) : Except Err State := do
  let nd ← s.node i
  if isExcess nd.excess > 0 then
    let s ← s.modNode i (fun x => { x with label := 1 })
    let s ← s.modCount 1 incU
    addToStrongBucket s i 1
  else
    .ok s

/-- The C function `simpleInitialization`. -/
def simpleInitialization (s : State) : Except Err State := do
  let src ← s.node s.source
  let s ← src.outOfTree.foldlM saturateSourceArc s
  let snk ← s.node s.sink
  let s ← snk.outOfTree.foldlM saturateSinkArc s
  let s ← s.modNode s.source (fun x => { x with excess := 0 })
  let s ← s.modNode s.sink (fun x => { x with excess := 0 })
  let s ← (List.range s.numNodes).foldlM labelStrong s
  let s ← s.modNode s.source (fun x => { x with label := s.numNodes })
  let s ← s.modNode s.sink (fun x => { x with label := 0 })
  let c1 ← s.count 1
  s.modCount 0 (fun _ => subU (subU s.numNodes 2) c1)

/-- Body of the arc loop of `createMemoryStructures`. -/
def placeArc (s : State) (i : Nat) : Except Err State := do
  let a ← s.arc i
  let t ← s.node a.to_
  let f ← s.node a.from_
  let to_ := t.number
  let from_ := f.number
  if ¬ (s.source = to_ ∨ s.sink = from_ ∨ from_ = to_) then
    if s.source = from_ ∧ to_ = s.sink then
      s.modArc i (fun x => { x with flow := a.capacity })
    else if to_ = s.sink then
      addOutOfTreeNode s to_ i
    else
      addOutOfTreeNode s from_ i
  else
    .ok s

/-- The C function `createMemoryStructures`; `numArcs` is the C variable of
that name.  The arrays `strongRoots` and `labelCount` get `numNodes` entries. -/
def createMemoryStructures (s : State) (numArcs : Nat) : Except Err State := do
  let s ← (List.range numArcs).foldlM placeArc s
  .ok { s with strongRoots := List.replicate s.numNodes initializeRoot,
               labelCount := List.replicate s.numNodes 0 }

/-! ## The super graph and contracted problems -/

/-- The file-level variables that describe the input graph, as `hpf_solve`
and `readGraphSuper` set them. -/
structure Super where
  numNodesSuper : Nat
  numArcsSuper : Nat
  sourceSuper : Nat
  sinkSuper : Nat
  nodeListSuper : List Node
  arcListSuper : List Arc
  roundNegativeCapacity : Int
  LAMBDA_LOW : ℚ
  LAMBDA_HIGH : ℚ
  useParametricCut : Nat
  deriving DecidableEq, Repr

/-- The C struct `CutProblem`.  `optimalSourceSetIndicator` is `none` while
the pointer is null. -/
structure CutProblem where
  numNodesInList : Nat
  numSourceSet : Nat
  numSinkSet : Nat
  numArcs : Nat
  solved : Nat
  lambdaValue : ℚ
  arcList : List Arc
  nodeList : List Node
  cutValue : ℚ
  sourceSet : List Node
  sinkSet : List Node
  optimalSourceSetIndicator : Option (List Int)
  deriving DecidableEq, Repr

/-- Read `a[i]` of a `char` array through an `int` index. -/
def readChar (a : List Int) (i : Int) : Except Err Int :=
  if i < 0 then .error .fault else deref a[i.toNat]?

/-- Write `a[i] = v` of a `char` array through an `int` index. -/
def writeChar (a : List Int) (i : Int) (v : Int) : Except Err (List Int) :=
  if i < 0 then .error .fault
  else if i.toNat < a.length then .ok (a.set i.toNat v) else .error .fault

/-- Write `a[i].originalIndex = v` in an array of nodes. -/
def setOriginalIndex (a : List Node) (i : Nat) (v : Int) : Except Err (List Node) :=
  match a[i]? with
  | some nd => .ok (a.set i { nd with originalIndex := v })
  | none => .error .fault

/-- Add one to `a[i].numAdjacent` in an array of nodes. -/
def incAdjacent (a : List Node) (i : Nat) : Except Err (List Node) :=
  match a[i]? with
  | some nd => .ok (a.set i { nd with numAdjacent := incU nd.numAdjacent })
  | none => .error .fault

/-- The loop of `initializeContractedProblem` that fills `nodeMap`; the
result is `(nodeMap, numSourceSet, numSinkSet, numNodesInList)`. -/
def buildNodeMap (g : Super) (solutionLow solutionHigh : List Int) :
    List Nat → (List Nat × Nat × Nat × Nat) → Except Err (List Nat × Nat × Nat × Nat)
  | [], acc => .ok acc
  | i :: rest, (nodeMap, nSrc, nSnk, nList) => do
    let low ← if i = g.sourceSuper then pure 1 else deref solutionLow[i]?
    if i = g.sourceSuper ∨ low = 1 then
      buildNodeMap g solutionLow solutionHigh rest (nodeMap ++ [0], nSrc + 1, nSnk, nList)
    else
      let high ← if i = g.sinkSuper then pure 0 else deref solutionHigh[i]?
      if i = g.sinkSuper ∨ high = 0 then
        buildNodeMap g solutionLow solutionHigh rest (nodeMap ++ [1], nSrc, nSnk + 1, nList)
      else
        buildNodeMap g solutionLow solutionHigh rest
          (nodeMap ++ [nList], nSrc, nSnk, nList + 1)

/-- The loop of `initializeContractedProblem` that records the original
indices; the state is `(nodeList, sourceSet, sinkSet, currentSourceSet,
currentSinkSet)`. -/
def fillOriginalIndex (nodeListProblem : List Node) (nodeMap : List Nat) :
    List Nat → (List Node × List Node × List Node × Nat × Nat) →
    Except Err (List Node × List Node × List Node × Nat × Nat)
  | [], acc => .ok acc
  | i :: rest, (nodeList, sourceSet, sinkSet, cSrc, cSnk) => do
    let m ← deref nodeMap[i]?
    let old ← deref nodeListProblem[i]?
    if m > 1 then
      let nodeList ← setOriginalIndex nodeList m old.originalIndex
      fillOriginalIndex nodeListProblem nodeMap rest (nodeList, sourceSet, sinkSet, cSrc, cSnk)
    else if m = 0 then
      let sourceSet ← setOriginalIndex sourceSet cSrc old.originalIndex
      fillOriginalIndex nodeListProblem nodeMap rest
        (nodeList, sourceSet, sinkSet, cSrc + 1, cSnk)
    else
      let sinkSet ← setOriginalIndex sinkSet cSnk old.originalIndex
      fillOriginalIndex nodeListProblem nodeMap rest
        (nodeList, sourceSet, sinkSet, cSrc, cSnk + 1)

/-- The capacity test shared by `copyArcNew` and `copyArcAdd`: the capacity
to use, or the exit after the "Negative capacity" message, which prints
`shown`. -/
def roundCapacity (g : Super) (capacity shown : ℚ) : Except Err ℚ :=
  if capacity < 0 then
    if g.roundNegativeCapacity ≠ 0 then .ok 0 else .error (.negativeCapacity shown)
  else
    .ok capacity

/-- The C function `copyArcNew`: the new arc and the node list with both
degrees raised. -/
def copyArcNew (g : Super) (p : CutProblem) (nodeMap : List Nat) (old : Arc) (lambda : ℚ) :
    Except Err (Arc × List Node) := do
  let capacity ← roundCapacity g (old.multiplier * lambda + old.constant) p.lambdaValue
  let f ← deref g.nodeListSuper[old.from_]?
  let t ← deref g.nodeListSuper[old.to_]?
  let newIndexFrom ← deref nodeMap[f.number]?
  let newIndexTo ← deref nodeMap[t.number]?
  let new := { initializeArc with capacity := capacity, from_ := newIndexFrom, to_ := newIndexTo }
  let nodeList ← incAdjacent p.nodeList newIndexFrom
  let nodeList ← incAdjacent nodeList newIndexTo
  .ok (new, nodeList)

/-- The C function `copyArcAdd`. -/
def copyArcAdd (g : Super) (old new : Arc) (lambda : ℚ) : Except Err Arc := do
  let additional_capacity ← roundCapacity g (old.multiplier * lambda + old.constant) lambda
  .ok { new with capacity := new.capacity + additional_capacity }

/-- Scratch data of the arc loop of `initializeContractedProblem`. -/
structure ArcScratch where
  problem : CutProblem
  sourceAdjacentArcIndices : List Int
  sinkAdjacentArcIndices : List Int
  currentArc : Nat
  deriving DecidableEq, Repr

/-- Append the arc made by `copyArcNew` at `arcList[currentArc]`. -/
def appendNew (g : Super) (nodeMap : List Nat) (lambda : ℚ) (st : ArcScratch) (old : Arc) :
    Except Err ArcScratch := do
  let (new, nodeList) ← copyArcNew g st.problem nodeMap old lambda
  .ok { st with
    problem := { st.problem with arcList := st.problem.arcList ++ [new], nodeList := nodeList },
    currentArc := st.currentArc + 1 }

/-- Add the capacity of `old` to `arcList[idx]` with `copyArcAdd`. -/
def addInto (g : Super) (lambda : ℚ) (st : ArcScratch) (old : Arc) (idx : Int) :
    Except Err ArcScratch := do
  if idx < 0 then .error .fault
  else
    let target ← deref st.problem.arcList[idx.toNat]?
    let new ← copyArcAdd g old target lambda
    .ok { st with problem := { st.problem with arcList := st.problem.arcList.set idx.toNat new } }

/-- Body of the arc loop of `initializeContractedProblem`. -/
def contractArc (g : Super) (nodeMap : List Nat) (lambda : ℚ) (st : ArcScratch) (old : Arc) :
    Except Err ArcScratch := do
  let f ← deref g.nodeListSuper[old.from_]?
  let t ← deref g.nodeListSuper[old.to_]?
  let newIndexFrom ← deref nodeMap[f.number]?
  let newIndexTo ← deref nodeMap[t.number]?
  if newIndexFrom = newIndexTo ∨ newIndexTo = 0 ∨ newIndexFrom = 1
      ∨ (newIndexFrom = 0 ∧ newIndexTo = 1) then
    .ok st
  else if newIndexFrom = 0 then
    let idx ← deref st.sourceAdjacentArcIndices[newIndexTo]?
    if idx = -1 then
      let st := { st with sourceAdjacentArcIndices :=
        st.sourceAdjacentArcIndices.set newIndexTo st.currentArc }
      appendNew g nodeMap lambda st old
    else
      addInto g lambda st old idx
  else if newIndexTo = 1 then
    let idx ← deref st.sinkAdjacentArcIndices[newIndexFrom]?
    if idx = -1 then
      let st := { st with sinkAdjacentArcIndices :=
        st.sinkAdjacentArcIndices.set newIndexFrom st.currentArc }
      appendNew g nodeMap lambda st old
    else
      addInto g lambda st old idx
  else
    appendNew g nodeMap lambda st old

/-- The C function `initializeContractedProblem`, called on the super graph
(`nodeListProblem = nodeListSuper`, `arcListProblem = arcListSuper`, as at
every call site).  The cache slot only says which buffers are reused, and
every entry that is read is written first, so it is not part of the model. -/
def initializeContractedProblem (g : Super) (lambdaValue : ℚ)
    (solutionLow solutionHigh : List Int) : Except Err CutProblem := do
  let (nodeMap, nSrc, nSnk, nList) ←
    buildNodeMap g solutionLow solutionHigh (List.range g.numNodesSuper) ([], 0, 0, 2)
  let nodeList := (List.range nList).map initializeNode
  let sourceSet := (List.range nSrc).map initializeNode
  let sinkSet := (List.range nSnk).map initializeNode
  let nodeList ← setOriginalIndex nodeList 0 (-1)
  let nodeList ← setOriginalIndex nodeList 1 (-2)
  let (nodeList, sourceSet, sinkSet, _, _) ←
    fillOriginalIndex g.nodeListSuper nodeMap (List.range g.numNodesSuper)
      (nodeList, sourceSet, sinkSet, 0, 0)
  let problem : CutProblem :=
    { numNodesInList := nList, numSourceSet := nSrc, numSinkSet := nSnk, numArcs := 0,
      solved := 0, lambdaValue := lambdaValue, arcList := [], nodeList := nodeList,
      cutValue := 0, sourceSet := sourceSet, sinkSet := sinkSet,
      optimalSourceSetIndicator := none }
  let st : ArcScratch :=
    { problem := problem,
      sourceAdjacentArcIndices := List.replicate nList (-1),
      sinkAdjacentArcIndices := List.replicate nList (-1),
      currentArc := 0 }
  let st ← (g.arcListSuper.take g.numArcsSuper).foldlM (contractArc g nodeMap lambdaValue) st
  .ok { st.problem with numArcs := st.currentArc }

/-! ## Solving one contracted problem -/

/-- The engine counters `numArcScans`, `numPushes`, `numMergers`,
`numRelabels` and `numGaps`.  The C code only ever increments them, so one
run of the engine is modelled from zero and its counts are added to the
running totals (`Stats.add`). -/
structure Stats where
  numArcScans : Nat
  numPushes : Nat
  numMergers : Nat
  numRelabels : Nat
  numGaps : Nat
  deriving DecidableEq, Repr

/-- Counters at the start of a call of `hpf_solve`. -/
def Stats.zero : Stats :=
  { numArcScans := 0, numPushes := 0, numMergers := 0, numRelabels := 0, numGaps := 0 }

/-- Sum of two records of `uint` counters. -/
def Stats.add (a b : Stats) : Stats :=
  { numArcScans := (a.numArcScans + b.numArcScans) % U32,
    numPushes := (a.numPushes + b.numPushes) % U32,
    numMergers := (a.numMergers + b.numMergers) % U32,
    numRelabels := (a.numRelabels + b.numRelabels) % U32,
    numGaps := (a.numGaps + b.numGaps) % U32 }

/-- Mark the members of a roster in the indicator. -/
def markRoster (v : Int) : List Node → List Int → Except Err (List Int)
  | [], ind => .ok ind
  | nd :: rest, ind => do
    let ind ← writeChar ind nd.originalIndex v
    markRoster v rest ind

/-- The C function `evaluateCut`; returns the new `cutValue`. -/
def evaluateCut (p : CutProblem) (ind : List Int) : List Arc → ℚ → Except Err ℚ
  | [], cutValue => .ok cutValue
  | a :: rest, cutValue => do
    let f ← deref p.nodeList[a.from_]?
    let t ← deref p.nodeList[a.to_]?
    let originalIndexFrom := f.originalIndex
    let originalIndexTo := t.originalIndex
    let fromIn ← if originalIndexFrom = -1 then pure true
      else do let c ← readChar ind originalIndexFrom; pure (decide (c = 1))
    if fromIn then
      let toOut ← if originalIndexTo = -2 then pure true
        else do let c ← readChar ind originalIndexTo; pure (decide (c = 0))
      if toOut then evaluateCut p ind rest (cutValue + a.capacity)
      else evaluateCut p ind rest cutValue
    else
      evaluateCut p ind rest cutValue

/-- The cut value loop of the two-node branch of `solveProblem`. -/
def directCut (p : CutProblem) : List Arc → ℚ → Except Err ℚ
  | [], cutValue => .ok cutValue
  | a :: rest, cutValue => do
    let f ← deref p.nodeList[a.from_]?
    let t ← deref p.nodeList[a.to_]?
    if f.originalIndex = -1 ∧ t.originalIndex = -2 then
      directCut p rest (cutValue + a.capacity)
    else
      directCut p rest cutValue

/-- The copy loop of `solveProblem` for `maximalSourceSet == 1`. -/
def reverseArcs (arcs : List Arc) : List Arc :=
  arcs.map (fun a => { initializeArc with from_ := a.to_, to_ := a.from_, capacity := a.capacity })

/-- The loop of `solveProblem` that reads the labels of the nodes `2 ..
numNodes - 1`. -/
def readLabels (s : State) (maximalSourceSet : Nat) : List Nat → List Int →
    Except Err (List Int)
  | [], ind => .ok ind
  | i :: rest, ind => do
    let nd ← s.node i
    let inSource : Int :=
      if maximalSourceSet = 1 then (if nd.label ≥ s.numNodes then 0 else 1)
      else (if nd.label ≥ s.numNodes then 1 else 0)
    let ind ← writeChar ind nd.originalIndex inSource
    readLabels s maximalSourceSet rest ind

/-- The C function `solveProblem`; the second component counts what this run
adds to the engine counters.  Freshly allocated indicator arrays are taken to
hold zeros. -/
def solveProblem (fuel : Nat) (g : Super) (problem : CutProblem)
    (maximalSourceSet : Nat) : Except Err (CutProblem × Stats) := do
  let numNodes := problem.numNodesInList
  let numArcs := problem.numArcs
  let problem := { problem with cutValue := 0 }
  if numNodes = 2 then
    let ind := List.replicate g.numNodesSuper (0 : Int)
    let ind ← markRoster 1 (problem.sourceSet.take problem.numSourceSet) ind
    let ind ← markRoster 0 (problem.sinkSet.take problem.numSinkSet) ind
    let cut ← directCut problem (problem.arcList.take problem.numArcs) problem.cutValue
    .ok ({ problem with optimalSourceSetIndicator := some ind, cutValue := cut, solved := 1 },
      Stats.zero)
  else
    let source := if maximalSourceSet = 1 then 1 else 0
    let sink := if maximalSourceSet = 1 then 0 else 1
    let arcList :=
      if maximalSourceSet = 1 then reverseArcs (problem.arcList.take numArcs)
      else problem.arcList
    let s : State :=
      { numNodes := numNodes, source := source, sink := sink, highestStrongLabel := 1,
        nodesList := problem.nodeList, arcList := arcList, strongRoots := [],
        labelCount := [], numArcScans := 0, numPushes := 0, numMergers := 0,
        numRelabels := 0, numGaps := 0 }
    let s ← createMemoryStructures s numArcs
    let s ← simpleInitialization s
    let s ← pseudoflowPhase1 fuel fuel s
    let nodeCount := problem.numNodesInList + problem.numSourceSet + problem.numSinkSet - 2
    let ind := List.replicate nodeCount (0 : Int)
    let ind ← readLabels s maximalSourceSet ((List.range numNodes).drop 2) ind
    let ind ← markRoster 1 (problem.sourceSet.take problem.numSourceSet) ind
    let ind ← markRoster 0 (problem.sinkSet.take problem.numSinkSet) ind
    let problem := { problem with
      nodeList := s.nodesList,
      arcList := if maximalSourceSet = 1 then problem.arcList else s.arcList,
      optimalSourceSetIndicator := some ind }
    let cut ← evaluateCut problem ind (problem.arcList.take problem.numArcs) problem.cutValue
    .ok ({ problem with cutValue := cut, solved := 1 },
      { numArcScans := s.numArcScans, numPushes := s.numPushes, numMergers := s.numMergers,
        numRelabels := s.numRelabels, numGaps := s.numGaps })

/-! ## The parametric driver -/

/-- The breakpoint list, the per-node entries and the counters: the
file-level variables that collect the result of one call. -/
structure Globals where
  stats : Stats
  nodeBreakpoints : List ℚ
  breakpoints : List ℚ
  numBreakpoints : Nat
  deriving DecidableEq, Repr

/-- The C function `differenceSourceSets`. -/
def differenceSourceSets (g : Super) (lowOptimalSourceIndicator
    highOptimalSourceIndicator : List Int) : Except Err (List Int) :=
  (List.range g.numNodesSuper).mapM (fun i => do
    let h ← deref highOptimalSourceIndicator[i]?
    let l ← deref lowOptimalSourceIndicator[i]?
    pure (h - l))

/-- The C function `sum_array_char`, on the first `num_elements` entries: a
`uint` sum of (signed) `char` values. -/
def sum_array_char (array : List Int) (num_elements : Nat) : Nat :=
  ((array.take num_elements).foldl (fun sum c => (sum + c) % (U32 : Int)) 0).toNat

/-- The C function `internalCutCapacity`. -/
def internalCutCapacity (g : Super) (optimalSourceSetIndicator : List Int) :
    List Arc → ℚ → Except Err ℚ
  | [], capacity => .ok capacity
  | a :: rest, capacity => do
    let f ← deref g.nodeListSuper[a.from_]?
    let t ← deref g.nodeListSuper[a.to_]?
    let from_ := f.originalIndex
    let to_ := t.originalIndex
    let cf ← readChar optimalSourceSetIndicator from_
    let inCut ← if cf = 1 then do
        let ct ← readChar optimalSourceSetIndicator to_
        pure (decide (ct = 0 ∧ from_ ≠ g.sourceSuper))
      else pure false
    if inCut then internalCutCapacity g optimalSourceSetIndicator rest (capacity + a.constant)
    else internalCutCapacity g optimalSourceSetIndicator rest capacity

/-- The loop of `computeIntersect`: the accumulated `(constant, multiplier)`. -/
def intersectLoop (g : Super) (difference : List Int) : List Arc → ℚ × ℚ → Except Err (ℚ × ℚ)
  | [], acc => .ok acc
  | a :: rest, (constant, multiplier) => do
    let f ← deref g.nodeListSuper[a.from_]?
    let t ← deref g.nodeListSuper[a.to_]?
    let first ← if f.originalIndex = g.sourceSuper then do
        let d ← readChar difference t.originalIndex
        pure (decide (d = 1))
      else pure false
    if first then
      intersectLoop g difference rest (constant + a.constant, multiplier + a.multiplier)
    else
      let second ← if t.originalIndex = g.sinkSuper then do
          let d ← readChar difference f.originalIndex
          pure (decide (d = 1 ∧ g.roundNegativeCapacity = 0))
        else pure false
      if second then
        intersectLoop g difference rest (constant - a.constant, multiplier - a.multiplier)
      else
        intersectLoop g difference rest (constant, multiplier)

/-- The C function `computeIntersect`. -/
def computeIntersect (g : Super) (difference : List Int) (K12 : ℚ) : Except Err ℚ := do
  let (constant, multiplier) ←
    intersectLoop g difference (g.arcListSuper.take g.numArcsSuper) (K12, 0)
  if multiplier = 0 then .error .divisionByZero
  else .ok (constant / (- multiplier))

/-- The loop of `addBreakpoint` over the nodes. -/
def tightenEntries (lambdaValue : ℚ) (sourceSetIndicator : List Int) :
    List Nat → List ℚ → Except Err (List ℚ)
  | [], nb => .ok nb
  | i :: rest, nb => do
    let c ← deref sourceSetIndicator[i]?
    if c ≠ 0 then
      let b ← deref nb[i]?
      if b > lambdaValue then tightenEntries lambdaValue sourceSetIndicator rest (nb.set i lambdaValue)
      else tightenEntries lambdaValue sourceSetIndicator rest nb
    else
      tightenEntries lambdaValue sourceSetIndicator rest nb

/-- The C function `addBreakpoint`. -/
def addBreakpoint (g : Super) (gl : Globals) (lambdaValue : ℚ) (sourceSetIndicator : List Int) :
    Except Err Globals := do
  let nb ← tightenEntries lambdaValue sourceSetIndicator (List.range g.numNodesSuper)
    gl.nodeBreakpoints
  .ok { gl with numBreakpoints := incU gl.numBreakpoints, nodeBreakpoints := nb,
                breakpoints := gl.breakpoints ++ [lambdaValue] }

/-- The C function `parametricCut`; `depth` bounds the nesting of the
recursive calls and `fuel` the loops of the engine.  The call
`solveProblem(&maximalIntersect, 0)` passes 0 as in the source. -/
def parametricCut (fuel : Nat) (g : Super) : Nat → Globals → CutProblem → CutProblem →
    Except Err Globals
  | 0, _, _, _ => .error .outOfFuel
  | depth + 1, gl, lowProblem, highProblem => do
    let lowInd ← deref lowProblem.optimalSourceSetIndicator
    let highInd ← deref highProblem.optimalSourceSetIndicator
    let pdifference_low_high ← differenceSourceSets g lowInd highInd
    let num_nodes_different_low_high := sum_array_char pdifference_low_high g.numNodesSuper
    if num_nodes_different_low_high > 0 then
      let Klow ← internalCutCapacity g lowInd (g.arcListSuper.take g.numArcsSuper) 0
      let Khigh ← internalCutCapacity g highInd (g.arcListSuper.take g.numArcsSuper) 0
      let K12 := Klow - Khigh
      let lambdaIntersect ← computeIntersect g pdifference_low_high K12
      let minimalIntersect ← initializeContractedProblem g
        (math_max (lambdaIntersect - TOL) g.LAMBDA_LOW) lowInd highInd
      let (minimalIntersect, statsMin) ← solveProblem fuel g minimalIntersect 0
      let minInd ← deref minimalIntersect.optimalSourceSetIndicator
      let maximalIntersect ← initializeContractedProblem g
        (math_min (lambdaIntersect + TOL) g.LAMBDA_HIGH) minInd highInd
      let (maximalIntersect, statsMax) ← solveProblem fuel g maximalIntersect 0
      let maxInd ← deref maximalIntersect.optimalSourceSetIndicator
      let gl := { gl with stats := (gl.stats.add statsMin).add statsMax }
      let pdifference_min_max_intersect ← differenceSourceSets g minInd maxInd
      let num_nodes_different_min_max :=
        sum_array_char pdifference_min_max_intersect g.numNodesSuper
      let gl ← if num_nodes_different_min_max > 0 then
          addBreakpoint g gl lambdaIntersect minInd
        else pure gl
      let gl ← parametricCut fuel g depth gl lowProblem minimalIntersect
      parametricCut fuel g depth gl maximalIntersect highProblem
    else
      .ok gl

/-! ## The entry point -/

/-- The conversion `(int) x` of a `double`: truncation toward zero. -/
def toInt (x : ℚ) : Int := if x ≥ 0 then x.floor else - (-x).floor

/-- The arc loop of `readGraphSuper`, reading row `i` of `arcMatrix`. -/
def readArcs (arcMatrix : List ℚ) : List Nat → List Node × List Arc →
    Except Err (List Node × List Arc)
  | [], acc => .ok acc
  | i :: rest, (nodes, arcs) => do
    let c0 ← deref arcMatrix[i * 4 + 0]?
    let c1 ← deref arcMatrix[i * 4 + 1]?
    let constantCapacity ← deref arcMatrix[i * 4 + 2]?
    let multiplierCapacity ← deref arcMatrix[i * 4 + 3]?
    let from_ := toInt c0
    let to_ := toInt c1
    if from_ < 0 ∨ to_ < 0 then .error .fault
    else
      let new : Arc :=
        { initializeArc with
          constant := constantCapacity
          multiplier := multiplierCapacity
          from_ := from_.toNat
          to_ := to_.toNat }
      let nodes ← incAdjacent nodes from_.toNat
      let nodes ← incAdjacent nodes to_.toNat
      readArcs arcMatrix rest (nodes, arcs ++ [new])

/-- The key the C function `cmpArc` compares, for an arc between the super
nodes `from_` and `to_` (whose `number` is their index). -/
def cmpArcKey (a : Arc) : Nat × Nat := (a.from_ >>> 10, a.to_ >>> 10)

/-- The C function `cmpArc`. -/
def cmpArc (a b : Arc) : Int :=
  if (cmpArcKey a).1 > (cmpArcKey b).1 then 1
  else if (cmpArcKey b).1 > (cmpArcKey a).1 then -1
  else if (cmpArcKey a).2 > (cmpArcKey b).2 then 1
  else if (cmpArcKey b).2 > (cmpArcKey a).2 then -1
  else 0

/-- Insertion step of the sort below. -/
def insertArc (a : Arc) : List Arc → List Arc
  | [] => [a]
  | b :: rest => if cmpArc a b < 0 then a :: b :: rest else b :: insertArc a rest

/-- The call `qsort(arcListSuper, numArcsSuper, sizeof(Arc), cmpArc)` of the C
library, taken to leave arcs that compare equal in their order. -/
def qsort (arcs : List Arc) : List Arc :=
  arcs.foldl (fun sorted a => insertArc a sorted) []

/-- What `hpf_solve` hands back through its pointer arguments (the measured
times are left out). -/
structure Output where
  numBreakpoints : Nat
  cuts : List ℚ
  breakpoints : List ℚ
  stats : List Nat
  deriving DecidableEq, Repr

/-- The C function `prepareOutput`. -/
def prepareOutput (g : Super) (gl : Globals) : Output :=
  { numBreakpoints := gl.breakpoints.length,
    cuts := gl.nodeBreakpoints.take g.numNodesSuper,
    breakpoints := gl.breakpoints,
    stats := [gl.stats.numArcScans, gl.stats.numMergers, gl.stats.numPushes,
      gl.stats.numRelabels, gl.stats.numGaps] }

/-- The C function `readGraphSuper`, together with the assignments of
`hpf_solve` before it.  `nodeBreakpoints[source]` is indexed by the engine
variable `source`, which `reset_globals` has just set to 0. -/
def readGraphSuper (numNodesIn numArcsIn sourceIn sinkIn : Nat) (arcMatrix : List ℚ)
    (lambdaLow lambdaHigh : ℚ) (roundNegativeCapacityIn : Int) :
    Except Err (Super × List ℚ) := do
  let nodes := (List.range numNodesIn).map
    (fun i => { initializeNode i with originalIndex := i })
  let nodeBreakpoints := List.replicate numNodesIn lambdaHigh
  let source := 0
  let nodeBreakpoints ←
    if source < nodeBreakpoints.length then pure (nodeBreakpoints.set source lambdaLow)
    else .error .fault
  let (nodes, arcs) ← readArcs arcMatrix (List.range numArcsIn) (nodes, [])
  .ok ({ numNodesSuper := numNodesIn, numArcsSuper := numArcsIn, sourceSuper := sourceIn,
         sinkSuper := sinkIn, nodeListSuper := nodes, arcListSuper := arcs,
         roundNegativeCapacity := roundNegativeCapacityIn, LAMBDA_LOW := lambdaLow,
         LAMBDA_HIGH := lambdaHigh,
         useParametricCut := if lambdaLow = lambdaHigh then 0 else 1 }, nodeBreakpoints)

/-- The C function `hpf_solve`.  `reset_globals` gives every variable the
run reads its starting value, so the model starts from those values.  `fuel`
bounds the loops of the engine and `depth` the nesting of `parametricCut`. -/
def hpf_solve (fuel depth : Nat) (numNodesIn numArcsIn sourceIn sinkIn : Nat) (arcMatrix : List ℚ)
    (lambdaLow lambdaHigh : ℚ) (roundNegativeCapacityIn : Int) : Except Err Output := do
  let (g, nodeBreakpoints) ← readGraphSuper numNodesIn numArcsIn sourceIn sinkIn arcMatrix
    lambdaLow lambdaHigh roundNegativeCapacityIn
  let g := { g with arcListSuper := qsort g.arcListSuper }
  let gl : Globals :=
    { stats := Stats.zero,
      nodeBreakpoints := nodeBreakpoints, breakpoints := [], numBreakpoints := 0 }
  let all_sink := List.replicate g.numNodesSuper (0 : Int)
  let all_source := List.replicate g.numNodesSuper (1 : Int)
  let lowProblem ← initializeContractedProblem g g.LAMBDA_LOW all_sink all_source
  if g.useParametricCut = 1 then
    let highProblem ← initializeContractedProblem g g.LAMBDA_HIGH all_sink all_source
    let (lowProblem, statsLow) ← solveProblem fuel g lowProblem 0
    let (highProblem, statsHigh) ← solveProblem fuel g highProblem 0
    let gl ← parametricCut fuel g depth
      { gl with stats := (gl.stats.add statsLow).add statsHigh } lowProblem highProblem
    let highInd ← deref highProblem.optimalSourceSetIndicator
    let gl ← addBreakpoint g gl highProblem.lambdaValue highInd
    .ok (prepareOutput g gl)
  else
    let (lowProblem, statsLow) ← solveProblem fuel g lowProblem 0
    let lowInd ← deref lowProblem.optimalSourceSetIndicator
    let gl ← addBreakpoint g { gl with stats := gl.stats.add statsLow } lowProblem.lambdaValue
      lowInd
    .ok (prepareOutput g gl)

/-! ## Specification vocabulary and scenarios -/

/-- Every result of `x` is a result of `y`. -/
def Le {α : Type} (x y : Except Err α) : Prop := ∀ a, x = .ok a → y = .ok a

/-- Node `i` of a super graph, with its degree, as `readGraphSuper` leaves it. -/
def superNode (i deg : Nat) : Node :=
  { initializeNode i with originalIndex := i, numAdjacent := deg }

/-- Arc of a super graph, as `readGraphSuper` leaves it. -/
def superArc (f t : Nat) (c m : ℚ) : Arc :=
  { initializeArc with from_ := f, to_ := t, constant := c, multiplier := m }

/-- Scenario S2 of the specification after `readGraphSuper` and `qsort`:
nodes 0, 1, 2, source 0, sink 2, arcs (0,1) with capacity `lambda` and (1,2)
with capacity 10, range [0, 20], with the given rounding flag. -/
def S2 (round : Int) : Super :=
  { numNodesSuper := 3, numArcsSuper := 2, sourceSuper := 0, sinkSuper := 2,
    nodeListSuper := [superNode 0 1, superNode 1 2, superNode 2 1],
    arcListSuper := [superArc 0 1 0 1, superArc 1 2 10 0],
    roundNegativeCapacity := round, LAMBDA_LOW := 0, LAMBDA_HIGH := 20,
    useParametricCut := 1 }

/-- Scenario S3 of the specification on the range [0, 10], rounding flag 0:
nodes 0 .. 3, source 0, sink 3, arcs (0,1) with capacity `1 + lambda`, (0,2)
with `2 + lambda / 2`, (1,3) with 5 and (2,3) with 3. -/
def S3 : Super :=
  { numNodesSuper := 4, numArcsSuper := 4, sourceSuper := 0, sinkSuper := 3,
    nodeListSuper := [superNode 0 2, superNode 1 2, superNode 2 2, superNode 3 2],
    arcListSuper := [superArc 0 1 1 1, superArc 0 2 2 (1 / 2), superArc 1 3 5 0,
      superArc 2 3 3 0],
    roundNegativeCapacity := 0, LAMBDA_LOW := 0, LAMBDA_HIGH := 10,
    useParametricCut := 1 }

/-- Scenario S4 / S5 of the specification: nodes 0, 1, 2, source 0, sink 2, one
arc (1,2) with capacity `1 - lambda`, range [0, 5], with the given rounding
flag. -/
def S4 (round : Int) : Super :=
  { numNodesSuper := 3, numArcsSuper := 1, sourceSuper := 0, sinkSuper := 2,
    nodeListSuper := [superNode 0 0, superNode 1 1, superNode 2 1],
    arcListSuper := [superArc 1 2 1 (-1)],
    roundNegativeCapacity := round, LAMBDA_LOW := 0, LAMBDA_HIGH := 5,
    useParametricCut := 1 }

/-- A path whose sink arc loses capacity as `lambda` grows: nodes 0, 1, 2,
source 0, sink 2, arcs (0,1) with capacity `lambda` and (1,2) with capacity
`10 - slope * lambda`, on the range `[0, high]`. -/
def fallingPath (slope high : ℚ) (round : Int) : Super :=
  { numNodesSuper := 3, numArcsSuper := 2, sourceSuper := 0, sinkSuper := 2,
    nodeListSuper := [superNode 0 1, superNode 1 2, superNode 2 1],
    arcListSuper := [superArc 0 1 0 1, superArc 1 2 10 (- slope)],
    roundNegativeCapacity := round, LAMBDA_LOW := 0, LAMBDA_HIGH := high,
    useParametricCut := 1 }

/-- Three parallel paths source - i - sink, i = 1, 2, 3, with source arcs of
capacity `lambda` and sink arcs of capacity 1, 2 and 3, on the range [0, 10]
with rounding flag 1: node `i` joins the source side at `lambda = i`. -/
def threePaths : Super :=
  { numNodesSuper := 5, numArcsSuper := 6, sourceSuper := 0, sinkSuper := 4,
    nodeListSuper := [superNode 0 3, superNode 1 2, superNode 2 2, superNode 3 2,
      superNode 4 3],
    arcListSuper := [superArc 0 1 0 1, superArc 0 2 0 1, superArc 0 3 0 1,
      superArc 1 4 1 0, superArc 2 4 2 0, superArc 3 4 3 0],
    roundNegativeCapacity := 1, LAMBDA_LOW := 0, LAMBDA_HIGH := 10,
    useParametricCut := 1 }

/-- What `readGraphSuper` guarantees about the node array and an arc list:
node `i` carries `originalIndex = i` and `number = i`, and arcs join nodes of
the array. -/
@[reducible] def SuperOK (g : Super) : Prop :=
  (∀ i < g.numNodesSuper,
    (g.nodeListSuper[i]?).map (fun nd => (nd.originalIndex, nd.number)) = some ((i : Int), i))
  ∧ (∀ a ∈ g.arcListSuper, a.from_ < g.numNodesSuper ∧ a.to_ < g.numNodesSuper)

/-- The constraints on the input of `hpf_solve`: node ids in range, distinct
source and sink, multipliers non-negative on arcs out of the source,
non-positive on arcs into the sink and zero elsewhere, `lambda_lo` below
`lambda_hi`, and every capacity non-negative at both ends of the range (hence,
being affine, on the whole range). -/
@[reducible] def ValidInput (g : Super) : Prop :=
  SuperOK g ∧ g.sourceSuper < g.numNodesSuper ∧ g.sinkSuper < g.numNodesSuper
    ∧ g.sourceSuper ≠ g.sinkSuper ∧ g.LAMBDA_LOW < g.LAMBDA_HIGH
    ∧ ∀ a ∈ g.arcListSuper,
        (a.from_ = g.sourceSuper → 0 ≤ a.multiplier)
        ∧ (a.to_ = g.sinkSuper → a.multiplier ≤ 0)
        ∧ (a.from_ ≠ g.sourceSuper → a.to_ ≠ g.sinkSuper → a.multiplier = 0)
        ∧ 0 ≤ a.constant + a.multiplier * g.LAMBDA_LOW
        ∧ 0 ≤ a.constant + a.multiplier * g.LAMBDA_HIGH

/-- The cut function `C_S(lambda)`: the sum of `constant + multiplier * lambda`
over the super arcs `(u, v)` with `u` in `S` and `v` not in `S`, for a set
`S` given by its indicator array. -/
def cutLine (g : Super) (S : List Int) (lam : ℚ) : ℚ :=
  ((g.arcListSuper.take g.numArcsSuper).map (fun a =>
    if S[a.from_]? = some 1 ∧ ¬ S[a.to_]? = some 1 then a.constant + a.multiplier * lam
    else 0)).sum

/-- An array of `n` entries that are all 0 or 1. -/
@[reducible] def IsIndicator (n : Nat) (S : List Int) : Prop :=
  S.length = n ∧ ∀ x ∈ S, x = 0 ∨ x = 1

/-- What one arc adds to the sum of `internalCutCapacity`. -/
def internalTerm (g : Super) (S : List Int) (a : Arc) : ℚ :=
  if S[a.from_]? = some 1 ∧ S[a.to_]? = some 0 ∧ a.from_ ≠ g.sourceSuper then a.constant else 0

/-- What one arc adds to the two accumulators of `computeIntersect`. -/
def intersectTerm (g : Super) (difference : List Int) (a : Arc) : ℚ × ℚ :=
  if a.from_ = g.sourceSuper ∧ difference[a.to_]? = some 1 then (a.constant, a.multiplier)
  else if a.to_ = g.sinkSuper ∧ difference[a.from_]? = some 1 ∧ g.roundNegativeCapacity = 0 then
    (- a.constant, - a.multiplier)
  else (0, 0)

/-- What one arc adds to `cutLine`. -/
def lineTerm (S : List Int) (lam : ℚ) (a : Arc) : ℚ :=
  if S[a.from_]? = some 1 ∧ ¬ S[a.to_]? = some 1 then a.constant + a.multiplier * lam else 0

/-- What the builder keeps of the node map in its first loop: the number of
nodes mapped to 0 and to 1, and a bound on the indices handed out. -/
def NodeMapOK (acc : List Nat × Nat × Nat × Nat) : Prop :=
  acc.1.countP (· = 0) = acc.2.1 ∧ acc.1.countP (· = 1) = acc.2.2.1
    ∧ 2 ≤ acc.2.2.2 ∧ ∀ e ∈ acc.1, e < acc.2.2.2

/-- The arc loop of `initializeContractedProblem` keeps the super arc `a`:
its mapped endpoints `(f, t)` satisfy none of `f = t`, `t = 0`, `f = 1`,
`f = 0 and t = 1`. -/
@[reducible] def keptArc (nodeMap : List Nat) (a : Arc) : Prop :=
  ¬ (nodeMap[a.from_]? = nodeMap[a.to_]? ∨ nodeMap[a.to_]? = some 0
    ∨ nodeMap[a.from_]? = some 1 ∨ (nodeMap[a.from_]? = some 0 ∧ nodeMap[a.to_]? = some 1))

/-- The scratch data of the arc loop is consistent: the arrays have the
length of the node list, `currentArc` is the number of arcs made, and every
recorded arc index is -1 or the index of an arc made. -/
def ScratchOK (nl : Nat) (lam : ℚ) (st : ArcScratch) : Prop :=
  st.problem.nodeList.length = nl ∧ st.sourceAdjacentArcIndices.length = nl
    ∧ st.sinkAdjacentArcIndices.length = nl
    ∧ st.currentArc = st.problem.arcList.length
    ∧ st.problem.lambdaValue = lam
    ∧ (∀ idx ∈ st.sourceAdjacentArcIndices,
        idx = -1 ∨ (0 ≤ idx ∧ idx.toNat < st.problem.arcList.length))
    ∧ (∀ idx ∈ st.sinkAdjacentArcIndices,
        idx = -1 ∨ (0 ≤ idx ∧ idx.toNat < st.problem.arcList.length))

/-! ## The file-level variables across calls -/

/-- The file-level variables that a call of `hpf_solve` finds as the previous
call, or the program start, left them, as far as the model reads them: the
engine variable `source`, the counter `numBreakpoints` that `addBreakpoint`
prints, the engine counters, the breakpoint list, the array `nodeBreakpoints`,
and the variables of the super graph. -/
structure Statics where
  source : Nat
  numBreakpoints : Nat
  stats : Stats
  breakpoints : List ℚ
  nodeBreakpoints : List ℚ
  numNodesSuper : Nat
  numArcsSuper : Nat
  sourceSuper : Nat
  sinkSuper : Nat
  useParametricCut : Nat
  roundNegativeCapacity : Int
  LAMBDA_LOW : ℚ
  LAMBDA_HIGH : ℚ
  deriving DecidableEq, Repr

/-- The C function `reset_globals`: it leaves `numBreakpoints`,
`nodeBreakpoints`, `sourceSuper` and `sinkSuper` as they are. -/
def reset_globals (e : Statics) : Statics :=
  { e with
    numNodesSuper := 0
    numArcsSuper := 0
    source := 0
    stats := Stats.zero
    breakpoints := []
    useParametricCut := 1
    roundNegativeCapacity := 0
    LAMBDA_LOW := 0
    LAMBDA_HIGH := 0 }

/-- The C function `readGraphSuper`, reading the file-level variables it
finds; the array `nodeBreakpoints` is allocated anew and every entry is
written. -/
def readGraphSuperFrom (e : Statics) (arcMatrix : List ℚ) : Except Err (Super × List ℚ) := do
  let nodes := (List.range e.numNodesSuper).map
    (fun i => { initializeNode i with originalIndex := i })
  let nodeBreakpoints := List.replicate e.numNodesSuper e.LAMBDA_HIGH
  let nodeBreakpoints ←
    if e.source < nodeBreakpoints.length then pure (nodeBreakpoints.set e.source e.LAMBDA_LOW)
    else .error .fault
  let (nodes, arcs) ← readArcs arcMatrix (List.range e.numArcsSuper) (nodes, [])
  .ok ({ numNodesSuper := e.numNodesSuper, numArcsSuper := e.numArcsSuper,
         sourceSuper := e.sourceSuper, sinkSuper := e.sinkSuper, nodeListSuper := nodes,
         arcListSuper := arcs, roundNegativeCapacity := e.roundNegativeCapacity,
         LAMBDA_LOW := e.LAMBDA_LOW, LAMBDA_HIGH := e.LAMBDA_HIGH,
         useParametricCut := if e.LAMBDA_LOW = e.LAMBDA_HIGH then 0 else e.useParametricCut },
       nodeBreakpoints)

/-- The C function `hpf_solve`, started from the file-level variables `e`. -/
def hpf_solve_from (e : Statics) (fuel depth : Nat) (numNodesIn numArcsIn sourceIn sinkIn : Nat)
    (arcMatrix : List ℚ) (lambdaLow lambdaHigh : ℚ) (roundNegativeCapacityIn : Int) :
    Except Err Output := do
  let e := reset_globals e
  let e := { e with stats := Stats.zero }
  let e := { e with
    numNodesSuper := numNodesIn
    numArcsSuper := numArcsIn
    sourceSuper := sourceIn
    sinkSuper := sinkIn
    LAMBDA_LOW := lambdaLow
    LAMBDA_HIGH := lambdaHigh }
  let e := { e with
    useParametricCut := if e.LAMBDA_LOW = e.LAMBDA_HIGH then 0 else e.useParametricCut }
  let e := { e with roundNegativeCapacity := roundNegativeCapacityIn }
  let (g, nodeBreakpoints) ← readGraphSuperFrom e arcMatrix
  let g := { g with arcListSuper := qsort g.arcListSuper }
  let gl : Globals :=
    { stats := e.stats,
      nodeBreakpoints := nodeBreakpoints, breakpoints := e.breakpoints,
      numBreakpoints := e.numBreakpoints }
  let all_sink := List.replicate g.numNodesSuper (0 : Int)
  let all_source := List.replicate g.numNodesSuper (1 : Int)
  let lowProblem ← initializeContractedProblem g g.LAMBDA_LOW all_sink all_source
  if g.useParametricCut = 1 then
    let highProblem ← initializeContractedProblem g g.LAMBDA_HIGH all_sink all_source
    let (lowProblem, statsLow) ← solveProblem fuel g lowProblem 0
    let (highProblem, statsHigh) ← solveProblem fuel g highProblem 0
    let gl ← parametricCut fuel g depth
      { gl with stats := (gl.stats.add statsLow).add statsHigh } lowProblem highProblem
    let highInd ← deref highProblem.optimalSourceSetIndicator
    let gl ← addBreakpoint g gl highProblem.lambdaValue highInd
    .ok (prepareOutput g gl)
  else
    let (lowProblem, statsLow) ← solveProblem fuel g lowProblem 0
    let lowInd ← deref lowProblem.optimalSourceSetIndicator
    let gl ← addBreakpoint g { gl with stats := gl.stats.add statsLow } lowProblem.lambdaValue
      lowInd
    .ok (prepareOutput g gl)

/-! ## The upper probe as the specification words it -/

/-- The recursion of `parametricCut` with the upper probe solved as the
specification words it, with the maximal-source flag 1; everything else is as
in `parametricCut`. -/
def parametricCutMaximal (fuel : Nat) (g : Super) : Nat → Globals → CutProblem → CutProblem →
    Except Err Globals
  | 0, _, _, _ => .error .outOfFuel
  | depth + 1, gl, lowProblem, highProblem => do
    let lowInd ← deref lowProblem.optimalSourceSetIndicator
    let highInd ← deref highProblem.optimalSourceSetIndicator
    let pdifference_low_high ← differenceSourceSets g lowInd highInd
    let num_nodes_different_low_high := sum_array_char pdifference_low_high g.numNodesSuper
    if num_nodes_different_low_high > 0 then
      let Klow ← internalCutCapacity g lowInd (g.arcListSuper.take g.numArcsSuper) 0
      let Khigh ← internalCutCapacity g highInd (g.arcListSuper.take g.numArcsSuper) 0
      let K12 := Klow - Khigh
      let lambdaIntersect ← computeIntersect g pdifference_low_high K12
      let minimalIntersect ← initializeContractedProblem g
        (math_max (lambdaIntersect - TOL) g.LAMBDA_LOW) lowInd highInd
      let (minimalIntersect, statsMin) ← solveProblem fuel g minimalIntersect 0
      let minInd ← deref minimalIntersect.optimalSourceSetIndicator
      let maximalIntersect ← initializeContractedProblem g
        (math_min (lambdaIntersect + TOL) g.LAMBDA_HIGH) minInd highInd
      let (maximalIntersect, statsMax) ← solveProblem fuel g maximalIntersect 1
      let maxInd ← deref maximalIntersect.optimalSourceSetIndicator
      let gl := { gl with stats := (gl.stats.add statsMin).add statsMax }
      let pdifference_min_max_intersect ← differenceSourceSets g minInd maxInd
      let num_nodes_different_min_max :=
        sum_array_char pdifference_min_max_intersect g.numNodesSuper
      let gl ← if num_nodes_different_min_max > 0 then
          addBreakpoint g gl lambdaIntersect minInd
        else pure gl
      let gl ← parametricCutMaximal fuel g depth gl lowProblem minimalIntersect
      parametricCutMaximal fuel g depth gl maximalIntersect highProblem
    else
      .ok gl

/-- The parametric branch of `hpf_solve` with `parametricCutMaximal` in the
place of `parametricCut`. -/
def hpf_solveMaximal (fuel depth : Nat) (numNodesIn numArcsIn sourceIn sinkIn : Nat)
    (arcMatrix : List ℚ) (lambdaLow lambdaHigh : ℚ) (roundNegativeCapacityIn : Int) :
    Except Err Output := do
  let (g, nodeBreakpoints) ← readGraphSuper numNodesIn numArcsIn sourceIn sinkIn arcMatrix
    lambdaLow lambdaHigh roundNegativeCapacityIn
  let g := { g with arcListSuper := qsort g.arcListSuper }
  let gl : Globals :=
    { stats := Stats.zero,
      nodeBreakpoints := nodeBreakpoints, breakpoints := [], numBreakpoints := 0 }
  let all_sink := List.replicate g.numNodesSuper (0 : Int)
  let all_source := List.replicate g.numNodesSuper (1 : Int)
  let lowProblem ← initializeContractedProblem g g.LAMBDA_LOW all_sink all_source
  let highProblem ← initializeContractedProblem g g.LAMBDA_HIGH all_sink all_source
  let (lowProblem, statsLow) ← solveProblem fuel g lowProblem 0
  let (highProblem, statsHigh) ← solveProblem fuel g highProblem 0
  let gl ← parametricCutMaximal fuel g depth
    { gl with stats := (gl.stats.add statsLow).add statsHigh } lowProblem highProblem
  let highInd ← deref highProblem.optimalSourceSetIndicator
  let gl ← addBreakpoint g gl highProblem.lambdaValue highInd
  .ok (prepareOutput g gl)

/-! ## More scenarios -/

/-- Scenario S1 of the specification after `readGraphSuper` and `qsort`:
nodes 0 and 1, source 0, sink 1, one arc (0,1) with capacity 5, range
[0, 10]. -/
def S1 (round : Int) : Super :=
  { numNodesSuper := 2, numArcsSuper := 1, sourceSuper := 0, sinkSuper := 1,
    nodeListSuper := [superNode 0 1, superNode 1 1],
    arcListSuper := [superArc 0 1 5 0],
    roundNegativeCapacity := round, LAMBDA_LOW := 0, LAMBDA_HIGH := 10,
    useParametricCut := 1 }

/-- Two paths source - 1 - sink and source - 2 - sink with source arcs of
capacity `lambda` and sink arcs of capacity 5 and `5 + 2 * TOL`, on the range
[0, 10] with the rounding flag set: at `lambda = 5 + 2 * TOL` node 2 has
excess 0, so the minimal and the maximal source set differ there. -/
def tiedPaths : Super :=
  { numNodesSuper := 4, numArcsSuper := 4, sourceSuper := 0, sinkSuper := 3,
    nodeListSuper := [superNode 0 2, superNode 1 2, superNode 2 2, superNode 3 2],
    arcListSuper := [superArc 0 1 0 1, superArc 1 3 5 0, superArc 0 2 0 1,
      superArc 2 3 (5 + 2 * TOL) 0],
    roundNegativeCapacity := 1, LAMBDA_LOW := 0, LAMBDA_HIGH := 10,
    useParametricCut := 1 }

/-- The row-major arc table of `tiedPaths`. -/
def tiedPathsTable : List ℚ :=
  [0, 1, 0, 1, 1, 3, 5, 0, 0, 2, 0, 1, 2, 3, 5 + 2 * TOL, 0]

/-- Scenario S1 with the two nodes exchanged: source 1, sink 0, one arc (1,0)
with capacity 5, range [0, 10]. -/
def S1swapped (round : Int) : Super :=
  { numNodesSuper := 2, numArcsSuper := 1, sourceSuper := 1, sinkSuper := 0,
    nodeListSuper := [superNode 0 1, superNode 1 1],
    arcListSuper := [superArc 1 0 5 0],
    roundNegativeCapacity := round, LAMBDA_LOW := 0, LAMBDA_HIGH := 10,
    useParametricCut := 1 }

/-- Scenario S2 with the source at node 1: nodes 0, 1, 2, source 1, sink 2,
arcs (1,0) with capacity `lambda` and (0,2) with capacity 10, range [0, 20],
rounding flag set. -/
def S2shifted : Super :=
  { numNodesSuper := 3, numArcsSuper := 2, sourceSuper := 1, sinkSuper := 2,
    nodeListSuper := [superNode 0 2, superNode 1 1, superNode 2 1],
    arcListSuper := [superArc 1 0 0 1, superArc 0 2 10 0],
    roundNegativeCapacity := 1, LAMBDA_LOW := 0, LAMBDA_HIGH := 20,
    useParametricCut := 1 }

/-- A node that leaves the sink side right above `lambda_lo`: nodes 0, 1, 2,
source 0, sink 2, one arc (0,1) with capacity `lambda - 1`, range [1, 2],
rounding flag set. -/
def risingArc : Super :=
  { numNodesSuper := 3, numArcsSuper := 1, sourceSuper := 0, sinkSuper := 2,
    nodeListSuper := [superNode 0 1, superNode 1 1, superNode 2 0],
    arcListSuper := [superArc 0 1 (-1) 1],
    roundNegativeCapacity := 1, LAMBDA_LOW := 1, LAMBDA_HIGH := 2,
    useParametricCut := 1 }

/-- A value that `parametricCut` may append: `computeIntersect` returned it
for the difference of two indicator arrays. -/
def IsIntersection (g : Super) (b : ℚ) : Prop :=
  ∃ (lowInd highInd difference : List Int) (Klow Khigh : ℚ),
    differenceSourceSets g lowInd highInd = .ok difference
    ∧ 0 < sum_array_char difference g.numNodesSuper
    ∧ internalCutCapacity g lowInd (g.arcListSuper.take g.numArcsSuper) 0 = .ok Klow
    ∧ internalCutCapacity g highInd (g.arcListSuper.take g.numArcsSuper) 0 = .ok Khigh
    ∧ computeIntersect g difference (Klow - Khigh) = .ok b

/-- The collected result without the printed counter `numBreakpoints`. -/
def Globals.erase (a : Globals) : Globals := { a with numBreakpoints := 0 }

/-- No entry of `a` is above the entry of `b` at the same index. -/
def EntriesLe (a b : List ℚ) : Prop :=
  a.length = b.length ∧ ∀ (i : Nat) (x y : ℚ), b[i]? = some x → a[i]? = some y → y ≤ x

/-- The arc table of an input with `numNodesIn` nodes: `numArcsIn` rows of four
entries whose first two, cut to integers, are node ids. -/
def ArcTable (numNodesIn numArcsIn : Nat) (arcMatrix : List ℚ) : Prop :=
  ∀ i < numArcsIn, ∃ c0 c1 c2 c3 : ℚ,
    arcMatrix[i * 4 + 0]? = some c0 ∧ arcMatrix[i * 4 + 1]? = some c1
    ∧ arcMatrix[i * 4 + 2]? = some c2 ∧ arcMatrix[i * 4 + 3]? = some c3
    ∧ 0 ≤ toInt c0 ∧ (toInt c0).toNat < numNodesIn
    ∧ 0 ≤ toInt c1 ∧ (toInt c1).toNat < numNodesIn

/-- The contracted problem of an input with the two nodes `sourceIn` and
`sinkIn` only, at `lambda`: the two artificial nodes, no arc, and one node in
each roster. -/
def twoNodeProblem (sourceIn sinkIn : Nat) (lambda : ℚ) : CutProblem :=
  { numNodesInList := 2, numSourceSet := 1, numSinkSet := 1, numArcs := 0, solved := 0,
    lambdaValue := lambda, arcList := [],
    nodeList := [{ initializeNode 0 with originalIndex := -1 },
      { initializeNode 1 with originalIndex := -2 }],
    cutValue := 0,
    sourceSet := [{ initializeNode 0 with originalIndex := sourceIn }],
    sinkSet := [{ initializeNode 0 with originalIndex := sinkIn }],
    optimalSourceSetIndicator := none }

/-- A solved problem as far as `parametricCut` reads it: the source set
`ind` that the run has left in `optimalSourceSetIndicator`. -/
def solvedWith (ind : List Int) : CutProblem :=
  { twoNodeProblem 0 0 0 with optimalSourceSetIndicator := some ind, solved := 1 }

/-- The collected result when `hpf_solve` calls `parametricCut`: no
breakpoint yet, and the entries `nb` written by `readGraphSuper`. -/
def startGlobals (nb : List ℚ) : Globals :=
  { stats := Stats.zero, nodeBreakpoints := nb, breakpoints := [], numBreakpoints := 0 }

/-! ## The node map of the builder, as the specification words it -/

/-- Super node `i` is collapsed into the artificial source: it is the super
source or `known_source[i] = 1`. -/
def toSource (g : Super) (low : List Int) (i : Nat) : Bool :=
  decide (i = g.sourceSuper) || decide (low[i]? = some 1)

/-- Super node `i` is collapsed into the artificial sink: it is not collapsed
into the source, and it is the super sink or `known_sink[i] = 0`. -/
def toSink (g : Super) (low high : List Int) (i : Nat) : Bool :=
  !toSource g low i && (decide (i = g.sinkSuper) || decide (high[i]? = some 0))

/-- Super node `i` stays a node of the contracted problem. -/
def isInterior (g : Super) (low high : List Int) (i : Nat) : Bool :=
  !toSource g low i && !toSink g low high i

/-- The number of interior nodes among the super nodes `0 .. k - 1`. -/
def interiorBefore (g : Super) (low high : List Int) (k : Nat) : Nat :=
  ((List.range k).filter (isInterior g low high)).length

/-- The index of super node `i` in the contracted problem: 0, 1, or 2 plus
the number of earlier interior nodes. -/
def mapOf (g : Super) (low high : List Int) (i : Nat) : Nat :=
  if toSource g low i then 0
  else if toSink g low high i then 1
  else 2 + interiorBefore g low high i

/-- What the first loop of the builder has after the super nodes
`0 .. j - 1`: the node map so far, the two roster sizes and the next free
index. -/
def NodeMapUpTo (g : Super) (low high : List Int) (j : Nat)
    (acc : List Nat × Nat × Nat × Nat) : Prop :=
  acc.1.length = j ∧ (∀ x < j, acc.1[x]? = some (mapOf g low high x))
    ∧ acc.2.1 = ((List.range j).filter (toSource g low)).length
    ∧ acc.2.2.1 = ((List.range j).filter (toSink g low high)).length
    ∧ acc.2.2.2 = 2 + interiorBefore g low high j

/-- A node as `initializeNode` leaves it, apart from `originalIndex`. -/
def FreshNode (m : Nat) (nd : Node) : Prop :=
  nd = { initializeNode m with originalIndex := nd.originalIndex }

/-- What the second loop of the builder has after the super nodes
`0 .. j - 1`: the two artificial nodes keep -1 and -2, interior node `x` is
recorded at index `mapOf x`, and the rosters list the collapsed nodes in
increasing order. -/
def RostersUpTo (g : Super) (low high : List Int) (j : Nat)
    (acc : List Node × List Node × List Node × Nat × Nat) : Prop :=
  acc.2.2.2.1 = ((List.range j).filter (toSource g low)).length
    ∧ acc.2.2.2.2 = ((List.range j).filter (toSink g low high)).length
    ∧ (acc.1[0]?).map (fun nd => nd.originalIndex) = some (-1)
    ∧ (acc.1[1]?).map (fun nd => nd.originalIndex) = some (-2)
    ∧ (∀ x < j, isInterior g low high x = true →
        (acc.1[mapOf g low high x]?).map (fun nd => nd.originalIndex) = some (x : Int))
    ∧ (acc.2.1.take acc.2.2.2.1).map (fun nd => nd.originalIndex)
        = ((List.range j).filter (toSource g low)).map (fun x : Nat => (x : Int))
    ∧ (acc.2.2.1.take acc.2.2.2.2).map (fun nd => nd.originalIndex)
        = ((List.range j).filter (toSink g low high)).map (fun x : Nat => (x : Int))
    ∧ (∀ m nd, acc.1[m]? = some nd → FreshNode m nd)

/-! ## The arcs of the builder, as the specification words them -/

/-- The capacity of a super arc at `lambda` with a negative value counted as
0: `max(0, constant + multiplier * lambda)`. -/
def clampedCapacity (a : Arc) (lam : ℚ) : ℚ := max 0 (a.constant + a.multiplier * lam)

/-- The super arc `a` has the mapped endpoints `(f, t)`. -/
def mappedTo (g : Super) (low high : List Int) (f t : Nat) (a : Arc) : Bool :=
  decide (mapOf g low high a.from_ = f) && decide (mapOf g low high a.to_ = t)

/-- The mapped endpoints `(f, t)` of an arc that the builder drops. -/
def droppedPair (f t : Nat) : Bool :=
  decide (f = t) || decide (t = 0) || decide (f = 1) || (decide (f = 0) && decide (t = 1))

/-- The builder keeps the super arc `a`. -/
def keptBy (g : Super) (low high : List Int) (a : Arc) : Bool :=
  !droppedPair (mapOf g low high a.from_) (mapOf g low high a.to_)

/-- The contracted arcs from `f` to `t`. -/
def arcsBetween (arcs : List Arc) (f t : Nat) : List Arc :=
  arcs.filter (fun b => decide (b.from_ = f) && decide (b.to_ = t))

/-- The sum of the capacities of the contracted arcs from `f` to `t`. -/
def capacityBetween (arcs : List Arc) (f t : Nat) : ℚ :=
  ((arcsBetween arcs f t).map (fun b => b.capacity)).sum

/-- The super arcs of `as` that the builder keeps and maps to `(f, t)`. -/
def superArcsTo (g : Super) (low high : List Int) (as : List Arc) (f t : Nat) : List Arc :=
  as.filter (fun a => keptBy g low high a && mappedTo g low high f t a)

/-- The arc that `copyArcNew` makes. -/
def newArc (f t : Nat) (c : ℚ) : Arc :=
  { initializeArc with capacity := c, from_ := f, to_ := t }

/-- The shape of a contracted arc: it joins two different nodes of the
problem, does not enter the artificial source, does not leave the artificial
sink, and carries no flow yet. -/
def ArcShape (nl : Nat) (b : Arc) : Prop :=
  b.from_ < nl ∧ b.to_ < nl ∧ b.from_ ≠ b.to_ ∧ b.to_ ≠ 0 ∧ b.from_ ≠ 1
    ∧ ¬ (b.from_ = 0 ∧ b.to_ = 1) ∧ b = newArc b.from_ b.to_ b.capacity

/-- The number of arcs of `arcs` that touch node `m`, each end counted. -/
def degreeIn (arcs : List Arc) (m : Nat) : Nat :=
  (arcs.filter (fun b => decide (b.from_ = m))).length
    + (arcs.filter (fun b => decide (b.to_ = m))).length

/-- A recorded arc index of the builder for the pair `(f, t)`: -1 when the
list has no arc from `f` to `t`, and otherwise the index of the only one. -/
def IndexFor (arcs : List Arc) (f t : Nat) (idx : Int) : Prop :=
  (idx = -1 ∧ arcsBetween arcs f t = [])
  ∨ (0 ≤ idx ∧ ∃ b, arcs[idx.toNat]? = some b ∧ b.from_ = f ∧ b.to_ = t
      ∧ arcsBetween arcs f t = [b])

/-- A node with `numAdjacent` put to 0, to compare the other fields. -/
def Node.eraseAdjacent (nd : Node) : Node := { nd with numAdjacent := 0 }

/-- The node array after `incAdjacent` at `i`. -/
def bumpAdjacent (nodes : List Node) (i : Nat) : List Node :=
  match nodes[i]? with
  | some nd => nodes.set i { nd with numAdjacent := incU nd.numAdjacent }
  | none => nodes

/-- The scratch data after `copyArcNew` has made the arc `(f, t)` of capacity
`c` at `arcList[currentArc]`. -/
def ArcScratch.appended (st : ArcScratch) (f t : Nat) (c : ℚ) : ArcScratch :=
  { st with
    problem := { st.problem with
      arcList := st.problem.arcList ++ [newArc f t c],
      nodeList := bumpAdjacent (bumpAdjacent st.problem.nodeList f) t },
    currentArc := st.currentArc + 1 }

/-- The scratch data after `sourceAdjacentArcIndices[v] = currentArc`. -/
def ArcScratch.recordSource (st : ArcScratch) (v : Nat) : ArcScratch :=
  { st with sourceAdjacentArcIndices := st.sourceAdjacentArcIndices.set v st.currentArc }

/-- The scratch data after `sinkAdjacentArcIndices[v] = currentArc`. -/
def ArcScratch.recordSink (st : ArcScratch) (v : Nat) : ArcScratch :=
  { st with sinkAdjacentArcIndices := st.sinkAdjacentArcIndices.set v st.currentArc }

/-- The scratch data after `copyArcAdd` has added `c` to `arcList[k]`. -/
def ArcScratch.added (st : ArcScratch) (k : Nat) (c : ℚ) : ArcScratch :=
  match st.problem.arcList[k]? with
  | some b =>
    { st with problem := { st.problem with
        arcList := st.problem.arcList.set k { b with capacity := b.capacity + c } } }
  | none => st

/-- The fields of a problem that the arc loop of the builder leaves alone. -/
def CutProblem.frame (p : CutProblem) : CutProblem :=
  { p with arcList := [], numArcs := 0, nodeList := p.nodeList.map Node.eraseAdjacent }

/-- The scratch data at the start of the arc loop for a problem with `nl`
nodes at `lam`, with empty rosters. -/
def blankScratch (nl : Nat) (lam : ℚ) : ArcScratch :=
  { problem :=
      { numNodesInList := nl, numSourceSet := 0, numSinkSet := 0, numArcs := 0, solved := 0,
        lambdaValue := lam, arcList := [], nodeList := (List.range nl).map initializeNode,
        cutValue := 0, sourceSet := [], sinkSet := [], optimalSourceSetIndicator := none },
    sourceAdjacentArcIndices := List.replicate nl (-1),
    sinkAdjacentArcIndices := List.replicate nl (-1),
    currentArc := 0 }

/-- What the arc loop of the builder has after the super arcs `done`. -/
def ArcsUpTo (g : Super) (low high : List Int) (lam : ℚ) (nl : Nat) (done : List Arc)
    (st : ArcScratch) : Prop :=
  ScratchOK nl lam st
    ∧ (∀ b ∈ st.problem.arcList, ArcShape nl b)
    ∧ (∀ v idx, 2 ≤ v → st.sourceAdjacentArcIndices[v]? = some idx →
        IndexFor st.problem.arcList 0 v idx)
    ∧ (∀ v idx, 2 ≤ v → st.sinkAdjacentArcIndices[v]? = some idx →
        IndexFor st.problem.arcList v 1 idx)
    ∧ (∀ f t, capacityBetween st.problem.arcList f t
        = ((superArcsTo g low high done f t).map (fun a => clampedCapacity a lam)).sum)
    ∧ (∀ f t, 2 ≤ f → 2 ≤ t → (arcsBetween st.problem.arcList f t).map (fun b => b.capacity)
        = (superArcsTo g low high done f t).map (fun a => clampedCapacity a lam))
    ∧ (∀ m nd, st.problem.nodeList[m]? = some nd →
        nd.numAdjacent = degreeIn st.problem.arcList m % U32)

/-- What `initializeContractedProblem` returns for the known source set `low`
and the known sink set `high` at `lam`: the node counts, the recorded original
indices and rosters, and the contracted arcs with their merged capacities. -/
def Built (g : Super) (low high : List Int) (lam : ℚ) (p : CutProblem) : Prop :=
  p.numNodesInList = 2 + interiorBefore g low high g.numNodesSuper
    ∧ RostersUpTo g low high g.numNodesSuper
        (p.nodeList.map Node.eraseAdjacent, p.sourceSet, p.sinkSet, p.numSourceSet,
          p.numSinkSet)
    ∧ p.nodeList.length = p.numNodesInList ∧ p.sourceSet.length = p.numSourceSet
    ∧ p.sinkSet.length = p.numSinkSet
    ∧ p.numArcs = p.arcList.length
    ∧ (∀ b ∈ p.arcList, ArcShape p.numNodesInList b)
    ∧ (∀ v, (arcsBetween p.arcList 0 v).length ≤ 1 ∧ (arcsBetween p.arcList v 1).length ≤ 1)
    ∧ (∀ f t, capacityBetween p.arcList f t
        = ((superArcsTo g low high (g.arcListSuper.take g.numArcsSuper) f t).map
            (fun a => clampedCapacity a lam)).sum)
    ∧ (∀ f t, 2 ≤ f → 2 ≤ t → (arcsBetween p.arcList f t).map (fun b => b.capacity)
        = (superArcsTo g low high (g.arcListSuper.take g.numArcsSuper) f t).map
            (fun a => clampedCapacity a lam))
    ∧ (∀ m nd, p.nodeList[m]? = some nd → nd.numAdjacent = degreeIn p.arcList m % U32)
    ∧ p.lambdaValue = lam ∧ p.solved = 0 ∧ p.cutValue = 0
    ∧ p.optimalSourceSetIndicator = none

/-- The indicator that `solveProblem` writes for an interior node with label
`label`: with flag 0 it is 1 iff `label ≥ numNodes`, with flag 1 it is 1 iff
`label < numNodes`. -/
def labelBit (flag numNodes label : Nat) : Int :=
  if flag = 1 then (if label ≥ numNodes then 0 else 1)
  else (if label ≥ numNodes then 1 else 0)

/-- The source set that `solveProblem`, called with `flag`, finds on the
problem built at `lam` from the known source set and the known sink set. -/
def sourceSetOf (g : Super) (lam : ℚ) (knownSource knownSink : List Int) (fuel flag : Nat) :
    Except Err (Option (List Int)) :=
  initializeContractedProblem g lam knownSource knownSink >>= fun p =>
    (solveProblem fuel g p flag).map (fun r => r.1.optimalSourceSetIndicator)

/-- The set `S_low` is inside `S_high`, both given by indicator arrays over
`n` nodes. -/
def NestedIn (n : Nat) (low high : List Int) : Prop :=
  ∀ x < n, low[x]? = some 1 → high[x]? = some 1

/-- The number of nodes in `S_high` that are not in `S_low`. -/
def gainCount (n : Nat) (low high : List Int) : Nat :=
  ((List.range n).filter
    (fun x => decide (high[x]? = some 1) && decide (low[x]? = some 0))).length

/-! ## What an engine run leaves alone -/

/-- The data of the engine state that no engine function writes: the number
of nodes, the source and the sink, the `originalIndex` and `number` of every
node, and the end points and the capacity of every arc. -/
def State.keys (s : State) : Nat × Nat × Nat × List (Int × Nat) × List (Nat × Nat × ℚ) :=
  (s.numNodes, s.source, s.sink, s.nodesList.map (fun nd => (nd.originalIndex, nd.number)),
    s.arcList.map (fun a => (a.from_, a.to_, a.capacity)))

/-- Every state that `x` returns has the keys `k`. -/
structure Keeps {α : Type} (proj : α → State)
    (k : Nat × Nat × Nat × List (Int × Nat) × List (Nat × Nat × ℚ)) (x : Except Err α) :
    Prop where
  out : ∀ r, x = .ok r → (proj r).keys = k

/-! ## The cut value, as the specification words it -/

/-- The indicator of the contracted node `m`: the entry of `ind` at the
original index of the node. -/
def nodeIndicator (nl : List Node) (ind : List Int) (m : Nat) : Option Int :=
  match nl[m]? with
  | some nd => if 0 ≤ nd.originalIndex then ind[nd.originalIndex.toNat]? else none
  | none => none

/-- The contracted arc `b` crosses the cut: its tail is the artificial source
or has indicator 1, and its head is the artificial sink or has indicator 0. -/
def crossesCut (nl : List Node) (ind : List Int) (b : Arc) : Bool :=
  (decide (b.from_ = 0) || decide (nodeIndicator nl ind b.from_ = some 1))
    && (decide (b.to_ = 1) || decide (nodeIndicator nl ind b.to_ = some 0))

/-- The sum of the capacities of the arcs of `arcs` that cross the cut. -/
def cutCapacity (nl : List Node) (ind : List Int) (arcs : List Arc) : ℚ :=
  ((arcs.filter (crossesCut nl ind)).map (fun b : Arc => b.capacity)).sum

/-- The end points of the arc `a` are nodes of `nl`, the artificial source
with original index -1, the artificial sink with -2, and any other with an
original index inside `ind`. -/
def CutReadable (nl : List Node) (ind : List Int) (a : Arc) : Prop :=
  ∃ f t, nl[a.from_]? = some f ∧ nl[a.to_]? = some t
    ∧ (a.from_ = 0 ∧ f.originalIndex = -1
        ∨ a.from_ ≠ 0 ∧ 0 ≤ f.originalIndex ∧ f.originalIndex.toNat < ind.length)
    ∧ (a.to_ = 1 ∧ t.originalIndex = -2
        ∨ a.to_ ≠ 1 ∧ 0 ≤ t.originalIndex ∧ t.originalIndex.toNat < ind.length)

/-! ## The start of an engine run, as the specification words it -/

/-- The engine state that `solveProblem` sets up for a problem when the
maximal-source flag is not 1: source 0, sink 1, the nodes and the arcs of the
problem. -/
def startState (p : CutProblem) : State :=
  { numNodes := p.numNodesInList, source := 0, sink := 1, highestStrongLabel := 1,
    nodesList := p.nodeList, arcList := p.arcList, strongRoots := [],
    labelCount := [], numArcScans := 0, numPushes := 0, numMergers := 0,
    numRelabels := 0, numGaps := 0 }

/-- The arc goes into the out-of-tree array of node `m`: of the sink when its
head is the sink, of its tail otherwise. -/
def arcGoesTo (m : Nat) : Option Arc → Bool
  | some a => if a.to_ = 1 then decide (m = 1) else decide (a.from_ = m)
  | none => false

/-- The indices below `k` of the arcs that go into the out-of-tree array of
node `m`. -/
def outArcs (arcs : List Arc) (m k : Nat) : List Nat :=
  (List.range k).filter (fun i => arcGoesTo m arcs[i]?)

/-- The nodes and arcs of a problem as the builder leaves them: at least two
nodes, fewer than 2^32 arcs, every arc of the contracted shape with no flow,
and every node as `initializeNode` made it but for the original index and the
number of adjacent arcs. -/
def FreshInput (nl : List Node) (arcs : List Arc) : Prop :=
  2 ≤ nl.length ∧ arcs.length < U32 ∧ (∀ a ∈ arcs, ArcShape nl.length a)
    ∧ ∀ (m : Nat) (nd : Node), nl[m]? = some nd →
        nd = { initializeNode m with
                originalIndex := nd.originalIndex, numAdjacent := degreeIn arcs m % U32 }

/-- The state after the arcs `0 .. k - 1` went through the arc loop of
`createMemoryStructures`, started in `s0`. -/
def PlacedUpTo (s0 : State) (k : Nat) (s : State) : Prop :=
  s.arcList = s0.arcList ∧ s.numNodes = s0.numNodes ∧ s.source = s0.source
    ∧ s.sink = s0.sink ∧ s.strongRoots = s0.strongRoots ∧ s.labelCount = s0.labelCount
    ∧ s.nodesList.length = s0.nodesList.length
    ∧ ∀ (m : Nat) (nd0 : Node), s0.nodesList[m]? = some nd0 →
        s.nodesList[m]? = some { nd0 with outOfTree := outArcs s0.arcList m k }

/-- The two saturation loops of `simpleInitialization` in one: the arc gets
its capacity as flow and the node `sel a` gets `sg` times the capacity added
to its excess. -/
def saturateWith (sel : Arc → Nat) (sg : ℚ) (s : State) (tempArc : Nat) : Except Err State := do
  let s ← s.modArc tempArc (fun a => { a with flow := a.capacity })
  let a ← s.arc tempArc
  s.modNode (sel a) (fun x => { x with excess := x.excess + sg * a.capacity })

/-- The capacity of the arc with index `i` when its end `sel` is `m`, and 0
otherwise. -/
def capacityAt (sel : Arc → Nat) (arcs : List Arc) (m i : Nat) : ℚ :=
  match arcs[i]? with
  | some a => if sel a = m then a.capacity else 0
  | none => 0

/-- The capacities of the arcs with index in `L` whose end `sel` is `m`,
summed. -/
def capacityInto (sel : Arc → Nat) (arcs : List Arc) (L : List Nat) (m : Nat) : ℚ :=
  (L.map (capacityAt sel arcs m)).sum

/-- The state `s1` is `s` after the saturation loop over the arcs `L`: the
arcs of `L` have their capacity as flow, every node has the capacities of the
arcs of `L` that end in it (at the end `sel`) added `sg` times to its excess,
and the rest is as it was. -/
def SaturatedBy (sel : Arc → Nat) (sg : ℚ) (s : State) (L : List Nat) (s1 : State) : Prop :=
  s1.numNodes = s.numNodes ∧ s1.source = s.source ∧ s1.sink = s.sink
    ∧ s1.strongRoots = s.strongRoots ∧ s1.labelCount = s.labelCount
    ∧ s1.arcList.length = s.arcList.length
    ∧ (∀ (j : Nat) (a : Arc), s.arcList[j]? = some a →
        s1.arcList[j]? = some (if j ∈ L then { a with flow := a.capacity } else a))
    ∧ s1.nodesList.length = s.nodesList.length
    ∧ ∀ (m : Nat) (nd : Node), s.nodesList[m]? = some nd →
        s1.nodesList[m]? = some { nd with
          excess := nd.excess + sg * capacityInto sel s.arcList L m }

/-- The nodes reached from `start` through `next`, at most `fuel` of them:
the members of a bucket of strong roots. -/
def bucketChain (nl : List Node) : Nat → Option Nat → List Nat
  | 0, _ => []
  | _ + 1, none => []
  | fuel + 1, some i => i :: bucketChain nl fuel ((nl[i]?).bind (fun nd => nd.next))

/-- Node `i` has positive excess. -/
def isStrong (nl : List Node) (i : Nat) : Bool :=
  match nl[i]? with
  | some nd => decide (0 < nd.excess)
  | none => false

/-- The nodes below `k` with positive excess. -/
def strongBelow (nl : List Node) (k : Nat) : List Nat :=
  (List.range k).filter (isStrong nl)

/-- The excess that the saturation loops give the interior node `v`: the
capacities of the arcs from the source into `v` less the capacities of the
arcs from `v` into the sink. -/
def excessOf (arcs : List Arc) (v : Nat) : ℚ :=
  capacityBetween arcs 0 v - capacityBetween arcs v 1

/-- The interior nodes below `n` whose excess after the saturation loops is
positive. -/
def strongNodes (arcs : List Arc) (n : Nat) : List Nat :=
  (List.range n).filter (fun v => decide (2 ≤ v) && decide (0 < excessOf arcs v))

/-- The node is there and has label 1. -/
def hasLabelOne : Option Node → Bool
  | some nd => decide (nd.label = 1)
  | none => false

/-- The element that follows `m` in `P`. -/
def nextIn : List Nat → Nat → Option Nat
  | [], _ => none
  | [_], _ => none
  | a :: b :: rest, m => if a = m then some b else nextIn (b :: rest) m

/-- A node after the labelling loop of `simpleInitialization` put the nodes
`P` into the bucket of label 1, in that order. -/
def strongMark (P : List Nat) (m : Nat) (nd : Node) : Node :=
  { nd with label := if m ∈ P then 1 else nd.label,
            next := if m ∈ P then nextIn P m else nd.next }

/-- The state `s1` is `s` after the labelling loop of `simpleInitialization`
went through the nodes `0 .. k - 1`. -/
def LabelledUpTo (s : State) (k : Nat) (s1 : State) : Prop :=
  s1.numNodes = s.numNodes ∧ s1.source = s.source ∧ s1.sink = s.sink
    ∧ s1.arcList = s.arcList
    ∧ s1.strongRoots = s.strongRoots.set 1
        { start := (strongBelow s.nodesList k).head?,
          end_ := (strongBelow s.nodesList k).getLast? }
    ∧ s1.labelCount = s.labelCount.set 1 ((strongBelow s.nodesList k).length % U32)
    ∧ s1.nodesList.length = s.nodesList.length
    ∧ ∀ (m : Nat) (nd : Node), s.nodesList[m]? = some nd →
        s1.nodesList[m]? = some (strongMark (strongBelow s.nodesList k) m nd)

/-! ## Sorting of an out-of-tree array -/

/-- The C constant `MAX_LEVELS`. -/
def MAX_LEVELS : Nat := 300

/-- The entry `arr[x]` of an array of arc pointers, for an `int` index `x`. -/
def arcAt (arr : List Nat) (x : Int) : Except Err Nat :=
  if x < 0 then .error .fault else deref arr[x.toNat]?

/-- The value `arr[x]->flow`. -/
def flowAt (arcs : List Arc) (arr : List Nat) (x : Int) : Except Err ℚ := do
  let a ← arcAt arr x
  let rec_ ← deref arcs[a]?
  pure rec_.flow

/-- The assignment `arr[x] = a`. -/
def putAt (arr : List Nat) (x : Int) (a : Nat) : Except Err (List Nat) :=
  if x < 0 ∨ arr.length ≤ x.toNat then .error .fault else .ok (arr.set x.toNat a)

/-- An entry of one of the `int` arrays `beg` and `end` of `quickSort`. -/
def frameAt (st : List Int) (i : Int) : Except Err Int :=
  if i < 0 then .error .fault else deref st[i.toNat]?

/-- An assignment to an entry of `beg` or `end`. -/
def framePut (st : List Int) (i : Int) (v : Int) : Except Err (List Int) :=
  if i < 0 ∨ st.length ≤ i.toNat then .error .fault else .ok (st.set i.toNat v)

/-- The inner loop `for (j=L; j<i; ++j)` of the bubble sort of `quickSort`,
with `k` iterations left; the flag tells whether `swap` has been set. -/
def bubblePass (arcs : List Arc) : Nat → List Nat → Int → Bool → Except Err (List Nat × Bool)
  | 0, arr, _, swapped => .ok (arr, swapped)
  | k + 1, arr, j, swapped => do
    let x ← flowAt arcs arr j
    let y ← flowAt arcs arr (j + 1)
    if isExcess (x - y) < 0 then
      let a ← arcAt arr j
      let b ← arcAt arr (j + 1)
      let arr ← putAt arr j b
      let arr ← putAt arr (j + 1) a
      bubblePass arcs k arr (j + 1) true
    else
      bubblePass arcs k arr (j + 1) swapped

/-- The outer loop `for (i=R; i>L; --i)` of the bubble sort of `quickSort`,
with `k` iterations left: it returns at the first pass that swaps nothing. -/
def bubbleLoop (arcs : List Arc) (L : Int) : Nat → List Nat → Int → Except Err (List Nat)
  | 0, arr, _ => .ok arr
  | k + 1, arr, i => do
    let (arr, swapped) ← bubblePass arcs (i - L).toNat arr L false
    if swapped then bubbleLoop arcs L k arr (i - 1) else .ok arr

/-- The loop `while ((isExcess(arr[R]->flow - swap->flow)>=0) && (L<R)) R--;`. -/
def scanDown (arcs : List Arc) (arr : List Nat) (pivot : ℚ) (L : Int) :
    Nat → Int → Except Err Int
  | 0, _ => .error .outOfFuel
  | fuel + 1, R => do
    let x ← flowAt arcs arr R
    if isExcess (x - pivot) ≥ 0 ∧ L < R then scanDown arcs arr pivot L fuel (R - 1)
    else .ok R

/-- The loop `while ((isExcess(arr[L]->flow - swap->flow) <= 0) && (L<R)) L++;`. -/
def scanUp (arcs : List Arc) (arr : List Nat) (pivot : ℚ) (R : Int) :
    Nat → Int → Except Err Int
  | 0, _ => .error .outOfFuel
  | fuel + 1, L => do
    let x ← flowAt arcs arr L
    if isExcess (x - pivot) ≤ 0 ∧ L < R then scanUp arcs arr pivot R fuel (L + 1)
    else .ok L

/-- The loop `while (L<R)` of `quickSort` that moves the entries around the
pivot `swap`; it returns the array and the final `L`. -/
def partitionLoop (arcs : List Arc) (pivot : ℚ) :
    Nat → List Nat → Int → Int → Except Err (List Nat × Int)
  | 0, _, _, _ => .error .outOfFuel
  | fuel + 1, arr, L, R =>
    if L < R then do
      let R ← scanDown arcs arr pivot L ((R - L).toNat + 1) R
      let (arr, L) ← (if L < R then do
          let a ← arcAt arr R
          let arr ← putAt arr L a
          pure (arr, L + 1)
        else pure (arr, L))
      let L ← scanUp arcs arr pivot R ((R - L).toNat + 1) L
      let (arr, R) ← (if L < R then do
          let a ← arcAt arr L
          let arr ← putAt arr R a
          pure (arr, R - 1)
        else pure (arr, R))
      partitionLoop arcs pivot fuel arr L R
    else .ok (arr, L)

/-- The loop `while (i>=0)` of `quickSort` over the frames `beg[i]`, `end[i]`. -/
def frameLoop (arcs : List Arc) :
    Nat → List Nat → List Int → List Int → Int → Except Err (List Nat)
  | 0, _, _, _, _ => .error .outOfFuel
  | fuel + 1, arr, beg, end_, i =>
    if 0 ≤ i then do
      let L ← frameAt beg i
      let e ← frameAt end_ i
      let R := e - 1
      if L < R then do
        let swap ← arcAt arr L
        let pivot ← flowAt arcs arr L
        let (arr, L) ← partitionLoop arcs pivot ((R - L).toNat + 1) arr L R
        let arr ← putAt arr L swap
        let beg ← framePut beg (i + 1) (L + 1)
        let e ← frameAt end_ i
        let end_ ← framePut end_ (i + 1) e
        let end_ ← framePut end_ i L
        let i := i + 1
        let ei ← frameAt end_ i
        let bi ← frameAt beg i
        let ej ← frameAt end_ (i - 1)
        let bj ← frameAt beg (i - 1)
        if ei - bi > ej - bj then do
          let beg ← framePut beg i bj
          let beg ← framePut beg (i - 1) bi
          let end_ ← framePut end_ i ej
          let end_ ← framePut end_ (i - 1) ei
          frameLoop arcs fuel arr beg end_ i
        else
          frameLoop arcs fuel arr beg end_ i
      else
        frameLoop arcs fuel arr beg end_ (i - 1)
    else .ok arr

/-- The C function `quickSort` on the array `arr` of arc pointers: `int`
variables are integers, the arrays `beg` and `end` have `MAX_LEVELS` entries,
and `fuel` bounds the number of frames handled. -/
def quickSort (fuel : Nat) (arcs : List Arc) (arr : List Nat) (first last : Nat) :
    Except Err (List Nat) :=
  let L : Int := first
  let R : Int := last
  if R - L ≤ 5 then bubbleLoop arcs L (R - L).toNat arr R
  else do
    let beg ← framePut (List.replicate MAX_LEVELS 0) 0 first
    let end_ ← framePut (List.replicate MAX_LEVELS 0) 0 (last + 1)
    frameLoop arcs fuel arr beg end_ 0

/-- The C function `sort`. -/
def sort (fuel : Nat) (s : State) (current : Nat) : Except Err State := do
  let cur ← deref s.nodesList[current]?
  if cur.numOutOfTree > 1 then do
    let arr ← quickSort fuel s.arcList cur.outOfTree 0 (cur.numOutOfTree - 1)
    pure { s with nodesList := s.nodesList.set current { cur with outOfTree := arr } }
  else pure s

/-- An array of arcs with the given flows, arc `i` carrying `fs[i]`. -/
def arcsWithFlows (fs : List ℚ) : List Arc :=
  fs.map (fun f => { initializeArc with flow := f, capacity := f })

/-- The flows of the arcs an array of arc pointers refers to. -/
def flowsOf (arcs : List Arc) (arr : List Nat) : List ℚ :=
  arr.map (fun a => match arcs[a]? with | some x => x.flow | none => 0)

/-- A path on the range [0, 8]: nodes 0 .. 2, source 0, sink 2, arc (0,1) with
capacity `2 * lambda` and arc (1,2) with capacity 6, so that the minimum cut
changes at `lambda = 3`. -/
def steepArc (round : Int) : Super :=
  { numNodesSuper := 3, numArcsSuper := 2, sourceSuper := 0, sinkSuper := 2,
    nodeListSuper := [superNode 0 1, superNode 1 2, superNode 2 1],
    arcListSuper := [superArc 0 1 0 2, superArc 1 2 6 0],
    roundNegativeCapacity := round, LAMBDA_LOW := 0, LAMBDA_HIGH := 8,
    useParametricCut := 1 }

/-! ## Vocabulary for the tree operations -/

/-- The end point `findWeakNode` returns for the arc `out`, if any: the node
`out->to` when its label is `highestStrongLabel - 1`, else `out->from` when
its label is. -/
def weakEnd (s : State) (out : Nat) : Option Nat :=
  match s.arcList[out]? with
  | none => none
  | some a =>
    if (s.nodesList[a.to_]?).map Node.label = some (subU s.highestStrongLabel 1) then some a.to_
    else if (s.nodesList[a.from_]?).map Node.label = some (subU s.highestStrongLabel 1) then
      some a.from_
    else none

/-- The pointer `out` is an arc of the arc array whose end points are nodes of
the node array. -/
def arcReadable (s : State) (out : Nat) : Bool :=
  match s.arcList[out]? with
  | none => false
  | some a => decide (a.to_ < s.nodesList.length ∧ a.from_ < s.nodesList.length)

/-- The list `L` is the chain of nodes that starts at `start` and follows the
`next` pointers up to a null pointer: a child list, or a bucket of roots. -/
def isChain (nl : List Node) : Option Nat → List Nat → Bool
  | none, [] => true
  | some a, b :: rest =>
    match nl[a]? with
    | some nd => decide (a = b) && isChain nl nd.next rest
    | none => false
  | _, _ => false

/-- The bucket `rb` holds the roots `B`, in this order: its chain is `B` and,
unless it is empty, its `end` is the last root. -/
def isBucket (nl : List Node) (rb : Root) (B : List Nat) : Bool :=
  isChain nl rb.start B && (B.isEmpty || decide (rb.end_ = B.getLast?))

/-- The record of node `m` after `breakRelationship (oldParent, child)`, where
`L` is the child list of `oldParent` and `cnext` the old `child->next`. -/
def detached (oldParent child : Nat) (L : List Nat) (cnext : Option Nat) (m : Nat)
    (nd : Node) : Node :=
  { nd with
    parent := if m = child then none else nd.parent
    childList := if m = oldParent then (L.erase child).head? else nd.childList
    next := if m = child then none
      else if m ∈ L ∧ nd.next = some child then cnext else nd.next }

/-- The record of node `m` after `addRelationship (newParent, child)`, where
`first` is the old `newParent->childList`. -/
def attached (newParent child : Nat) (first : Option Nat) (m : Nat) (nd : Node) : Node :=
  { nd with
    parent := if m = child then some newParent else nd.parent
    next := if m = child then first else nd.next
    childList := if m = newParent then some child else nd.childList }

/-- The record of node `m` after `addToStrongBucket (newRoot, bucket)`, where
the bucket held the roots `B`. -/
def enqueued (newRoot : Nat) (B : List Nat) (m : Nat) (nd : Node) : Node :=
  { nd with
    next := if m = newRoot then none
      else if B.getLast? = some m then some newRoot else nd.next }

/-- The variables of the engine state other than the node array, the arc array
and the buckets: `numNodes`, `source`, `sink`, `highestStrongLabel`, `labelCount` and
the five counters. -/
def State.rest (s : State) :
    Nat × Nat × Nat × Nat × List Nat × Nat × Nat × Nat × Nat × Nat :=
  (s.numNodes, s.source, s.sink, s.highestStrongLabel, s.labelCount, s.numArcScans,
    s.numPushes, s.numMergers, s.numRelabels, s.numGaps)

/-- The record of node `m` after a saturating push of `amount` from `child` to
`parent` along `arc`, before the tree link is broken. -/
def moved (arc child parent : Nat) (amount : ℚ) (m : Nat) (nd : Node) : Node :=
  { nd with
    excess := if m = child then nd.excess - amount
      else if m = parent then nd.excess + amount else nd.excess
    outOfTree := if m = parent then nd.outOfTree ++ [arc] else nd.outOfTree }

/-- The record of node `m` after a push from `child` to `parent` along `arc`
that does not fit: excess `amount` has moved, the arc is in the out-of-tree
array of the parent, the child has left the child list `L` of the parent and
stands at the end of the bucket that held the roots `B`. -/
def pushedNode (arc child parent : Nat) (amount : ℚ) (cnext : Option Nat) (L B : List Nat)
    (m : Nat) (nd : Node) : Node :=
  enqueued child B m (detached parent child L cnext m (moved arc child parent amount m nd))

/-- The record of node `m` after a push of the whole excess `amount` of
`child` to `parent`. -/
def passedOn (child parent : Nat) (amount : ℚ) (m : Nat) (nd : Node) : Node :=
  { nd with
    excess := if m = child then 0 else if m = parent then nd.excess + amount else nd.excess }

/-- The residual that `pushExcess` hands to a push along the arc `a`:
`capacity - flow` to `pushUpward` when the direction bit is set, `flow` to
`pushDownward` otherwise. -/
def residualOf (a : Arc) : ℚ := if a.direction ≠ 0 then a.capacity - a.flow else a.flow

/-- What a push that does not fit needs of the tree and of the bucket: `L` is
the child list of the parent, without repetition, it holds the child and not
the parent, the walk to the child has fuel, the out-of-tree array of the parent
has room, and `B` is the bucket of the label of the child, without repetition
and apart from `L`. -/
def Detachable (s : State) (child parent : Nat) (c p : Node) (L B : List Nat) (rb : Root)
    (fuel : Nat) : Prop :=
  isChain s.nodesList p.childList L = true ∧ L.Nodup ∧ child ∈ L ∧ parent ∉ L
  ∧ L.length ≤ fuel ∧ p.outOfTree.length < p.numAdjacent
  ∧ s.strongRoots[c.label]? = some rb ∧ isBucket s.nodesList rb B = true ∧ B.Nodup
  ∧ ∀ m ∈ B, m ∉ L

/-- What the claim on the pushes says of the state `s1` after a push from
`child` (record `c`) to `parent` (record `p`) along `arc` (record `a`), where
`L` was the child list of the parent and `B` the bucket of the label of the
child. -/
def PushOutcome (s : State) (arc child parent : Nat) (a : Arc) (c p : Node)
    (L B : List Nat) (s1 : State) : Prop :=
  ∃ c1 p1 a1, s1.nodesList[child]? = some c1 ∧ s1.nodesList[parent]? = some p1
    ∧ s1.arcList[arc]? = some a1
    ∧ c1.excess + p1.excess = c.excess + p.excess
    ∧ c1.excess = c.excess - min c.excess (residualOf a)
    ∧ p1.excess = p.excess + min c.excess (residualOf a)
    ∧ a1.flow = (if a.direction ≠ 0 then a.flow + min c.excess (residualOf a)
        else a.flow - min c.excess (residualOf a))
    ∧ 0 ≤ a1.flow ∧ a1.flow ≤ a1.capacity
    ∧ (∀ i : Nat, i ≠ arc → s1.arcList[i]? = s.arcList[i]?)
    ∧ s1.rest = ({ s with numPushes := incU s.numPushes } : State).rest
    ∧ (c.excess ≤ residualOf a →
        c1.excess = 0 ∧ a1 = { a with flow := a1.flow } ∧ s1.strongRoots = s.strongRoots
        ∧ s1.nodesList = s.nodesList.mapIdx (passedOn child parent c.excess))
    ∧ (residualOf a < c.excess →
        a1 = { a with flow := if a.direction ≠ 0 then a.capacity else 0,
                      direction := 1 - a.direction }
        ∧ 0 < c1.excess ∧ c1.parent = none ∧ p1.outOfTree = p.outOfTree ++ [arc]
        ∧ isChain s1.nodesList p1.childList (L.erase child) = true
        ∧ (∃ rb1, s1.strongRoots[c.label]? = some rb1
            ∧ isBucket s1.nodesList rb1 (B ++ [child]) = true)
        ∧ (∀ k : Nat, k ≠ c.label → s1.strongRoots[k]? = s.strongRoots[k]?)
        ∧ s1.nodesList
          = s.nodesList.mapIdx (pushedNode arc child parent (residualOf a) c.next L B))

/-! ## Forests -/

/-- The list is a parent path: every node but the last has the next node as
its `parent`, and the last node, a root, has none. -/
def isPath (nl : List Node) : List Nat → Bool
  | [] => false
  | [x] =>
    match nl[x]? with
    | some nd => decide (nd.parent = none)
    | none => false
  | x :: y :: rest =>
    (match nl[x]? with
      | some nd => decide (nd.parent = some y)
      | none => false) && isPath nl (y :: rest)

/-- Every child list holds exactly the nodes whose parent the node is:
`kids n` is the chain that starts at `childList` of node `n`, it has no
repetition, and a node is on it exactly when its `parent` is `n`. -/
def WellKept (nl : List Node) (kids : Nat → List Nat) : Prop :=
  ∀ n, n < nl.length →
    isChain nl ((nl[n]?).bind (fun nd => nd.childList)) (kids n) = true ∧ (kids n).Nodup
    ∧ ∀ m, m < nl.length → (m ∈ kids n ↔ (nl[m]?).bind (fun nd => nd.parent) = some n)

/-- The parent pointers have no cycle: `paths m` is a parent path from node
`m` up to a root. -/
def Forest (nl : List Node) (paths : Nat → List Nat) : Prop :=
  ∀ m, m < nl.length → (paths m).head? = some m ∧ isPath nl (paths m) = true

/-- The pointers `arcToParent` of the nodes of a list, if none is null. -/
def arcsUp (nl : List Node) : List Nat → Option (List Nat)
  | [] => some []
  | m :: rest =>
    match (nl[m]?).bind (fun nd => nd.arcToParent), arcsUp nl rest with
    | some a, some A => some (a :: A)
    | _, _ => none

/-- The fields of a node record that the tree operations `merge`,
`breakRelationship` and `addRelationship` do not write. -/
def Node.payload (nd : Node) : Node :=
  { nd with parent := none, childList := none, next := none, arcToParent := none }

/-- The node array `nl1` is `nl` with a new `parent` and a new `arcToParent`
for the nodes listed in `lk`, whatever the child lists: entry `(m, q, a)` gives
node `m` the parent `q` and the parent arc `a`. -/
def Relinked (nl nl1 : List Node) (lk : List (Nat × Nat × Nat)) : Prop :=
  nl1.length = nl.length
  ∧ ∀ (m : Nat) (nd : Node), nl[m]? = some nd →
      ∃ nd1, nl1[m]? = some nd1 ∧ nd1.payload = nd.payload
        ∧ nd1.parent = (match lk.lookup m with
            | some qa => some qa.1
            | none => nd.parent)
        ∧ nd1.arcToParent = (match lk.lookup m with
            | some qa => some qa.2
            | none => nd.arcToParent)

/-- The new links that the loop of `merge` gives the nodes of the path `R` but
the last, when it starts with the new parent `q` and the new arc `a`; `A` holds
the old parent arcs. -/
def loopLinks : Nat → Nat → List Nat → List Nat → List (Nat × Nat × Nat)
  | q, a, c :: c2 :: R, a0 :: A => (c, q, a) :: loopLinks c a0 (c2 :: R) A
  | _, _, _, _ => []

/-- The new parent and the new arc that the loop of `merge` leaves for the
last node of the path. -/
def lastLink : Nat → Nat → List Nat → List Nat → Nat × Nat
  | _, _, c :: c2 :: R, a0 :: A => lastLink c a0 (c2 :: R) A
  | q, a, _, _ => (q, a)

/-- The arc array with the direction bit of the arcs listed in `A` replaced by
`1 - direction`. -/
def flipArcs (A : List Nat) (arcs : List Arc) : List Arc :=
  arcs.mapIdx (fun j a => if j ∈ A then { a with direction := subU 1 a.direction } else a)

/-- What the claim on `merge` says of the state `s1` after `merge (w, x, e)`,
where `P` is the parent path of `x` and `A` holds the old `arcToParent` of the
nodes of `P` but the last. -/
def MergeOutcome (s : State) (w e : Nat) (P A : List Nat) (s1 : State) : Prop :=
  s1.nodesList.length = s.nodesList.length
  ∧ (∀ (i : Nat) (m : Nat), P[i]? = some m →
      ∃ nd1, s1.nodesList[m]? = some nd1 ∧ nd1.parent = (w :: P)[i]?
        ∧ nd1.arcToParent = (e :: A)[i]?)
  ∧ (∀ (m : Nat) (nd : Node), m ∉ P → s.nodesList[m]? = some nd →
      ∃ nd1, s1.nodesList[m]? = some nd1 ∧ nd1.parent = nd.parent
        ∧ nd1.arcToParent = nd.arcToParent)
  ∧ (∀ (m : Nat) (nd : Node), s.nodesList[m]? = some nd →
      ∃ nd1, s1.nodesList[m]? = some nd1 ∧ nd1.payload = nd.payload)
  ∧ s1.arcList.length = s.arcList.length
  ∧ (∀ (j : Nat) (a : Arc), s.arcList[j]? = some a →
      s1.arcList[j]? = some (if j ∈ A then { a with direction := subU 1 a.direction } else a))
  ∧ s1.strongRoots = s.strongRoots
  ∧ s1.rest = ({ s with numMergers := incU s.numMergers } : State).rest
  ∧ (∃ kids1, WellKept s1.nodesList kids1)
  ∧ (∃ paths1, Forest s1.nodesList paths1)

/-- What the claim on `findWeakNode` says of a call on the node `n`, whose
record is `nd`: either some arc at an index `i ≥ nextArc` has a weak end
point, and for the least such `i` the call returns that arc and that end
point, sets `nextArc = i`, replaces entry `i` by the last entry and drops the
last entry, and `numArcScans` grows by the `i + 1 - nextArc` arcs inspected;
or no arc from `nextArc` on has one, and the call returns null, sets
`nextArc = numOutOfTree`, leaves the array alone, and `numArcScans` grows by
the `numOutOfTree - nextArc` arcs inspected. -/
def WeakLookup (s : State) (n : Nat) (nd : Node) : Prop :=
  (∃ i out w, nd.nextArc ≤ i ∧ nd.outOfTree[i]? = some out ∧ weakEnd s out = some w
    ∧ (∀ (j o : Nat), nd.nextArc ≤ j → j < i → nd.outOfTree[j]? = some o → weakEnd s o = none)
    ∧ findWeakNode s n
      = .ok ({ s with numArcScans := s.numArcScans + (i + 1 - nd.nextArc),
                      nodesList := s.nodesList.set n
                        { nd with nextArc := i, outOfTree := swapRemove nd.outOfTree i } },
          some (out, w))
    ∧ (swapRemove nd.outOfTree i).length + 1 = nd.outOfTree.length
    ∧ ∀ j : Nat, j + 1 < nd.outOfTree.length →
        (swapRemove nd.outOfTree i)[j]?
          = if j = i then nd.outOfTree[nd.outOfTree.length - 1]? else nd.outOfTree[j]?)
  ∨ ((∀ (j o : Nat), nd.nextArc ≤ j → nd.outOfTree[j]? = some o → weakEnd s o = none)
    ∧ findWeakNode s n
      = .ok ({ s with numArcScans := s.numArcScans + (nd.outOfTree.length - nd.nextArc),
                      nodesList := s.nodesList.set n
                        { nd with nextArc := nd.outOfTree.length } }, none))

/-- A node record with the given tree links, label and excess. -/
def treeNode (parent childList next arcToParent : Option Nat) (out : List Nat)
    (label : Nat) (excess : ℚ) : Node :=
  { parent := parent, childList := childList, nextScan := childList, outOfTree := out,
    arcToParent := arcToParent, next := next, excess := excess, numAdjacent := 3, number := 0,
    originalIndex := 0, label := label, nextArc := 0 }

/-- An arc record with the given end points, capacity, flow and direction. -/
def treeArc (from_ to_ : Nat) (capacity flow : ℚ) (direction : Nat) : Arc :=
  { from_ := from_, to_ := to_, flow := flow, capacity := capacity, constant := capacity,
    multiplier := 0, direction := direction }

/-- An engine state on six nodes (0 the source, 1 the sink) with two trees: the
path 4, 3, 2 up to the root 2, held by the arcs 0 (from 3 to 2, upward) and 1
(from 3 to 4, downward), and the strong root 5 alone, whose out-of-tree arcs
are 3 (to the sink), 2 (to node 4) and 4 (to node 2).  Node 3 carries excess
5, node 4 excess 2. -/
def grove : State :=
  { numNodes := 6, source := 0, sink := 1, highestStrongLabel := 2,
    nodesList := [treeNode none none none none [] 6 0,
      treeNode none none none none [] 0 0,
      treeNode none (some 3) none none [] 1 (-4),
      treeNode (some 2) (some 4) none (some 0) [] 1 5,
      treeNode (some 3) none none (some 1) [] 1 2,
      treeNode none none none none [3, 2, 4] 2 5],
    arcList := [treeArc 3 2 5 2 1, treeArc 3 4 4 3 0, treeArc 5 4 7 0 1, treeArc 5 1 1 1 1,
      treeArc 5 2 2 0 1],
    strongRoots := List.replicate 6 initializeRoot,
    labelCount := [0, 3, 1, 0, 0, 0], numArcScans := 10, numPushes := 0, numMergers := 0,
    numRelabels := 0, numGaps := 0 }

/-! ## Subtrees -/

/-- The nodes reached from `u` through the child lists within `d` levels, in
the order in which `liftAll` visits them. -/
def subtree (kids : Nat → List Nat) : Nat → Nat → List Nat
  | 0, u => [u]
  | d + 1, u => u :: (kids u).flatMap (subtree kids d)

/-- No node `d` levels below `u` has a child: the tree below `u` has height at
most `d`. -/
def heightOk (kids : Nat → List Nat) : Nat → Nat → Bool
  | 0, u => (kids u).isEmpty
  | d + 1, u => (kids u).all (heightOk kids d)

/-- The record of node `m` after the nodes `T` have been lifted to the label
`n`. -/
def lifted (T : List Nat) (n : Nat) (m : Nat) (nd : Node) : Node :=
  if m ∈ T then { nd with label := n, nextScan := none } else nd

/-- The labels of the nodes `T`. -/
def labelsOf (nl : List Node) (T : List Nat) : List Nat :=
  T.map (fun m => ((nl[m]?).map (fun nd => nd.label)).getD 0)

/-- The array `labelCount` after one `-- labelCount[l]` for every label `l` of
the list. -/
def dropCounts (ls : List Nat) (lc : List Nat) : List Nat :=
  ls.foldl (fun acc l => acc.set l (decU ((acc[l]?).getD 0))) lc

/-- The state with another node array and another array `labelCount`. -/
def State.relabel (s : State) (nl : List Node) (lc : List Nat) : State :=
  { s with nodesList := nl, labelCount := lc }

/-- The record of node `m` after `liftAll` has stepped from `u` down to its
child `c`: the scan of `u` moves on to `cnext`, the old `c->next`, and `c`
starts its scan and is lifted to the label `n`. -/
def entered (u c : Nat) (cnext : Option Nat) (n : Nat) (m : Nat) (nd : Node) : Node :=
  if m = c then { nd with nextScan := nd.childList, label := n }
  else if m = u then { nd with nextScan := cnext } else nd

/-- The record of node `m` when the scan of `u` is over and the nodes `T`
below it have been lifted to the label `n`. -/
def scanned (u : Nat) (T : List Nat) (n : Nat) (m : Nat) (nd : Node) : Node :=
  if m = u then { nd with nextScan := none } else lifted T n m nd

/-- The child lists of the state `grove`. -/
def groveKids (n : Nat) : List Nat := if n = 2 then [3] else if n = 3 then [4] else []

/-- The parent paths of the state `grove`. -/
def grovePaths (n : Nat) : List Nat :=
  if n = 3 then [3, 2] else if n = 4 then [4, 3, 2] else [n]

/-- A crossing right above `lambda_lo`: nodes 0, 1, 2, source 0, sink 2, arcs
(0,1) with capacity `1 + lambda` and (1,2) with capacity `- lambda / 20000000`,
range `[-1 + 1/50000000, 0]`, rounding flag set.  Both capacities are
non-negative on the range; the cut functions of `{0}` and `{0, 1}` cross at
`-20000000/20000001`, inside the range. -/
def lowCrossing : Super :=
  { numNodesSuper := 3, numArcsSuper := 2, sourceSuper := 0, sinkSuper := 2,
    nodeListSuper := [superNode 0 1, superNode 1 2, superNode 2 1],
    arcListSuper := [superArc 0 1 1 1, superArc 1 2 0 (-1 / 20000000)],
    roundNegativeCapacity := 1, LAMBDA_LOW := -49999999 / 50000000, LAMBDA_HIGH := 0,
    useParametricCut := 1 }

/-! ## More fuel never changes a result -/

theorem bind_eq_ok {ε α β : Type} {x : Except ε α} {f : α → Except ε β} {b : β} :
    (x >>= f) = .ok b ↔ ∃ a, x = .ok a ∧ f a = .ok b := by
  cases x <;> simp [bind, Except.bind]

theorem Le.refl {α : Type} (x : Except Err α) : Le x x := fun _ h => h

theorem Le.bind {α β : Type} {x y : Except Err α} {f g : α → Except Err β}
    (hxy : Le x y) (hfg : ∀ a, Le (f a) (g a)) : Le (x >>= f) (y >>= g) := by
  intro b h
  obtain ⟨a, ha, hb⟩ := bind_eq_ok.mp h
  exact bind_eq_ok.mpr ⟨a, hxy a ha, hfg a b hb⟩

theorem Le.ite {α : Type} {c : Prop} [Decidable c] {x y x1 y1 : Except Err α}
    (h1 : Le x y) (h2 : Le x1 y1) : Le (if c then x else x1) (if c then y else y1) := by
  split <;> assumption

theorem Le.error {α : Type} (e : Err) (y : Except Err α) : Le (.error e) y := by
  intro a h; cases h

theorem findPrevSibling_mono (s : State) (child : Nat) {n m : Nat} (hnm : n ≤ m) :
    ∀ current, Le (findPrevSibling s child n current) (findPrevSibling s child m current) := by
  induction n generalizing m with
  | zero => intro c; exact Le.error _ _
  | succ n ih =>
    obtain ⟨m, rfl⟩ : ∃ k, m = k + 1 := ⟨m - 1, by omega⟩
    intro current
    simp only [findPrevSibling]
    refine Le.bind (Le.refl _) (fun c => Le.ite (Le.refl _) (Le.bind (Le.refl _) (fun nx => ?_)))
    exact ih (by omega) nx

theorem breakRelationship_mono {n m : Nat} (hnm : n ≤ m) (s : State) (p c : Nat) :
    Le (breakRelationship n s p c) (breakRelationship m s p c) := by
  simp only [breakRelationship]
  repeat' first
    | with_reducible exact Le.refl _
    | exact findPrevSibling_mono _ _ hnm _
    | apply Le.bind
    | apply Le.ite
    | intro _

theorem mergeLoop_mono {n m : Nat} (hnm : n ≤ m) :
    ∀ s current newParent newArc,
      Le (mergeLoop s n current newParent newArc) (mergeLoop s m current newParent newArc) := by
  induction n generalizing m with
  | zero => intros; exact Le.error _ _
  | succ n ih =>
    obtain ⟨m, rfl⟩ : ∃ k, m = k + 1 := ⟨m - 1, by omega⟩
    intro s current newParent newArc
    simp only [mergeLoop]
    apply Le.bind (Le.refl _); intro cur
    split
    · with_reducible exact Le.refl _
    · repeat' first
        | with_reducible exact Le.refl _
        | exact breakRelationship_mono hnm _ _ _
        | exact ih (by omega) _ _ _ _
        | apply Le.bind
        | apply Le.ite
        | intro _

theorem merge_mono {n m : Nat} (hnm : n ≤ m) (s : State) (parent child newArc : Nat) :
    Le (merge n s parent child newArc) (merge m s parent child newArc) := by
  simp only [merge]
  repeat' first
    | with_reducible exact Le.refl _
    | exact mergeLoop_mono hnm _ _ _ _
    | apply Le.bind
    | intro _

theorem pushUpward_mono {n m : Nat} (hnm : n ≤ m) (s : State) (a c p : Nat) (r : ℚ) :
    Le (pushUpward n s a c p r) (pushUpward m s a c p r) := by
  simp only [pushUpward]
  repeat' first
    | with_reducible exact Le.refl _
    | exact breakRelationship_mono hnm _ _ _
    | apply Le.bind
    | apply Le.ite
    | intro _

theorem pushDownward_mono {n m : Nat} (hnm : n ≤ m) (s : State) (a c p : Nat) (r : ℚ) :
    Le (pushDownward n s a c p r) (pushDownward m s a c p r) := by
  simp only [pushDownward]
  repeat' first
    | with_reducible exact Le.refl _
    | exact breakRelationship_mono hnm _ _ _
    | apply Le.bind
    | apply Le.ite
    | intro _

theorem pushExcessLoop_mono {b1 b2 : Nat} (hb : b1 ≤ b2) {n m : Nat} (hnm : n ≤ m) :
    ∀ s current prevEx,
      Le (pushExcessLoop b1 s n current prevEx) (pushExcessLoop b2 s m current prevEx) := by
  induction n generalizing m with
  | zero => intros; exact Le.error _ _
  | succ n ih =>
    obtain ⟨m, rfl⟩ : ∃ k, m = k + 1 := ⟨m - 1, by omega⟩
    intro s current prevEx
    simp only [pushExcessLoop]
    apply Le.bind (Le.refl _); intro cur
    apply Le.ite (Le.refl _)
    split
    · with_reducible exact Le.refl _
    · repeat' first
        | with_reducible exact Le.refl _
        | exact pushUpward_mono hb _ _ _ _ _
        | exact pushDownward_mono hb _ _ _ _ _
        | exact ih (by omega) _ _ _
        | apply Le.bind
        | apply Le.ite
        | intro _

theorem pushExcess_mono {n m : Nat} (hnm : n ≤ m) (s : State) (r : Nat) :
    Le (pushExcess n s r) (pushExcess m s r) := by
  simp only [pushExcess]
  repeat' first
    | with_reducible exact Le.refl _
    | exact pushExcessLoop_mono hnm hnm _ _ _
    | apply Le.bind
    | apply Le.ite
    | intro _

theorem checkChildrenLoop_mono (curNode : Nat) {n m : Nat} (hnm : n ≤ m) :
    ∀ s, Le (checkChildrenLoop curNode n s) (checkChildrenLoop curNode m s) := by
  induction n generalizing m with
  | zero => intros; exact Le.error _ _
  | succ n ih =>
    obtain ⟨m, rfl⟩ : ∃ k, m = k + 1 := ⟨m - 1, by omega⟩
    intro s
    simp only [checkChildrenLoop]
    apply Le.bind (Le.refl _); intro cur
    split
    · with_reducible exact Le.refl _
    · repeat' first
        | with_reducible exact Le.refl _
        | exact ih (by omega) _
        | apply Le.bind
        | apply Le.ite
        | intro _

theorem checkChildren_mono {n m : Nat} (hnm : n ≤ m) (s : State) (c : Nat) :
    Le (checkChildren n s c) (checkChildren m s c) := by
  simp only [checkChildren]
  repeat' first
    | with_reducible exact Le.refl _
    | exact checkChildrenLoop_mono _ hnm _
    | apply Le.bind
    | intro _

theorem liftAllLoop_mono {n m : Nat} (hnm : n ≤ m) :
    ∀ s current, Le (liftAllLoop n s current) (liftAllLoop m s current) := by
  induction n generalizing m with
  | zero => intros; exact Le.error _ _
  | succ n ih =>
    obtain ⟨m, rfl⟩ : ∃ k, m = k + 1 := ⟨m - 1, by omega⟩
    intro s current
    cases current with
    | none => simp only [liftAllLoop]; exact Le.refl _
    | some current =>
      simp only [liftAllLoop]
      apply Le.bind (Le.refl _); intro cur
      split
      · repeat' first
          | with_reducible exact Le.refl _
          | exact ih (by omega) _ _
          | apply Le.bind
          | intro _
      · exact ih (by omega) _ _

theorem liftAll_mono {n m : Nat} (hnm : n ≤ m) (s : State) (r : Nat) :
    Le (liftAll n s r) (liftAll m s r) := by
  simp only [liftAll]
  repeat' first
    | with_reducible exact Le.refl _
    | exact liftAllLoop_mono hnm _ _
    | apply Le.bind
    | intro _

theorem gapLoop_mono {l1 l2 : Nat} (hl : l1 ≤ l2) (i : Nat) {n m : Nat} (hnm : n ≤ m) :
    ∀ s, Le (gapLoop l1 i n s) (gapLoop l2 i m s) := by
  induction n generalizing m with
  | zero => intros; exact Le.error _ _
  | succ n ih =>
    obtain ⟨m, rfl⟩ : ∃ k, m = k + 1 := ⟨m - 1, by omega⟩
    intro s
    simp only [gapLoop]
    apply Le.bind (Le.refl _); intro rb
    split
    · with_reducible exact Le.refl _
    · repeat' first
        | with_reducible exact Le.refl _
        | exact liftAll_mono hl _ _
        | exact ih (by omega) _
        | apply Le.bind
        | intro _

theorem scanBuckets_mono {n m : Nat} (hnm : n ≤ m) :
    ∀ j s, Le (scanBuckets n j s) (scanBuckets m j s) := by
  intro j
  induction j with
  | zero => intro s; simp only [scanBuckets]; exact Le.refl _
  | succ j ih =>
    intro s
    simp only [scanBuckets]
    apply Le.bind (Le.refl _); intro rb
    split
    · exact ih _
    · repeat' first
        | with_reducible exact Le.refl _
        | exact gapLoop_mono hnm _ hnm _
        | exact ih _
        | apply Le.bind
        | apply Le.ite
        | intro _

theorem liftZeroLoop_mono {n m : Nat} (hnm : n ≤ m) :
    ∀ s, Le (liftZeroLoop n s) (liftZeroLoop m s) := by
  induction n generalizing m with
  | zero => intros; exact Le.error _ _
  | succ n ih =>
    obtain ⟨m, rfl⟩ : ∃ k, m = k + 1 := ⟨m - 1, by omega⟩
    intro s
    simp only [liftZeroLoop]
    apply Le.bind (Le.refl _); intro rb
    split
    · with_reducible exact Le.refl _
    · repeat' first
        | with_reducible exact Le.refl _
        | exact ih (by omega) _
        | apply Le.bind
        | intro _

theorem getHighestStrongRoot_mono {n m : Nat} (hnm : n ≤ m) (s : State) :
    Le (getHighestStrongRoot n s) (getHighestStrongRoot m s) := by
  simp only [getHighestStrongRoot]
  apply Le.bind (scanBuckets_mono hnm _ _); intro x
  split
  · with_reducible exact Le.refl _
  · apply Le.bind (Le.refl _); intro rb
    split
    · with_reducible exact Le.refl _
    · repeat' first
        | with_reducible exact Le.refl _
        | exact liftZeroLoop_mono hnm _
        | apply Le.bind
        | intro _

theorem processRootLoop_mono {b1 b2 : Nat} (hb : b1 ≤ b2) (strongRoot : Nat) {n m : Nat}
    (hnm : n ≤ m) :
    ∀ s strongNode, Le (processRootLoop b1 strongRoot n s strongNode)
      (processRootLoop b2 strongRoot m s strongNode) := by
  induction n generalizing m with
  | zero => intros; exact Le.error _ _
  | succ n ih =>
    obtain ⟨m, rfl⟩ : ∃ k, m = k + 1 := ⟨m - 1, by omega⟩
    intro s strongNode
    simp only [processRootLoop]
    apply Le.bind (Le.refl _); intro nd
    split
    · apply Le.bind (Le.refl _); intro t
      apply Le.bind (Le.refl _); intro s1
      apply Le.bind (Le.refl _); intro s2
      apply Le.bind (Le.refl _); intro x
      split
      · repeat' first
          | with_reducible exact Le.refl _
          | exact merge_mono hb _ _ _ _
          | exact pushExcess_mono hb _ _
          | apply Le.bind
          | intro _
      · repeat' first
          | with_reducible exact Le.refl _
          | exact checkChildren_mono hb _ _
          | exact ih (by omega) _ _
          | apply Le.bind
          | intro _
    · split
      · repeat' first
          | with_reducible exact Le.refl _
          | exact checkChildren_mono hb _ _
          | exact ih (by omega) _ _
          | apply Le.bind
          | intro _
      · with_reducible exact Le.refl _

theorem processRoot_mono {n m : Nat} (hnm : n ≤ m) (s : State) (r : Nat) :
    Le (processRoot n s r) (processRoot m s r) := by
  simp only [processRoot]
  apply Le.bind (Le.refl _); intro s1
  apply Le.bind (Le.refl _); intro x
  split
  · repeat' first
      | with_reducible exact Le.refl _
      | exact merge_mono hnm _ _ _ _
      | exact pushExcess_mono hnm _ _
      | apply Le.bind
      | intro _
  · repeat' first
      | with_reducible exact Le.refl _
      | exact checkChildren_mono hnm _ _
      | exact processRootLoop_mono hnm _ hnm _ _
      | apply Le.bind
      | intro _

theorem pseudoflowPhase1_mono {i1 i2 : Nat} (hi : i1 ≤ i2) {n m : Nat} (hnm : n ≤ m) :
    ∀ s, Le (pseudoflowPhase1 i1 n s) (pseudoflowPhase1 i2 m s) := by
  induction n generalizing m with
  | zero => intros; exact Le.error _ _
  | succ n ih =>
    obtain ⟨m, rfl⟩ : ∃ k, m = k + 1 := ⟨m - 1, by omega⟩
    intro s
    simp only [pseudoflowPhase1]
    apply Le.bind (getHighestStrongRoot_mono hi _); intro x
    split
    · with_reducible exact Le.refl _
    · repeat' first
        | with_reducible exact Le.refl _
        | exact processRoot_mono hi _ _
        | exact ih (by omega) _
        | apply Le.bind
        | intro _

theorem solveProblem_mono {n m : Nat} (hnm : n ≤ m) (g : Super) (p : CutProblem) (flag : Nat) :
    Le (solveProblem n g p flag) (solveProblem m g p flag) := by
  simp only [solveProblem]
  split
  · with_reducible exact Le.refl _
  · repeat' first
      | with_reducible exact Le.refl _
      | exact pseudoflowPhase1_mono hnm hnm _
      | apply Le.bind
      | intro _

theorem ok_bind {ε α β : Type} (a : α) (f : α → Except ε β) : (Except.ok a >>= f) = f a :=
  rfl

theorem map_eq_ok {ε α β : Type} {x : Except ε α} {f : α → β} {b : β}
    (h : x.map f = .ok b) : ∃ a, x = .ok a ∧ f a = b := by
  cases x with
  | error e => simp [Except.map] at h
  | ok a => exact ⟨a, rfl, by simpa [Except.map] using h⟩

/-- The indicator a solve returns does not depend on the fuel: it is the one
found with any fuel that suffices. -/
theorem solve_indicator_eq {g : Super} {lam : ℚ} {low high : List Int} {flag fuel0 : Nat}
    {ind : Option (List Int)}
    (h0 : (initializeContractedProblem g lam low high >>= fun p =>
      (solveProblem fuel0 g p flag).map (fun r => r.1.optimalSourceSetIndicator)) = .ok ind)
    {fuel : Nat} {p : CutProblem} {r : CutProblem × Stats}
    (hp : initializeContractedProblem g lam low high = .ok p)
    (hr : solveProblem fuel g p flag = .ok r) : r.1.optimalSourceSetIndicator = ind := by
  obtain ⟨p0, hp0, h1⟩ := bind_eq_ok.mp h0
  obtain ⟨r0, hr0, h2⟩ := map_eq_ok h1
  have hpp : p0 = p := by rw [hp] at hp0; exact (Except.ok.inj hp0).symm
  subst hpp
  have e1 := solveProblem_mono (Nat.le_max_left fuel fuel0) g p0 flag r hr
  have e2 := solveProblem_mono (Nat.le_max_right fuel fuel0) g p0 flag r0 hr0
  rw [e1] at e2
  rw [Except.ok.inj e2]; exact h2

/-- When the probe below the intersection returns the upper cut itself,
`parametricCut` calls itself with the same two cuts, so no depth lets it
return. -/
theorem parametricCut_never_ok_of_fixpoint {g : Super} {indL indH diff : List Int}
    {Klow Khigh lam : ℚ}
    (hdiff : differenceSourceSets g indL indH = .ok diff)
    (hsum : 0 < sum_array_char diff g.numNodesSuper)
    (hKl : internalCutCapacity g indL (g.arcListSuper.take g.numArcsSuper) 0 = .ok Klow)
    (hKh : internalCutCapacity g indH (g.arcListSuper.take g.numArcsSuper) 0 = .ok Khigh)
    (hlam : computeIntersect g diff (Klow - Khigh) = .ok lam)
    (hmin : ∀ (p : CutProblem) (fuel : Nat) (r : CutProblem × Stats),
      initializeContractedProblem g (math_max (lam - TOL) g.LAMBDA_LOW) indL indH = .ok p →
      solveProblem fuel g p 0 = .ok r → r.1.optimalSourceSetIndicator = some indH)
    (fuel : Nat) :
    ∀ (depth : Nat) (gl : Globals) (low high : CutProblem) (r : Globals),
      low.optimalSourceSetIndicator = some indL →
      high.optimalSourceSetIndicator = some indH →
      parametricCut fuel g depth gl low high ≠ .ok r := by
  intro depth
  induction depth with
  | zero => intro gl low high r _ _ h; simp [parametricCut] at h
  | succ depth ih =>
    intro gl low high r hl hh h
    rw [parametricCut] at h
    simp only [hl, hh, deref, ok_bind, hdiff, gt_iff_lt, hsum, if_true, hKl, hKh, hlam] at h
    obtain ⟨pmin, hpmin, h⟩ := bind_eq_ok.mp h
    obtain ⟨rmin, hrmin, h⟩ := bind_eq_ok.mp h
    have hind := hmin _ _ _ hpmin hrmin
    obtain ⟨minInd, -, h⟩ := bind_eq_ok.mp h
    obtain ⟨pmax, -, h⟩ := bind_eq_ok.mp h
    obtain ⟨rmax, -, h⟩ := bind_eq_ok.mp h
    obtain ⟨maxInd, -, h⟩ := bind_eq_ok.mp h
    obtain ⟨diff2, -, h⟩ := bind_eq_ok.mp h
    split at h <;>
    · obtain ⟨gl1, -, h⟩ := bind_eq_ok.mp h
      obtain ⟨gl2, hrec, -⟩ := bind_eq_ok.mp h
      exact ih _ _ _ _ hl hind hrec

/-- The same for a whole call: when the cuts at the two ends of the range are
such a pair, `hpf_solve` never returns. -/
theorem hpf_solve_never_ok_of_fixpoint {numNodesIn numArcsIn sourceIn sinkIn : Nat}
    {arcMatrix : List ℚ} {lambdaLow lambdaHigh : ℚ} {round : Int}
    {g0 g : Super} {nb : List ℚ} {indL indH diff : List Int}
    {Klow Khigh lam : ℚ} {fuel0 : Nat}
    (hread : readGraphSuper numNodesIn numArcsIn sourceIn sinkIn arcMatrix lambdaLow lambdaHigh
      round = .ok (g0, nb))
    (hsort : ({ g0 with arcListSuper := qsort g0.arcListSuper } : Super) = g)
    (hpar : g.useParametricCut = 1)
    (hlow : (initializeContractedProblem g g.LAMBDA_LOW
        (List.replicate g.numNodesSuper 0) (List.replicate g.numNodesSuper 1)
      >>= fun p => (solveProblem fuel0 g p 0).map (fun r => r.1.optimalSourceSetIndicator))
      = .ok (some indL))
    (hhigh : (initializeContractedProblem g g.LAMBDA_HIGH
        (List.replicate g.numNodesSuper 0) (List.replicate g.numNodesSuper 1)
      >>= fun p => (solveProblem fuel0 g p 0).map (fun r => r.1.optimalSourceSetIndicator))
      = .ok (some indH))
    (hdiff : differenceSourceSets g indL indH = .ok diff)
    (hsum : 0 < sum_array_char diff g.numNodesSuper)
    (hKl : internalCutCapacity g indL (g.arcListSuper.take g.numArcsSuper) 0 = .ok Klow)
    (hKh : internalCutCapacity g indH (g.arcListSuper.take g.numArcsSuper) 0 = .ok Khigh)
    (hlam : computeIntersect g diff (Klow - Khigh) = .ok lam)
    (hmin : ∀ (p : CutProblem) (fuel : Nat) (r : CutProblem × Stats),
      initializeContractedProblem g (math_max (lam - TOL) g.LAMBDA_LOW) indL indH = .ok p →
      solveProblem fuel g p 0 = .ok r → r.1.optimalSourceSetIndicator = some indH)
    (fuel depth : Nat) (out : Output) :
    hpf_solve fuel depth numNodesIn numArcsIn sourceIn sinkIn arcMatrix lambdaLow lambdaHigh round
      ≠ .ok out := by
  intro h
  subst hsort
  have hpar2 : g0.useParametricCut = 1 := hpar
  rw [hpf_solve] at h
  simp only [hread, ok_bind] at h
  obtain ⟨plow, hplow, h⟩ := bind_eq_ok.mp h
  rw [if_pos hpar2] at h
  obtain ⟨phigh, hphigh, h⟩ := bind_eq_ok.mp h
  obtain ⟨rlow, hrlow, h⟩ := bind_eq_ok.mp h
  obtain ⟨rhigh, hrhigh, h⟩ := bind_eq_ok.mp h
  obtain ⟨gl, hrec, -⟩ := bind_eq_ok.mp h
  exact parametricCut_never_ok_of_fixpoint hdiff hsum hKl hKh hlam hmin fuel depth _ _ _ _
    (solve_indicator_eq hlow hplow hrlow) (solve_indicator_eq hhigh hphigh hrhigh) hrec

theorem readChar_natCast (S : List Int) (i : Nat) : readChar S (i : Int) = deref S[i]? := by
  simp [readChar]

theorem IsIndicator.get {n : Nat} {S : List Int} (h : IsIndicator n S) {i : Nat} (hi : i < n) :
    S[i]? = some 0 ∨ S[i]? = some 1 := by
  obtain ⟨hl, h01⟩ := h
  have hi' : i < S.length := by omega
  rw [List.getElem?_eq_getElem hi']
  rcases h01 _ (List.getElem_mem hi') with h | h <;> simp [h]

theorem mapM_ok_getElem {α β : Type} (f : α → Except Err β) :
    ∀ (l : List α) (r : List β), l.mapM f = .ok r →
      r.length = l.length ∧ ∀ k (hk : k < l.length) , f l[k] = deref r[k]? := by
  intro l
  induction l with
  | nil =>
    intro r h
    rw [List.mapM_nil] at h
    cases h
    simp
  | cons a l ih =>
    intro r h
    rw [List.mapM_cons] at h
    obtain ⟨b, hb, h⟩ := bind_eq_ok.mp h
    obtain ⟨bs, hbs, h⟩ := bind_eq_ok.mp h
    simp [pure, Except.pure] at h
    subst h
    obtain ⟨hlen, hget⟩ := ih bs hbs
    refine ⟨by simp [hlen], ?_⟩
    intro k hk
    cases k with
    | zero => simpa [deref] using hb
    | succ k => simpa using hget k (by simpa using hk)

theorem differenceSourceSets_get {g : Super} {low high diff : List Int}
    (h : differenceSourceSets g low high = .ok diff) {i : Nat} (hi : i < g.numNodesSuper) :
    ∃ l hgh, low[i]? = some l ∧ high[i]? = some hgh ∧ diff[i]? = some (hgh - l) := by
  obtain ⟨hlen, hget⟩ := mapM_ok_getElem _ _ _ h
  have := hget i (by simpa using hi)
  simp only [List.getElem_range] at this
  have hd : i < diff.length := by simpa [hlen] using hi
  rw [List.getElem?_eq_getElem hd] at this ⊢
  simp only [deref] at this
  obtain ⟨hv, hhv, this⟩ := bind_eq_ok.mp this
  obtain ⟨lv, hlv, this⟩ := bind_eq_ok.mp this
  simp [pure, Except.pure] at this
  refine ⟨lv, hv, ?_, ?_, by rw [this]⟩
  · cases hx : low[i]? with
    | none => simp [hx, deref] at hlv
    | some x => simp [hx, deref] at hlv; simp [hlv]
  · cases hx : high[i]? with
    | none => simp [hx, deref] at hhv
    | some x => simp [hx, deref] at hhv; simp [hhv]

theorem SuperOK.node {g : Super} (h : SuperOK g) {i : Nat} (hi : i < g.numNodesSuper) :
    ∃ nd, g.nodeListSuper[i]? = some nd ∧ nd.originalIndex = i ∧ nd.number = i := by
  have := h.1 i hi
  cases hx : g.nodeListSuper[i]? with
  | none => simp [hx] at this
  | some nd =>
    simp only [hx, Option.map_some', Option.some.injEq, Prod.mk.injEq] at this
    exact ⟨nd, rfl, this.1, this.2⟩

theorem internalCutCapacity_cons {g : Super} (hg : SuperOK g) {S : List Int}
    (hS : IsIndicator g.numNodesSuper S) {a : Arc}
    (ha : a.from_ < g.numNodesSuper ∧ a.to_ < g.numNodesSuper) (rest : List Arc) (k : ℚ) :
    internalCutCapacity g S (a :: rest) k
      = internalCutCapacity g S rest (k + internalTerm g S a) := by
  obtain ⟨nf, hnf, hof, -⟩ := hg.node ha.1
  obtain ⟨nt, hnt, hot, -⟩ := hg.node ha.2
  rw [internalCutCapacity]
  simp only [hnf, hnt, deref, ok_bind, hof, hot, readChar_natCast, internalTerm]
  rcases hS.get ha.1 with h1 | h1 <;> rcases hS.get ha.2 with h2 | h2 <;>
    simp only [h1, h2, deref, ok_bind] <;>
    by_cases h3 : a.from_ = g.sourceSuper <;>
    simp [h3, ok_bind, pure, Except.pure]

theorem intersectLoop_cons {g : Super} (hg : SuperOK g) {D : List Int}
    (hD : ∀ i : Nat, i < g.numNodesSuper → ∃ d, D[i]? = some d) {a : Arc}
    (ha : a.from_ < g.numNodesSuper ∧ a.to_ < g.numNodesSuper) (rest : List Arc) (c m : ℚ) :
    intersectLoop g D (a :: rest) (c, m)
      = intersectLoop g D rest (c + (intersectTerm g D a).1, m + (intersectTerm g D a).2) := by
  obtain ⟨nf, hnf, hof, -⟩ := hg.node ha.1
  obtain ⟨nt, hnt, hot, -⟩ := hg.node ha.2
  obtain ⟨df, hdf⟩ := hD _ ha.1
  obtain ⟨dt, hdt⟩ := hD _ ha.2
  rw [intersectLoop]
  simp only [hnf, hnt, deref, ok_bind, hof, hot, readChar_natCast, intersectTerm, hdf, hdt]
  by_cases h1 : a.from_ = g.sourceSuper <;> by_cases h2 : a.to_ = g.sinkSuper <;>
    by_cases h3 : dt = 1 <;> by_cases h4 : df = 1 <;>
    by_cases h5 : g.roundNegativeCapacity = 0 <;>
    simp [h1, h2, h3, h4, h5, ok_bind, pure, Except.pure, sub_eq_add_neg]

theorem internalCutCapacity_sum {g : Super} (hg : SuperOK g) {S : List Int}
    (hS : IsIndicator g.numNodesSuper S) :
    ∀ (as : List Arc), (∀ a ∈ as, a.from_ < g.numNodesSuper ∧ a.to_ < g.numNodesSuper) →
      ∀ k, internalCutCapacity g S as k = .ok (k + (as.map (internalTerm g S)).sum) := by
  intro as
  induction as with
  | nil => intro _ k; simp [internalCutCapacity]
  | cons a rest ih =>
    intro h k
    rw [internalCutCapacity_cons hg hS (h a (List.mem_cons_self _ _)),
      ih (fun b hb => h b (List.mem_cons_of_mem _ hb))]
    simp [add_assoc]

theorem intersectLoop_sum {g : Super} (hg : SuperOK g) {D : List Int}
    (hD : ∀ i : Nat, i < g.numNodesSuper → ∃ d, D[i]? = some d) :
    ∀ (as : List Arc), (∀ a ∈ as, a.from_ < g.numNodesSuper ∧ a.to_ < g.numNodesSuper) →
      ∀ c m, intersectLoop g D as (c, m)
        = .ok (c + (as.map (fun a => (intersectTerm g D a).1)).sum,
               m + (as.map (fun a => (intersectTerm g D a).2)).sum) := by
  intro as
  induction as with
  | nil => intro _ c m; simp [intersectLoop]
  | cons a rest ih =>
    intro h c m
    rw [intersectLoop_cons hg hD (h a (List.mem_cons_self _ _)),
      ih (fun b hb => h b (List.mem_cons_of_mem _ hb))]
    simp [add_assoc]

/-- The identity behind `computeIntersect`, arc by arc, when sink arcs are
skipped (rounding flag set) and the skipped arcs do not depend on `lambda`. -/
theorem lineTerm_sub {g : Super} {low high D : List Int}
    (hlow : IsIndicator g.numNodesSuper low) (hhigh : IsIndicator g.numNodesSuper high)
    (hnest : ∀ i < g.numNodesSuper, low[i]? = some 1 → high[i]? = some 1)
    (hD : ∀ i : Nat, i < g.numNodesSuper →
      ∃ l h, low[i]? = some l ∧ high[i]? = some h ∧ D[i]? = some (h - l))
    (hsrc : low[g.sourceSuper]? = some 1) (hsnk : high[g.sinkSuper]? = some 0)
    (hround : g.roundNegativeCapacity ≠ 0) (lam : ℚ) {a : Arc}
    (ha : a.from_ < g.numNodesSuper ∧ a.to_ < g.numNodesSuper)
    (hzero : a.from_ ≠ g.sourceSuper → a.to_ ≠ g.sinkSuper → a.multiplier = 0)
    (hskip : a.to_ = g.sinkSuper → high[a.from_]? = some 1 → low[a.from_]? = some 0 →
      a.multiplier = 0) :
    lineTerm low lam a - lineTerm high lam a
      = internalTerm g low a - internalTerm g high a
        + (intersectTerm g D a).1 + (intersectTerm g D a).2 * lam := by
  obtain ⟨f, t, fl, cap, c, m, d⟩ := a
  simp only at ha hzero hskip
  obtain ⟨lf, hf, e1, e2, e3⟩ := hD _ ha.1
  obtain ⟨lt, ht, e4, e5, e6⟩ := hD _ ha.2
  have n1 := hnest f ha.1
  have n2 := hnest t ha.2
  simp only [lineTerm, internalTerm, intersectTerm, hround, and_false, if_false]
  rcases hlow.get ha.1 with h1 | h1 <;> rcases hlow.get ha.2 with h2 | h2 <;>
    rcases hhigh.get ha.1 with h3 | h3 <;> rcases hhigh.get ha.2 with h4 | h4 <;>
    simp only [h1, h2, h3, h4] at e1 e2 e3 e4 e5 e6 n1 n2 hskip <;>
    simp at e1 e2 e4 e5 n1 n2 <;>
    subst_vars <;>
    by_cases h5 : f = g.sourceSuper <;> by_cases h6 : t = g.sinkSuper <;>
    simp_all

theorem sum_map_sub {α : Type} (l : List α) (f1 f2 : α → ℚ) :
    (l.map f1).sum - (l.map f2).sum = (l.map (fun a => f1 a - f2 a)).sum := by
  induction l with
  | nil => simp
  | cons a l ih => simp only [List.map_cons, List.sum_cons, ← ih]; ring

theorem sum_map_congr {α : Type} (l : List α) (f1 f2 : α → ℚ) (h : ∀ a ∈ l, f1 a = f2 a) :
    (l.map f1).sum = (l.map f2).sum := by
  rw [List.map_congr_left h]

theorem sum_map_split (l : List Arc) (k1 k2 i1 i2 : Arc → ℚ) (lam : ℚ) :
    (l.map (fun a => k1 a - k2 a + i1 a + i2 a * lam)).sum
      = (l.map k1).sum - (l.map k2).sum + (l.map i1).sum + (l.map i2).sum * lam := by
  induction l with
  | nil => simp
  | cons a l ih => simp only [List.map_cons, List.sum_cons, ih]; ring

/-! ## The builder never faults on well-formed input -/

theorem buildNodeMap_ok (g : Super) (low high : List Int) :
    ∀ (is : List Nat) (acc : List Nat × Nat × Nat × Nat),
      (∀ i ∈ is, i < low.length ∧ i < high.length) → NodeMapOK acc →
      ∃ r, buildNodeMap g low high is acc = .ok r ∧ NodeMapOK r
        ∧ r.1.length = acc.1.length + is.length := by
  intro is
  induction is with
  | nil => intro acc _ h; exact ⟨acc, by simp [buildNodeMap], h, by simp⟩
  | cons i rest ih =>
    intro acc hlen hacc
    obtain ⟨nodeMap, nSrc, nSnk, nList⟩ := acc
    obtain ⟨h1, h2, h3, h4⟩ := hacc
    simp only at h1 h2 h3 h4
    have hi := hlen i (List.mem_cons_self _ _)
    have hrest : ∀ j ∈ rest, j < low.length ∧ j < high.length :=
      fun j hj => hlen j (List.mem_cons_of_mem _ hj)
    have e1 : low[i]? = some low[i] := List.getElem?_eq_getElem hi.1
    have e2 : high[i]? = some high[i] := List.getElem?_eq_getElem hi.2
    rw [buildNodeMap]
    have key : ∀ acc2 : List Nat × Nat × Nat × Nat, NodeMapOK acc2 →
        acc2.1.length = nodeMap.length + 1 →
        ∃ r, buildNodeMap g low high rest acc2 = .ok r ∧ NodeMapOK r
          ∧ r.1.length = nodeMap.length + (rest.length + 1) := by
      intro acc2 hok hl
      obtain ⟨r, hr, hrok, hrl⟩ := ih acc2 hrest hok
      exact ⟨r, hr, hrok, by rw [hrl, hl]; omega⟩
    have okS : NodeMapOK (nodeMap ++ [0], nSrc + 1, nSnk, nList) := by
      refine ⟨by simp [List.countP_append, h1], by simp [List.countP_append, h2], h3, ?_⟩
      intro e he
      rcases List.mem_append.mp he with he | he
      · exact h4 e he
      · simp at he; subst he; show 0 < nList; omega
    have okK : NodeMapOK (nodeMap ++ [1], nSrc, nSnk + 1, nList) := by
      refine ⟨by simp [List.countP_append, h1], by simp [List.countP_append, h2], h3, ?_⟩
      intro e he
      rcases List.mem_append.mp he with he | he
      · exact h4 e he
      · simp at he; subst he; show 1 < nList; omega
    have okI : NodeMapOK (nodeMap ++ [nList], nSrc, nSnk, nList + 1) := by
      refine ⟨?_, ?_, by simp; omega, ?_⟩
      · simp only [List.countP_append, h1]
        simp [List.countP_cons]; omega
      · simp only [List.countP_append, h2]
        simp [List.countP_cons]; omega
      · intro e he
        rcases List.mem_append.mp he with he | he
        · have := h4 e he; show e < nList + 1; omega
        · simp at he; subst he; show e < e + 1; omega
    by_cases hs : i = g.sourceSuper
    · simp only [hs, if_true, pure, Except.pure, ok_bind, true_or]
      exact key _ okS (by simp)
    · simp only [hs, if_false, e1, deref, ok_bind, false_or]
      by_cases hl1 : low[i] = 1
      · simp only [hl1, if_true]
        exact key _ okS (by simp)
      · simp only [hl1, if_false]
        by_cases hk : i = g.sinkSuper
        · simp only [hk, if_true, pure, Except.pure, ok_bind, true_or]
          exact key _ okK (by simp)
        · simp only [hk, if_false, e2, deref, ok_bind, false_or]
          by_cases hh0 : high[i] = 0
          · simp only [hh0, if_true]
            exact key _ okK (by simp)
          · simp only [hh0, if_false]
            exact key _ okI (by simp)

theorem setOriginalIndex_ok (a : List Node) {i : Nat} (hi : i < a.length) (v : Int) :
    ∃ r, setOriginalIndex a i v = .ok r ∧ r.length = a.length := by
  simp [setOriginalIndex, List.getElem?_eq_getElem hi]

theorem countP_drop_of_getElem (l : List Nat) (v : Nat) {i : Nat} (hi : i < l.length) :
    (l.drop i).countP (· = v)
      = (if l[i] = v then 1 else 0) + (l.drop (i + 1)).countP (· = v) := by
  rw [List.drop_eq_getElem_cons hi, List.countP_cons]
  simp only [decide_eq_true_eq]
  omega

theorem fillOriginalIndex_ok (nodeListProblem : List Node) (nodeMap : List Nat) :
    ∀ (k i : Nat) (nodeList sourceSet sinkSet : List Node) (cSrc cSnk : Nat),
      i + k ≤ nodeMap.length → i + k ≤ nodeListProblem.length →
      (∀ e ∈ nodeMap, e < nodeList.length) →
      cSrc + (nodeMap.drop i).countP (· = 0) ≤ sourceSet.length →
      cSnk + (nodeMap.drop i).countP (· = 1) ≤ sinkSet.length →
      ∃ r, fillOriginalIndex nodeListProblem nodeMap (List.range' i k)
          (nodeList, sourceSet, sinkSet, cSrc, cSnk) = .ok r
        ∧ r.1.length = nodeList.length ∧ r.2.1.length = sourceSet.length
        ∧ r.2.2.1.length = sinkSet.length := by
  intro k
  induction k with
  | zero =>
    intro i nl ss ks c1 c2 _ _ _ _ _
    exact ⟨(nl, ss, ks, c1, c2), by simp [fillOriginalIndex], rfl, rfl, rfl⟩
  | succ k ih =>
    intro i nl ss ks c1 c2 h1 h2 h3 h4 h5
    have hi : i < nodeMap.length := by omega
    have hi2 : i < nodeListProblem.length := by omega
    rw [countP_drop_of_getElem _ _ hi] at h4 h5
    have hm := h3 _ (List.getElem_mem hi)
    simp only [List.range'_succ, fillOriginalIndex, List.getElem?_eq_getElem hi,
      List.getElem?_eq_getElem hi2, deref, ok_bind]
    by_cases c : nodeMap[i] > 1
    · obtain ⟨r, hr, hrl⟩ := setOriginalIndex_ok nl hm nodeListProblem[i].originalIndex
      simp only [c, if_true, hr, ok_bind]
      have d0 : nodeMap[i] ≠ 0 := by omega
      have d1 : nodeMap[i] ≠ 1 := by omega
      simp only [d0, d1, if_false, Nat.zero_add] at h4 h5
      obtain ⟨r2, e, l1, l2, l3⟩ := ih (i + 1) r ss ks c1 c2 (by omega) (by omega)
        (by rw [hrl]; exact h3) h4 h5
      exact ⟨r2, e, by rw [l1, hrl], l2, l3⟩
    · simp only [c, if_false]
      by_cases z : nodeMap[i] = 0
      · simp only [z, if_true] at h4 ⊢
        obtain ⟨r, hr, hrl⟩ := setOriginalIndex_ok ss (i := c1) (by omega)
          nodeListProblem[i].originalIndex
        simp only [hr, ok_bind]
        have d1 : ¬ (0 = 1) := by omega
        simp only [z, d1, if_false, Nat.zero_add] at h5
        obtain ⟨r2, e, l1, l2, l3⟩ := ih (i + 1) nl r ks (c1 + 1) c2 (by omega) (by omega)
          h3 (by rw [hrl]; omega) h5
        exact ⟨r2, e, l1, by rw [l2, hrl], l3⟩
      · have o : nodeMap[i] = 1 := by omega
        simp only [z, if_false] at h4 ⊢
        simp only [o, if_true] at h5
        obtain ⟨r, hr, hrl⟩ := setOriginalIndex_ok ks (i := c2) (by omega)
          nodeListProblem[i].originalIndex
        simp only [hr, ok_bind]
        obtain ⟨r2, e, l1, l2, l3⟩ := ih (i + 1) nl ss r c1 (c2 + 1) (by omega) (by omega)
          h3 (by omega) (by rw [hrl]; omega)
        exact ⟨r2, e, l1, l2, by rw [l3, hrl]⟩

theorem incAdjacent_ok (a : List Node) {i : Nat} (hi : i < a.length) :
    ∃ r, incAdjacent a i = .ok r ∧ r.length = a.length := by
  simp [incAdjacent, List.getElem?_eq_getElem hi]

theorem roundCapacity_cases (g : Super) (capacity shown : ℚ) :
    (capacity < 0 ∧ g.roundNegativeCapacity = 0
      ∧ roundCapacity g capacity shown = .error (.negativeCapacity shown))
    ∨ (¬ (capacity < 0 ∧ g.roundNegativeCapacity = 0)
      ∧ roundCapacity g capacity shown = .ok (if capacity < 0 then 0 else capacity)) := by
  unfold roundCapacity
  by_cases h1 : capacity < 0 <;> by_cases h2 : g.roundNegativeCapacity = 0 <;> simp [h1, h2]

theorem mem_set_index {l : List Int} {i : Nat} {v x : Int} (h : x ∈ l.set i v) :
    x ∈ l ∨ x = v := by
  rcases List.mem_or_eq_of_mem_set h with h | h
  · exact Or.inl h
  · exact Or.inr h

theorem appendNew_spec {g : Super} (hg : SuperOK g) {nodeMap : List Nat} {nl : Nat} (lam : ℚ)
    (st : ArcScratch) {a : Arc}
    (hnm : ∀ i < g.numNodesSuper, ∃ e, nodeMap[i]? = some e ∧ e < nl)
    (ha : a.from_ < g.numNodesSuper ∧ a.to_ < g.numNodesSuper)
    (h1 : st.problem.nodeList.length = nl) (h5 : st.problem.lambdaValue = lam) :
    (a.multiplier * lam + a.constant < 0 ∧ g.roundNegativeCapacity = 0
      ∧ appendNew g nodeMap lam st a = .error (.negativeCapacity lam))
    ∨ (¬ (a.multiplier * lam + a.constant < 0 ∧ g.roundNegativeCapacity = 0)
      ∧ ∃ new nodeList, appendNew g nodeMap lam st a = .ok { st with
          problem := { st.problem with arcList := st.problem.arcList ++ [new],
                                       nodeList := nodeList },
          currentArc := st.currentArc + 1 } ∧ nodeList.length = nl) := by
  obtain ⟨nf, hnf, -, hof⟩ := hg.node ha.1
  obtain ⟨nt, hnt, -, hot⟩ := hg.node ha.2
  obtain ⟨ef, hef, hefl⟩ := hnm _ ha.1
  obtain ⟨et, het, hetl⟩ := hnm _ ha.2
  rcases roundCapacity_cases g (a.multiplier * lam + a.constant) lam with ⟨c1, c2, c3⟩ | ⟨c1, c3⟩
  · left
    refine ⟨c1, c2, ?_⟩
    simp only [appendNew, copyArcNew, h5, c3]
    rfl
  · right
    refine ⟨c1, ?_⟩
    obtain ⟨r1, hr1, hl1⟩ := incAdjacent_ok st.problem.nodeList (i := ef) (by omega)
    obtain ⟨r2, hr2, hl2⟩ := incAdjacent_ok r1 (i := et) (by omega)
    refine ⟨{ initializeArc with
        capacity := (if a.multiplier * lam + a.constant < 0 then 0
          else a.multiplier * lam + a.constant)
        from_ := ef
        to_ := et }, r2, ?_, by omega⟩
    simp only [appendNew, copyArcNew, h5, c3, ok_bind, hnf, hnt, deref, hof, hot, hef, het,
      hr1, hr2]

theorem addInto_spec (g : Super) (lam : ℚ) (st : ArcScratch) (a : Arc) {idx : Int}
    (h0 : 0 ≤ idx) (h1 : idx.toNat < st.problem.arcList.length) :
    (a.multiplier * lam + a.constant < 0 ∧ g.roundNegativeCapacity = 0
      ∧ addInto g lam st a idx = .error (.negativeCapacity lam))
    ∨ (¬ (a.multiplier * lam + a.constant < 0 ∧ g.roundNegativeCapacity = 0)
      ∧ ∃ new, addInto g lam st a idx = .ok { st with
          problem := { st.problem with arcList := st.problem.arcList.set idx.toNat new } }) := by
  have hneg : ¬ idx < 0 := by omega
  rcases roundCapacity_cases g (a.multiplier * lam + a.constant) lam with ⟨c1, c2, c3⟩ | ⟨c1, c3⟩
  · left
    refine ⟨c1, c2, ?_⟩
    simp only [addInto, hneg, if_false, List.getElem?_eq_getElem h1, deref, ok_bind, copyArcAdd,
      c3]
    rfl
  · right
    refine ⟨c1, { st.problem.arcList[idx.toNat] with
      capacity := st.problem.arcList[idx.toNat].capacity
        + (if a.multiplier * lam + a.constant < 0 then 0
            else a.multiplier * lam + a.constant) }, ?_⟩
    simp only [addInto, hneg, if_false, List.getElem?_eq_getElem h1, deref, ok_bind, copyArcAdd,
      c3]

theorem ScratchOK.append {nl : Nat} {lam : ℚ} {st : ArcScratch}
    (h1 : st.sourceAdjacentArcIndices.length = nl) (h2 : st.sinkAdjacentArcIndices.length = nl)
    (h4 : st.currentArc = st.problem.arcList.length) (h5 : st.problem.lambdaValue = lam)
    (h6 : ∀ idx ∈ st.sourceAdjacentArcIndices,
      idx = -1 ∨ (0 ≤ idx ∧ idx.toNat < st.problem.arcList.length + 1))
    (h7 : ∀ idx ∈ st.sinkAdjacentArcIndices,
      idx = -1 ∨ (0 ≤ idx ∧ idx.toNat < st.problem.arcList.length + 1))
    (new : Arc) {nodeList : List Node} (hn : nodeList.length = nl) :
    ScratchOK nl lam { st with
      problem := { st.problem with arcList := st.problem.arcList ++ [new],
                                   nodeList := nodeList },
      currentArc := st.currentArc + 1 } := by
  refine ⟨hn, h1, h2, by simp [h4], h5, ?_, ?_⟩
  · intro idx hidx
    rcases h6 idx hidx with e | ⟨e1, e2⟩
    · exact Or.inl e
    · exact Or.inr ⟨e1, by simpa using e2⟩
  · intro idx hidx
    rcases h7 idx hidx with e | ⟨e1, e2⟩
    · exact Or.inl e
    · exact Or.inr ⟨e1, by simpa using e2⟩

theorem ScratchOK.setArc {nl : Nat} {lam : ℚ} {st : ArcScratch} (h : ScratchOK nl lam st)
    (i : Nat) (new : Arc) :
    ScratchOK nl lam { st with
      problem := { st.problem with arcList := st.problem.arcList.set i new } } := by
  obtain ⟨h1, h2, h3, h4, h5, h6, h7⟩ := h
  exact ⟨h1, h2, h3, by simp [h4], h5, by simpa using h6, by simpa using h7⟩

/-- One step of the arc loop: a dropped arc changes nothing; a kept arc either
exits (negative capacity, rounding flag 0) or leaves consistent scratch data. -/
theorem contractArc_spec {g : Super} (hg : SuperOK g) {nodeMap : List Nat} {nl : Nat}
    {lam : ℚ} {st : ArcScratch} {a : Arc}
    (hnm : ∀ i < g.numNodesSuper, ∃ e, nodeMap[i]? = some e ∧ e < nl)
    (ha : a.from_ < g.numNodesSuper ∧ a.to_ < g.numNodesSuper) (hst : ScratchOK nl lam st) :
    (¬ keptArc nodeMap a ∧ contractArc g nodeMap lam st a = .ok st)
    ∨ (keptArc nodeMap a ∧ a.multiplier * lam + a.constant < 0 ∧ g.roundNegativeCapacity = 0
      ∧ contractArc g nodeMap lam st a = .error (.negativeCapacity lam))
    ∨ (keptArc nodeMap a ∧ ¬ (a.multiplier * lam + a.constant < 0 ∧ g.roundNegativeCapacity = 0)
      ∧ ∃ st2, contractArc g nodeMap lam st a = .ok st2 ∧ ScratchOK nl lam st2) := by
  obtain ⟨nf, hnf, -, hof⟩ := hg.node ha.1
  obtain ⟨nt, hnt, -, hot⟩ := hg.node ha.2
  obtain ⟨ef, hef, hefl⟩ := hnm _ ha.1
  obtain ⟨et, het, hetl⟩ := hnm _ ha.2
  obtain ⟨h1, h2, h3, h4, h5, h6, h7⟩ := hst
  have hk : keptArc nodeMap a ↔ ¬ (ef = et ∨ et = 0 ∨ ef = 1 ∨ (ef = 0 ∧ et = 1)) := by
    simp [keptArc, hef, het]
  rw [contractArc]
  simp only [hnf, hnt, deref, ok_bind, hof, hot, hef, het]
  by_cases hd : ef = et ∨ et = 0 ∨ ef = 1 ∨ (ef = 0 ∧ et = 1)
  · left
    exact ⟨by rw [hk]; exact not_not.mpr hd, by simp only [hd, if_true]⟩
  · right
    have hkept : keptArc nodeMap a := hk.mpr hd
    simp only [hd, if_false]
    have weak : ∀ l : List Int,
        (∀ idx ∈ l, idx = -1 ∨ (0 ≤ idx ∧ idx.toNat < st.problem.arcList.length)) →
        ∀ idx ∈ l, idx = -1 ∨ (0 ≤ idx ∧ idx.toNat < st.problem.arcList.length + 1) := by
      intro l hl idx hidx
      rcases hl idx hidx with e | ⟨e1, e2⟩
      · exact Or.inl e
      · exact Or.inr ⟨e1, by omega⟩
    have weakSet : ∀ (l : List Int) (i : Nat),
        (∀ idx ∈ l, idx = -1 ∨ (0 ≤ idx ∧ idx.toNat < st.problem.arcList.length)) →
        ∀ idx ∈ l.set i st.currentArc,
          idx = -1 ∨ (0 ≤ idx ∧ idx.toNat < st.problem.arcList.length + 1) := by
      intro l i hl idx hidx
      rcases mem_set_index hidx with e | e
      · exact weak l hl idx e
      · right
        subst e
        exact ⟨by omega, by simp; omega⟩
    have happ : ∀ st1 : ArcScratch, st1.problem = st.problem → st1.currentArc = st.currentArc →
        st1.sourceAdjacentArcIndices.length = nl → st1.sinkAdjacentArcIndices.length = nl →
        (∀ idx ∈ st1.sourceAdjacentArcIndices,
          idx = -1 ∨ (0 ≤ idx ∧ idx.toNat < st.problem.arcList.length + 1)) →
        (∀ idx ∈ st1.sinkAdjacentArcIndices,
          idx = -1 ∨ (0 ≤ idx ∧ idx.toNat < st.problem.arcList.length + 1)) →
        (a.multiplier * lam + a.constant < 0 ∧ g.roundNegativeCapacity = 0
          ∧ appendNew g nodeMap lam st1 a = .error (.negativeCapacity lam))
        ∨ (¬ (a.multiplier * lam + a.constant < 0 ∧ g.roundNegativeCapacity = 0)
          ∧ ∃ st2, appendNew g nodeMap lam st1 a = .ok st2 ∧ ScratchOK nl lam st2) := by
      intro st1 e1 e2 e3 e4 e5 e6
      have f1 : st1.problem.nodeList.length = nl := by rw [e1]; exact h1
      have f5 : st1.problem.lambdaValue = lam := by rw [e1]; exact h5
      rcases appendNew_spec hg lam st1 hnm ha f1 f5 with c | ⟨c1, new, ndl, c3, c4⟩
      · exact Or.inl c
      · have f4 : st1.currentArc = st1.problem.arcList.length := by rw [e1, e2]; exact h4
        have f6 : ∀ idx ∈ st1.sourceAdjacentArcIndices,
            idx = -1 ∨ (0 ≤ idx ∧ idx.toNat < st1.problem.arcList.length + 1) := by
          rw [e1]; exact e5
        have f7 : ∀ idx ∈ st1.sinkAdjacentArcIndices,
            idx = -1 ∨ (0 ≤ idx ∧ idx.toNat < st1.problem.arcList.length + 1) := by
          rw [e1]; exact e6
        exact Or.inr ⟨c1, _, c3, ScratchOK.append e3 e4 f4 f5 f6 f7 new c4⟩
    have hadd : ∀ idx : Int, 0 ≤ idx → idx.toNat < st.problem.arcList.length →
        (a.multiplier * lam + a.constant < 0 ∧ g.roundNegativeCapacity = 0
          ∧ addInto g lam st a idx = .error (.negativeCapacity lam))
        ∨ (¬ (a.multiplier * lam + a.constant < 0 ∧ g.roundNegativeCapacity = 0)
          ∧ ∃ st2, addInto g lam st a idx = .ok st2 ∧ ScratchOK nl lam st2) := by
      intro idx e1 e2
      rcases addInto_spec g lam st a e1 e2 with c | ⟨c1, new, c3⟩
      · exact Or.inl c
      · exact Or.inr ⟨c1, _, c3, ScratchOK.setArc ⟨h1, h2, h3, h4, h5, h6, h7⟩ _ _⟩
    have fin : ∀ r : Except Err ArcScratch,
        ((a.multiplier * lam + a.constant < 0 ∧ g.roundNegativeCapacity = 0
          ∧ r = .error (.negativeCapacity lam))
        ∨ (¬ (a.multiplier * lam + a.constant < 0 ∧ g.roundNegativeCapacity = 0)
          ∧ ∃ st2, r = .ok st2 ∧ ScratchOK nl lam st2)) →
        (keptArc nodeMap a ∧ a.multiplier * lam + a.constant < 0
          ∧ g.roundNegativeCapacity = 0 ∧ r = .error (.negativeCapacity lam))
        ∨ (keptArc nodeMap a
          ∧ ¬ (a.multiplier * lam + a.constant < 0 ∧ g.roundNegativeCapacity = 0)
          ∧ ∃ st2, r = .ok st2 ∧ ScratchOK nl lam st2) := by
      intro r hr
      rcases hr with ⟨c1, c2, c3⟩ | ⟨c1, c3⟩
      · exact Or.inl ⟨hkept, c1, c2, c3⟩
      · exact Or.inr ⟨hkept, c1, c3⟩
    apply fin
    by_cases hf0 : ef = 0
    · simp only [hf0, if_true]
      have hlt : et < st.sourceAdjacentArcIndices.length := by omega
      simp only [List.getElem?_eq_getElem hlt, ok_bind]
      by_cases hneg : st.sourceAdjacentArcIndices[et] = -1
      · simp only [hneg, if_true]
        exact happ _ rfl rfl (by simp [h2]) h3 (weakSet _ _ h6) (weak _ h7)
      · simp only [hneg, if_false]
        rcases h6 _ (List.getElem_mem hlt) with e | ⟨e1, e2⟩
        · exact absurd e hneg
        · exact hadd _ e1 e2
    · simp only [hf0, if_false]
      by_cases ht1 : et = 1
      · simp only [ht1, if_true]
        have hlt : ef < st.sinkAdjacentArcIndices.length := by omega
        simp only [List.getElem?_eq_getElem hlt, ok_bind]
        by_cases hneg : st.sinkAdjacentArcIndices[ef] = -1
        · simp only [hneg, if_true]
          exact happ _ rfl rfl h2 (by simp [h3]) (weak _ h6) (weakSet _ _ h7)
        · simp only [hneg, if_false]
          rcases h7 _ (List.getElem_mem hlt) with e | ⟨e1, e2⟩
          · exact absurd e hneg
          · exact hadd _ e1 e2
      · simp only [ht1, if_false]
        exact happ st rfl rfl h2 h3 (weak _ h6) (weak _ h7)

theorem contractFold_spec {g : Super} (hg : SuperOK g) {nodeMap : List Nat} {nl : Nat}
    {lam : ℚ} (hnm : ∀ i < g.numNodesSuper, ∃ e, nodeMap[i]? = some e ∧ e < nl) :
    ∀ (as : List Arc) (st : ArcScratch),
      (∀ a ∈ as, a.from_ < g.numNodesSuper ∧ a.to_ < g.numNodesSuper) → ScratchOK nl lam st →
      ((g.roundNegativeCapacity = 0
          ∧ ∃ a ∈ as, keptArc nodeMap a ∧ a.multiplier * lam + a.constant < 0)
        ∧ as.foldlM (contractArc g nodeMap lam) st = .error (.negativeCapacity lam))
      ∨ (¬ (g.roundNegativeCapacity = 0
          ∧ ∃ a ∈ as, keptArc nodeMap a ∧ a.multiplier * lam + a.constant < 0)
        ∧ ∃ st2, as.foldlM (contractArc g nodeMap lam) st = .ok st2 ∧ ScratchOK nl lam st2) := by
  intro as
  induction as with
  | nil =>
    intro st _ hst
    right
    exact ⟨by simp, st, rfl, hst⟩
  | cons a rest ih =>
    intro st hall hst
    have ha := hall a (List.mem_cons_self _ _)
    have hrest : ∀ b ∈ rest, b.from_ < g.numNodesSuper ∧ b.to_ < g.numNodesSuper :=
      fun b hb => hall b (List.mem_cons_of_mem _ hb)
    rw [List.foldlM_cons]
    rcases contractArc_spec hg hnm ha hst with ⟨c1, c2⟩ | ⟨c1, c2, c3, c4⟩ | ⟨c1, c2, st2, c3, c4⟩
    · rw [c2, ok_bind]
      rcases ih st hrest hst with ⟨⟨d1, b, hb, d2⟩, d3⟩ | ⟨d1, d2⟩
      · exact Or.inl ⟨⟨d1, b, List.mem_cons_of_mem _ hb, d2⟩, d3⟩
      · refine Or.inr ⟨?_, d2⟩
        rintro ⟨e1, b, hb, e2⟩
        rcases List.mem_cons.mp hb with rfl | hb
        · exact c1 e2.1
        · exact d1 ⟨e1, b, hb, e2⟩
    · left
      exact ⟨⟨c3, a, List.mem_cons_self _ _, c1, c2⟩, by rw [c4]; rfl⟩
    · rw [c3, ok_bind]
      rcases ih st2 hrest c4 with ⟨⟨d1, b, hb, d2⟩, d3⟩ | ⟨d1, d2⟩
      · exact Or.inl ⟨⟨d1, b, List.mem_cons_of_mem _ hb, d2⟩, d3⟩
      · refine Or.inr ⟨?_, d2⟩
        rintro ⟨e1, b, hb, e2⟩
        rcases List.mem_cons.mp hb with rfl | hb
        · exact c2 ⟨e2.2, e1⟩
        · exact d1 ⟨e1, b, hb, e2⟩

/-- The build of a contracted problem, on a well-formed super graph and
indicator arrays that cover its nodes: the node map is built, and the build
ends in the exit of `copyArcNew` / `copyArcAdd` exactly when the rounding flag
is 0 and a kept arc has negative capacity; otherwise it returns. -/
theorem initializeContractedProblem_spec (g : Super) (lam : ℚ) (low high : List Int)
    (hg : SuperOK g) (hlow : g.numNodesSuper ≤ low.length)
    (hhigh : g.numNodesSuper ≤ high.length) :
    ∃ r, buildNodeMap g low high (List.range g.numNodesSuper) ([], 0, 0, 2) = .ok r
      ∧ ((g.roundNegativeCapacity = 0
          ∧ ∃ a ∈ g.arcListSuper.take g.numArcsSuper,
              keptArc r.1 a ∧ a.multiplier * lam + a.constant < 0)
        ∧ initializeContractedProblem g lam low high = .error (.negativeCapacity lam)
        ∨ ¬ (g.roundNegativeCapacity = 0
          ∧ ∃ a ∈ g.arcListSuper.take g.numArcsSuper,
              keptArc r.1 a ∧ a.multiplier * lam + a.constant < 0)
        ∧ ∃ p, initializeContractedProblem g lam low high = .ok p) := by
  obtain ⟨r, hr, hrok, hrlen⟩ := buildNodeMap_ok g low high (List.range g.numNodesSuper)
    ([], 0, 0, 2)
    (fun i hi => by have := List.mem_range.mp hi; exact ⟨by omega, by omega⟩)
    ⟨by simp, by simp, by simp, by simp⟩
  obtain ⟨nodeMap, nSrc, nSnk, nList⟩ := r
  obtain ⟨k1, k2, k3, k4⟩ := hrok
  simp only at k1 k2 k3 k4
  simp only [List.length_nil, List.length_range, Nat.zero_add] at hrlen
  refine ⟨_, hr, ?_⟩
  have hnm : ∀ i < g.numNodesSuper, ∃ e, nodeMap[i]? = some e ∧ e < nList := by
    intro i hi
    have hi' : i < nodeMap.length := by omega
    exact ⟨nodeMap[i], List.getElem?_eq_getElem hi', k4 _ (List.getElem_mem hi')⟩
  have hlenNodes : g.numNodesSuper ≤ g.nodeListSuper.length := by
    by_contra hc
    have hpos : g.nodeListSuper.length < g.numNodesSuper := by omega
    obtain ⟨nd, hnd, -⟩ := hg.node hpos
    have := List.getElem?_eq_none (l := g.nodeListSuper) (le_refl _)
    rw [this] at hnd
    cases hnd
  obtain ⟨n1, hn1, hl1⟩ := setOriginalIndex_ok ((List.range nList).map initializeNode)
    (i := 0) (by simp; omega) (-1)
  obtain ⟨n2, hn2, hl2⟩ := setOriginalIndex_ok n1 (i := 1) (by rw [hl1]; simp; omega) (-2)
  obtain ⟨fr, hfr, hf1, hf2, hf3⟩ := fillOriginalIndex_ok g.nodeListSuper nodeMap
    g.numNodesSuper 0 n2 ((List.range nSrc).map initializeNode)
    ((List.range nSnk).map initializeNode) 0 0 (by omega) (by omega)
    (by intro e he; rw [hl2, hl1]; simpa using k4 e he)
    (by simp [k1]) (by simp [k2])
  obtain ⟨nodeList, sourceSet, sinkSet, c1, c2⟩ := fr
  simp only at hf1 hf2 hf3
  rw [← List.range_eq_range'] at hfr
  have harcs : ∀ a ∈ g.arcListSuper.take g.numArcsSuper,
      a.from_ < g.numNodesSuper ∧ a.to_ < g.numNodesSuper :=
    fun a ha => hg.2 a (List.mem_of_mem_take ha)
  have hscr : ScratchOK nList lam
      { problem :=
          { numNodesInList := nList, numSourceSet := nSrc, numSinkSet := nSnk, numArcs := 0,
            solved := 0, lambdaValue := lam, arcList := [], nodeList := nodeList,
            cutValue := 0, sourceSet := sourceSet, sinkSet := sinkSet,
            optimalSourceSetIndicator := none },
        sourceAdjacentArcIndices := List.replicate nList (-1),
        sinkAdjacentArcIndices := List.replicate nList (-1),
        currentArc := 0 } := by
    refine ⟨by simp only; rw [hf1, hl2, hl1]; simp, by simp, by simp, rfl, rfl, ?_, ?_⟩
    · intro idx hidx; exact Or.inl (List.eq_of_mem_replicate hidx)
    · intro idx hidx; exact Or.inl (List.eq_of_mem_replicate hidx)
  rcases contractFold_spec hg hnm _ _ harcs hscr with ⟨d1, d2⟩ | ⟨d1, st2, d2, -⟩
  · left
    refine ⟨d1, ?_⟩
    simp only [initializeContractedProblem, hr, ok_bind, hn1, hn2, hfr, d2]
    rfl
  · right
    refine ⟨d1, { st2.problem with numArcs := st2.currentArc }, ?_⟩
    simp only [initializeContractedProblem, hr, ok_bind, hn1, hn2, hfr, d2]

/-! ## The scenarios, evaluated -/

theorem S2_read : readGraphSuper 3 2 0 2 [0, 1, 0, 1, 1, 2, 10, 0] 0 20 0
    = .ok (S2 0, [0, 20, 20]) := by decide!

theorem S2_sorted : ({ S2 0 with arcListSuper := qsort (S2 0).arcListSuper } : Super) = S2 0 := by
  decide!

theorem S2_low : (initializeContractedProblem (S2 0) (S2 0).LAMBDA_LOW
      (List.replicate (S2 0).numNodesSuper 0) (List.replicate (S2 0).numNodesSuper 1)
    >>= fun p => (solveProblem 8 (S2 0) p 0).map (fun r => r.1.optimalSourceSetIndicator))
    = .ok (some [1, 0, 0]) := by decide!

theorem S2_high : (initializeContractedProblem (S2 0) (S2 0).LAMBDA_HIGH
      (List.replicate (S2 0).numNodesSuper 0) (List.replicate (S2 0).numNodesSuper 1)
    >>= fun p => (solveProblem 8 (S2 0) p 0).map (fun r => r.1.optimalSourceSetIndicator))
    = .ok (some [1, 1, 0]) := by decide!

theorem S2_diff : differenceSourceSets (S2 0) [1, 0, 0] [1, 1, 0] = .ok [0, 1, 0] := by decide!

theorem S2_Klow : internalCutCapacity (S2 0) [1, 0, 0]
    ((S2 0).arcListSuper.take (S2 0).numArcsSuper) 0 = .ok 0 := by decide!

theorem S2_Khigh : internalCutCapacity (S2 0) [1, 1, 0]
    ((S2 0).arcListSuper.take (S2 0).numArcsSuper) 0 = .ok 10 := by decide!

theorem S2_intersect : computeIntersect (S2 0) [0, 1, 0] (0 - 10) = .ok 20 := by decide!

theorem S2_min : (initializeContractedProblem (S2 0) (math_max (20 - TOL) (S2 0).LAMBDA_LOW)
      [1, 0, 0] [1, 1, 0]
    >>= fun p => (solveProblem 8 (S2 0) p 0).map (fun r => r.1.optimalSourceSetIndicator))
    = .ok (some [1, 1, 0]) := by decide!

theorem S3_read : readGraphSuper 4 4 0 3 [0, 1, 1, 1, 0, 2, 2, 1 / 2, 1, 3, 5, 0, 2, 3, 3, 0] 0 10 0
    = .ok (S3, [0, 10, 10, 10]) := by decide!

theorem S3_sorted : ({ S3 with arcListSuper := qsort S3.arcListSuper } : Super) = S3 := by
  decide!

theorem S3_low : (initializeContractedProblem S3 S3.LAMBDA_LOW
      (List.replicate S3.numNodesSuper 0) (List.replicate S3.numNodesSuper 1)
    >>= fun p => (solveProblem 8 S3 p 0).map (fun r => r.1.optimalSourceSetIndicator))
    = .ok (some [1, 0, 0, 0]) := by decide!

theorem S3_high : (initializeContractedProblem S3 S3.LAMBDA_HIGH
      (List.replicate S3.numNodesSuper 0) (List.replicate S3.numNodesSuper 1)
    >>= fun p => (solveProblem 8 S3 p 0).map (fun r => r.1.optimalSourceSetIndicator))
    = .ok (some [1, 1, 1, 0]) := by decide!

theorem S3_diff : differenceSourceSets S3 [1, 0, 0, 0] [1, 1, 1, 0] = .ok [0, 1, 1, 0] := by
  decide!

theorem S3_Klow : internalCutCapacity S3 [1, 0, 0, 0]
    (S3.arcListSuper.take S3.numArcsSuper) 0 = .ok 0 := by decide!

theorem S3_Khigh : internalCutCapacity S3 [1, 1, 1, 0]
    (S3.arcListSuper.take S3.numArcsSuper) 0 = .ok 8 := by decide!

theorem S3_intersect : computeIntersect S3 [0, 1, 1, 0] (0 - 8) = .ok (26 / 3) := by decide!

theorem S3_min : (initializeContractedProblem S3 (math_max (26 / 3 - TOL) S3.LAMBDA_LOW)
      [1, 0, 0, 0] [1, 1, 1, 0]
    >>= fun p => (solveProblem 8 S3 p 0).map (fun r => r.1.optimalSourceSetIndicator))
    = .ok (some [1, 1, 1, 0]) := by decide!

theorem fallingPath_read : readGraphSuper 3 2 0 2 [0, 1, 0, 1, 1, 2, 10, -2] 0 5 0
    = .ok (fallingPath 2 5 0, [0, 5, 5]) := by decide!

theorem fallingPath_sorted :
    ({ fallingPath 2 5 0 with arcListSuper := qsort (fallingPath 2 5 0).arcListSuper } : Super)
      = fallingPath 2 5 0 := by
  decide!

theorem fallingPath_low : (initializeContractedProblem (fallingPath 2 5 0)
      (fallingPath 2 5 0).LAMBDA_LOW
      (List.replicate (fallingPath 2 5 0).numNodesSuper 0)
      (List.replicate (fallingPath 2 5 0).numNodesSuper 1)
    >>= fun p => (solveProblem 8 (fallingPath 2 5 0) p 0).map
      (fun r => r.1.optimalSourceSetIndicator))
    = .ok (some [1, 0, 0]) := by decide!

theorem fallingPath_high : (initializeContractedProblem (fallingPath 2 5 0)
      (fallingPath 2 5 0).LAMBDA_HIGH
      (List.replicate (fallingPath 2 5 0).numNodesSuper 0)
      (List.replicate (fallingPath 2 5 0).numNodesSuper 1)
    >>= fun p => (solveProblem 8 (fallingPath 2 5 0) p 0).map
      (fun r => r.1.optimalSourceSetIndicator))
    = .ok (some [1, 1, 0]) := by decide!

theorem fallingPath_diff :
    differenceSourceSets (fallingPath 2 5 0) [1, 0, 0] [1, 1, 0] = .ok [0, 1, 0] := by decide!

theorem fallingPath_Klow : internalCutCapacity (fallingPath 2 5 0) [1, 0, 0]
    ((fallingPath 2 5 0).arcListSuper.take (fallingPath 2 5 0).numArcsSuper) 0 = .ok 0 := by
  decide!

theorem fallingPath_Khigh : internalCutCapacity (fallingPath 2 5 0) [1, 1, 0]
    ((fallingPath 2 5 0).arcListSuper.take (fallingPath 2 5 0).numArcsSuper) 0 = .ok 10 := by
  decide!

theorem fallingPath_intersect :
    computeIntersect (fallingPath 2 5 0) [0, 1, 0] (0 - 10) = .ok (20 / 3) := by decide!

theorem fallingPath_min : initializeContractedProblem (fallingPath 2 5 0)
      (math_max (20 / 3 - TOL) (fallingPath 2 5 0).LAMBDA_LOW) [1, 0, 0] [1, 1, 0]
    = .error (.negativeCapacity (199999997 / 30000000)) := by decide!

theorem fallingPath_run : hpf_solve 8 8 3 2 0 2 [0, 1, 0, 1, 1, 2, 10, -2] 0 5 0
    = .error (.negativeCapacity (199999997 / 30000000)) := by decide!

/-! ## The driver: more fuel and more depth never change a result -/

theorem parametricCut_mono {f1 f2 : Nat} (hf : f1 ≤ f2) (g : Super) {n m : Nat} (hnm : n ≤ m) :
    ∀ gl low high, Le (parametricCut f1 g n gl low high) (parametricCut f2 g m gl low high) := by
  induction n generalizing m with
  | zero => intros; exact Le.error _ _
  | succ n ih =>
    obtain ⟨m, rfl⟩ : ∃ k, m = k + 1 := ⟨m - 1, by omega⟩
    intro gl low high
    simp only [parametricCut]
    repeat' first
      | with_reducible exact Le.refl _
      | exact solveProblem_mono hf _ _ _
      | exact ih (by omega) _ _ _
      | apply Le.bind
      | apply Le.ite
      | intro _

theorem hpf_solve_mono {f1 f2 : Nat} (hf : f1 ≤ f2) {d1 d2 : Nat} (hd : d1 ≤ d2)
    (numNodesIn numArcsIn sourceIn sinkIn : Nat) (arcMatrix : List ℚ)
    (lambdaLow lambdaHigh : ℚ) (round : Int) :
    Le (hpf_solve f1 d1 numNodesIn numArcsIn sourceIn sinkIn arcMatrix lambdaLow lambdaHigh round)
      (hpf_solve f2 d2 numNodesIn numArcsIn sourceIn sinkIn arcMatrix lambdaLow lambdaHigh
        round) := by
  simp only [hpf_solve]
  repeat' first
    | with_reducible exact Le.refl _
    | exact solveProblem_mono hf _ _ _
    | exact parametricCut_mono hf _ hd _ _ _
    | apply Le.bind
    | apply Le.ite
    | intro _

/-! ## The recursion at a fixed point runs into every depth bound -/

theorem bind_map_ok {α β γ : Type} {x : Except Err α} {f : α → Except Err β} {k : β → γ} {v : γ}
    (h : (x >>= fun p => (f p).map k) = .ok v) :
    ∃ p r, x = .ok p ∧ f p = .ok r ∧ k r = v := by
  obtain ⟨p, hp, h⟩ := bind_eq_ok.mp h
  obtain ⟨r, hr, hv⟩ := map_eq_ok h
  exact ⟨p, r, hp, hr, hv⟩

theorem parametricCut_outOfFuel_of_fixpoint {g : Super} {indL indH diff diff2 : List Int}
    {Klow Khigh lam : ℚ} {fuel : Nat}
    (hdiff : differenceSourceSets g indL indH = .ok diff)
    (hsum : 0 < sum_array_char diff g.numNodesSuper)
    (hKl : internalCutCapacity g indL (g.arcListSuper.take g.numArcsSuper) 0 = .ok Klow)
    (hKh : internalCutCapacity g indH (g.arcListSuper.take g.numArcsSuper) 0 = .ok Khigh)
    (hlam : computeIntersect g diff (Klow - Khigh) = .ok lam)
    (hmin : (initializeContractedProblem g (math_max (lam - TOL) g.LAMBDA_LOW) indL indH
      >>= fun p => (solveProblem fuel g p 0).map (fun r => r.1.optimalSourceSetIndicator))
      = .ok (some indH))
    (hmax : (initializeContractedProblem g (math_min (lam + TOL) g.LAMBDA_HIGH) indH indH
      >>= fun p => (solveProblem fuel g p 0).map (fun r => r.1.optimalSourceSetIndicator))
      = .ok (some indH))
    (hdiff2 : differenceSourceSets g indH indH = .ok diff2)
    (hsum2 : ¬ 0 < sum_array_char diff2 g.numNodesSuper) :
    ∀ depth gl low high, low.optimalSourceSetIndicator = some indL →
      high.optimalSourceSetIndicator = some indH →
      parametricCut fuel g depth gl low high = .error .outOfFuel := by
  obtain ⟨pmin, ⟨rmin, smin⟩, hpmin, hrmin, himin⟩ := bind_map_ok hmin
  obtain ⟨pmax, ⟨rmax, smax⟩, hpmax, hrmax, himax⟩ := bind_map_ok hmax
  simp only at himin himax
  intro depth
  induction depth with
  | zero => intros; rfl
  | succ depth ih =>
    intro gl low high hl hh
    rw [parametricCut]
    simp only [hl, hh, deref, ok_bind, hdiff, gt_iff_lt, hsum, if_true, hKl, hKh, hlam, hpmin,
      hrmin, himin, hpmax, hrmax, himax, hdiff2, hsum2, if_false]
    simp only [pure, Except.pure, ok_bind, ih _ _ _ hl himin]
    rfl

theorem hpf_solve_outOfFuel_of_fixpoint {numNodesIn numArcsIn sourceIn sinkIn : Nat}
    {arcMatrix : List ℚ} {lambdaLow lambdaHigh : ℚ} {round : Int}
    {g0 g : Super} {nb : List ℚ} {indL indH diff diff2 : List Int}
    {Klow Khigh lam : ℚ} {fuel : Nat}
    (hread : readGraphSuper numNodesIn numArcsIn sourceIn sinkIn arcMatrix lambdaLow lambdaHigh
      round = .ok (g0, nb))
    (hsort : ({ g0 with arcListSuper := qsort g0.arcListSuper } : Super) = g)
    (hpar : g.useParametricCut = 1)
    (hlow : (initializeContractedProblem g g.LAMBDA_LOW
        (List.replicate g.numNodesSuper 0) (List.replicate g.numNodesSuper 1)
      >>= fun p => (solveProblem fuel g p 0).map (fun r => r.1.optimalSourceSetIndicator))
      = .ok (some indL))
    (hhigh : (initializeContractedProblem g g.LAMBDA_HIGH
        (List.replicate g.numNodesSuper 0) (List.replicate g.numNodesSuper 1)
      >>= fun p => (solveProblem fuel g p 0).map (fun r => r.1.optimalSourceSetIndicator))
      = .ok (some indH))
    (hdiff : differenceSourceSets g indL indH = .ok diff)
    (hsum : 0 < sum_array_char diff g.numNodesSuper)
    (hKl : internalCutCapacity g indL (g.arcListSuper.take g.numArcsSuper) 0 = .ok Klow)
    (hKh : internalCutCapacity g indH (g.arcListSuper.take g.numArcsSuper) 0 = .ok Khigh)
    (hlam : computeIntersect g diff (Klow - Khigh) = .ok lam)
    (hmin : (initializeContractedProblem g (math_max (lam - TOL) g.LAMBDA_LOW) indL indH
      >>= fun p => (solveProblem fuel g p 0).map (fun r => r.1.optimalSourceSetIndicator))
      = .ok (some indH))
    (hmax : (initializeContractedProblem g (math_min (lam + TOL) g.LAMBDA_HIGH) indH indH
      >>= fun p => (solveProblem fuel g p 0).map (fun r => r.1.optimalSourceSetIndicator))
      = .ok (some indH))
    (hdiff2 : differenceSourceSets g indH indH = .ok diff2)
    (hsum2 : ¬ 0 < sum_array_char diff2 g.numNodesSuper) (depth : Nat) :
    hpf_solve fuel depth numNodesIn numArcsIn sourceIn sinkIn arcMatrix lambdaLow lambdaHigh round
      = .error .outOfFuel := by
  subst hsort
  have hpar2 : g0.useParametricCut = 1 := hpar
  obtain ⟨plow, ⟨rlow, slow⟩, hplow, hrlow, hilow⟩ := bind_map_ok hlow
  obtain ⟨phigh, ⟨rhigh, shigh⟩, hphigh, hrhigh, hihigh⟩ := bind_map_ok hhigh
  simp only at hilow hihigh hplow hphigh
  rw [hpf_solve]
  simp only [hread, ok_bind, hplow]
  rw [if_pos hpar2]
  simp only [hphigh, ok_bind, hrlow, hrhigh]
  rw [parametricCut_outOfFuel_of_fixpoint hdiff hsum hKl hKh hlam hmin hmax hdiff2 hsum2 depth _
    _ _ hilow hihigh]
  rfl

/-! ## A call that ends while the two first problems are built -/

theorem hpf_solve_error_of_build {numNodesIn numArcsIn sourceIn sinkIn : Nat}
    {arcMatrix : List ℚ} {lambdaLow lambdaHigh : ℚ} {round : Int}
    {g0 g : Super} {nb : List ℚ} {e : Err}
    (hread : readGraphSuper numNodesIn numArcsIn sourceIn sinkIn arcMatrix lambdaLow lambdaHigh
      round = .ok (g0, nb))
    (hsort : ({ g0 with arcListSuper := qsort g0.arcListSuper } : Super) = g)
    (hpar : g.useParametricCut = 1)
    (hbuild : (initializeContractedProblem g g.LAMBDA_LOW
        (List.replicate g.numNodesSuper 0) (List.replicate g.numNodesSuper 1)
      >>= fun _ => initializeContractedProblem g g.LAMBDA_HIGH
        (List.replicate g.numNodesSuper 0) (List.replicate g.numNodesSuper 1)) = .error e)
    (fuel depth : Nat) :
    hpf_solve fuel depth numNodesIn numArcsIn sourceIn sinkIn arcMatrix lambdaLow lambdaHigh round
      = .error e := by
  subst hsort
  have hpar2 : g0.useParametricCut = 1 := hpar
  rw [hpf_solve]
  simp only [hread, ok_bind]
  simp only at hbuild
  cases hl : initializeContractedProblem
      { g0 with arcListSuper := qsort g0.arcListSuper } g0.LAMBDA_LOW
      (List.replicate g0.numNodesSuper 0) (List.replicate g0.numNodesSuper 1) with
  | error e1 =>
    rw [hl] at hbuild
    have he : (Except.error e1 : Except Err CutProblem) = .error e := hbuild
    cases he
    rfl
  | ok p =>
    rw [hl, ok_bind] at hbuild
    rw [ok_bind, if_pos hpar2, hbuild]
    rfl

/-! ## More scenarios, evaluated -/

theorem S2_max : (initializeContractedProblem (S2 0) (math_min (20 + TOL) (S2 0).LAMBDA_HIGH)
      [1, 1, 0] [1, 1, 0]
    >>= fun p => (solveProblem 8 (S2 0) p 0).map (fun r => r.1.optimalSourceSetIndicator))
    = .ok (some [1, 1, 0]) := by decide!

theorem S2_diff2 : differenceSourceSets (S2 0) [1, 1, 0] [1, 1, 0] = .ok [0, 0, 0] := by decide!

theorem S3_max : (initializeContractedProblem S3 (math_min (26 / 3 + TOL) S3.LAMBDA_HIGH)
      [1, 1, 1, 0] [1, 1, 1, 0]
    >>= fun p => (solveProblem 8 S3 p 0).map (fun r => r.1.optimalSourceSetIndicator))
    = .ok (some [1, 1, 1, 0]) := by decide!

theorem S3_diff2 : differenceSourceSets S3 [1, 1, 1, 0] [1, 1, 1, 0] = .ok [0, 0, 0, 0] := by
  decide!

theorem S2_run_rounding : hpf_solve 8 8 3 2 0 2 [0, 1, 0, 1, 1, 2, 10, 0] 0 20 1
    = .ok { numBreakpoints := 2, cuts := [0, 20, 20], breakpoints := [10, 20],
            stats := [0, 0, 0, 0, 2] } := by decide!

theorem S4_run : hpf_solve 8 8 3 1 0 2 [1, 2, 1, -1] 0 5 1
    = .ok { numBreakpoints := 1, cuts := [0, 5, 5], breakpoints := [5],
            stats := [0, 0, 0, 0, 0] } := by decide!

theorem S5_read : readGraphSuper 3 1 0 2 [1, 2, 1, -1] 0 5 0 = .ok (S4 0, [0, 5, 5]) := by
  decide!

theorem S5_sorted : ({ S4 0 with arcListSuper := qsort (S4 0).arcListSuper } : Super) = S4 0 := by
  decide!

theorem S5_build : (initializeContractedProblem (S4 0) (S4 0).LAMBDA_LOW
      (List.replicate (S4 0).numNodesSuper 0) (List.replicate (S4 0).numNodesSuper 1)
    >>= fun _ => initializeContractedProblem (S4 0) (S4 0).LAMBDA_HIGH
      (List.replicate (S4 0).numNodesSuper 0) (List.replicate (S4 0).numNodesSuper 1))
    = .error (.negativeCapacity 5) := by decide!

theorem threePaths_read : readGraphSuper 5 6 0 4
    [0, 1, 0, 1, 0, 2, 0, 1, 0, 3, 0, 1, 1, 4, 1, 0, 2, 4, 2, 0, 3, 4, 3, 0] 0 10 1
    = .ok (threePaths, [0, 10, 10, 10, 10]) := by decide!

theorem threePaths_run : hpf_solve 8 8 5 6 0 4
    [0, 1, 0, 1, 0, 2, 0, 1, 0, 3, 0, 1, 1, 4, 1, 0, 2, 4, 2, 0, 3, 4, 3, 0] 0 10 1
    = .ok { numBreakpoints := 4, cuts := [0, 2, 3, 10, 10], breakpoints := [2, 1, 3, 10],
            stats := [0, 0, 0, 2, 7] } := by decide!

/-! ## Properties of the driver -/

/-- Where the defect of `computeIntersect` does not show: with
`round_negative_capacity` set, for a nested pair
`S_low ⊆ S_high` of indicator arrays with the super source in `S_low` and the
super sink outside `S_high`, on a graph whose arcs between inner nodes have
multiplier 0 and whose arcs from `S_high - S_low` into the super sink have
multiplier 0, the value `lambda*` that `computeIntersect` returns for
`S_high - S_low` and `internalCutCapacity(S_low) - internalCutCapacity(S_high)`
satisfies `C_low(lambda*) = C_high(lambda*)`. -/
theorem computeIntersect_crossing (g : Super) (low high diff : List Int) (Klow Khigh lam : ℚ)
    (hg : SuperOK g)
    (hlow : IsIndicator g.numNodesSuper low) (hhigh : IsIndicator g.numNodesSuper high)
    (hnest : ∀ i < g.numNodesSuper, low[i]? = some 1 → high[i]? = some 1)
    (hsrc : low[g.sourceSuper]? = some 1) (hsnk : high[g.sinkSuper]? = some 0)
    (hsign : ∀ a ∈ g.arcListSuper, a.from_ ≠ g.sourceSuper → a.to_ ≠ g.sinkSuper →
      a.multiplier = 0)
    (hskip : ∀ a ∈ g.arcListSuper, a.to_ = g.sinkSuper → high[a.from_]? = some 1 →
      low[a.from_]? = some 0 → a.multiplier = 0)
    (hround : g.roundNegativeCapacity ≠ 0)
    (hdiff : differenceSourceSets g low high = .ok diff)
    (hKl : internalCutCapacity g low (g.arcListSuper.take g.numArcsSuper) 0 = .ok Klow)
    (hKh : internalCutCapacity g high (g.arcListSuper.take g.numArcsSuper) 0 = .ok Khigh)
    (hlam : computeIntersect g diff (Klow - Khigh) = .ok lam) :
    cutLine g low lam = cutLine g high lam := by
  have hD := fun i hi => differenceSourceSets_get hdiff (i := i) hi
  have hD' : ∀ i : Nat, i < g.numNodesSuper → ∃ d, diff[i]? = some d := by
    intro i hi
    obtain ⟨l, h, -, -, e⟩ := hD i hi
    exact ⟨_, e⟩
  have hmem : ∀ a ∈ g.arcListSuper.take g.numArcsSuper, a ∈ g.arcListSuper :=
    fun a ha => List.mem_of_mem_take ha
  have harcs : ∀ a ∈ g.arcListSuper.take g.numArcsSuper,
      a.from_ < g.numNodesSuper ∧ a.to_ < g.numNodesSuper := fun a ha => hg.2 a (hmem a ha)
  rw [internalCutCapacity_sum hg hlow _ harcs] at hKl
  rw [internalCutCapacity_sum hg hhigh _ harcs] at hKh
  rw [computeIntersect, intersectLoop_sum hg hD' _ harcs] at hlam
  simp only [ok_bind] at hlam
  have hKl' := Except.ok.inj hKl
  have hKh' := Except.ok.inj hKh
  split at hlam
  · cases hlam
  · rename_i hm
    have hlam' := Except.ok.inj hlam
    have key : cutLine g low lam - cutLine g high lam = 0 := by
      unfold cutLine
      rw [sum_map_sub]
      have := sum_map_congr (g.arcListSuper.take g.numArcsSuper) _ _ (fun a ha =>
        lineTerm_sub hlow hhigh hnest hD hsrc hsnk hround lam (harcs a ha)
          (hsign a (hmem a ha)) (hskip a (hmem a ha)))
      simp only [lineTerm] at this
      rw [this, sum_map_split]
      rw [zero_add] at hKl' hKh' hm hlam'
      rw [hKl', hKh', ← hlam']
      generalize (List.map (fun a => (intersectTerm g diff a).1)
        (List.take g.numArcsSuper g.arcListSuper)).sum = A at *
      generalize (List.map (fun a => (intersectTerm g diff a).2)
        (List.take g.numArcsSuper g.arcListSuper)).sum = M at *
      have hM : M ≠ 0 := hm
      have e : M * ((Klow - Khigh + A) / -M) = -(Klow - Khigh + A) := by
        rw [div_neg, mul_neg, mul_div_assoc', mul_comm M, mul_div_assoc, div_self hM, mul_one]
      linarith
    linarith

/-- An instance with the rounding flag where the crossing is found: scenario S2 with the flag
set, `S_low = {0}` and `S_high = {0, 1}`, where `lambda* = 10`. -/
theorem computeIntersect_crossing_witness :
    computeIntersect (S2 1) [0, 1, 0] (0 - 10) = .ok 10
      ∧ cutLine (S2 1) [1, 0, 0] 10 = cutLine (S2 1) [1, 1, 0] 10 :=
  ⟨by decide!,
    computeIntersect_crossing (S2 1) [1, 0, 0] [1, 1, 0] [0, 1, 0] 0 10 10 (by decide!)
      (by decide!) (by decide!) (by decide!) (by decide!) (by decide!) (by decide!) (by decide!)
      (by decide!) (by decide!) (by decide!) (by decide!) (by decide!)⟩

/-- C5: the value that `computeIntersect` returns is not the crossing point,
for either value of the flag: `internalCutCapacity` counts the arcs into the
super sink, and `computeIntersect` subtracts their constants a second time
with the flag at 0 and leaves out their multipliers with the flag set.  With
the flag set, on the valid input with arcs (0,1) of capacity
`lambda` and (1,2) of capacity `10 - lambda` on [0, 10], the cuts at the two
ends of the range are `{0}` and `{0, 1}`, `computeIntersect` returns 10, and
there the two cut functions are 10 and 0; they cross at 5.  With the flag at
0, on scenario S2, it returns 20, where the two cut functions are 20 and 10. -/
theorem computeIntersect_misses_crossing :
    ValidInput (fallingPath 1 10 1)
    ∧ (initializeContractedProblem (fallingPath 1 10 1) 0 (List.replicate 3 0)
          (List.replicate 3 1)
        >>= fun p => (solveProblem 8 (fallingPath 1 10 1) p 0).map
          (fun r => r.1.optimalSourceSetIndicator)) = .ok (some [1, 0, 0])
    ∧ (initializeContractedProblem (fallingPath 1 10 1) 10 (List.replicate 3 0)
          (List.replicate 3 1)
        >>= fun p => (solveProblem 8 (fallingPath 1 10 1) p 0).map
          (fun r => r.1.optimalSourceSetIndicator)) = .ok (some [1, 1, 0])
    ∧ differenceSourceSets (fallingPath 1 10 1) [1, 0, 0] [1, 1, 0] = .ok [0, 1, 0]
    ∧ internalCutCapacity (fallingPath 1 10 1) [1, 0, 0]
        ((fallingPath 1 10 1).arcListSuper.take 2) 0 = .ok 0
    ∧ internalCutCapacity (fallingPath 1 10 1) [1, 1, 0]
        ((fallingPath 1 10 1).arcListSuper.take 2) 0 = .ok 10
    ∧ computeIntersect (fallingPath 1 10 1) [0, 1, 0] (0 - 10) = .ok 10
    ∧ cutLine (fallingPath 1 10 1) [1, 0, 0] 10 = 10
    ∧ cutLine (fallingPath 1 10 1) [1, 1, 0] 10 = 0
    ∧ cutLine (fallingPath 1 10 1) [1, 0, 0] 5 = cutLine (fallingPath 1 10 1) [1, 1, 0] 5
    ∧ ValidInput (S2 0)
    ∧ computeIntersect (S2 0) [0, 1, 0] (0 - 10) = .ok 20
    ∧ cutLine (S2 0) [1, 0, 0] 20 = 20
    ∧ cutLine (S2 0) [1, 1, 0] 20 = 10 := by
  refine ⟨by decide!, by decide!, by decide!, by decide!, by decide!, by decide!, by decide!,
    by decide!, by decide!, by decide!, by decide!, by decide!, by decide!, by decide!⟩

/-- C6: on scenario S3 with range [0, 10] and `round_negative_capacity = 0`,
a valid input, the recursion of `parametricCut` that `hpf_solve` starts never
ends.  The cuts at the two ends are `{0}` and `{0, 1, 2}`; `computeIntersect`
returns 26/3, the cut just below it is again `{0, 1, 2}`, and the first
recursive call gets the pair it came from.  So no loop bound and no depth
bound lets `hpf_solve` return, and with the engine bound 8, which every
engine run here stays under, the run is cut off at every depth bound. -/
theorem parametricCut_recursion_unbounded :
    ValidInput S3
    ∧ (∀ (fuel depth : Nat) (out : Output),
        hpf_solve fuel depth 4 4 0 3 [0, 1, 1, 1, 0, 2, 2, 1 / 2, 1, 3, 5, 0, 2, 3, 3, 0] 0 10 0
          ≠ .ok out)
    ∧ (∀ depth : Nat,
        hpf_solve 8 depth 4 4 0 3 [0, 1, 1, 1, 0, 2, 2, 1 / 2, 1, 3, 5, 0, 2, 3, 3, 0] 0 10 0
          = .error .outOfFuel) :=
  ⟨by decide!,
    fun fuel depth out => hpf_solve_never_ok_of_fixpoint S3_read S3_sorted (by decide!)
      S3_low S3_high S3_diff (by decide!) S3_Klow S3_Khigh S3_intersect
      (fun _ _ _ hp hr => solve_indicator_eq S3_min hp hr) fuel depth out,
    fun depth => hpf_solve_outOfFuel_of_fixpoint S3_read S3_sorted (by decide!)
      S3_low S3_high S3_diff (by decide!) S3_Klow S3_Khigh S3_intersect S3_min S3_max S3_diff2
      (by decide!) depth⟩

/-- C7: on the valid input with three paths source - i - sink, i = 1, 2, 3,
source arcs of capacity `lambda`, sink arcs of capacity 1, 2, 3, range
[0, 10], `hpf_solve` returns, for every loop bound and depth bound from 8 on,
4 breakpoints in the order 2, 1, 3, 10: the breakpoint of a pair is appended
before the recursive calls on its two halves, so the array is not
increasing. -/
theorem breakpoints_not_increasing :
    ValidInput threePaths
    ∧ (∀ fuel depth : Nat, (hpf_solve (8 + fuel) (8 + depth) 5 6 0 4
        [0, 1, 0, 1, 0, 2, 0, 1, 0, 3, 0, 1, 1, 4, 1, 0, 2, 4, 2, 0, 3, 4, 3, 0] 0 10 1).map
          (fun out => (out.numBreakpoints, out.breakpoints)) = .ok (4, [2, 1, 3, 10]))
    ∧ ¬ List.Chain' (· < ·) ([2, 1, 3, 10] : List ℚ) := by
  refine ⟨by decide!, fun fuel depth => ?_, by norm_num⟩
  rw [hpf_solve_mono (Nat.le_add_right 8 fuel) (Nat.le_add_right 8 depth) _ _ _ _ _ _ _ _ _
    threePaths_run]
  rfl

/-- C8: on the valid input with arcs (0,1) of capacity `lambda` and (1,2) of
capacity `10 - 2 * lambda`, range [0, 5], `round_negative_capacity = 0`, every
capacity is non-negative on the range, yet `hpf_solve` reaches the
negative-capacity exit: `computeIntersect` returns 20/3, outside the range, and
the problem built at `20/3 - TOL` has the capacity `10 - 2 * lambda < 0`.  The
call returns for no loop bound and no depth bound. -/
theorem abort_on_valid_input :
    ValidInput (fallingPath 2 5 0)
    ∧ hpf_solve 8 8 3 2 0 2 [0, 1, 0, 1, 1, 2, 10, -2] 0 5 0
        = .error (.negativeCapacity (199999997 / 30000000))
    ∧ (∀ (fuel depth : Nat) (out : Output),
        hpf_solve fuel depth 3 2 0 2 [0, 1, 0, 1, 1, 2, 10, -2] 0 5 0 ≠ .ok out) :=
  ⟨by decide!, fallingPath_run,
    fun fuel depth out => hpf_solve_never_ok_of_fixpoint fallingPath_read fallingPath_sorted
      (by decide!) fallingPath_low fallingPath_high fallingPath_diff (by decide!)
      fallingPath_Klow fallingPath_Khigh fallingPath_intersect
      (fun p _ _ hp _ => by rw [fallingPath_min] at hp; cases hp) fuel depth out⟩

/-- C9: on a well-formed super graph, with indicator arrays that cover its
nodes, `initializeContractedProblem` at `lambda` ends in the negative-capacity
exit exactly when `round_negative_capacity = 0` and some super arc kept by the
contraction has `multiplier * lambda + constant < 0`, and returns otherwise;
with the flag set it returns, and a negative capacity counts as 0 in
`copyArcNew` and `copyArcAdd`.  On S4 / S5 `hpf_solve` returns with the flag
set, and with the flag at 0 it ends in the exit, for every loop and depth
bound, when the problem at `lambda = 5` is built. -/
theorem negative_capacity_abort_or_clamp (g : Super) (lam : ℚ) (low high : List Int)
    (hg : SuperOK g) (hlow : g.numNodesSuper ≤ low.length)
    (hhigh : g.numNodesSuper ≤ high.length) :
    (∃ r, buildNodeMap g low high (List.range g.numNodesSuper) ([], 0, 0, 2) = .ok r
      ∧ ((∃ e, initializeContractedProblem g lam low high = .error (.negativeCapacity e))
          ↔ (g.roundNegativeCapacity = 0
              ∧ ∃ a ∈ g.arcListSuper.take g.numArcsSuper,
                  keptArc r.1 a ∧ a.multiplier * lam + a.constant < 0))
      ∧ ((¬ ∃ e, initializeContractedProblem g lam low high = .error (.negativeCapacity e))
          → ∃ p, initializeContractedProblem g lam low high = .ok p))
    ∧ (g.roundNegativeCapacity ≠ 0 →
        (∃ p, initializeContractedProblem g lam low high = .ok p)
        ∧ (∀ capacity shown : ℚ, capacity < 0 → roundCapacity g capacity shown = .ok 0)
        ∧ (∀ (old new : Arc) (l : ℚ), old.multiplier * l + old.constant < 0 →
            copyArcAdd g old new l = .ok new)
        ∧ (∀ (p : CutProblem) (nodeMap : List Nat) (old : Arc) (l : ℚ) (r : Arc × List Node),
            old.multiplier * l + old.constant < 0 → copyArcNew g p nodeMap old l = .ok r →
            r.1.capacity = 0))
    ∧ (∀ fuel depth : Nat, (hpf_solve (8 + fuel) (8 + depth) 3 1 0 2 [1, 2, 1, -1] 0 5 1).map
        (fun out => (out.numBreakpoints, out.breakpoints, out.cuts)) = .ok (1, [5], [0, 5, 5]))
    ∧ (initializeContractedProblem (S4 0) 0 (List.replicate 3 0) (List.replicate 3 1)).toBool
        = true
    ∧ initializeContractedProblem (S4 0) 5 (List.replicate 3 0) (List.replicate 3 1)
        = .error (.negativeCapacity 5)
    ∧ (∀ fuel depth : Nat, hpf_solve fuel depth 3 1 0 2 [1, 2, 1, -1] 0 5 0
        = .error (.negativeCapacity 5)) := by
  obtain ⟨r, hr, hcases⟩ := initializeContractedProblem_spec g lam low high hg hlow hhigh
  refine ⟨⟨r, hr, ?_, ?_⟩, ?_, ?_, by decide!, by decide!, ?_⟩
  · rcases hcases with ⟨hc, he⟩ | ⟨hc, p, hp⟩
    · exact ⟨fun _ => hc, fun _ => ⟨_, he⟩⟩
    · refine ⟨fun ⟨e, he⟩ => ?_, fun h => absurd h hc⟩
      rw [hp] at he
      cases he
  · rcases hcases with ⟨-, he⟩ | ⟨-, p, hp⟩
    · exact fun h => absurd ⟨_, he⟩ h
    · exact fun _ => ⟨p, hp⟩
  · intro hround
    have hrc : ∀ capacity shown : ℚ, capacity < 0 → roundCapacity g capacity shown = .ok 0 := by
      intro capacity shown hneg
      simp [roundCapacity, hneg, hround]
    refine ⟨?_, hrc, ?_, ?_⟩
    · rcases hcases with ⟨hc, -⟩ | ⟨-, hp⟩
      · exact absurd hc.1 hround
      · exact hp
    · intro old new l hneg
      simp only [copyArcAdd, hrc _ _ hneg, ok_bind, add_zero]
    · intro p nodeMap old l r hneg h
      simp only [copyArcNew, hrc _ _ hneg, ok_bind] at h
      obtain ⟨f, -, h⟩ := bind_eq_ok.mp h
      obtain ⟨t, -, h⟩ := bind_eq_ok.mp h
      obtain ⟨nf, -, h⟩ := bind_eq_ok.mp h
      obtain ⟨nt, -, h⟩ := bind_eq_ok.mp h
      obtain ⟨l1, -, h⟩ := bind_eq_ok.mp h
      obtain ⟨l2, -, h⟩ := bind_eq_ok.mp h
      cases h
      rfl
  · intro fuel depth
    rw [hpf_solve_mono (Nat.le_add_right 8 fuel) (Nat.le_add_right 8 depth) _ _ _ _ _ _ _ _ _
      S4_run]
    rfl
  · exact fun fuel depth => hpf_solve_error_of_build S5_read S5_sorted (by decide!) S5_build
      fuel depth

/-- C9, an instance: scenario S5 at `lambda = 5`, from the all-zero and
all-one indicator arrays, where the one arc is kept and has capacity -4. -/
theorem negative_capacity_abort_or_clamp_witness :
    SuperOK (S4 0)
    ∧ ∃ r, buildNodeMap (S4 0) (List.replicate 3 0) (List.replicate 3 1)
          (List.range (S4 0).numNodesSuper) ([], 0, 0, 2) = .ok r
      ∧ ((∃ e, initializeContractedProblem (S4 0) 5 (List.replicate 3 0) (List.replicate 3 1)
            = .error (.negativeCapacity e))
          ↔ ((S4 0).roundNegativeCapacity = 0
              ∧ ∃ a ∈ (S4 0).arcListSuper.take (S4 0).numArcsSuper,
                  keptArc r.1 a ∧ a.multiplier * 5 + a.constant < 0))
      ∧ ((¬ ∃ e, initializeContractedProblem (S4 0) 5 (List.replicate 3 0)
            (List.replicate 3 1) = .error (.negativeCapacity e))
          → ∃ p, initializeContractedProblem (S4 0) 5 (List.replicate 3 0)
            (List.replicate 3 1) = .ok p) :=
  ⟨by decide!,
    (negative_capacity_abort_or_clamp (S4 0) 5 (List.replicate 3 0) (List.replicate 3 1)
      (by decide!) (by decide!) (by decide!)).1⟩

/-- C10: on scenario S2 with `round_negative_capacity = 0`, a valid input,
`hpf_solve` does not return 2 breakpoints [10, 20]: it returns nothing, for
any loop bound and depth bound.  `computeIntersect` gives 20 instead of 10
(the constant 10 of the arc into the sink is counted once in
`internalCutCapacity` and once more in `computeIntersect`), the cut just below
20 is `{0, 1}` again, and the recursion repeats on the same pair.  With the
flag set the sink arc is skipped in `computeIntersect` and the call returns
the breakpoints [10, 20]. -/
theorem S2_never_returns :
    ValidInput (S2 0)
    ∧ (∀ (fuel depth : Nat) (out : Output),
        hpf_solve fuel depth 3 2 0 2 [0, 1, 0, 1, 1, 2, 10, 0] 0 20 0 ≠ .ok out)
    ∧ (∀ depth : Nat,
        hpf_solve 8 depth 3 2 0 2 [0, 1, 0, 1, 1, 2, 10, 0] 0 20 0 = .error .outOfFuel)
    ∧ (∀ fuel depth : Nat, (hpf_solve (8 + fuel) (8 + depth) 3 2 0 2
        [0, 1, 0, 1, 1, 2, 10, 0] 0 20 1).map
          (fun out => (out.numBreakpoints, out.breakpoints)) = .ok (2, [10, 20])) :=
  ⟨by decide!,
    fun fuel depth out => hpf_solve_never_ok_of_fixpoint S2_read S2_sorted (by decide!)
      S2_low S2_high S2_diff (by decide!) S2_Klow S2_Khigh S2_intersect
      (fun _ _ _ hp hr => solve_indicator_eq S2_min hp hr) fuel depth out,
    fun depth => hpf_solve_outOfFuel_of_fixpoint S2_read S2_sorted (by decide!)
      S2_low S2_high S2_diff (by decide!) S2_Klow S2_Khigh S2_intersect S2_min S2_max S2_diff2
      (by decide!) depth,
    fun fuel depth => by
      rw [hpf_solve_mono (Nat.le_add_right 8 fuel) (Nat.le_add_right 8 depth) _ _ _ _ _ _ _ _ _
        S2_run_rounding]
      rfl⟩

/-! ## `addBreakpoint` -/

theorem tightenEntries_spec (lam : ℚ) (ind : List Int) :
    ∀ (is : List Nat) (nb nb' : List ℚ), tightenEntries lam ind is nb = .ok nb' →
      nb'.length = nb.length ∧ ∀ i : Nat, nb'[i]? =
        if i ∈ is ∧ (∃ c, ind[i]? = some c ∧ c ≠ 0) ∧ (∃ b, nb[i]? = some b ∧ b > lam)
        then some lam else nb[i]? := by
  intro is
  induction is with
  | nil =>
    intro nb nb' h
    simp only [tightenEntries] at h
    cases h
    simp
  | cons i0 rest ih =>
    intro nb nb' h
    rw [tightenEntries] at h
    obtain ⟨c, hc, h⟩ := bind_eq_ok.mp h
    have hc' : ind[i0]? = some c := by
      cases hx : ind[i0]? with
      | none => rw [hx] at hc; cases hc
      | some x => rw [hx] at hc; cases hc; rfl
    by_cases hc0 : c ≠ 0
    · rw [if_pos hc0] at h
      obtain ⟨b, hb, h⟩ := bind_eq_ok.mp h
      have hb' : nb[i0]? = some b := by
        cases hx : nb[i0]? with
        | none => rw [hx] at hb; cases hb
        | some x => rw [hx] at hb; cases hb; rfl
      have hi0 : i0 < nb.length := by
        by_contra hcon
        rw [List.getElem?_eq_none (by omega)] at hb'
        cases hb'
      by_cases hgt : b > lam
      · rw [if_pos hgt] at h
        obtain ⟨hlen, hget⟩ := ih _ _ h
        refine ⟨by rw [hlen, List.length_set], fun i => ?_⟩
        rw [hget i]
        by_cases hi : i = i0
        · subst hi
          have hset : (nb.set i lam)[i]? = some lam := by
            rw [List.getElem?_set_self hi0]
          have hno : ¬ (∃ b1, (nb.set i lam)[i]? = some b1 ∧ b1 > lam) := by
            rintro ⟨b1, h1, h2⟩
            rw [hset] at h1
            cases h1
            exact lt_irrefl _ h2
          rw [if_neg (fun hh => hno hh.2.2), hset]
          rw [if_pos ⟨List.mem_cons_self _ _, ⟨c, hc', hc0⟩, ⟨b, hb', hgt⟩⟩]
        · have hset : (nb.set i0 lam)[i]? = nb[i]? := by
            rw [List.getElem?_set_ne (fun hh => hi hh.symm)]
          rw [hset]
          have hmem : i ∈ i0 :: rest ↔ i ∈ rest := by
            simp [hi]
          simp only [hmem]
      · rw [if_neg hgt] at h
        obtain ⟨hlen, hget⟩ := ih _ _ h
        refine ⟨hlen, fun i => ?_⟩
        rw [hget i]
        by_cases hi : i = i0
        · subst hi
          have hno : ¬ (∃ b1, nb[i]? = some b1 ∧ b1 > lam) := by
            rintro ⟨b1, h1, h2⟩
            rw [hb'] at h1
            cases h1
            exact hgt h2
          rw [if_neg (fun hh => hno hh.2.2), if_neg (fun hh => hno hh.2.2)]
        · have hmem : i ∈ i0 :: rest ↔ i ∈ rest := by
            simp [hi]
          simp only [hmem]
    · rw [if_neg hc0] at h
      obtain ⟨hlen, hget⟩ := ih _ _ h
      refine ⟨hlen, fun i => ?_⟩
      rw [hget i]
      by_cases hi : i = i0
      · subst hi
        have hno : ¬ (∃ c1, ind[i]? = some c1 ∧ c1 ≠ 0) := by
          rintro ⟨c1, h1, h2⟩
          rw [hc'] at h1
          cases h1
          exact hc0 h2
        rw [if_neg (fun hh => hno hh.2.1), if_neg (fun hh => hno hh.2.1)]
      · have hmem : i ∈ i0 :: rest ↔ i ∈ rest := by
          simp [hi]
        simp only [hmem]

theorem tightenEntries_total (lam : ℚ) (ind : List Int) :
    ∀ (is : List Nat) (nb : List ℚ), (∀ i ∈ is, i < ind.length ∧ i < nb.length) →
      ∃ nb', tightenEntries lam ind is nb = .ok nb' := by
  intro is
  induction is with
  | nil => intro nb _; exact ⟨nb, rfl⟩
  | cons i0 rest ih =>
    intro nb h
    obtain ⟨h1, h2⟩ := h i0 (List.mem_cons_self _ _)
    have hrest : ∀ nb2 : List ℚ, nb2.length = nb.length →
        ∃ nb', tightenEntries lam ind rest nb2 = .ok nb' := by
      intro nb2 hl
      exact ih nb2 (fun i hi => by
        obtain ⟨a, b⟩ := h i (List.mem_cons_of_mem _ hi)
        exact ⟨a, by omega⟩)
    rw [tightenEntries]
    simp only [List.getElem?_eq_getElem h1, List.getElem?_eq_getElem h2, deref, ok_bind]
    split
    · split
      · exact hrest _ (List.length_set _ _ _)
      · exact hrest _ rfl
    · exact hrest _ rfl

theorem addBreakpoint_ok {g : Super} {gl gl' : Globals} {lam : ℚ} {ind : List Int}
    (h : addBreakpoint g gl lam ind = .ok gl') :
    gl'.breakpoints = gl.breakpoints ++ [lam] ∧ gl'.stats = gl.stats
      ∧ gl'.numBreakpoints = incU gl.numBreakpoints
      ∧ tightenEntries lam ind (List.range g.numNodesSuper) gl.nodeBreakpoints
          = .ok gl'.nodeBreakpoints := by
  rw [addBreakpoint] at h
  obtain ⟨nb, hnb, h⟩ := bind_eq_ok.mp h
  cases h
  exact ⟨rfl, rfl, rfl, hnb⟩

theorem entriesLe_refl (a : List ℚ) : EntriesLe a a :=
  ⟨rfl, fun i x y h1 h2 => by rw [h1] at h2; cases h2; exact le_refl _⟩

theorem entriesLe_trans {a b c : List ℚ} (h1 : EntriesLe a b) (h2 : EntriesLe b c) :
    EntriesLe a c := by
  refine ⟨h1.1.trans h2.1, fun i x y hx hy => ?_⟩
  have hi : i < b.length := by
    have : i < a.length := by
      by_contra hc
      rw [List.getElem?_eq_none (by omega)] at hy
      cases hy
    rw [← h1.1]; exact this
  exact le_trans (h1.2 i b[i] y (List.getElem?_eq_getElem hi) hy)
    (h2.2 i x b[i] hx (List.getElem?_eq_getElem hi))

theorem tightenEntries_le {lam : ℚ} {ind : List Int} {is : List Nat} {nb nb' : List ℚ}
    (h : tightenEntries lam ind is nb = .ok nb') : EntriesLe nb' nb := by
  obtain ⟨hlen, hget⟩ := tightenEntries_spec lam ind is nb nb' h
  refine ⟨hlen, fun i x y hx hy => ?_⟩
  rw [hget i] at hy
  split at hy
  · rename_i hc
    obtain ⟨b, hb, hgt⟩ := hc.2.2
    rw [hx] at hb
    cases hb
    cases hy
    exact le_of_lt hgt
  · rw [hx] at hy
    cases hy
    exact le_refl _

/-! ## What `parametricCut` does to the collected result -/

theorem parametricCut_result (fuel : Nat) (g : Super) :
    ∀ (depth : Nat) (gl gl' : Globals) (low high : CutProblem),
      parametricCut fuel g depth gl low high = .ok gl' →
      ∃ l : List ℚ, gl'.breakpoints = gl.breakpoints ++ l
        ∧ (∀ b ∈ l, IsIntersection g b)
        ∧ EntriesLe gl'.nodeBreakpoints gl.nodeBreakpoints := by
  intro depth
  induction depth with
  | zero => intro gl gl' low high h; cases h
  | succ depth ih =>
    intro gl gl' low high h
    rw [parametricCut] at h
    obtain ⟨lowInd, hl, h⟩ := bind_eq_ok.mp h
    obtain ⟨highInd, hh, h⟩ := bind_eq_ok.mp h
    obtain ⟨diff, hdiff, h⟩ := bind_eq_ok.mp h
    by_cases hsum : 0 < sum_array_char diff g.numNodesSuper
    · simp only [gt_iff_lt, hsum, if_true] at h
      obtain ⟨Klow, hKl, h⟩ := bind_eq_ok.mp h
      obtain ⟨Khigh, hKh, h⟩ := bind_eq_ok.mp h
      obtain ⟨lam, hlam, h⟩ := bind_eq_ok.mp h
      obtain ⟨pmin, hpmin, h⟩ := bind_eq_ok.mp h
      obtain ⟨⟨rmin, smin⟩, hrmin, h⟩ := bind_eq_ok.mp h
      simp only at h
      obtain ⟨minInd, hmi, h⟩ := bind_eq_ok.mp h
      obtain ⟨pmax, hpmax, h⟩ := bind_eq_ok.mp h
      obtain ⟨⟨rmax, smax⟩, hrmax, h⟩ := bind_eq_ok.mp h
      simp only at h
      obtain ⟨maxInd, hma, h⟩ := bind_eq_ok.mp h
      obtain ⟨d2, hd2, h⟩ := bind_eq_ok.mp h
      have hint : IsIntersection g lam := ⟨lowInd, highInd, diff, Klow, Khigh, hdiff, hsum, hKl,
        hKh, hlam⟩
      by_cases hs2 : 0 < sum_array_char d2 g.numNodesSuper
      · simp only [hs2, if_true] at h
        obtain ⟨gl1, hgl1, h⟩ := bind_eq_ok.mp h
        obtain ⟨gl2, hgl2, h⟩ := bind_eq_ok.mp h
        obtain ⟨l2, e2, p2, m2⟩ := ih _ _ _ _ hgl2
        obtain ⟨l3, e3, p3, m3⟩ := ih _ _ _ _ h
        obtain ⟨b1, -, -, t1⟩ := addBreakpoint_ok hgl1
        refine ⟨lam :: (l2 ++ l3), ?_, ?_, ?_⟩
        · rw [e3, e2, b1]; simp
        · intro b hb
          rcases List.mem_cons.mp hb with rfl | hb
          · exact hint
          · rcases List.mem_append.mp hb with hb | hb
            · exact p2 b hb
            · exact p3 b hb
        · exact entriesLe_trans (entriesLe_trans m3 m2) (tightenEntries_le t1)
      · simp only [hs2, if_false, pure, Except.pure, ok_bind] at h
        obtain ⟨gl2, hgl2, h⟩ := bind_eq_ok.mp h
        obtain ⟨l2, e2, p2, m2⟩ := ih _ _ _ _ hgl2
        obtain ⟨l3, e3, p3, m3⟩ := ih _ _ _ _ h
        refine ⟨l2 ++ l3, ?_, ?_, ?_⟩
        · rw [e3, e2]; simp
        · intro b hb
          rcases List.mem_append.mp hb with hb | hb
          · exact p2 b hb
          · exact p3 b hb
        · exact entriesLe_trans m3 m2
    · simp only [gt_iff_lt, hsum, if_false] at h
      cases h
      exact ⟨[], by simp, by simp, entriesLe_refl _⟩

/-! ## The value of `lambda` a problem carries -/

theorem appendNew_lambda {g : Super} {nodeMap : List Nat} {lam : ℚ} {st st' : ArcScratch}
    {old : Arc} (h : appendNew g nodeMap lam st old = .ok st') :
    st'.problem.lambdaValue = st.problem.lambdaValue := by
  rw [appendNew] at h
  obtain ⟨⟨new, nl⟩, -, h⟩ := bind_eq_ok.mp h
  cases h
  rfl

theorem addInto_lambda {g : Super} {lam : ℚ} {st st' : ArcScratch} {old : Arc} {idx : Int}
    (h : addInto g lam st old idx = .ok st') :
    st'.problem.lambdaValue = st.problem.lambdaValue := by
  rw [addInto] at h
  split at h
  · cases h
  · obtain ⟨t, -, h⟩ := bind_eq_ok.mp h
    obtain ⟨new, -, h⟩ := bind_eq_ok.mp h
    cases h
    rfl

theorem contractArc_lambda {g : Super} {nodeMap : List Nat} {lam : ℚ} {st st' : ArcScratch}
    {old : Arc} (h : contractArc g nodeMap lam st old = .ok st') :
    st'.problem.lambdaValue = st.problem.lambdaValue := by
  rw [contractArc] at h
  obtain ⟨f, -, h⟩ := bind_eq_ok.mp h
  obtain ⟨t, -, h⟩ := bind_eq_ok.mp h
  obtain ⟨nf, -, h⟩ := bind_eq_ok.mp h
  obtain ⟨nt, -, h⟩ := bind_eq_ok.mp h
  split at h
  · cases h; rfl
  · split at h
    · obtain ⟨idx, -, h⟩ := bind_eq_ok.mp h
      split at h
      · simp only at h
        have e := appendNew_lambda h
        exact e
      · exact addInto_lambda h
    · split at h
      · obtain ⟨idx, -, h⟩ := bind_eq_ok.mp h
        split at h
        · simp only at h
          have e := appendNew_lambda h
          exact e
        · exact addInto_lambda h
      · exact appendNew_lambda h

theorem foldlM_invariant {α β : Type} (f : β → α → Except Err β) (P : β → Prop)
    (hf : ∀ b a b', P b → f b a = .ok b' → P b') :
    ∀ (l : List α) (b b' : β), P b → l.foldlM f b = .ok b' → P b' := by
  intro l
  induction l with
  | nil =>
    intro b b' hb h
    rw [List.foldlM_nil] at h
    cases h
    exact hb
  | cons a l ih =>
    intro b b' hb h
    rw [List.foldlM_cons] at h
    obtain ⟨b1, h1, h⟩ := bind_eq_ok.mp h
    exact ih b1 b' (hf b a b1 hb h1) h

theorem initializeContractedProblem_lambda {g : Super} {lam : ℚ} {low high : List Int}
    {p : CutProblem} (h : initializeContractedProblem g lam low high = .ok p) :
    p.lambdaValue = lam := by
  rw [initializeContractedProblem] at h
  obtain ⟨⟨nodeMap, nSrc, nSnk, nList⟩, -, h⟩ := bind_eq_ok.mp h
  simp only at h
  obtain ⟨n1, -, h⟩ := bind_eq_ok.mp h
  obtain ⟨n2, -, h⟩ := bind_eq_ok.mp h
  obtain ⟨⟨nodeList, sourceSet, sinkSet, c1, c2⟩, -, h⟩ := bind_eq_ok.mp h
  simp only at h
  obtain ⟨st, hst, h⟩ := bind_eq_ok.mp h
  cases h
  exact foldlM_invariant (contractArc g nodeMap lam) (fun s => s.problem.lambdaValue = lam)
    (fun b a b' hb hf => (contractArc_lambda hf).trans hb) _ _ _ rfl hst

theorem solveProblem_lambda {fuel : Nat} {g : Super} {p : CutProblem} {flag : Nat}
    {r : CutProblem × Stats} (h : solveProblem fuel g p flag = .ok r) :
    r.1.lambdaValue = p.lambdaValue := by
  rw [solveProblem] at h
  split at h
  · obtain ⟨i1, -, h⟩ := bind_eq_ok.mp h
    obtain ⟨i2, -, h⟩ := bind_eq_ok.mp h
    obtain ⟨c, -, h⟩ := bind_eq_ok.mp h
    cases h
    rfl
  · obtain ⟨s1, -, h⟩ := bind_eq_ok.mp h
    obtain ⟨s2, -, h⟩ := bind_eq_ok.mp h
    obtain ⟨s3, -, h⟩ := bind_eq_ok.mp h
    obtain ⟨i1, -, h⟩ := bind_eq_ok.mp h
    obtain ⟨i2, -, h⟩ := bind_eq_ok.mp h
    obtain ⟨i3, -, h⟩ := bind_eq_ok.mp h
    obtain ⟨c, -, h⟩ := bind_eq_ok.mp h
    cases h
    rfl

/-! ## The two branches of `hpf_solve` -/

theorem readGraphSuper_fields {numNodesIn numArcsIn sourceIn sinkIn : Nat} {arcMatrix : List ℚ}
    {lambdaLow lambdaHigh : ℚ} {round : Int} {g : Super} {nb : List ℚ}
    (h : readGraphSuper numNodesIn numArcsIn sourceIn sinkIn arcMatrix lambdaLow lambdaHigh round
      = .ok (g, nb)) :
    g.numNodesSuper = numNodesIn ∧ g.numArcsSuper = numArcsIn ∧ g.sourceSuper = sourceIn
      ∧ g.sinkSuper = sinkIn ∧ g.roundNegativeCapacity = round ∧ g.LAMBDA_LOW = lambdaLow
      ∧ g.LAMBDA_HIGH = lambdaHigh
      ∧ g.useParametricCut = (if lambdaLow = lambdaHigh then 0 else 1)
      ∧ 0 < numNodesIn ∧ nb = (List.replicate numNodesIn lambdaHigh).set 0 lambdaLow := by
  rw [readGraphSuper] at h
  simp only [List.length_replicate] at h
  split at h
  · rename_i hpos
    simp only [pure, Except.pure, ok_bind] at h
    obtain ⟨⟨nodes, arcs⟩, -, h⟩ := bind_eq_ok.mp h
    simp only [Except.ok.injEq, Prod.mk.injEq] at h
    obtain ⟨hg, hnb⟩ := h
    subst hg
    exact ⟨rfl, rfl, rfl, rfl, rfl, rfl, rfl, rfl, hpos, hnb.symm⟩
  · simp only [bind, Except.bind] at h
    cases h

theorem hpf_solve_parametric {fuel depth numNodesIn numArcsIn sourceIn sinkIn : Nat}
    {arcMatrix : List ℚ} {lambdaLow lambdaHigh : ℚ} {round : Int} {out : Output}
    (hne : lambdaLow ≠ lambdaHigh)
    (h : hpf_solve fuel depth numNodesIn numArcsIn sourceIn sinkIn arcMatrix lambdaLow lambdaHigh
      round = .ok out) :
    ∃ (g0 : Super) (nb : List ℚ) (gl0 gl1 gl2 : Globals) (lowP highP : CutProblem)
      (highInd : List Int),
      readGraphSuper numNodesIn numArcsIn sourceIn sinkIn arcMatrix lambdaLow lambdaHigh round
        = .ok (g0, nb)
      ∧ gl0.breakpoints = [] ∧ gl0.nodeBreakpoints = nb
      ∧ parametricCut fuel { g0 with arcListSuper := qsort g0.arcListSuper } depth gl0 lowP highP
          = .ok gl1
      ∧ addBreakpoint { g0 with arcListSuper := qsort g0.arcListSuper } gl1 lambdaHigh highInd
          = .ok gl2
      ∧ out = prepareOutput { g0 with arcListSuper := qsort g0.arcListSuper } gl2 := by
  rw [hpf_solve] at h
  obtain ⟨⟨g0, nb⟩, hread, h⟩ := bind_eq_ok.mp h
  obtain ⟨-, -, -, -, -, -, hhi, hpar, -, -⟩ := readGraphSuper_fields hread
  rw [if_neg hne] at hpar
  simp only at h
  obtain ⟨plow, hplow, h⟩ := bind_eq_ok.mp h
  rw [if_pos hpar] at h
  obtain ⟨phigh, hphigh, h⟩ := bind_eq_ok.mp h
  obtain ⟨⟨rlow, slow⟩, hrlow, h⟩ := bind_eq_ok.mp h
  obtain ⟨⟨rhigh, shigh⟩, hrhigh, h⟩ := bind_eq_ok.mp h
  simp only at h
  obtain ⟨gl1, hgl1, h⟩ := bind_eq_ok.mp h
  obtain ⟨highInd, -, h⟩ := bind_eq_ok.mp h
  obtain ⟨gl2, hgl2, h⟩ := bind_eq_ok.mp h
  cases h
  have hlam : rhigh.lambdaValue = lambdaHigh := by
    have e1 := solveProblem_lambda hrhigh
    have e2 := initializeContractedProblem_lambda hphigh
    simp only at e1 e2
    rw [e1, e2, hhi]
  rw [hlam] at hgl2
  exact ⟨g0, nb, _, gl1, gl2, rlow, rhigh, highInd, hread, rfl, rfl, hgl1, hgl2, rfl⟩

theorem hpf_solve_single {fuel depth numNodesIn numArcsIn sourceIn sinkIn : Nat}
    {arcMatrix : List ℚ} {lam : ℚ} {round : Int} :
    hpf_solve fuel depth numNodesIn numArcsIn sourceIn sinkIn arcMatrix lam lam round
      = (do
        let (g, nodeBreakpoints) ← readGraphSuper numNodesIn numArcsIn sourceIn sinkIn arcMatrix
          lam lam round
        let g := { g with arcListSuper := qsort g.arcListSuper }
        let lowProblem ← initializeContractedProblem g g.LAMBDA_LOW
          (List.replicate g.numNodesSuper 0) (List.replicate g.numNodesSuper 1)
        let (lowProblem, statsLow) ← solveProblem fuel g lowProblem 0
        let lowInd ← deref lowProblem.optimalSourceSetIndicator
        let gl ← addBreakpoint g
          { stats := Stats.zero.add statsLow, nodeBreakpoints := nodeBreakpoints,
            breakpoints := [], numBreakpoints := 0 } lowProblem.lambdaValue lowInd
        .ok (prepareOutput g gl)) := by
  rw [hpf_solve]
  cases hread : readGraphSuper numNodesIn numArcsIn sourceIn sinkIn arcMatrix lam lam round with
  | error e => rfl
  | ok r =>
    obtain ⟨g0, nb⟩ := r
    obtain ⟨-, -, -, -, -, -, -, hpar, -, -⟩ := readGraphSuper_fields hread
    rw [if_pos rfl] at hpar
    simp only [ok_bind]
    have hpar2 : ¬ (g0.useParametricCut = 1) := by rw [hpar]; decide
    simp only [hpar2, if_false]

theorem hpf_solve_single_result {fuel depth numNodesIn numArcsIn sourceIn sinkIn : Nat}
    {arcMatrix : List ℚ} {lam : ℚ} {round : Int} {out : Output}
    (h : hpf_solve fuel depth numNodesIn numArcsIn sourceIn sinkIn arcMatrix lam lam round
      = .ok out) :
    out.numBreakpoints = 1 ∧ out.breakpoints = [lam] := by
  rw [hpf_solve_single] at h
  obtain ⟨⟨g0, nb⟩, hread, h⟩ := bind_eq_ok.mp h
  obtain ⟨-, -, -, -, -, hlo, -, -, -, -⟩ := readGraphSuper_fields hread
  simp only at h
  obtain ⟨plow, hplow, h⟩ := bind_eq_ok.mp h
  obtain ⟨⟨rlow, slow⟩, hrlow, h⟩ := bind_eq_ok.mp h
  simp only at h
  obtain ⟨lowInd, -, h⟩ := bind_eq_ok.mp h
  obtain ⟨gl, hgl, h⟩ := bind_eq_ok.mp h
  cases h
  obtain ⟨b1, -, -, -⟩ := addBreakpoint_ok hgl
  have hlam : rlow.lambdaValue = lam := by
    have e1 := solveProblem_lambda hrlow
    have e2 := initializeContractedProblem_lambda hplow
    simp only at e1 e2
    rw [e1, e2, hlo]
  simp only [prepareOutput, b1, hlam, List.nil_append, List.length_singleton, and_self]

/-! ## The counter `numBreakpoints` is only printed -/

theorem bind_erase_congr {x y : Except Err Globals} {f : Globals → Except Err Globals}
    (hxy : x.map Globals.erase = y.map Globals.erase)
    (hf : ∀ a, (f a).map Globals.erase = (f a.erase).map Globals.erase) :
    (x >>= f).map Globals.erase = (y >>= f).map Globals.erase := by
  cases x with
  | error e =>
    cases y with
    | error e2 => exact hxy
    | ok b => cases hxy
  | ok a =>
    cases y with
    | error e2 => cases hxy
    | ok b =>
      have hab : a.erase = b.erase := Except.ok.inj hxy
      show (f a).map Globals.erase = (f b).map Globals.erase
      rw [hf a, hf b, hab]

theorem bind_erase_out {x y : Except Err Globals} {k : Globals → Except Err Output}
    (hxy : x.map Globals.erase = y.map Globals.erase)
    (hk : ∀ a, k a = k a.erase) :
    (x >>= k) = (y >>= k) := by
  cases x with
  | error e =>
    cases y with
    | error e2 =>
      have : e = e2 := Except.error.inj hxy
      subst this
      rfl
    | ok b => cases hxy
  | ok a =>
    cases y with
    | error e2 => cases hxy
    | ok b =>
      have hab : a.erase = b.erase := Except.ok.inj hxy
      show k a = k b
      rw [hk a, hk b, hab]

theorem addBreakpoint_erase (g : Super) (a : Globals) (lam : ℚ) (ind : List Int) :
    (addBreakpoint g a lam ind).map Globals.erase
      = (addBreakpoint g a.erase lam ind).map Globals.erase := by
  simp only [addBreakpoint, Globals.erase]
  cases tightenEntries lam ind (List.range g.numNodesSuper) a.nodeBreakpoints with
  | error e => rfl
  | ok nb => rfl

theorem bind_erase_same {α : Type} (x : Except Err α) {f k : α → Except Err Globals}
    (h : ∀ a, (f a).map Globals.erase = (k a).map Globals.erase) :
    (x >>= f).map Globals.erase = (x >>= k).map Globals.erase := by
  cases x with
  | error e => rfl
  | ok a => exact h a

theorem parametricCut_erase (fuel : Nat) (g : Super) :
    ∀ (depth : Nat) (gl : Globals) (low high : CutProblem),
      (parametricCut fuel g depth gl low high).map Globals.erase
        = (parametricCut fuel g depth gl.erase low high).map Globals.erase := by
  intro depth
  induction depth with
  | zero => intro gl low high; rfl
  | succ depth ih =>
    intro gl low high
    rw [parametricCut, parametricCut]
    refine bind_erase_same _ (fun lowInd => ?_)
    refine bind_erase_same _ (fun highInd => ?_)
    refine bind_erase_same _ (fun diff => ?_)
    by_cases hsum : 0 < sum_array_char diff g.numNodesSuper
    · simp only [gt_iff_lt, hsum, if_true]
      refine bind_erase_same _ (fun Klow => ?_)
      refine bind_erase_same _ (fun Khigh => ?_)
      refine bind_erase_same _ (fun lam => ?_)
      refine bind_erase_same _ (fun pmin => ?_)
      refine bind_erase_same _ (fun rmin => ?_)
      obtain ⟨rmin, smin⟩ := rmin
      simp only
      refine bind_erase_same _ (fun minInd => ?_)
      refine bind_erase_same _ (fun pmax => ?_)
      refine bind_erase_same _ (fun rmax => ?_)
      obtain ⟨rmax, smax⟩ := rmax
      simp only
      refine bind_erase_same _ (fun maxInd => ?_)
      refine bind_erase_same _ (fun d2 => ?_)
      have hrec : ∀ (x y : Except Err Globals),
          x.map Globals.erase = y.map Globals.erase →
          (x >>= fun gl1 => parametricCut fuel g depth gl1 low rmin >>= fun gl2 =>
              parametricCut fuel g depth gl2 rmax high).map Globals.erase
            = (y >>= fun gl1 => parametricCut fuel g depth gl1 low rmin >>= fun gl2 =>
              parametricCut fuel g depth gl2 rmax high).map Globals.erase := by
        intro x y hxy
        refine bind_erase_congr hxy (fun a => ?_)
        exact bind_erase_congr (ih a low rmin) (fun b => ih b rmax high)
      by_cases hs2 : 0 < sum_array_char d2 g.numNodesSuper
      · simp only [hs2, if_true]
        exact hrec _ _ (addBreakpoint_erase g _ lam minInd)
      · simp only [hs2, if_false]
        exact hrec _ _ rfl
    · simp only [gt_iff_lt, hsum, if_false]
      rfl

theorem bind_out_same {α β : Type} (x : Except Err α) {f k : α → Except Err β}
    (h : ∀ a, f a = k a) : (x >>= f) = (x >>= k) := by
  have : f = k := funext h
  rw [this]

theorem readGraphSuperFrom_eq (e : Statics) (numNodesIn numArcsIn sourceIn sinkIn : Nat)
    (arcMatrix : List ℚ) (lambdaLow lambdaHigh : ℚ) (round : Int) :
    readGraphSuperFrom
      { reset_globals e with
        stats := Stats.zero
        numNodesSuper := numNodesIn
        numArcsSuper := numArcsIn
        sourceSuper := sourceIn
        sinkSuper := sinkIn
        LAMBDA_LOW := lambdaLow
        LAMBDA_HIGH := lambdaHigh
        useParametricCut := if lambdaLow = lambdaHigh then 0 else 1
        roundNegativeCapacity := round } arcMatrix
      = readGraphSuper numNodesIn numArcsIn sourceIn sinkIn arcMatrix lambdaLow lambdaHigh
          round := by
  simp only [readGraphSuperFrom, readGraphSuper, reset_globals]
  by_cases hl : lambdaLow = lambdaHigh
  · simp only [hl, if_true]
  · simp only [hl, if_false]

theorem hpf_solve_from_eq (e : Statics) (fuel depth numNodesIn numArcsIn sourceIn sinkIn : Nat)
    (arcMatrix : List ℚ) (lambdaLow lambdaHigh : ℚ) (round : Int) :
    hpf_solve_from e fuel depth numNodesIn numArcsIn sourceIn sinkIn arcMatrix lambdaLow
        lambdaHigh round
      = hpf_solve fuel depth numNodesIn numArcsIn sourceIn sinkIn arcMatrix lambdaLow lambdaHigh
          round := by
  rw [hpf_solve_from, hpf_solve]
  have hread := readGraphSuperFrom_eq e numNodesIn numArcsIn sourceIn sinkIn arcMatrix lambdaLow
    lambdaHigh round
  simp only [reset_globals] at hread ⊢
  rw [hread]
  refine bind_out_same _ (fun r => ?_)
  obtain ⟨g0, nb⟩ := r
  simp only
  refine bind_out_same _ (fun plow => ?_)
  split
  · refine bind_out_same _ (fun phigh => ?_)
    refine bind_out_same _ (fun rlow => ?_)
    obtain ⟨rlow, slow⟩ := rlow
    simp only
    refine bind_out_same _ (fun rhigh => ?_)
    obtain ⟨rhigh, shigh⟩ := rhigh
    simp only
    refine bind_erase_out ?_ (fun a => ?_)
    · rw [parametricCut_erase]
      rfl
    · refine bind_out_same _ (fun highInd => ?_)
      exact bind_erase_out (addBreakpoint_erase _ a _ highInd) (fun b => rfl)
  · refine bind_out_same _ (fun rlow => ?_)
    obtain ⟨rlow, slow⟩ := rlow
    simp only
    refine bind_out_same _ (fun lowInd => ?_)
    refine bind_erase_out ?_ (fun b => rfl)
    rw [addBreakpoint_erase]
    rfl

/-! ## What `readGraphSuper` builds from an arc table -/

theorem incAdjacent_ids {a r : List Node} {i : Nat} (h : incAdjacent a i = .ok r) :
    r.length = a.length ∧ ∀ j : Nat,
      (r[j]?).map (fun nd => (nd.originalIndex, nd.number))
        = (a[j]?).map (fun nd => (nd.originalIndex, nd.number)) := by
  rw [incAdjacent] at h
  split at h
  · rename_i nd hnd
    cases h
    refine ⟨List.length_set _ _ _, fun j => ?_⟩
    by_cases hj : i = j
    · subst hj
      have hi : i < a.length := by
        by_contra hc
        rw [List.getElem?_eq_none (by omega)] at hnd
        cases hnd
      rw [List.getElem?_set_self hi, hnd]
      rfl
    · rw [List.getElem?_set_ne hj]
  · cases h

theorem incAdjacent_total (a : List Node) {i : Nat} (hi : i < a.length) :
    ∃ r, incAdjacent a i = .ok r := by
  simp [incAdjacent, List.getElem?_eq_getElem hi]

theorem readArcs_ok (arcMatrix : List ℚ) (n : Nat) :
    ∀ (is : List Nat) (nodes : List Node) (arcs : List Arc),
      (∀ i ∈ is, ∃ c0 c1 c2 c3 : ℚ,
        arcMatrix[i * 4 + 0]? = some c0 ∧ arcMatrix[i * 4 + 1]? = some c1
        ∧ arcMatrix[i * 4 + 2]? = some c2 ∧ arcMatrix[i * 4 + 3]? = some c3
        ∧ 0 ≤ toInt c0 ∧ (toInt c0).toNat < n ∧ 0 ≤ toInt c1 ∧ (toInt c1).toNat < n) →
      nodes.length = n →
      ∃ nodes' arcs', readArcs arcMatrix is (nodes, arcs) = .ok (nodes', arcs')
        ∧ nodes'.length = n
        ∧ (∀ j : Nat, (nodes'[j]?).map (fun nd => (nd.originalIndex, nd.number))
            = (nodes[j]?).map (fun nd => (nd.originalIndex, nd.number)))
        ∧ (∀ a ∈ arcs', a ∈ arcs ∨ (a.from_ < n ∧ a.to_ < n))
        ∧ arcs'.length = arcs.length + is.length := by
  intro is
  induction is with
  | nil =>
    intro nodes arcs _ hn
    exact ⟨nodes, arcs, rfl, hn, fun _ => rfl, fun a ha => Or.inl ha, rfl⟩
  | cons i rest ih =>
    intro nodes arcs hrows hn
    obtain ⟨c0, c1, c2, c3, e0, e1, e2, e3, p0, b0, p1, b1⟩ := hrows i (List.mem_cons_self _ _)
    obtain ⟨n1, hn1⟩ := incAdjacent_total nodes (i := (toInt c0).toNat) (by omega)
    obtain ⟨l1, id1⟩ := incAdjacent_ids hn1
    obtain ⟨n2, hn2⟩ := incAdjacent_total n1 (i := (toInt c1).toNat) (by omega)
    obtain ⟨l2, id2⟩ := incAdjacent_ids hn2
    obtain ⟨nodes', arcs', hr, hlen, hids, harcs, hal⟩ := ih n2
      (arcs ++ [{ initializeArc with
          constant := c2
          multiplier := c3
          from_ := (toInt c0).toNat
          to_ := (toInt c1).toNat }])
      (fun j hj => hrows j (List.mem_cons_of_mem _ hj)) (by rw [l2, l1]; exact hn)
    refine ⟨nodes', arcs', ?_, hlen, ?_, ?_, ?_⟩
    · rw [readArcs]
      simp only [e0, e1, e2, e3, deref, ok_bind]
      rw [if_neg (by omega)]
      simp only [hn1, hn2, ok_bind]
      exact hr
    · intro j
      rw [hids j, id2 j, id1 j]
    · intro a ha
      rcases harcs a ha with h | h
      · rcases List.mem_append.mp h with h | h
        · exact Or.inl h
        · rw [List.mem_singleton] at h
          subst h
          exact Or.inr ⟨b0, b1⟩
      · exact Or.inr h
    · rw [hal, List.length_append, List.length_singleton, List.length_cons]
      omega

theorem mem_insertArc (a x : Arc) : ∀ l : List Arc, x ∈ insertArc a l ↔ x = a ∨ x ∈ l := by
  intro l
  induction l with
  | nil => simp [insertArc]
  | cons b rest ih =>
    rw [insertArc]
    split
    · simp
    · simp only [List.mem_cons, ih]
      tauto

theorem mem_foldl_insertArc (x : Arc) :
    ∀ (l acc : List Arc),
      x ∈ l.foldl (fun sorted a => insertArc a sorted) acc ↔ x ∈ l ∨ x ∈ acc := by
  intro l
  induction l with
  | nil => intro acc; simp
  | cons a rest ih =>
    intro acc
    rw [List.foldl_cons, ih, mem_insertArc]
    simp only [List.mem_cons]
    tauto

theorem mem_qsort (x : Arc) (l : List Arc) : x ∈ qsort l ↔ x ∈ l := by
  rw [qsort, mem_foldl_insertArc]
  simp

theorem readGraphSuper_ok {numNodesIn numArcsIn : Nat} (sourceIn sinkIn : Nat)
    {arcMatrix : List ℚ} (lambdaLow lambdaHigh : ℚ) (round : Int)
    (htab : ArcTable numNodesIn numArcsIn arcMatrix) (hpos : 0 < numNodesIn) :
    ∃ g0, readGraphSuper numNodesIn numArcsIn sourceIn sinkIn arcMatrix lambdaLow lambdaHigh
          round = .ok (g0, (List.replicate numNodesIn lambdaHigh).set 0 lambdaLow)
      ∧ SuperOK { g0 with arcListSuper := qsort g0.arcListSuper }
      ∧ g0.nodeListSuper.length = numNodesIn := by
  obtain ⟨nodes', arcs', hr, hlen, hids, harcs, -⟩ := readArcs_ok arcMatrix numNodesIn
    (List.range numArcsIn)
    ((List.range numNodesIn).map (fun i => { initializeNode i with originalIndex := i })) []
    (fun i hi => htab i (List.mem_range.mp hi)) (by simp)
  refine ⟨Super.mk numNodesIn numArcsIn sourceIn sinkIn nodes' arcs' round lambdaLow lambdaHigh
    (if lambdaLow = lambdaHigh then 0 else 1), ?_, ?_, ?_⟩
  · rw [readGraphSuper]
    simp only [List.length_replicate, hpos, if_true, pure, Except.pure, ok_bind, hr]
  · refine ⟨fun i hi => ?_, fun a ha => ?_⟩
    · show (nodes'[i]?).map (fun nd => (nd.originalIndex, nd.number)) = some ((i : Int), i)
      rw [hids i]
      simp [hi, initializeNode]
    · have ha' : a ∈ arcs' := (mem_qsort a arcs').mp ha
      rcases harcs a ha' with h | h
      · cases h
      · exact h
  · exact hlen

/-! ## A contracted problem with only the two artificial nodes -/

theorem contractArc_dropped {g : Super} (hg : SuperOK g) {nodeMap : List Nat} (lam : ℚ)
    (st : ArcScratch) {a : Arc}
    (ha : a.from_ < g.numNodesSuper ∧ a.to_ < g.numNodesSuper)
    (hlen : g.numNodesSuper ≤ nodeMap.length) (hsmall : ∀ e ∈ nodeMap, e < 2) :
    contractArc g nodeMap lam st a = .ok st := by
  obtain ⟨f, hf, -, hfn⟩ := hg.node ha.1
  obtain ⟨t, ht, -, htn⟩ := hg.node ha.2
  have h1 : a.from_ < nodeMap.length := by omega
  have h2 : a.to_ < nodeMap.length := by omega
  have s1 := hsmall _ (List.getElem_mem h1)
  have s2 := hsmall _ (List.getElem_mem h2)
  rw [contractArc]
  simp only [hf, ht, deref, ok_bind, hfn, htn, List.getElem?_eq_getElem h1,
    List.getElem?_eq_getElem h2]
  rw [if_pos (by omega)]

theorem contractFold_dropped {g : Super} (hg : SuperOK g) {nodeMap : List Nat} (lam : ℚ)
    (hlen : g.numNodesSuper ≤ nodeMap.length) (hsmall : ∀ e ∈ nodeMap, e < 2) :
    ∀ (as : List Arc) (st : ArcScratch),
      (∀ a ∈ as, a.from_ < g.numNodesSuper ∧ a.to_ < g.numNodesSuper) →
      as.foldlM (contractArc g nodeMap lam) st = .ok st := by
  intro as
  induction as with
  | nil => intro st _; rfl
  | cons a rest ih =>
    intro st hall
    rw [List.foldlM_cons, contractArc_dropped hg lam st (hall a (List.mem_cons_self _ _)) hlen
      hsmall]
    exact ih st (fun b hb => hall b (List.mem_cons_of_mem _ hb))

theorem appendNew_frame {g : Super} {nodeMap : List Nat} {lam : ℚ} {st st' : ArcScratch}
    {old : Arc} (h : appendNew g nodeMap lam st old = .ok st') :
    st'.problem.numNodesInList = st.problem.numNodesInList := by
  rw [appendNew] at h
  obtain ⟨⟨new, nl⟩, -, h⟩ := bind_eq_ok.mp h
  cases h
  rfl

theorem addInto_frame {g : Super} {lam : ℚ} {st st' : ArcScratch} {old : Arc} {idx : Int}
    (h : addInto g lam st old idx = .ok st') :
    st'.problem.numNodesInList = st.problem.numNodesInList := by
  rw [addInto] at h
  split at h
  · cases h
  · obtain ⟨t, -, h⟩ := bind_eq_ok.mp h
    obtain ⟨new, -, h⟩ := bind_eq_ok.mp h
    cases h
    rfl

theorem contractArc_frame {g : Super} {nodeMap : List Nat} {lam : ℚ} {st st' : ArcScratch}
    {old : Arc} (h : contractArc g nodeMap lam st old = .ok st') :
    st'.problem.numNodesInList = st.problem.numNodesInList := by
  rw [contractArc] at h
  obtain ⟨f, -, h⟩ := bind_eq_ok.mp h
  obtain ⟨t, -, h⟩ := bind_eq_ok.mp h
  obtain ⟨nf, -, h⟩ := bind_eq_ok.mp h
  obtain ⟨nt, -, h⟩ := bind_eq_ok.mp h
  split at h
  · cases h; rfl
  · split at h
    · obtain ⟨idx, -, h⟩ := bind_eq_ok.mp h
      split at h
      · simp only at h
        have e := appendNew_frame h
        exact e
      · exact addInto_frame h
    · split at h
      · obtain ⟨idx, -, h⟩ := bind_eq_ok.mp h
        split at h
        · simp only at h
          have e := appendNew_frame h
          exact e
        · exact addInto_frame h
      · exact appendNew_frame h

theorem initializeContractedProblem_two {g : Super} (hg : SuperOK g) {lam : ℚ}
    {low high : List Int} (hlow : g.numNodesSuper ≤ low.length)
    (hhigh : g.numNodesSuper ≤ high.length) {p : CutProblem}
    (hp : initializeContractedProblem g lam low high = .ok p) (h2 : p.numNodesInList = 2) :
    p.numArcs = 0 ∧ p.arcList = [] := by
  obtain ⟨r, hr, hrok, hrlen⟩ := buildNodeMap_ok g low high (List.range g.numNodesSuper)
    ([], 0, 0, 2)
    (fun i hi => by have := List.mem_range.mp hi; exact ⟨by omega, by omega⟩)
    ⟨by simp, by simp, by simp, by simp⟩
  obtain ⟨nodeMap, nSrc, nSnk, nList⟩ := r
  obtain ⟨-, -, -, k4⟩ := hrok
  simp only at k4
  simp only [List.length_nil, List.length_range, Nat.zero_add] at hrlen
  rw [initializeContractedProblem] at hp
  simp only [hr, ok_bind] at hp
  obtain ⟨n1, -, hp⟩ := bind_eq_ok.mp hp
  obtain ⟨n2, -, hp⟩ := bind_eq_ok.mp hp
  obtain ⟨⟨nodeList, sourceSet, sinkSet, c1, c2⟩, -, hp⟩ := bind_eq_ok.mp hp
  simp only at hp
  obtain ⟨st, hst, hp⟩ := bind_eq_ok.mp hp
  cases hp
  have hn : st.problem.numNodesInList = nList :=
    foldlM_invariant (contractArc g nodeMap lam) (fun s => s.problem.numNodesInList = nList)
      (fun b a b' hb hf => (contractArc_frame hf).trans hb) _ _ _ rfl hst
  have hnl : nList = 2 := by
    rw [← hn]; exact h2
  subst hnl
  rw [contractFold_dropped hg lam (by omega) k4 _ _
    (fun a ha => hg.2 a (List.mem_of_mem_take ha))] at hst
  cases hst
  exact ⟨rfl, rfl⟩

theorem solveProblem_two {fuel : Nat} {g : Super} {p : CutProblem} {flag : Nat}
    {r : CutProblem × Stats} (h2 : p.numNodesInList = 2) (h0 : p.numArcs = 0)
    (h : solveProblem fuel g p flag = .ok r) : r.1.cutValue = 0 := by
  rw [solveProblem] at h
  simp only [h2, if_true, h0, List.take_zero, directCut, ok_bind] at h
  obtain ⟨i1, -, h⟩ := bind_eq_ok.mp h
  obtain ⟨i2, -, h⟩ := bind_eq_ok.mp h
  cases h
  rfl

theorem twoNode_build {g : Super} {n0 n1 : Node} (hg : SuperOK g) (hn : g.numNodesSuper = 2)
    (hnodes : g.nodeListSuper = [n0, n1])
    (hs : (g.sourceSuper = 0 ∧ g.sinkSuper = 1) ∨ (g.sourceSuper = 1 ∧ g.sinkSuper = 0))
    (lam : ℚ) :
    initializeContractedProblem g lam [0, 0] [1, 1]
      = .ok (twoNodeProblem g.sourceSuper g.sinkSuper lam) := by
  have h0 := hg.1 0 (by omega)
  have h1 := hg.1 1 (by omega)
  rw [hnodes] at h0 h1
  simp only [List.getElem?_cons_zero, List.getElem?_cons_succ, Option.map_some',
    Option.some.injEq, Prod.mk.injEq] at h0 h1
  have harcs : ∀ a ∈ g.arcListSuper.take g.numArcsSuper,
      a.from_ < g.numNodesSuper ∧ a.to_ < g.numNodesSuper :=
    fun a ha => hg.2 a (List.mem_of_mem_take ha)
  rw [initializeContractedProblem]
  rcases hs with ⟨e1, e2⟩ | ⟨e1, e2⟩
  · have hb : buildNodeMap g [0, 0] [1, 1] (List.range g.numNodesSuper) ([], 0, 0, 2)
        = .ok ([0, 1], 1, 1, 2) := by
      rw [hn]
      simp [List.range_succ, buildNodeMap, e1, e2, deref, bind, Except.bind, pure, Except.pure]
    have hfold : ∀ st, List.foldlM (contractArc g [0, 1] lam) st
        (List.take g.numArcsSuper g.arcListSuper) = .ok st :=
      fun st => contractFold_dropped hg lam (by rw [hn]; simp) (by simp) _ st harcs
    simp only [hb, ok_bind, hfold]
    simp [hn, hnodes, List.range_succ, setOriginalIndex, fillOriginalIndex, deref,
      twoNodeProblem, e1, e2, h0, h1, initializeNode, bind, Except.bind, pure, Except.pure]
  · have hb : buildNodeMap g [0, 0] [1, 1] (List.range g.numNodesSuper) ([], 0, 0, 2)
        = .ok ([1, 0], 1, 1, 2) := by
      rw [hn]
      simp [List.range_succ, buildNodeMap, e1, e2, deref, bind, Except.bind, pure, Except.pure]
    have hfold : ∀ st, List.foldlM (contractArc g [1, 0] lam) st
        (List.take g.numArcsSuper g.arcListSuper) = .ok st :=
      fun st => contractFold_dropped hg lam (by rw [hn]; simp) (by simp) _ st harcs
    simp only [hb, ok_bind, hfold]
    simp [hn, hnodes, List.range_succ, setOriginalIndex, fillOriginalIndex, deref,
      twoNodeProblem, e1, e2, h0, h1, initializeNode, bind, Except.bind, pure, Except.pure]

theorem solveProblem_twoNode (fuel : Nat) {g : Super} (hn : g.numNodesSuper = 2) (lam : ℚ)
    (flag : Nat) {src snk : Nat} (hs : (src = 0 ∧ snk = 1) ∨ (src = 1 ∧ snk = 0)) :
    solveProblem fuel g (twoNodeProblem src snk lam) flag
      = .ok ({ twoNodeProblem src snk lam with
                optimalSourceSetIndicator := some (if src = 0 then [1, 0] else [0, 1])
                solved := 1 }, Stats.zero) := by
  rw [solveProblem]
  rcases hs with ⟨e1, e2⟩ | ⟨e1, e2⟩ <;> subst e1 <;> subst e2 <;>
    simp [twoNodeProblem, hn, markRoster, writeChar, directCut, bind, Except.bind,
      initializeNode]

theorem differenceSourceSets_two {g : Super} (hn : g.numNodesSuper = 2) (a b c d : Int) :
    differenceSourceSets g [a, b] [c, d] = .ok [c - a, d - b] := by
  rw [differenceSourceSets, hn]
  rfl

theorem tightenEntries_two {lo hi : ℚ} (hlt : lo < hi) (a b : Int) :
    tightenEntries hi [a, b] (List.range 2) ((List.replicate 2 hi).set 0 lo) = .ok [lo, hi] := by
  have hgt : ¬ lo > hi := not_lt_of_lt hlt
  simp [List.range_succ, tightenEntries, deref, bind, Except.bind, hgt]

theorem hpf_solve_twoNode_result {numArcsIn sourceIn sinkIn : Nat} {arcMatrix : List ℚ}
    {lambdaLow lambdaHigh : ℚ} (round : Int)
    (htab : ArcTable 2 numArcsIn arcMatrix)
    (hs : (sourceIn = 0 ∧ sinkIn = 1) ∨ (sourceIn = 1 ∧ sinkIn = 0))
    (hlt : lambdaLow < lambdaHigh) (fuel depth : Nat) :
    hpf_solve fuel (depth + 1) 2 numArcsIn sourceIn sinkIn arcMatrix lambdaLow lambdaHigh round
      = .ok { numBreakpoints := 1, cuts := [lambdaLow, lambdaHigh], breakpoints := [lambdaHigh],
              stats := [0, 0, 0, 0, 0] } := by
  obtain ⟨g0, hread, hok, hlen⟩ := readGraphSuper_ok sourceIn sinkIn lambdaLow lambdaHigh round
    htab (by omega)
  obtain ⟨f1, f2, f3, f4, f5, f6, f7, f8, -, -⟩ := readGraphSuper_fields hread
  rw [if_neg (ne_of_lt hlt)] at f8
  obtain ⟨nn, na, s, t, nodes, arcs, rd, lo', hi', upc⟩ := g0
  simp only at f1 f2 f3 f4 f5 f6 f7 f8 hlen hok
  subst f1 f2 f3 f4 f5 f6 f7 f8
  obtain ⟨n0, n1, rfl⟩ : ∃ n0 n1, nodes = [n0, n1] := by
    match nodes, hlen with
    | [a, b], _ => exact ⟨a, b, rfl⟩
  have hb := fun lam => twoNode_build hok rfl rfl hs lam
  simp only at hb
  have hsl := fun lam => solveProblem_twoNode fuel
    (g := Super.mk 2 na s t [n0, n1] (qsort arcs) rd lo' hi' 1) rfl lam 0 hs
  rw [hpf_solve]
  simp only [hread, ok_bind, List.replicate, hb, hsl, if_true]
  rw [parametricCut]
  have hd := differenceSourceSets_two
    (g := Super.mk 2 na s t [n0, n1] (qsort arcs) rd lo' hi' 1) rfl
  have ht := tightenEntries_two hlt
  simp only [List.replicate] at ht
  rcases hs with ⟨rfl, rfl⟩ | ⟨rfl, rfl⟩
  · simp only [deref, ok_bind, if_true, hd, sub_self]
    rw [if_neg (by decide)]
    simp only [ok_bind, addBreakpoint, twoNodeProblem, ht, prepareOutput]
    rfl
  · simp only [deref, ok_bind, one_ne_zero, if_false, hd, sub_self]
    rw [if_neg (by decide)]
    simp only [ok_bind, addBreakpoint, twoNodeProblem, ht, prepareOutput]
    rfl

/-! ## More scenarios, evaluated -/

theorem S1_run : hpf_solve 8 8 2 1 0 1 [0, 1, 5, 0] 0 10 0
    = .ok { numBreakpoints := 1, cuts := [0, 10], breakpoints := [10],
            stats := [0, 0, 0, 0, 0] } := by decide!

theorem S1_cutValue_low : (initializeContractedProblem (S1 0) 0 [0, 0] [1, 1]
    >>= fun p => (solveProblem 8 (S1 0) p 0).map (fun r => (r.1.solved, r.1.cutValue)))
    = .ok (1, 0) := by decide!

theorem S1_cutValue_high : (initializeContractedProblem (S1 0) 10 [0, 0] [1, 1]
    >>= fun p => (solveProblem 8 (S1 0) p 0).map (fun r => (r.1.solved, r.1.cutValue)))
    = .ok (1, 0) := by decide!

theorem S1_read : readGraphSuper 2 1 0 1 [0, 1, 5, 0] 0 10 0 = .ok (S1 0, [0, 10]) := by
  decide!

theorem S2shifted_read : readGraphSuper 3 2 1 2 [1, 0, 0, 1, 0, 2, 10, 0] 0 20 1
    = .ok (S2shifted, [0, 20, 20]) := by decide!

theorem S2shifted_run : hpf_solve 8 8 3 2 1 2 [1, 0, 0, 1, 0, 2, 10, 0] 0 20 1
    = .ok { numBreakpoints := 2, cuts := [0, 10, 20], breakpoints := [10, 20],
            stats := [0, 0, 0, 0, 2] } := by decide!

theorem risingArc_read : readGraphSuper 3 1 0 2 [0, 1, -1, 1] 1 2 1
    = .ok (risingArc, [1, 2, 2]) := by decide!

theorem risingArc_run : hpf_solve 8 8 3 1 0 2 [0, 1, -1, 1] 1 2 1
    = .ok { numBreakpoints := 2, cuts := [1, 2, 2], breakpoints := [1, 2],
            stats := [0, 0, 0, 0, 2] } := by decide!

theorem tiedPaths_read : readGraphSuper 4 4 0 3 tiedPathsTable 0 10 1
    = .ok (tiedPaths, [0, 10, 10, 10]) := by decide!

theorem tiedPaths_run : hpf_solve 8 8 4 4 0 3 tiedPathsTable 0 10 1
    = .ok { numBreakpoints := 3, cuts := [0, 5 + 2 * TOL, 10, 10],
            breakpoints := [5 + TOL, 5 + 2 * TOL, 10], stats := [0, 0, 0, 1, 4] } := by
  decide!

theorem tiedPaths_runMaximal : hpf_solveMaximal 8 8 4 4 0 3 tiedPathsTable 0 10 1
    = .ok { numBreakpoints := 2, cuts := [0, 10, 10, 10],
            breakpoints := [5 + TOL, 10], stats := [0, 0, 0, 0, 2] } := by
  decide!

theorem tiedPaths_intersect :
    computeIntersect tiedPaths [0, 1, 1, 0] (0 - (5 + (5 + 2 * TOL))) = .ok (5 + TOL) := by
  decide!

theorem tiedPaths_probe (flag : Nat) (hflag : flag = 0 ∨ flag = 1) :
    (initializeContractedProblem tiedPaths (math_min (5 + TOL + TOL) tiedPaths.LAMBDA_HIGH)
        [1, 0, 0, 0] [1, 1, 1, 0]
      >>= fun p => (solveProblem 8 tiedPaths p flag).map
        (fun r => r.1.optimalSourceSetIndicator))
      = .ok (some (if flag = 0 then [1, 1, 0, 0] else [1, 1, 1, 0])) := by
  rcases hflag with rfl | rfl <;> decide!

theorem S1_table : ArcTable 2 1 [0, 1, 5, 0] := by
  intro i hi
  obtain rfl : i = 0 := by omega
  exact ⟨0, 1, 5, 0, rfl, rfl, rfl, rfl, by decide!, by decide!, by decide!, by decide!⟩

theorem S1swapped_table : ArcTable 2 1 [1, 0, 5, 0] := by
  intro i hi
  obtain rfl : i = 0 := by omega
  exact ⟨1, 0, 5, 0, rfl, rfl, rfl, rfl, by decide!, by decide!, by decide!, by decide!⟩

/-! ## Entries of the nodes, sentinel, two-node inputs, state across calls -/

/-- C11, as the code has it: on scenario S2 with `round_negative_capacity = 1`,
`hpf_solve` returns, for every loop bound and depth bound from 8 on, 2
breakpoints [10, 20] and `cuts = [0, 20, 20]`.  The breakpoint 10 is appended
with the source set `{0}` found just below it and the sentinel 20 with the
source set `{0, 1}` of the upper end, so the entry of node 1 is 20, the upper
end of the interval (10, 20] on which it is on the source side. -/
theorem S2_entries :
    ∀ fuel depth : Nat, (hpf_solve (8 + fuel) (8 + depth) 3 2 0 2
        [0, 1, 0, 1, 1, 2, 10, 0] 0 20 1).map
          (fun out => (out.numBreakpoints, out.breakpoints, out.cuts))
      = .ok (2, [10, 20], [0, 20, 20]) := by
  intro fuel depth
  rw [hpf_solve_mono (Nat.le_add_right 8 fuel) (Nat.le_add_right 8 depth) _ _ _ _ _ _ _ _ _
    S2_run_rounding]
  rfl

/-- C11, counterexample: on scenario S2 with the flag set the returned `cuts`
array is not [0, 10, 20]; its entry for node 1 is 20, not 10. -/
theorem S2_entry_not_smallest :
    ValidInput (S2 1)
    ∧ (hpf_solve 8 8 3 2 0 2 [0, 1, 0, 1, 1, 2, 10, 0] 0 20 1).map (fun out => out.cuts)
        ≠ .ok [0, 10, 20]
    ∧ (hpf_solve 8 8 3 2 0 2 [0, 1, 0, 1, 1, 2, 10, 0] 0 20 1).map (fun out => out.cuts[1]?)
        = .ok (some 20) := by
  rw [S2_run_rounding]
  exact ⟨by decide!, by decide!, rfl⟩

/-- C12: `readGraphSuper` writes `lambda_lo` to `nodeBreakpoints[source]` with
the engine variable `source`, which `reset_globals` has set to 0, not with the
source id of the call.  On the valid input with nodes 0, 1, 2, source 1,
sink 2, arcs (1,0) of capacity `lambda` and (0,2) of capacity 10, range
[0, 20], `hpf_solve` returns `cuts = [0, 10, 20]`, so `cuts[source_id] = 10`;
on the valid two-node input with source 1, sink 0 and the arc (1,0) of
capacity 5, range [0, 10], it returns `cuts = [0, 10]`, so
`cuts[source_id] = 10 = lambda_hi` and `cuts[sink_id] = 0 = lambda_lo`. -/
theorem source_entry_at_index_zero :
    ValidInput S2shifted
    ∧ readGraphSuper 3 2 1 2 [1, 0, 0, 1, 0, 2, 10, 0] 0 20 1 = .ok (S2shifted, [0, 20, 20])
    ∧ (∀ fuel depth : Nat, (hpf_solve (8 + fuel) (8 + depth) 3 2 1 2
        [1, 0, 0, 1, 0, 2, 10, 0] 0 20 1).map (fun out => (out.cuts, out.cuts[1]?))
          = .ok ([0, 10, 20], some 10))
    ∧ ValidInput (S1swapped 1)
    ∧ (∀ fuel depth : Nat, (hpf_solve fuel (depth + 1) 2 1 1 0 [1, 0, 5, 0] 0 10 1).map
        (fun out => (out.cuts[1]?, out.cuts[0]?)) = .ok (some 10, some 0)) := by
  refine ⟨by decide!, S2shifted_read, fun fuel depth => ?_, by decide!, fun fuel depth => ?_⟩
  · rw [hpf_solve_mono (Nat.le_add_right 8 fuel) (Nat.le_add_right 8 depth) _ _ _ _ _ _ _ _ _
      S2shifted_run]
    rfl
  · rw [hpf_solve_twoNode_result 1 S1swapped_table (Or.inr ⟨rfl, rfl⟩) (by norm_num) fuel depth]
    rfl

/-- C14: when `hpf_solve` returns on an input with `lambda_lo < lambda_hi`, the
breakpoints it returns are those that `parametricCut`, started with an empty
list, has appended, followed by `lambda_hi`: the last element is `lambda_hi`
and `num_breakpoints = k + 1` for the number `k` of breakpoints appended by
`parametricCut`. -/
theorem final_sentinel {fuel depth numNodesIn numArcsIn sourceIn sinkIn : Nat}
    {arcMatrix : List ℚ} {lambdaLow lambdaHigh : ℚ} {round : Int} {out : Output}
    (hlt : lambdaLow < lambdaHigh)
    (h : hpf_solve fuel depth numNodesIn numArcsIn sourceIn sinkIn arcMatrix lambdaLow lambdaHigh
      round = .ok out) :
    out.breakpoints.getLast? = some lambdaHigh
    ∧ ∃ (g0 : Super) (nb : List ℚ) (gl0 gl1 : Globals) (lowP highP : CutProblem),
        readGraphSuper numNodesIn numArcsIn sourceIn sinkIn arcMatrix lambdaLow lambdaHigh round
          = .ok (g0, nb)
        ∧ gl0.breakpoints = []
        ∧ parametricCut fuel { g0 with arcListSuper := qsort g0.arcListSuper } depth gl0 lowP
            highP = .ok gl1
        ∧ out.breakpoints = gl1.breakpoints ++ [lambdaHigh]
        ∧ out.numBreakpoints = gl1.breakpoints.length + 1 := by
  obtain ⟨g0, nb, gl0, gl1, gl2, lowP, highP, highInd, hread, hnil, -, hpar, hadd, hout⟩ :=
    hpf_solve_parametric (ne_of_lt hlt) h
  obtain ⟨hb, -, -, -⟩ := addBreakpoint_ok hadd
  have hbp : out.breakpoints = gl1.breakpoints ++ [lambdaHigh] := by
    rw [hout]
    exact hb
  refine ⟨by rw [hbp, List.getLast?_append, List.getLast?_singleton]; rfl,
    g0, nb, gl0, gl1, lowP, highP, hread, hnil, hpar, hbp, ?_⟩
  rw [hout]
  simp only [prepareOutput, hb, List.length_append, List.length_singleton]

/-- C14, an instance: scenario S2 with the rounding flag set, where
`parametricCut` appends the one breakpoint 10 and the call returns [10, 20]. -/
theorem final_sentinel_witness :
    ([10, 20] : List ℚ).getLast? = some 20
    ∧ ∃ (g0 : Super) (nb : List ℚ) (gl0 gl1 : Globals) (lowP highP : CutProblem),
        readGraphSuper 3 2 0 2 [0, 1, 0, 1, 1, 2, 10, 0] 0 20 1 = .ok (g0, nb)
        ∧ gl0.breakpoints = []
        ∧ parametricCut 8 { g0 with arcListSuper := qsort g0.arcListSuper } 8 gl0 lowP highP
            = .ok gl1
        ∧ ([10, 20] : List ℚ) = gl1.breakpoints ++ [20]
        ∧ 2 = gl1.breakpoints.length + 1 :=
  final_sentinel (by norm_num) S2_run_rounding

/-- C17: on an input with two nodes, one the source and the other the sink,
with any arc table whose rows name these nodes, either value of the flag and
`lambda_lo < lambda_hi`, `hpf_solve` returns for every loop bound and every
depth bound from 1 on, with the one breakpoint `lambda_hi`, the entries
`[lambda_lo, lambda_hi]` and no engine work. -/
theorem two_nodes_only_sentinel {numArcsIn sourceIn sinkIn : Nat} {arcMatrix : List ℚ}
    {lambdaLow lambdaHigh : ℚ} (round : Int) (htab : ArcTable 2 numArcsIn arcMatrix)
    (hs : (sourceIn = 0 ∧ sinkIn = 1) ∨ (sourceIn = 1 ∧ sinkIn = 0))
    (hlt : lambdaLow < lambdaHigh) (fuel depth : Nat) :
    hpf_solve fuel (depth + 1) 2 numArcsIn sourceIn sinkIn arcMatrix lambdaLow lambdaHigh round
      = .ok { numBreakpoints := 1, cuts := [lambdaLow, lambdaHigh], breakpoints := [lambdaHigh],
              stats := [0, 0, 0, 0, 0] } :=
  hpf_solve_twoNode_result round htab hs hlt fuel depth

/-- C17, an instance: scenario S1, with breakpoints [10] and entries [0, 10]. -/
theorem two_nodes_only_sentinel_witness :
    ArcTable 2 1 [0, 1, 5, 0]
    ∧ hpf_solve 8 8 2 1 0 1 [0, 1, 5, 0] 0 10 0
      = .ok { numBreakpoints := 1, cuts := [0, 10], breakpoints := [10],
              stats := [0, 0, 0, 0, 0] } :=
  ⟨S1_table, two_nodes_only_sentinel 0 S1_table (Or.inl ⟨rfl, rfl⟩) (by norm_num) 8 7⟩

/-- C19: whatever the file-level variables hold at entry, `hpf_solve` called
with the same arguments gives the same result: the same `num_breakpoints`,
`breakpoints` and `cuts` when it returns, and the same exit otherwise.  The
variables that `reset_globals` leaves alone are written before they are read
(`sourceSuper`, `sinkSuper`, `nodeBreakpoints`) or only printed
(`numBreakpoints`). -/
theorem hpf_solve_deterministic (e1 e2 : Statics)
    (fuel depth numNodesIn numArcsIn sourceIn sinkIn : Nat)
    (arcMatrix : List ℚ) (lambdaLow lambdaHigh : ℚ) (round : Int) :
    hpf_solve_from e1 fuel depth numNodesIn numArcsIn sourceIn sinkIn arcMatrix lambdaLow
        lambdaHigh round
      = hpf_solve_from e2 fuel depth numNodesIn numArcsIn sourceIn sinkIn arcMatrix lambdaLow
        lambdaHigh round := by
  rw [hpf_solve_from_eq, hpf_solve_from_eq]

/-! ## Interior breakpoints, the empty interior, the upper probe, the entries -/

/-- Where the breakpoints come from: when `hpf_solve` returns on an input with
`lambda_lo < lambda_hi`, the returned breakpoints are a list followed by the
sentinel `lambda_hi`, and every element of that list is a value that
`computeIntersect` returned for a non-empty difference of two indicator
arrays; no comparison with `lambda_lo` or `lambda_hi` is made before a value
is appended. -/
theorem interior_breakpoints_are_intersections
    {fuel depth numNodesIn numArcsIn sourceIn sinkIn : Nat}
    {arcMatrix : List ℚ} {lambdaLow lambdaHigh : ℚ} {round : Int} {out : Output}
    (hlt : lambdaLow < lambdaHigh)
    (h : hpf_solve fuel depth numNodesIn numArcsIn sourceIn sinkIn arcMatrix lambdaLow lambdaHigh
      round = .ok out) :
    ∃ (g0 : Super) (nb : List ℚ) (l : List ℚ),
      readGraphSuper numNodesIn numArcsIn sourceIn sinkIn arcMatrix lambdaLow lambdaHigh round
        = .ok (g0, nb)
      ∧ out.breakpoints = l ++ [lambdaHigh]
      ∧ ∀ b ∈ l, IsIntersection { g0 with arcListSuper := qsort g0.arcListSuper } b := by
  obtain ⟨g0, nb, gl0, gl1, gl2, lowP, highP, highInd, hread, hnil, -, hpar, hadd, hout⟩ :=
    hpf_solve_parametric (ne_of_lt hlt) h
  obtain ⟨hb, -, -, -⟩ := addBreakpoint_ok hadd
  obtain ⟨l, hl, hall, -⟩ := parametricCut_result fuel _ depth gl0 gl1 lowP highP hpar
  rw [hnil, List.nil_append] at hl
  refine ⟨g0, nb, l, hread, ?_, hall⟩
  rw [hout, ← hl]
  exact hb

/-- An instance of the origin of the breakpoints: scenario S2 with the
rounding flag set, where the call
returns [10, 20]. -/
theorem interior_breakpoints_are_intersections_witness :
    ∃ (g0 : Super) (nb : List ℚ) (l : List ℚ),
      readGraphSuper 3 2 0 2 [0, 1, 0, 1, 1, 2, 10, 0] 0 20 1 = .ok (g0, nb)
      ∧ ([10, 20] : List ℚ) = l ++ [20]
      ∧ ∀ b ∈ l, IsIntersection { g0 with arcListSuper := qsort g0.arcListSuper } b :=
  interior_breakpoints_are_intersections (by norm_num) S2_run_rounding

/-- A breakpoint at `lambda_lo`: on the valid input with nodes 0, 1, 2, source 0,
sink 2 and the one arc (0,1) of capacity `lambda - 1`, range [1, 2],
`hpf_solve` returns, for every loop bound and depth bound from 8 on, the
breakpoints [1, 2]: the breakpoint before the sentinel is `lambda_lo` itself,
not a value above it.  The source sets at the two ends are `{0}` and
`{0, 1}`, and their cut functions `lambda - 1` and 0 meet at 1. -/
theorem breakpoint_at_lambda_low :
    ValidInput risingArc
    ∧ readGraphSuper 3 1 0 2 [0, 1, -1, 1] 1 2 1 = .ok (risingArc, [1, 2, 2])
    ∧ (∀ fuel depth : Nat, (hpf_solve (8 + fuel) (8 + depth) 3 1 0 2 [0, 1, -1, 1] 1 2 1).map
        (fun out => (out.numBreakpoints, out.breakpoints)) = .ok (2, [1, 2]))
    ∧ ¬ ((1 : ℚ) < 1) := by
  refine ⟨by decide!, risingArc_read, fun fuel depth => ?_, by norm_num⟩
  rw [hpf_solve_mono (Nat.le_add_right 8 fuel) (Nat.le_add_right 8 depth) _ _ _ _ _ _ _ _ _
    risingArc_run]
  rfl

/-- C16: on a well-formed super graph, a contracted problem that
`initializeContractedProblem` builds with the two artificial nodes only has no
arc at all, because the builder drops every super arc from a node collapsed
into the source to a node collapsed into the sink; so the sum of
`solveProblem` over the arcs from node -1 to node -2 is empty and `cutValue`
is 0, whatever the capacities of those super arcs are. -/
theorem two_node_cut_value_zero (g : Super) (lam : ℚ) (low high : List Int) (p : CutProblem)
    (fuel flag : Nat) (r : CutProblem × Stats)
    (hg : SuperOK g) (hlow : g.numNodesSuper ≤ low.length)
    (hhigh : g.numNodesSuper ≤ high.length)
    (hp : initializeContractedProblem g lam low high = .ok p) (h2 : p.numNodesInList = 2)
    (h : solveProblem fuel g p flag = .ok r) :
    p.numArcs = 0 ∧ p.arcList = [] ∧ r.1.cutValue = 0 := by
  obtain ⟨h0, hnil⟩ := initializeContractedProblem_two hg hlow hhigh hp h2
  exact ⟨h0, hnil, solveProblem_two h2 h0 h⟩

/-- C16, an instance: scenario S1 at `lambda = 0`, where the arc from the
source to the sink has capacity 5 and the solved problem has `cutValue = 0`. -/
theorem two_node_cut_value_zero_witness :
    initializeContractedProblem (S1 0) 0 [0, 0] [1, 1] = .ok (twoNodeProblem 0 1 0)
    ∧ solveProblem 8 (S1 0) (twoNodeProblem 0 1 0) 0
        = .ok ({ twoNodeProblem 0 1 0 with
                  optimalSourceSetIndicator := some [1, 0], solved := 1 }, Stats.zero)
    ∧ cutLine (S1 0) [1, 0] 0 = 5
    ∧ (twoNodeProblem 0 1 0).numArcs = 0 ∧ (twoNodeProblem 0 1 0).arcList = []
    ∧ ({ twoNodeProblem 0 1 0 with
          optimalSourceSetIndicator := some [1, 0], solved := 1 } : CutProblem).cutValue = 0 :=
  ⟨by decide!, by decide!, by decide!,
    two_node_cut_value_zero (S1 0) 0 [0, 0] [1, 1] (twoNodeProblem 0 1 0) 8 0
      ({ twoNodeProblem 0 1 0 with optimalSourceSetIndicator := some [1, 0], solved := 1 },
        Stats.zero)
      (by decide!) (by decide!) (by decide!) (by decide!) rfl (by decide!)⟩

/-- C18, as the code has it: in a call of `parametricCut` with a non-empty
difference between the two source sets, the subproblem built at
`min(lambda* + TOL, lambda_hi)` from `S_min` and `S_high` is solved with the
maximal-source flag 0, as the other problems are, and the source set of that
run is the one used in the breakpoint test and handed to the upper recursive
call.  The 1 in the call that builds the subproblem selects its buffer. -/
theorem upper_probe_flag (fuel depth : Nat) (g : Super) (gl : Globals) (low high : CutProblem)
    (lowInd highInd diff : List Int) (Klow Khigh lam : ℚ)
    (hlow : low.optimalSourceSetIndicator = some lowInd)
    (hhigh : high.optimalSourceSetIndicator = some highInd)
    (hdiff : differenceSourceSets g lowInd highInd = .ok diff)
    (hpos : 0 < sum_array_char diff g.numNodesSuper)
    (hKlow : internalCutCapacity g lowInd (g.arcListSuper.take g.numArcsSuper) 0 = .ok Klow)
    (hKhigh : internalCutCapacity g highInd (g.arcListSuper.take g.numArcsSuper) 0 = .ok Khigh)
    (hlam : computeIntersect g diff (Klow - Khigh) = .ok lam) :
    parametricCut fuel g (depth + 1) gl low high = (do
      let minP ← initializeContractedProblem g (math_max (lam - TOL) g.LAMBDA_LOW) lowInd highInd
      let (minP, statsMin) ← solveProblem fuel g minP 0
      let minInd ← deref minP.optimalSourceSetIndicator
      let maxP ← initializeContractedProblem g (math_min (lam + TOL) g.LAMBDA_HIGH) minInd
        highInd
      let (maxP, statsMax) ← solveProblem fuel g maxP 0
      let maxInd ← deref maxP.optimalSourceSetIndicator
      let gl := { gl with stats := (gl.stats.add statsMin).add statsMax }
      let minMax ← differenceSourceSets g minInd maxInd
      let gl ← if sum_array_char minMax g.numNodesSuper > 0 then
          addBreakpoint g gl lam minInd
        else pure gl
      let gl ← parametricCut fuel g depth gl low minP
      parametricCut fuel g depth gl maxP high) := by
  rw [parametricCut]
  simp only [hlow, hhigh, deref, ok_bind, hdiff, gt_iff_lt, hpos, if_true, hKlow, hKhigh, hlam]

/-- C18, an instance: the first call of `parametricCut` on the input with two
tied paths, from the source sets `{0}` and `{0, 1, 2}` of the two ends, where
`lambda* = 5 + TOL`. -/
theorem upper_probe_flag_witness :
    parametricCut 8 tiedPaths 8 (startGlobals [0, 10, 10, 10]) (solvedWith [1, 0, 0, 0])
        (solvedWith [1, 1, 1, 0]) = (do
      let minP ← initializeContractedProblem tiedPaths
        (math_max (5 + TOL - TOL) tiedPaths.LAMBDA_LOW) [1, 0, 0, 0] [1, 1, 1, 0]
      let (minP, statsMin) ← solveProblem 8 tiedPaths minP 0
      let minInd ← deref minP.optimalSourceSetIndicator
      let maxP ← initializeContractedProblem tiedPaths
        (math_min (5 + TOL + TOL) tiedPaths.LAMBDA_HIGH) minInd [1, 1, 1, 0]
      let (maxP, statsMax) ← solveProblem 8 tiedPaths maxP 0
      let maxInd ← deref maxP.optimalSourceSetIndicator
      let gl := { startGlobals [0, 10, 10, 10] with
        stats := ((startGlobals [0, 10, 10, 10]).stats.add statsMin).add statsMax }
      let minMax ← differenceSourceSets tiedPaths minInd maxInd
      let gl ← if sum_array_char minMax tiedPaths.numNodesSuper > 0 then
          addBreakpoint tiedPaths gl (5 + TOL) minInd
        else pure gl
      let gl ← parametricCut 8 tiedPaths 7 gl (solvedWith [1, 0, 0, 0]) minP
      parametricCut 8 tiedPaths 7 gl maxP (solvedWith [1, 1, 1, 0])) :=
  upper_probe_flag 8 7 tiedPaths (startGlobals [0, 10, 10, 10]) (solvedWith [1, 0, 0, 0])
    (solvedWith [1, 1, 1, 0]) [1, 0, 0, 0] [1, 1, 1, 0] [0, 1, 1, 0] 0 (5 + (5 + 2 * TOL))
    (5 + TOL) rfl rfl (by decide!) (by decide!) (by decide!) (by decide!) (by decide!)

/-- C18, counterexample: on the valid input with two paths source - 1 - sink
and source - 2 - sink, source arcs of capacity `lambda`, sink arcs of
capacity 5 and `5 + 2 * TOL`, range [0, 10], the first call of `parametricCut`
has `lambda* = 5 + TOL` and `S_min = {0}`, and the subproblem at
`lambda* + TOL` has the source set `{0, 1}` when solved with flag 0 and
`{0, 1, 2}` when solved with flag 1.  The code goes on with `{0, 1}`:
`hpf_solve` returns the breakpoints `5 + TOL`, `5 + 2 * TOL`, 10, whereas
with the upper probe solved with flag 1 the breakpoints would be `5 + TOL`,
10. -/
theorem upper_probe_not_maximal :
    ValidInput tiedPaths
    ∧ readGraphSuper 4 4 0 3 tiedPathsTable 0 10 1 = .ok (tiedPaths, [0, 10, 10, 10])
    ∧ qsort tiedPaths.arcListSuper = tiedPaths.arcListSuper
    ∧ computeIntersect tiedPaths [0, 1, 1, 0] (0 - (5 + (5 + 2 * TOL))) = .ok (5 + TOL)
    ∧ (initializeContractedProblem tiedPaths (math_max (5 + TOL - TOL) tiedPaths.LAMBDA_LOW)
          [1, 0, 0, 0] [1, 1, 1, 0]
        >>= fun p => (solveProblem 8 tiedPaths p 0).map
          (fun r => r.1.optimalSourceSetIndicator)) = .ok (some [1, 0, 0, 0])
    ∧ (initializeContractedProblem tiedPaths (math_min (5 + TOL + TOL) tiedPaths.LAMBDA_HIGH)
          [1, 0, 0, 0] [1, 1, 1, 0]
        >>= fun p => (solveProblem 8 tiedPaths p 0).map
          (fun r => r.1.optimalSourceSetIndicator)) = .ok (some [1, 1, 0, 0])
    ∧ (initializeContractedProblem tiedPaths (math_min (5 + TOL + TOL) tiedPaths.LAMBDA_HIGH)
          [1, 0, 0, 0] [1, 1, 1, 0]
        >>= fun p => (solveProblem 8 tiedPaths p 1).map
          (fun r => r.1.optimalSourceSetIndicator)) = .ok (some [1, 1, 1, 0])
    ∧ (∀ fuel depth : Nat, (hpf_solve (8 + fuel) (8 + depth) 4 4 0 3 tiedPathsTable 0 10 1).map
        (fun out => (out.numBreakpoints, out.breakpoints))
          = .ok (3, [5 + TOL, 5 + 2 * TOL, 10]))
    ∧ (hpf_solveMaximal 8 8 4 4 0 3 tiedPathsTable 0 10 1).map
        (fun out => (out.numBreakpoints, out.breakpoints)) = .ok (2, [5 + TOL, 10]) := by
  refine ⟨by decide!, tiedPaths_read, by decide!, tiedPaths_intersect, by decide!,
    tiedPaths_probe 0 (Or.inl rfl), tiedPaths_probe 1 (Or.inr rfl), fun fuel depth => ?_, ?_⟩
  · rw [hpf_solve_mono (Nat.le_add_right 8 fuel) (Nat.le_add_right 8 depth) _ _ _ _ _ _ _ _ _
      tiedPaths_run]
    rfl
  · rw [tiedPaths_runMaximal]
    rfl

/-- C20: `addBreakpoint(lambda, indicator)`, called with an indicator array
and an entry array that cover the nodes, returns; it appends `lambda` at the
end of the breakpoint list and leaves the earlier elements as they are; the
entry of node `i` becomes `lambda` when `indicator[i]` is set and the old
entry is strictly greater than `lambda`, and stays as it is otherwise; so no
entry increases, and none increases over a run of `parametricCut` either. -/
theorem addBreakpoint_entries (g : Super) (gl : Globals) (lam : ℚ) (ind : List Int)
    (hind : g.numNodesSuper ≤ ind.length) (hnb : g.numNodesSuper ≤ gl.nodeBreakpoints.length) :
    (∃ gl', addBreakpoint g gl lam ind = .ok gl'
      ∧ gl'.breakpoints = gl.breakpoints ++ [lam]
      ∧ gl'.nodeBreakpoints.length = gl.nodeBreakpoints.length
      ∧ (∀ i : Nat, gl'.nodeBreakpoints[i]? =
          if i < g.numNodesSuper ∧ (∃ c, ind[i]? = some c ∧ c ≠ 0)
              ∧ (∃ b, gl.nodeBreakpoints[i]? = some b ∧ b > lam)
          then some lam else gl.nodeBreakpoints[i]?)
      ∧ EntriesLe gl'.nodeBreakpoints gl.nodeBreakpoints)
    ∧ (∀ (fuel depth : Nat) (gl1 : Globals) (low high : CutProblem),
        parametricCut fuel g depth gl low high = .ok gl1 →
          EntriesLe gl1.nodeBreakpoints gl.nodeBreakpoints) := by
  refine ⟨?_, fun fuel depth gl1 low high h => ?_⟩
  · obtain ⟨nb', hnb'⟩ := tightenEntries_total lam ind (List.range g.numNodesSuper)
      gl.nodeBreakpoints (fun i hi => by
        have := List.mem_range.mp hi
        exact ⟨by omega, by omega⟩)
    obtain ⟨hlen, hget⟩ := tightenEntries_spec lam ind _ _ _ hnb'
    refine ⟨{ gl with numBreakpoints := incU gl.numBreakpoints, nodeBreakpoints := nb',
                       breakpoints := gl.breakpoints ++ [lam] }, ?_, rfl, hlen, fun i => ?_,
      tightenEntries_le hnb'⟩
    · rw [addBreakpoint, hnb']
      rfl
    · simp only [hget i, List.mem_range]
  · obtain ⟨l, -, -, hle⟩ := parametricCut_result fuel g depth gl gl1 low high h
    exact hle

/-- C20, an instance: on scenario S2 with the entries [0, 20, 20], the
breakpoint 10 with the indicator of `{0, 1}` gives the entries [0, 10, 20]. -/
theorem addBreakpoint_entries_witness :
    addBreakpoint (S2 1) (startGlobals [0, 20, 20]) 10 [1, 1, 0]
      = .ok { startGlobals [0, 20, 20] with
              numBreakpoints := 1, nodeBreakpoints := [0, 10, 20], breakpoints := [10] }
    ∧ ((∃ gl', addBreakpoint (S2 1) (startGlobals [0, 20, 20]) 10 [1, 1, 0] = .ok gl'
      ∧ gl'.breakpoints = (startGlobals [0, 20, 20]).breakpoints ++ [10]
      ∧ gl'.nodeBreakpoints.length = (startGlobals [0, 20, 20]).nodeBreakpoints.length
      ∧ (∀ i : Nat, gl'.nodeBreakpoints[i]? =
          if i < (S2 1).numNodesSuper ∧ (∃ c, ([1, 1, 0] : List Int)[i]? = some c ∧ c ≠ 0)
              ∧ (∃ b, (startGlobals [0, 20, 20]).nodeBreakpoints[i]? = some b ∧ b > 10)
          then some 10 else (startGlobals [0, 20, 20]).nodeBreakpoints[i]?)
      ∧ EntriesLe gl'.nodeBreakpoints (startGlobals [0, 20, 20]).nodeBreakpoints)
    ∧ (∀ (fuel depth : Nat) (gl1 : Globals) (low high : CutProblem),
        parametricCut fuel (S2 1) depth (startGlobals [0, 20, 20]) low high = .ok gl1 →
          EntriesLe gl1.nodeBreakpoints (startGlobals [0, 20, 20]).nodeBreakpoints)) :=
  ⟨by decide!, addBreakpoint_entries (S2 1) (startGlobals [0, 20, 20]) 10 [1, 1, 0]
    (by decide!) (by decide!)⟩

/-! ## The node map -/

theorem interiorBefore_succ (g : Super) (low high : List Int) (k : Nat) :
    interiorBefore g low high (k + 1)
      = interiorBefore g low high k + (if isInterior g low high k then 1 else 0) := by
  simp only [interiorBefore, List.range_succ, List.filter_append, List.length_append]
  by_cases h : isInterior g low high k = true <;> simp [List.filter, h]

theorem filter_range_succ_length (p : Nat → Bool) (k : Nat) :
    ((List.range (k + 1)).filter p).length
      = ((List.range k).filter p).length + (if p k then 1 else 0) := by
  simp only [List.range_succ, List.filter_append, List.length_append]
  by_cases h : p k = true <;> simp [List.filter, h]

theorem buildNodeMap_cons (g : Super) (low high : List Int) (j : Nat) (rest : List Nat)
    (nodeMap : List Nat) (nSrc nSnk nList : Nat) (hl : j < low.length) (hh : j < high.length) :
    buildNodeMap g low high (j :: rest) (nodeMap, nSrc, nSnk, nList)
      = if j = g.sourceSuper ∨ low[j] = 1 then
          buildNodeMap g low high rest (nodeMap ++ [0], nSrc + 1, nSnk, nList)
        else if j = g.sinkSuper ∨ high[j] = 0 then
          buildNodeMap g low high rest (nodeMap ++ [1], nSrc, nSnk + 1, nList)
        else buildNodeMap g low high rest (nodeMap ++ [nList], nSrc, nSnk, nList + 1) := by
  have e1 : low[j]? = some low[j] := List.getElem?_eq_getElem hl
  have e2 : high[j]? = some high[j] := List.getElem?_eq_getElem hh
  rw [buildNodeMap]
  simp only [e1, e2, deref, bind, Except.bind, pure, Except.pure]
  by_cases hj : j = g.sourceSuper
  · simp only [hj, if_true, true_or]
  · by_cases hk : j = g.sinkSuper
    · subst hk
      simp only [hj, if_false, false_or, if_true, true_or]
    · simp only [hj, if_false, false_or, hk]

theorem NodeMapUpTo.next {g : Super} {low high : List Int} {j : Nat}
    {acc : List Nat × Nat × Nat × Nat} (h : NodeMapUpTo g low high j acc)
    (hl : j < low.length) (hh : j < high.length) :
    ∃ r, (∀ rest, buildNodeMap g low high (j :: rest) acc = buildNodeMap g low high rest r)
      ∧ NodeMapUpTo g low high (j + 1) r := by
  obtain ⟨nodeMap, nSrc, nSnk, nList⟩ := acc
  obtain ⟨h1, h2, h3, h4, h5⟩ := h
  simp only at h1 h2 h3 h4 h5
  have e1 : low[j]? = some low[j] := List.getElem?_eq_getElem hl
  have e2 : high[j]? = some high[j] := List.getElem?_eq_getElem hh
  have hget : ∀ (v : Nat) (x : Nat), x < j + 1 → mapOf g low high j = v →
      (nodeMap ++ [v])[x]? = some (mapOf g low high x) := by
    intro v x hx hv
    by_cases hxj : x < j
    · rw [List.getElem?_append_left (by omega)]
      exact h2 x hxj
    · have : x = j := by omega
      subst this
      rw [List.getElem?_append_right (by omega), h1, Nat.sub_self]
      simp [hv]
  by_cases hs : toSource g low j = true
  · refine ⟨(nodeMap ++ [0], nSrc + 1, nSnk, nList), ?_, ?_⟩
    · intro rest
      rw [buildNodeMap_cons g low high j rest nodeMap nSrc nSnk nList hl hh]
      simp only [toSource, Bool.or_eq_true, decide_eq_true_eq, e1, Option.some.injEq] at hs
      rw [if_pos hs]
    · refine ⟨by simp [h1], fun x hx => hget 0 x hx (by simp [mapOf, hs]), ?_, ?_, ?_⟩
      · simp only [filter_range_succ_length, hs, if_true, h3]
      · have : toSink g low high j = false := by simp [toSink, hs]
        simp [filter_range_succ_length, this, h4]
      · have : isInterior g low high j = false := by simp [isInterior, hs]
        simp [interiorBefore_succ, this, h5]
  · have hs' : toSource g low j = false := by simpa using hs
    have hsrc : ¬ (j = g.sourceSuper) ∧ ¬ (low[j] = 1) := by
      simp only [toSource, Bool.or_eq_false_iff, decide_eq_false_iff_not, e1,
        Option.some.injEq] at hs'
      exact hs'
    by_cases hk : toSink g low high j = true
    · refine ⟨(nodeMap ++ [1], nSrc, nSnk + 1, nList), ?_, ?_⟩
      · intro rest
        rw [buildNodeMap_cons g low high j rest nodeMap nSrc nSnk nList hl hh]
        simp only [toSink, hs', Bool.not_false, Bool.true_and, Bool.or_eq_true,
          decide_eq_true_eq, e2, Option.some.injEq] at hk
        rw [if_neg (by tauto), if_pos hk]
      · refine ⟨by simp [h1], fun x hx => hget 1 x hx (by simp [mapOf, hs', hk]), ?_, ?_, ?_⟩
        · simp [filter_range_succ_length, hs', h3]
        · simp only [filter_range_succ_length, hk, if_true, h4]
        · have : isInterior g low high j = false := by simp [isInterior, hk]
          simp [interiorBefore_succ, this, h5]
    · have hk' : toSink g low high j = false := by simpa using hk
      have hsnk : ¬ (j = g.sinkSuper) ∧ ¬ (high[j] = 0) := by
        simp only [toSink, hs', Bool.not_false, Bool.true_and, Bool.or_eq_false_iff,
          decide_eq_false_iff_not, e2, Option.some.injEq] at hk'
        exact hk'
      refine ⟨(nodeMap ++ [nList], nSrc, nSnk, nList + 1), ?_, ?_⟩
      · intro rest
        rw [buildNodeMap_cons g low high j rest nodeMap nSrc nSnk nList hl hh]
        rw [if_neg (by tauto), if_neg (by tauto)]
      · refine ⟨by simp [h1], fun x hx => hget nList x hx (by simp [mapOf, hs', hk', h5]),
          ?_, ?_, ?_⟩
        · simp [filter_range_succ_length, hs', h3]
        · simp [filter_range_succ_length, hk', h4]
        · have : isInterior g low high j = true := by simp [isInterior, hs', hk']
          simp only [interiorBefore_succ, this, if_true, h5]
          omega

theorem buildNodeMap_upTo (g : Super) (low high : List Int) :
    ∀ (k j : Nat) (acc : List Nat × Nat × Nat × Nat),
      j + k ≤ low.length → j + k ≤ high.length → NodeMapUpTo g low high j acc →
      ∃ r, buildNodeMap g low high (List.range' j k) acc = .ok r
        ∧ NodeMapUpTo g low high (j + k) r := by
  intro k
  induction k with
  | zero => intro j acc _ _ h; exact ⟨acc, by simp [buildNodeMap], h⟩
  | succ k ih =>
    intro j acc hl hh h
    obtain ⟨r1, hr1, hinv⟩ := h.next (by omega) (by omega)
    obtain ⟨r, hr, hfin⟩ := ih (j + 1) r1 (by omega) (by omega) hinv
    refine ⟨r, ?_, by rw [show j + (k + 1) = j + 1 + k by omega]; exact hfin⟩
    rw [List.range'_succ, hr1]
    exact hr

theorem buildNodeMap_spec (g : Super) (low high : List Int)
    (hlow : g.numNodesSuper ≤ low.length) (hhigh : g.numNodesSuper ≤ high.length) :
    ∃ r, buildNodeMap g low high (List.range g.numNodesSuper) ([], 0, 0, 2) = .ok r
      ∧ NodeMapUpTo g low high g.numNodesSuper r := by
  have h0 : NodeMapUpTo g low high 0 ([], 0, 0, 2) :=
    ⟨rfl, fun x hx => by omega, rfl, rfl, rfl⟩
  obtain ⟨r, hr, hinv⟩ := buildNodeMap_upTo g low high g.numNodesSuper 0 _ (by omega)
    (by omega) h0
  rw [Nat.zero_add] at hinv
  rw [List.range_eq_range']
  exact ⟨r, hr, hinv⟩

/-! ## The rosters and the recorded indices -/

theorem interiorBefore_mono (g : Super) (low high : List Int) {a b : Nat} (h : a ≤ b) :
    interiorBefore g low high a ≤ interiorBefore g low high b := by
  induction b with
  | zero =>
    have : a = 0 := by omega
    subst this
    exact le_refl _
  | succ b ih =>
    by_cases hab : a = b + 1
    · subst hab; exact le_refl _
    · have := ih (by omega)
      rw [interiorBefore_succ]
      omega

theorem interiorBefore_lt (g : Super) (low high : List Int) {x j : Nat} (h : x < j)
    (hx : isInterior g low high x = true) :
    interiorBefore g low high x < interiorBefore g low high j := by
  have h1 := interiorBefore_mono g low high (show x + 1 ≤ j by omega)
  rw [interiorBefore_succ, hx] at h1
  simp only [if_true] at h1
  omega

theorem mapOf_interior {g : Super} {low high : List Int} {x : Nat}
    (hx : isInterior g low high x = true) :
    mapOf g low high x = 2 + interiorBefore g low high x := by
  simp only [isInterior, Bool.and_eq_true, Bool.not_eq_true'] at hx
  simp [mapOf, hx.1, hx.2]

theorem mapOf_cases (g : Super) (low high : List Int) (x : Nat) :
    (toSource g low x = true ∧ toSink g low high x = false ∧ isInterior g low high x = false
        ∧ mapOf g low high x = 0)
    ∨ (toSource g low x = false ∧ toSink g low high x = true ∧ isInterior g low high x = false
        ∧ mapOf g low high x = 1)
    ∨ (toSource g low x = false ∧ toSink g low high x = false ∧ isInterior g low high x = true
        ∧ mapOf g low high x = 2 + interiorBefore g low high x) := by
  by_cases hs : toSource g low x = true
  · left
    simp [toSink, isInterior, mapOf, hs]
  · have hs' : toSource g low x = false := by simpa using hs
    by_cases hk : toSink g low high x = true
    · right; left
      simp [isInterior, mapOf, hs', hk]
    · have hk' : toSink g low high x = false := by simpa using hk
      right; right
      simp [isInterior, mapOf, hs', hk']

theorem FreshNode.setOriginal {m : Nat} {nd : Node} (h : FreshNode m nd) (v : Int) :
    FreshNode m { nd with originalIndex := v } := by
  unfold FreshNode at h ⊢
  rw [h]

theorem take_succ_set {α : Type} (a : α) :
    ∀ (l : List α) (c : Nat), c < l.length → (l.set c a).take (c + 1) = l.take c ++ [a] := by
  intro l
  induction l with
  | nil => intro c hc; simp at hc
  | cons x l ih =>
    intro c hc
    cases c with
    | zero => simp
    | succ c =>
      simp only [List.length_cons, Nat.add_lt_add_iff_right] at hc
      simp [ih c hc]

theorem take_set_ge {α : Type} (a : α) :
    ∀ (l : List α) (c k : Nat), k ≤ c → (l.set c a).take k = l.take k := by
  intro l
  induction l with
  | nil => intro c k _; simp
  | cons x l ih =>
    intro c k hk
    cases c with
    | zero =>
      have : k = 0 := by omega
      subst this
      simp
    | succ c =>
      cases k with
      | zero => simp
      | succ k => simp [ih c k (by omega)]

theorem RostersUpTo.advance {g : Super} {low high : List Int} {j : Nat}
    {nodeMap : List Nat} {acc : List Node × List Node × List Node × Nat × Nat}
    (hg : SuperOK g) (hj : j < g.numNodesSuper)
    (hmap : nodeMap[j]? = some (mapOf g low high j))
    (h : RostersUpTo g low high j acc)
    (hN : acc.1.length = 2 + interiorBefore g low high g.numNodesSuper)
    (hA : acc.2.1.length = ((List.range g.numNodesSuper).filter (toSource g low)).length)
    (hB : acc.2.2.1.length = ((List.range g.numNodesSuper).filter (toSink g low high)).length) :
    ∃ r, (∀ rest, fillOriginalIndex g.nodeListSuper nodeMap (j :: rest) acc
            = fillOriginalIndex g.nodeListSuper nodeMap rest r)
      ∧ RostersUpTo g low high (j + 1) r
      ∧ r.1.length = acc.1.length ∧ r.2.1.length = acc.2.1.length
      ∧ r.2.2.1.length = acc.2.2.1.length := by
  obtain ⟨nl, ss, ks, cSrc, cSnk⟩ := acc
  obtain ⟨h1, h2, h3, h4, h5, h6, h7, h8⟩ := h
  simp only at h1 h2 h3 h4 h5 h6 h7 h8 hN hA hB
  obtain ⟨old, hold, horig, -⟩ := hg.node hj
  have hcountS := filter_range_succ_length (toSource g low) j
  have hcountK := filter_range_succ_length (toSink g low high) j
  have hmonoS : ((List.range (j + 1)).filter (toSource g low)).length
      ≤ ((List.range g.numNodesSuper).filter (toSource g low)).length := by
    have : List.range (j + 1) <+: List.range g.numNodesSuper :=
      List.prefix_iff_eq_take.mpr (by
        rw [List.length_range, List.take_range, Nat.min_eq_left (by omega)])
    exact (this.sublist.filter _).length_le
  have hmonoK : ((List.range (j + 1)).filter (toSink g low high)).length
      ≤ ((List.range g.numNodesSuper).filter (toSink g low high)).length := by
    have : List.range (j + 1) <+: List.range g.numNodesSuper :=
      List.prefix_iff_eq_take.mpr (by
        rw [List.length_range, List.take_range, Nat.min_eq_left (by omega)])
    exact (this.sublist.filter _).length_le
  have hfilterS : (List.range (j + 1)).filter (toSource g low)
      = (List.range j).filter (toSource g low) ++ (if toSource g low j then [j] else []) := by
    rw [List.range_succ, List.filter_append]
    by_cases hc : toSource g low j = true <;> simp [List.filter, hc]
  have hfilterK : (List.range (j + 1)).filter (toSink g low high)
      = (List.range j).filter (toSink g low high)
        ++ (if toSink g low high j then [j] else []) := by
    rw [List.range_succ, List.filter_append]
    by_cases hc : toSink g low high j = true <;> simp [List.filter, hc]
  rcases mapOf_cases g low high j with ⟨c1, c2, c3, c4⟩ | ⟨c1, c2, c3, c4⟩ | ⟨c1, c2, c3, c4⟩
  · -- collapsed into the source
    have hc : cSrc < ss.length := by
      rw [hA]
      rw [hcountS, c1] at hmonoS
      simp only [if_true] at hmonoS
      omega
    refine ⟨(nl, ss.set cSrc { ss[cSrc] with originalIndex := old.originalIndex }, ks,
      cSrc + 1, cSnk), ?_, ?_, rfl, by simp, rfl⟩
    · intro rest
      rw [fillOriginalIndex]
      simp only [hmap, c4, deref, ok_bind, hold, setOriginalIndex,
        List.getElem?_eq_getElem hc]
      rfl
    · refine ⟨by simp [hcountS, c1, h1], by simp [hcountK, c2, h2], h3, h4, ?_, ?_, ?_, h8⟩
      · intro x hx hxi
        by_cases hxj : x < j
        · exact h5 x hxj hxi
        · have : x = j := by omega
          subst this
          rw [c3] at hxi
          cases hxi
      · simp only
        rw [take_succ_set _ _ _ hc, List.map_append, h6, hfilterS, c1]
        simp [horig]
      · simp only
        rw [hfilterK, c2]
        simpa using h7
  · -- collapsed into the sink
    have hc : cSnk < ks.length := by
      rw [hB]
      rw [hcountK, c2] at hmonoK
      simp only [if_true] at hmonoK
      omega
    refine ⟨(nl, ss, ks.set cSnk { ks[cSnk] with originalIndex := old.originalIndex },
      cSrc, cSnk + 1), ?_, ?_, rfl, rfl, by simp⟩
    · intro rest
      rw [fillOriginalIndex]
      simp only [hmap, c4, deref, ok_bind, hold, setOriginalIndex,
        List.getElem?_eq_getElem hc]
      rfl
    · refine ⟨by simp [hcountS, c1, h1], by simp [hcountK, c2, h2], h3, h4, ?_, ?_, ?_, h8⟩
      · intro x hx hxi
        by_cases hxj : x < j
        · exact h5 x hxj hxi
        · have : x = j := by omega
          subst this
          rw [c3] at hxi
          cases hxi
      · simp only
        rw [hfilterS, c1]
        simpa using h6
      · simp only
        rw [take_succ_set _ _ _ hc, List.map_append, h7, hfilterK, c2]
        simp [horig]
  · -- interior
    have hlt : interiorBefore g low high j < interiorBefore g low high g.numNodesSuper :=
      interiorBefore_lt g low high hj c3
    have hc : 2 + interiorBefore g low high j < nl.length := by omega
    refine ⟨(nl.set (2 + interiorBefore g low high j)
        { nl[2 + interiorBefore g low high j] with originalIndex := old.originalIndex },
      ss, ks, cSrc, cSnk), ?_, ?_, by simp, rfl, rfl⟩
    · intro rest
      rw [fillOriginalIndex]
      simp only [hmap, c4, deref, ok_bind, hold, setOriginalIndex,
        List.getElem?_eq_getElem hc]
      rw [if_pos (by omega)]
    · refine ⟨by simp [hcountS, c1, h1], by simp [hcountK, c2, h2], ?_, ?_, ?_, ?_, ?_, ?_⟩
      · simp only
        rw [List.getElem?_set_ne (by omega)]
        exact h3
      · simp only
        rw [List.getElem?_set_ne (by omega)]
        exact h4
      · intro x hx hxi
        simp only
        by_cases hxj : x < j
        · have := interiorBefore_lt g low high hxj hxi
          rw [mapOf_interior hxi, List.getElem?_set_ne (by omega), ← mapOf_interior hxi]
          exact h5 x hxj hxi
        · have : x = j := by omega
          subst this
          rw [c4, List.getElem?_set_self hc]
          simp [horig]
      · simp only
        rw [hfilterS, c1]
        simpa using h6
      · simp only
        rw [hfilterK, c2]
        simpa using h7
      · intro m nd hm
        simp only at hm
        by_cases hmj : m = 2 + interiorBefore g low high j
        · subst hmj
          rw [List.getElem?_set_self hc] at hm
          cases hm
          exact (h8 _ _ (List.getElem?_eq_getElem hc)).setOriginal _
        · rw [List.getElem?_set_ne (fun e => hmj e.symm)] at hm
          exact h8 m nd hm

theorem fillOriginalIndex_upTo {g : Super} {low high : List Int} {nodeMap : List Nat}
    (hg : SuperOK g)
    (hmap : ∀ x < g.numNodesSuper, nodeMap[x]? = some (mapOf g low high x)) :
    ∀ (k j : Nat) (acc : List Node × List Node × List Node × Nat × Nat),
      j + k ≤ g.numNodesSuper → RostersUpTo g low high j acc →
      acc.1.length = 2 + interiorBefore g low high g.numNodesSuper →
      acc.2.1.length = ((List.range g.numNodesSuper).filter (toSource g low)).length →
      acc.2.2.1.length = ((List.range g.numNodesSuper).filter (toSink g low high)).length →
      ∃ r, fillOriginalIndex g.nodeListSuper nodeMap (List.range' j k) acc = .ok r
        ∧ RostersUpTo g low high (j + k) r
        ∧ r.1.length = acc.1.length ∧ r.2.1.length = acc.2.1.length
        ∧ r.2.2.1.length = acc.2.2.1.length := by
  intro k
  induction k with
  | zero =>
    intro j acc _ h _ _ _
    exact ⟨acc, by simp [fillOriginalIndex], h, rfl, rfl, rfl⟩
  | succ k ih =>
    intro j acc hjk h hN hA hB
    obtain ⟨r1, hr1, hinv, l1, l2, l3⟩ := h.advance hg (by omega) (hmap j (by omega)) hN hA hB
    obtain ⟨r, hr, hfin, m1, m2, m3⟩ := ih (j + 1) r1 (by omega) hinv (by rw [l1]; exact hN)
      (by rw [l2]; exact hA) (by rw [l3]; exact hB)
    refine ⟨r, ?_, by rw [show j + (k + 1) = j + 1 + k by omega]; exact hfin,
      by rw [m1, l1], by rw [m2, l2], by rw [m3, l3]⟩
    rw [List.range'_succ, hr1]
    exact hr

theorem FreshNode.init (m : Nat) : FreshNode m (initializeNode m) := rfl

theorem getElem?_map_range_init {N m : Nat} {nd : Node}
    (h : ((List.range N).map initializeNode)[m]? = some nd) : m < N ∧ nd = initializeNode m := by
  rw [List.getElem?_map] at h
  cases hm : (List.range N)[m]? with
  | none => rw [hm] at h; cases h
  | some x =>
    rw [hm] at h
    have hx := List.getElem?_range (m := m) (n := N)
    by_cases hlt : m < N
    · rw [List.getElem?_range hlt] at hm
      cases hm
      simp only [Option.map_some', Option.some.injEq] at h
      exact ⟨hlt, h.symm⟩
    · rw [List.getElem?_eq_none (by simp; omega)] at hm
      cases hm

/-- The node arrays of the builder before its arc loop. -/
theorem builder_rosters {g : Super} {low high : List Int} {nodeMap : List Nat}
    (hg : SuperOK g)
    (hmap : ∀ x < g.numNodesSuper, nodeMap[x]? = some (mapOf g low high x)) :
    ∃ n1 n2 r,
      setOriginalIndex ((List.range (2 + interiorBefore g low high g.numNodesSuper)).map
        initializeNode) 0 (-1) = .ok n1
      ∧ setOriginalIndex n1 1 (-2) = .ok n2
      ∧ fillOriginalIndex g.nodeListSuper nodeMap (List.range g.numNodesSuper)
          (n2,
            (List.range ((List.range g.numNodesSuper).filter (toSource g low)).length).map
              initializeNode,
            (List.range ((List.range g.numNodesSuper).filter (toSink g low high)).length).map
              initializeNode, 0, 0) = .ok r
      ∧ RostersUpTo g low high g.numNodesSuper r
      ∧ r.1.length = 2 + interiorBefore g low high g.numNodesSuper
      ∧ r.2.1.length = ((List.range g.numNodesSuper).filter (toSource g low)).length
      ∧ r.2.2.1.length = ((List.range g.numNodesSuper).filter (toSink g low high)).length := by
  set N := 2 + interiorBefore g low high g.numNodesSuper with hN
  have l0 : ((List.range N).map initializeNode).length = N := by simp
  have e0 : ((List.range N).map initializeNode)[0]? = some (initializeNode 0) := by
    rw [List.getElem?_map, List.getElem?_range (by omega)]
    rfl
  let n1 := ((List.range N).map initializeNode).set 0
    { initializeNode 0 with originalIndex := -1 }
  have e1 : n1[1]? = some (initializeNode 1) := by
    show (((List.range N).map initializeNode).set 0 _)[1]? = _
    rw [List.getElem?_set_ne (by omega), List.getElem?_map, List.getElem?_range (by omega)]
    rfl
  let n2 := n1.set 1 { initializeNode 1 with originalIndex := -2 }
  have l2 : n2.length = N := by simp [n2, n1]
  have fresh : ∀ m nd, n2[m]? = some nd → FreshNode m nd := by
    intro m nd hm
    by_cases h1 : m = 1
    · subst h1
      rw [List.getElem?_set_self (by simp [n1]; omega)] at hm
      cases hm
      rfl
    · rw [List.getElem?_set_ne (fun e => h1 e.symm)] at hm
      by_cases h0 : m = 0
      · subst h0
        rw [List.getElem?_set_self (by simp; omega)] at hm
        cases hm
        rfl
      · rw [List.getElem?_set_ne (fun e => h0 e.symm)] at hm
        obtain ⟨-, rfl⟩ := getElem?_map_range_init hm
        rfl
  have h0 : RostersUpTo g low high 0
      (n2, (List.range ((List.range g.numNodesSuper).filter (toSource g low)).length).map
          initializeNode,
        (List.range ((List.range g.numNodesSuper).filter (toSink g low high)).length).map
          initializeNode, 0, 0) := by
    refine ⟨rfl, rfl, ?_, ?_, fun x hx => by omega, rfl, rfl, fresh⟩
    · show (n2[0]?).map _ = _
      rw [List.getElem?_set_ne (by omega), List.getElem?_set_self (by simp; omega)]
      rfl
    · show (n2[1]?).map _ = _
      rw [List.getElem?_set_self (by simp [n1]; omega)]
      rfl
  obtain ⟨r, hr, hinv, m1, m2, m3⟩ := fillOriginalIndex_upTo hg hmap g.numNodesSuper 0 _
    (by omega) h0 l2 (by simp) (by simp)
  rw [Nat.zero_add] at hinv
  rw [← List.range_eq_range'] at hr
  refine ⟨n1, n2, r, ?_, ?_, hr, hinv, by rw [m1]; exact l2, by rw [m2]; simp,
    by rw [m3]; simp⟩
  · simp only [setOriginalIndex, e0]
  · simp only [setOriginalIndex, e1]

/-! ## One step of the arc loop, in closed form -/

theorem roundCapacity_ok {g : Super} {capacity shown c : ℚ}
    (h : roundCapacity g capacity shown = .ok c) : c = max 0 capacity := by
  unfold roundCapacity at h
  split at h
  · rename_i hneg
    split at h
    · cases h
      exact (max_eq_left (le_of_lt hneg)).symm
    · cases h
  · rename_i hneg
    cases h
    exact (max_eq_right (not_lt.mp hneg)).symm

theorem roundCapacity_shown (g : Super) (capacity s1 s2 : ℚ) (c : ℚ)
    (h : roundCapacity g capacity s1 = .ok c) : roundCapacity g capacity s2 = .ok c := by
  unfold roundCapacity at h ⊢
  split
  · rename_i hneg
    rw [if_pos hneg] at h
    split at h
    · rename_i hr
      rw [if_pos hr]
      exact h
    · cases h
  · rename_i hneg
    rw [if_neg hneg] at h
    exact h

theorem incAdjacent_eq (a : List Node) {i : Nat} (hi : i < a.length) :
    incAdjacent a i = .ok (bumpAdjacent a i) := by
  simp [incAdjacent, bumpAdjacent, List.getElem?_eq_getElem hi]

theorem bumpAdjacent_length (a : List Node) (i : Nat) : (bumpAdjacent a i).length = a.length := by
  unfold bumpAdjacent
  split <;> simp

theorem appendNew_eq {g : Super} (hg : SuperOK g) {low high : List Int} {nodeMap : List Nat}
    {nl : Nat} (lam : ℚ) (st : ArcScratch) {a : Arc}
    (hmap : ∀ x < g.numNodesSuper, nodeMap[x]? = some (mapOf g low high x))
    (hnl : ∀ x < g.numNodesSuper, mapOf g low high x < nl)
    (ha : a.from_ < g.numNodesSuper ∧ a.to_ < g.numNodesSuper)
    (h1 : st.problem.nodeList.length = nl) (h5 : st.problem.lambdaValue = lam) :
    appendNew g nodeMap lam st a
      = (roundCapacity g (a.multiplier * lam + a.constant) lam >>= fun c =>
          .ok (st.appended (mapOf g low high a.from_) (mapOf g low high a.to_) c)) := by
  obtain ⟨nf, hnf, -, hof⟩ := hg.node ha.1
  obtain ⟨nt, hnt, -, hot⟩ := hg.node ha.2
  have i1 := incAdjacent_eq st.problem.nodeList (i := mapOf g low high a.from_)
    (by rw [h1]; exact hnl _ ha.1)
  have i2 := incAdjacent_eq (bumpAdjacent st.problem.nodeList (mapOf g low high a.from_))
    (i := mapOf g low high a.to_) (by rw [bumpAdjacent_length, h1]; exact hnl _ ha.2)
  subst h5
  simp only [appendNew, copyArcNew]
  cases hc : roundCapacity g (a.multiplier * st.problem.lambdaValue + a.constant)
      st.problem.lambdaValue with
  | error e => rfl
  | ok c =>
    simp only [ok_bind, hnf, hnt, deref, hof, hot, hmap _ ha.1, hmap _ ha.2, i1, i2]
    rfl

theorem addInto_eq (g : Super) (lam : ℚ) (st : ArcScratch) (a : Arc) {idx : Int}
    (h0 : 0 ≤ idx) (h1 : idx.toNat < st.problem.arcList.length) :
    addInto g lam st a idx
      = (roundCapacity g (a.multiplier * lam + a.constant) lam >>= fun c =>
          .ok (st.added idx.toNat c)) := by
  have hneg : ¬ idx < 0 := by omega
  simp only [addInto, hneg, if_false, List.getElem?_eq_getElem h1, deref, ok_bind, copyArcAdd,
    ArcScratch.added]
  cases hc : roundCapacity g (a.multiplier * lam + a.constant) lam with
  | error e => rfl
  | ok c => rfl

/-- The scratch data after one super arc with mapped endpoints `(f, t)`
and capacity `c` to use, when the arc is kept. -/
theorem contractArc_eq {g : Super} (hg : SuperOK g) {low high : List Int} {nodeMap : List Nat}
    {nl : Nat} {lam : ℚ} {st : ArcScratch} {a : Arc}
    (hmap : ∀ x < g.numNodesSuper, nodeMap[x]? = some (mapOf g low high x))
    (hnl : ∀ x < g.numNodesSuper, mapOf g low high x < nl)
    (ha : a.from_ < g.numNodesSuper ∧ a.to_ < g.numNodesSuper) (hst : ScratchOK nl lam st) :
    (keptBy g low high a = false ∧ contractArc g nodeMap lam st a = .ok st)
    ∨ (keptBy g low high a = true
        ∧ ∃ st1 : ℚ → ArcScratch,
          contractArc g nodeMap lam st a
            = (roundCapacity g (a.multiplier * lam + a.constant) lam >>= fun c => .ok (st1 c))
          ∧ ((mapOf g low high a.from_ = 0
                ∧ st.sourceAdjacentArcIndices[mapOf g low high a.to_]? = some (-1)
                ∧ st1 = fun c => (st.recordSource (mapOf g low high a.to_)).appended 0
                    (mapOf g low high a.to_) c)
            ∨ (mapOf g low high a.from_ = 0
                ∧ ∃ idx, st.sourceAdjacentArcIndices[mapOf g low high a.to_]? = some idx
                  ∧ idx ≠ -1 ∧ st1 = fun c => st.added idx.toNat c)
            ∨ (mapOf g low high a.from_ ≠ 0 ∧ mapOf g low high a.to_ = 1
                ∧ st.sinkAdjacentArcIndices[mapOf g low high a.from_]? = some (-1)
                ∧ st1 = fun c => (st.recordSink (mapOf g low high a.from_)).appended
                    (mapOf g low high a.from_) 1 c)
            ∨ (mapOf g low high a.from_ ≠ 0 ∧ mapOf g low high a.to_ = 1
                ∧ ∃ idx, st.sinkAdjacentArcIndices[mapOf g low high a.from_]? = some idx
                  ∧ idx ≠ -1 ∧ st1 = fun c => st.added idx.toNat c)
            ∨ (mapOf g low high a.from_ ≠ 0 ∧ mapOf g low high a.to_ ≠ 1
                ∧ st1 = fun c => st.appended (mapOf g low high a.from_)
                    (mapOf g low high a.to_) c))) := by
  obtain ⟨nf, hnf, -, hof⟩ := hg.node ha.1
  obtain ⟨nt, hnt, -, hot⟩ := hg.node ha.2
  obtain ⟨h1, h2, h3, h4, h5, h6, h7⟩ := hst
  have hfl := hnl _ ha.1
  have htl := hnl _ ha.2
  rw [contractArc]
  simp only [hnf, hnt, deref, ok_bind, hof, hot, hmap _ ha.1, hmap _ ha.2]
  by_cases hd : mapOf g low high a.from_ = mapOf g low high a.to_ ∨ mapOf g low high a.to_ = 0
      ∨ mapOf g low high a.from_ = 1
      ∨ (mapOf g low high a.from_ = 0 ∧ mapOf g low high a.to_ = 1)
  · left
    refine ⟨?_, by rw [if_pos hd]⟩
    simp only [keptBy, droppedPair, Bool.not_eq_false', Bool.or_eq_true, Bool.and_eq_true,
      decide_eq_true_eq]
    tauto
  · right
    have hk : keptBy g low high a = true := by
      simp only [keptBy, droppedPair, Bool.not_eq_true', Bool.or_eq_false_iff,
        Bool.and_eq_false_iff, decide_eq_false_iff_not]
      tauto
    refine ⟨hk, ?_⟩
    rw [if_neg hd]
    by_cases hf0 : mapOf g low high a.from_ = 0
    · rw [if_pos hf0]
      have hi : mapOf g low high a.to_ < st.sourceAdjacentArcIndices.length := by omega
      simp only [List.getElem?_eq_getElem hi, deref, ok_bind]
      by_cases hneg : st.sourceAdjacentArcIndices[mapOf g low high a.to_] = -1
      · rw [if_pos hneg]
        refine ⟨_, ?_, Or.inl ⟨hf0, by rw [hneg], rfl⟩⟩
        have e := appendNew_eq hg lam (st.recordSource (mapOf g low high a.to_)) hmap hnl ha
          h1 h5
        rw [hf0] at e
        exact e
      · rw [if_neg hneg]
        have hm := h6 _ (List.getElem_mem hi)
        rcases hm with hm | ⟨hm0, hm1⟩
        · exact absurd hm hneg
        · refine ⟨_, ?_, Or.inr (Or.inl ⟨hf0, _, rfl, hneg, rfl⟩)⟩
          rw [addInto_eq g lam st a hm0 hm1]
    · rw [if_neg hf0]
      by_cases ht1 : mapOf g low high a.to_ = 1
      · rw [if_pos ht1]
        have hi : mapOf g low high a.from_ < st.sinkAdjacentArcIndices.length := by omega
        simp only [List.getElem?_eq_getElem hi, deref, ok_bind]
        by_cases hneg : st.sinkAdjacentArcIndices[mapOf g low high a.from_] = -1
        · rw [if_pos hneg]
          refine ⟨_, ?_, Or.inr (Or.inr (Or.inl ⟨hf0, ht1, by rw [hneg], rfl⟩))⟩
          have e := appendNew_eq hg lam (st.recordSink (mapOf g low high a.from_)) hmap hnl
            ha h1 h5
          rw [ht1] at e
          exact e
        · rw [if_neg hneg]
          have hm := h7 _ (List.getElem_mem hi)
          rcases hm with hm | ⟨hm0, hm1⟩
          · exact absurd hm hneg
          · refine ⟨_, ?_, Or.inr (Or.inr (Or.inr (Or.inl ⟨hf0, ht1, _, rfl, hneg, rfl⟩)))⟩
            rw [addInto_eq g lam st a hm0 hm1]
      · rw [if_neg ht1]
        refine ⟨_, ?_, Or.inr (Or.inr (Or.inr (Or.inr ⟨hf0, ht1, rfl⟩)))⟩
        rw [appendNew_eq hg lam _ hmap hnl ha h1 h5]

/-! ## Lists of arcs under the two updates of the arc loop -/

theorem filter_append_singleton {α : Type} (p : α → Bool) (l : List α) (b : α) :
    (l ++ [b]).filter p = l.filter p ++ (if p b then [b] else []) := by
  rw [List.filter_append]
  by_cases h : p b = true <;> simp [List.filter, h]

theorem filter_set_same {α : Type} (p : α → Bool) (b' : α) :
    ∀ (l : List α) (k : Nat) (b : α), l[k]? = some b → p b = false → p b' = false →
      (l.set k b').filter p = l.filter p := by
  intro l
  induction l with
  | nil => intro k b h; simp at h
  | cons x l ih =>
    intro k b h hb hb'
    cases k with
    | zero =>
      simp only [List.getElem?_cons_zero, Option.some.injEq] at h
      subst h
      simp [List.filter, hb, hb']
    | succ k =>
      simp only [List.getElem?_cons_succ] at h
      simp only [List.set_cons_succ, List.filter_cons, ih k b h hb hb']

theorem filter_set_length {α : Type} (p : α → Bool) (b' : α) :
    ∀ (l : List α) (k : Nat) (b : α), l[k]? = some b → p b = p b' →
      ((l.set k b').filter p).length = (l.filter p).length := by
  intro l
  induction l with
  | nil => intro k b h; simp at h
  | cons x l ih =>
    intro k b h hb
    cases k with
    | zero =>
      simp only [List.getElem?_cons_zero, Option.some.injEq] at h
      subst h
      simp only [List.set_cons_zero, List.filter_cons, hb]
      split <;> simp
    | succ k =>
      simp only [List.getElem?_cons_succ] at h
      simp only [List.set_cons_succ, List.filter_cons]
      split <;> simp [ih k b h hb]

theorem filter_set_single {α : Type} (p : α → Bool) (b' : α) (hb' : p b' = true) :
    ∀ (l : List α) (k : Nat) (b : α), l[k]? = some b → l.filter p = [b] →
      (l.set k b').filter p = [b'] := by
  intro l
  induction l with
  | nil => intro k b h; simp at h
  | cons x l ih =>
    intro k b h hf
    cases k with
    | zero =>
      simp only [List.getElem?_cons_zero, Option.some.injEq] at h
      subst h
      simp only [List.set_cons_zero, List.filter_cons, hb', if_true]
      by_cases hx : p x = true
      · simp only [List.filter_cons, hx, if_true, List.cons.injEq, true_and] at hf
        rw [hf]
      · have hmem : x ∈ (x :: l).filter p := by
          rw [hf]
          exact List.mem_singleton_self x
        exact absurd (List.mem_filter.mp hmem).2 hx
    | succ k =>
      simp only [List.getElem?_cons_succ] at h
      have hbl : b ∈ l := List.getElem?_mem h
      simp only [List.set_cons_succ, List.filter_cons]
      by_cases hx : p x = true
      · simp only [List.filter_cons, hx, if_true, List.cons.injEq] at hf
        have hmem : b ∈ l.filter p := by
          have hpb : p b = true := by rw [hf.1] at hx; exact hx
          exact List.mem_filter.mpr ⟨hbl, hpb⟩
        rw [hf.2] at hmem
        cases hmem
      · simp only [List.filter_cons, hx] at hf
        simp only [hx]
        exact ih k b h hf

theorem filter_single_pos {α : Type} (p : α → Bool) (b : α) :
    ∀ (l : List α) (i j : Nat) (x y : α), l.filter p = [b] → l[i]? = some x → p x = true →
      l[j]? = some y → p y = true → i = j := by
  intro l
  induction l with
  | nil => intro i j x y _ h; simp at h
  | cons z l ih =>
    intro i j x y hf hi hx hj hy
    by_cases hz : p z = true
    · simp only [List.filter_cons, hz, if_true, List.cons.injEq] at hf
      have hnone : ∀ (k : Nat) (w : α), l[k]? = some w → p w = true → False := by
        intro k w hk hw
        have : w ∈ l.filter p := List.mem_filter.mpr ⟨List.getElem?_mem hk, hw⟩
        rw [hf.2] at this
        cases this
      cases i with
      | zero =>
        cases j with
        | zero => rfl
        | succ j => exact (hnone j y (by simpa using hj) hy).elim
      | succ i => exact (hnone i x (by simpa using hi) hx).elim
    · simp only [List.filter_cons, hz] at hf
      cases i with
      | zero =>
        simp only [List.getElem?_cons_zero, Option.some.injEq] at hi
        subst hi
        exact absurd hx hz
      | succ i =>
        cases j with
        | zero =>
          simp only [List.getElem?_cons_zero, Option.some.injEq] at hj
          subst hj
          exact absurd hy hz
        | succ j =>
          have := ih i j x y hf (by simpa using hi) hx (by simpa using hj) hy
          omega

/-! ## The invariant of the arc loop -/

theorem arcsBetween_append (arcs : List Arc) (b : Arc) (f t : Nat) :
    arcsBetween (arcs ++ [b]) f t
      = arcsBetween arcs f t ++ (if b.from_ = f ∧ b.to_ = t then [b] else []) := by
  unfold arcsBetween
  rw [filter_append_singleton]
  by_cases h : b.from_ = f ∧ b.to_ = t
  · simp [h]
  · rw [if_neg h]
    have : (decide (b.from_ = f) && decide (b.to_ = t)) = false := by
      simp only [Bool.and_eq_false_iff, decide_eq_false_iff_not]
      tauto
    simp [this]

theorem superArcsTo_append (g : Super) (low high : List Int) (done : List Arc) (a : Arc)
    (f t : Nat) :
    superArcsTo g low high (done ++ [a]) f t
      = superArcsTo g low high done f t
        ++ (if keptBy g low high a = true ∧ mapOf g low high a.from_ = f
              ∧ mapOf g low high a.to_ = t then [a] else []) := by
  unfold superArcsTo
  rw [filter_append_singleton]
  by_cases h : keptBy g low high a = true ∧ mapOf g low high a.from_ = f
      ∧ mapOf g low high a.to_ = t
  · simp [h, mappedTo]
  · rw [if_neg h]
    have : (keptBy g low high a && mappedTo g low high f t a) = false := by
      simp only [mappedTo, Bool.and_eq_false_iff, decide_eq_false_iff_not]
      by_cases hk : keptBy g low high a = true
      · right
        tauto
      · left
        simpa using hk
    simp [this]

theorem degreeIn_append (arcs : List Arc) (b : Arc) (m : Nat) :
    degreeIn (arcs ++ [b]) m
      = degreeIn arcs m + (if b.from_ = m then 1 else 0) + (if b.to_ = m then 1 else 0) := by
  unfold degreeIn
  rw [filter_append_singleton, filter_append_singleton]
  by_cases h1 : b.from_ = m <;> by_cases h2 : b.to_ = m <;> simp [h1, h2] <;> omega

theorem bumpAdjacent_get (nodes : List Node) (i m : Nat) :
    (bumpAdjacent nodes i)[m]?
      = (nodes[m]?).map (fun nd =>
          if m = i then { nd with numAdjacent := incU nd.numAdjacent } else nd) := by
  unfold bumpAdjacent
  cases hi : nodes[i]? with
  | none =>
    simp only
    by_cases hm : m = i
    · subst hm; simp [hi]
    · cases nodes[m]? <;> simp [hm]
  | some nd =>
    simp only
    by_cases hm : m = i
    · subst hm
      have hlt : m < nodes.length := by
        by_contra hc
        rw [List.getElem?_eq_none (by omega)] at hi
        cases hi
      rw [List.getElem?_set_self hlt, hi]
      simp
    · rw [List.getElem?_set_ne (fun e => hm e.symm)]
      cases nodes[m]? <;> simp [hm]

theorem incU_mod (d : Nat) : incU (d % U32) = (d + 1) % U32 := by
  unfold incU
  rw [Nat.add_mod, Nat.mod_mod, ← Nat.add_mod]

theorem keptBy_iff (g : Super) (low high : List Int) (a : Arc) :
    keptBy g low high a = true ↔
      mapOf g low high a.from_ ≠ mapOf g low high a.to_ ∧ mapOf g low high a.to_ ≠ 0
        ∧ mapOf g low high a.from_ ≠ 1
        ∧ ¬ (mapOf g low high a.from_ = 0 ∧ mapOf g low high a.to_ = 1) := by
  simp only [keptBy, droppedPair, Bool.not_eq_true', Bool.or_eq_false_iff,
    Bool.and_eq_false_iff, decide_eq_false_iff_not]
  tauto

theorem IndexFor.append_other {arcs : List Arc} {f t : Nat} {idx : Int} {nb : Arc}
    (h : IndexFor arcs f t idx) (hne : ¬ (nb.from_ = f ∧ nb.to_ = t)) :
    IndexFor (arcs ++ [nb]) f t idx := by
  have hb : arcsBetween (arcs ++ [nb]) f t = arcsBetween arcs f t := by
    rw [arcsBetween_append, if_neg hne, List.append_nil]
  rcases h with ⟨h1, h2⟩ | ⟨h1, b, h2, h3, h4, h5⟩
  · exact Or.inl ⟨h1, by rw [hb]; exact h2⟩
  · refine Or.inr ⟨h1, b, ?_, h3, h4, by rw [hb]; exact h5⟩
    have hlt : idx.toNat < arcs.length := by
      by_contra hc
      rw [List.getElem?_eq_none (by omega)] at h2
      cases h2
    rw [List.getElem?_append_left hlt]
    exact h2

theorem IndexFor.append_new {arcs : List Arc} {f t : Nat} {nb : Arc}
    (h : arcsBetween arcs f t = []) (hf : nb.from_ = f) (ht : nb.to_ = t) :
    IndexFor (arcs ++ [nb]) f t (arcs.length : Int) := by
  refine Or.inr ⟨by omega, nb, ?_, hf, ht, ?_⟩
  · simp
  · rw [arcsBetween_append, h, if_pos ⟨hf, ht⟩]
    rfl

theorem arcsBetween_set_other {arcs : List Arc} {k : Nat} {b b' : Arc} (f t : Nat)
    (hk : arcs[k]? = some b) (hne : ¬ (b.from_ = f ∧ b.to_ = t))
    (hf : b'.from_ = b.from_) (ht : b'.to_ = b.to_) :
    arcsBetween (arcs.set k b') f t = arcsBetween arcs f t := by
  unfold arcsBetween
  refine filter_set_same _ b' arcs k b hk ?_ ?_
  · simp only [Bool.and_eq_false_iff, decide_eq_false_iff_not]
    tauto
  · rw [hf, ht]
    simp only [Bool.and_eq_false_iff, decide_eq_false_iff_not]
    tauto

theorem arcsBetween_set_same {arcs : List Arc} {k : Nat} {b b' : Arc}
    (hk : arcs[k]? = some b) (hone : arcsBetween arcs b.from_ b.to_ = [b])
    (hf : b'.from_ = b.from_) (ht : b'.to_ = b.to_) :
    arcsBetween (arcs.set k b') b.from_ b.to_ = [b'] := by
  unfold arcsBetween at hone ⊢
  exact filter_set_single _ b' (by simp [hf, ht]) arcs k b hk hone

theorem IndexFor.set_other {arcs : List Arc} {f t : Nat} {idx : Int} {k : Nat} {b b' : Arc}
    (h : IndexFor arcs f t idx) (hk : arcs[k]? = some b) (hne : ¬ (b.from_ = f ∧ b.to_ = t))
    (hf : b'.from_ = b.from_) (ht : b'.to_ = b.to_) :
    IndexFor (arcs.set k b') f t idx := by
  have hb := arcsBetween_set_other f t hk hne hf ht
  rcases h with ⟨h1, h2⟩ | ⟨h1, b2, h2, h3, h4, h5⟩
  · exact Or.inl ⟨h1, by rw [hb]; exact h2⟩
  · refine Or.inr ⟨h1, b2, ?_, h3, h4, by rw [hb]; exact h5⟩
    have hik : k ≠ idx.toNat := by
      intro e
      rw [← e, hk] at h2
      cases h2
      exact hne ⟨h3, h4⟩
    rw [List.getElem?_set_ne hik]
    exact h2

theorem IndexFor.set_same {arcs : List Arc} {idx : Int} {b b' : Arc}
    (h0 : 0 ≤ idx) (hk : arcs[idx.toNat]? = some b)
    (hone : arcsBetween arcs b.from_ b.to_ = [b])
    (hf : b'.from_ = b.from_) (ht : b'.to_ = b.to_) :
    IndexFor (arcs.set idx.toNat b') b.from_ b.to_ idx := by
  have hlt : idx.toNat < arcs.length := by
    by_contra hc
    rw [List.getElem?_eq_none (by omega)] at hk
    cases hk
  exact Or.inr ⟨h0, b', by rw [List.getElem?_set_self hlt], hf, ht,
    arcsBetween_set_same hk hone hf ht⟩

theorem degreeIn_set {arcs : List Arc} {k : Nat} {b b' : Arc} (hk : arcs[k]? = some b)
    (hf : b'.from_ = b.from_) (ht : b'.to_ = b.to_) (m : Nat) :
    degreeIn (arcs.set k b') m = degreeIn arcs m := by
  unfold degreeIn
  rw [filter_set_length _ b' arcs k b hk (by rw [hf]),
    filter_set_length _ b' arcs k b hk (by rw [ht])]

theorem clamped_eq (a : Arc) (lam : ℚ) :
    max 0 (a.multiplier * lam + a.constant) = clampedCapacity a lam := by
  unfold clampedCapacity
  rw [add_comm]

theorem ArcsUpTo.dropped {g : Super} {low high : List Int} {lam : ℚ} {nl : Nat}
    {done : List Arc} {st : ArcScratch} {a : Arc}
    (h : ArcsUpTo g low high lam nl done st) (hk : keptBy g low high a = false) :
    ArcsUpTo g low high lam nl (done ++ [a]) st := by
  obtain ⟨h1, h2, h3, h4, h5, h6, h7⟩ := h
  have hs : ∀ f t, superArcsTo g low high (done ++ [a]) f t = superArcsTo g low high done f t := by
    intro f t
    rw [superArcsTo_append, if_neg (by rw [hk]; simp), List.append_nil]
  refine ⟨h1, h2, h3, h4, ?_, ?_, h7⟩
  · intro f t
    rw [hs]
    exact h5 f t
  · intro f t hf ht
    rw [hs]
    exact h6 f t hf ht

theorem ArcsUpTo.appended {g : Super} {low high : List Int} {lam : ℚ} {nl : Nat}
    {done : List Arc} {st st0 : ArcScratch} {a : Arc}
    (h : ArcsUpTo g low high lam nl done st) (hk : keptBy g low high a = true)
    (hf : mapOf g low high a.from_ < nl) (ht : mapOf g low high a.to_ < nl)
    (hp : st0.problem = st.problem)
    (hok : ScratchOK nl lam (st0.appended (mapOf g low high a.from_) (mapOf g low high a.to_)
      (clampedCapacity a lam)))
    (hS : ∀ v idx, 2 ≤ v → st0.sourceAdjacentArcIndices[v]? = some idx →
      IndexFor (st.problem.arcList ++ [newArc (mapOf g low high a.from_)
        (mapOf g low high a.to_) (clampedCapacity a lam)]) 0 v idx)
    (hK : ∀ v idx, 2 ≤ v → st0.sinkAdjacentArcIndices[v]? = some idx →
      IndexFor (st.problem.arcList ++ [newArc (mapOf g low high a.from_)
        (mapOf g low high a.to_) (clampedCapacity a lam)]) v 1 idx)
    (hnew : (mapOf g low high a.from_ = 0 ∨ mapOf g low high a.to_ = 1) →
      arcsBetween st.problem.arcList (mapOf g low high a.from_) (mapOf g low high a.to_) = []) :
    ArcsUpTo g low high lam nl (done ++ [a])
      (st0.appended (mapOf g low high a.from_) (mapOf g low high a.to_)
        (clampedCapacity a lam)) := by
  obtain ⟨h1, h2, h3, h4, h5, h6, h7⟩ := h
  obtain ⟨k1, k2, k3, k4⟩ := (keptBy_iff g low high a).mp hk
  refine ⟨hok, ?_, ?_, ?_, ?_, ?_, ?_⟩
  · intro b hb
    simp only [ArcScratch.appended, hp, List.mem_append, List.mem_singleton] at hb
    rcases hb with hb | hb
    · exact h2 b hb
    · subst hb
      exact ⟨hf, ht, k1, k2, k3, k4, rfl⟩
  · intro v idx hv hidx
    simp only [ArcScratch.appended, hp] at hidx ⊢
    exact hS v idx hv hidx
  · intro v idx hv hidx
    simp only [ArcScratch.appended, hp] at hidx ⊢
    exact hK v idx hv hidx
  · intro f t
    simp only [ArcScratch.appended, hp, capacityBetween]
    rw [arcsBetween_append, superArcsTo_append, List.map_append, List.map_append,
      List.sum_append, List.sum_append]
    have := h5 f t
    simp only [capacityBetween] at this
    rw [this]
    by_cases hft : mapOf g low high a.from_ = f ∧ mapOf g low high a.to_ = t
    · simp [newArc, hft, hk]
    · have hft' : ¬ (keptBy g low high a = true ∧ mapOf g low high a.from_ = f
          ∧ mapOf g low high a.to_ = t) := by tauto
      simp only [newArc]
      rw [if_neg hft, if_neg hft']
      rfl
  · intro f t hf2 ht2
    simp only [ArcScratch.appended, hp]
    rw [arcsBetween_append, superArcsTo_append, List.map_append, List.map_append, h6 f t hf2 ht2]
    by_cases hft : mapOf g low high a.from_ = f ∧ mapOf g low high a.to_ = t
    · simp [newArc, hft, hk]
    · have hft' : ¬ (keptBy g low high a = true ∧ mapOf g low high a.from_ = f
          ∧ mapOf g low high a.to_ = t) := by tauto
      simp only [newArc]
      rw [if_neg hft, if_neg hft']
      rfl
  · intro m nd hm
    simp only [ArcScratch.appended, hp] at hm ⊢
    rw [bumpAdjacent_get, bumpAdjacent_get] at hm
    cases hnd : st.problem.nodeList[m]? with
    | none => rw [hnd] at hm; cases hm
    | some nd0 =>
      rw [hnd] at hm
      simp only [Option.map_some', Option.some.injEq] at hm
      have hd := h7 m nd0 hnd
      rw [degreeIn_append]
      simp only [newArc]
      by_cases e1 : m = mapOf g low high a.from_
      · have e2 : ¬ m = mapOf g low high a.to_ := by rw [e1]; exact k1
        rw [if_pos e1, if_neg e2] at hm
        subst hm
        simp only
        rw [if_pos e1.symm, if_neg (fun e => e2 e.symm), hd, incU_mod]
      · rw [if_neg e1] at hm
        by_cases e2 : m = mapOf g low high a.to_
        · rw [if_pos e2] at hm
          subst hm
          simp only
          rw [if_neg (fun e => e1 e.symm), if_pos e2.symm, hd, incU_mod]
        · rw [if_neg e2] at hm
          subst hm
          rw [if_neg (fun e => e1 e.symm), if_neg (fun e => e2 e.symm), hd]
          rfl

theorem ArcsUpTo.added {g : Super} {low high : List Int} {lam : ℚ} {nl : Nat}
    {done : List Arc} {st : ArcScratch} {a : Arc} {idx : Int} {b : Arc}
    (h : ArcsUpTo g low high lam nl done st) (hk : keptBy g low high a = true)
    (h0 : 0 ≤ idx) (hb : st.problem.arcList[idx.toNat]? = some b)
    (hbf : b.from_ = mapOf g low high a.from_) (hbt : b.to_ = mapOf g low high a.to_)
    (hone : arcsBetween st.problem.arcList b.from_ b.to_ = [b])
    (hside : mapOf g low high a.from_ = 0 ∨ mapOf g low high a.to_ = 1) :
    ArcsUpTo g low high lam nl (done ++ [a]) (st.added idx.toNat (clampedCapacity a lam)) := by
  obtain ⟨h1, h2, h3, h4, h5, h6, h7⟩ := h
  have hsh := h2 b (List.getElem?_mem hb)
  obtain ⟨s1, s2, s3, s4, s5, s6, s7⟩ := hsh
  set b' : Arc := { b with capacity := b.capacity + clampedCapacity a lam } with hb'
  have hadded : st.added idx.toNat (clampedCapacity a lam)
      = { st with problem := { st.problem with
            arcList := st.problem.arcList.set idx.toNat b' } } := by
    simp only [ArcScratch.added, hb]
  rw [hadded]
  refine ⟨h1.setArc _ _, ?_, ?_, ?_, ?_, ?_, ?_⟩
  · intro x hx
    simp only at hx
    rcases List.mem_or_eq_of_mem_set hx with hx | hx
    · exact h2 x hx
    · subst hx
      refine ⟨s1, s2, s3, s4, s5, s6, ?_⟩
      show b' = newArc b.from_ b.to_ (b.capacity + clampedCapacity a lam)
      rw [hb']
      conv_lhs => rw [s7]
      rfl
  · intro v i hv hi
    simp only at hi ⊢
    have hinv := h3 v i hv hi
    by_cases hp : b.from_ = 0 ∧ b.to_ = v
    · rcases hinv with ⟨e1, e2⟩ | ⟨e1, b2, e2, e3, e4, e5⟩
      · rw [← hp.1, ← hp.2, hone] at e2
        cases e2
      · rw [← hp.1, ← hp.2, hone] at e5
        cases e5
        have hi2 : i.toNat = idx.toNat :=
          filter_single_pos _ b st.problem.arcList i.toNat idx.toNat b b hone e2 (by simp) hb
            (by simp)
        have hii : i = idx := by omega
        subst hii
        have := @IndexFor.set_same _ _ b b' h0 hb hone rfl rfl
        rw [hp.1, hp.2] at this
        exact this
    · exact hinv.set_other hb hp rfl rfl
  · intro v i hv hi
    simp only at hi ⊢
    have hinv := h4 v i hv hi
    by_cases hp : b.from_ = v ∧ b.to_ = 1
    · rcases hinv with ⟨e1, e2⟩ | ⟨e1, b2, e2, e3, e4, e5⟩
      · rw [← hp.1, ← hp.2, hone] at e2
        cases e2
      · rw [← hp.1, ← hp.2, hone] at e5
        cases e5
        have hi2 : i.toNat = idx.toNat :=
          filter_single_pos _ b st.problem.arcList i.toNat idx.toNat b b hone e2 (by simp) hb
            (by simp)
        have hii : i = idx := by omega
        subst hii
        have := @IndexFor.set_same _ _ b b' h0 hb hone rfl rfl
        rw [hp.1, hp.2] at this
        exact this
    · exact hinv.set_other hb hp rfl rfl
  · intro f t
    simp only [capacityBetween]
    rw [superArcsTo_append, List.map_append, List.sum_append]
    have hold := h5 f t
    simp only [capacityBetween] at hold
    by_cases hft : b.from_ = f ∧ b.to_ = t
    · obtain ⟨rfl, rfl⟩ := hft
      rw [@arcsBetween_set_same _ _ b b' hb hone rfl rfl, if_pos ⟨hk, hbf.symm, hbt.symm⟩, ← hold, hone]
      simp [hb']
    · rw [@arcsBetween_set_other _ _ b b' f t hb hft rfl rfl, hold,
        if_neg (by rw [← hbf, ← hbt]; tauto)]
      simp
  · intro f t hf2 ht2
    have hft : ¬ (b.from_ = f ∧ b.to_ = t) := by
      rw [hbf, hbt]
      omega
    rw [@arcsBetween_set_other _ _ b b' f t hb hft rfl rfl, superArcsTo_append,
      if_neg (by rw [← hbf, ← hbt]; tauto), List.append_nil]
    exact h6 f t hf2 ht2
  · intro m nd hm
    simp only at hm ⊢
    rw [@degreeIn_set _ _ b b' hb rfl rfl]
    exact h7 m nd hm

theorem IndexFor.neg_one {arcs : List Arc} {f t : Nat} (h : IndexFor arcs f t (-1)) :
    arcsBetween arcs f t = [] := by
  rcases h with ⟨-, h⟩ | ⟨h, -⟩
  · exact h
  · omega

theorem IndexFor.of_ne {arcs : List Arc} {f t : Nat} {idx : Int} (h : IndexFor arcs f t idx)
    (hne : idx ≠ -1) :
    0 ≤ idx ∧ ∃ b, arcs[idx.toNat]? = some b ∧ b.from_ = f ∧ b.to_ = t
      ∧ arcsBetween arcs f t = [b] := by
  rcases h with ⟨h, -⟩ | h
  · exact absurd h hne
  · exact h

/-- One step of the arc loop keeps the invariant. -/
theorem ArcsUpTo.extend {g : Super} (hg : SuperOK g) {low high : List Int} {nodeMap : List Nat}
    {nl : Nat} {lam : ℚ} {done : List Arc} {st st' : ArcScratch} {a : Arc}
    (hmap : ∀ x < g.numNodesSuper, nodeMap[x]? = some (mapOf g low high x))
    (hnl : ∀ x < g.numNodesSuper, mapOf g low high x < nl)
    (ha : a.from_ < g.numNodesSuper ∧ a.to_ < g.numNodesSuper)
    (h : ArcsUpTo g low high lam nl done st)
    (hres : contractArc g nodeMap lam st a = .ok st') :
    ArcsUpTo g low high lam nl (done ++ [a]) st' := by
  have hnm : ∀ i < g.numNodesSuper, ∃ e, nodeMap[i]? = some e ∧ e < nl :=
    fun i hi => ⟨_, hmap i hi, hnl i hi⟩
  have hok : ScratchOK nl lam st' := by
    rcases contractArc_spec hg hnm ha h.1 with ⟨-, e⟩ | ⟨-, -, -, e⟩ | ⟨-, -, st2, e, hst2⟩
    · rw [hres] at e; cases e; exact h.1
    · rw [hres] at e; cases e
    · rw [hres] at e; cases e; exact hst2
  have h3 := h.2.2.1
  have h4 := h.2.2.2.1
  have hcur : (st.currentArc : Int) = (st.problem.arcList.length : Int) := by
    rw [h.1.2.2.2.1]
  rcases contractArc_eq hg hmap hnl ha h.1 with ⟨hk, e⟩ | ⟨hk, st1, e, hcase⟩
  · rw [hres] at e
    cases e
    exact h.dropped hk
  · rw [hres] at e
    obtain ⟨c, hc, e⟩ := bind_eq_ok.mp e.symm
    cases e
    have hcl : c = clampedCapacity a lam := by rw [roundCapacity_ok hc, clamped_eq]
    subst hcl
    obtain ⟨k1, k2, k3, k4⟩ := (keptBy_iff g low high a).mp hk
    have hfl := hnl _ ha.1
    have htl := hnl _ ha.2
    rcases hcase with ⟨hf0, hidx, rfl⟩ | ⟨hf0, idx, hidx, hne, rfl⟩ | ⟨hf0, ht1, hidx, rfl⟩
        | ⟨hf0, ht1, idx, hidx, hne, rfl⟩ | ⟨hf0, ht1, rfl⟩
    · -- a new arc out of the source
      have ht2 : 2 ≤ mapOf g low high a.to_ := by omega
      have hempty := (h3 _ _ ht2 hidx).neg_one
      simp only at hok ⊢
      have key := @ArcsUpTo.appended g low high lam nl done st
        (st.recordSource (mapOf g low high a.to_)) a h hk hfl htl rfl
        (by rw [hf0]; exact hok)
        (by
          intro v i hv hi
          rw [hf0]
          simp only [ArcScratch.recordSource] at hi
          by_cases hvt : v = mapOf g low high a.to_
          · subst hvt
            have hlt : mapOf g low high a.to_ < st.sourceAdjacentArcIndices.length := by
              rw [h.1.2.1]; exact htl
            rw [List.getElem?_set_self hlt] at hi
            cases hi
            rw [hcur]
            exact IndexFor.append_new hempty rfl rfl
          · rw [List.getElem?_set_ne (fun e => hvt e.symm)] at hi
            exact (h3 v i hv hi).append_other (by simp only [newArc]; omega))
        (by
          intro v i hv hi
          simp only [ArcScratch.recordSource] at hi
          exact (h4 v i hv hi).append_other (by simp only [newArc]; omega))
        (by intro _; rw [hf0]; exact hempty)
      rw [hf0] at key
      exact key
    · -- one more arc out of the source into the same node
      have ht2 : 2 ≤ mapOf g low high a.to_ := by omega
      obtain ⟨i0, b, hb, hbf, hbt, hone⟩ := (h3 _ _ ht2 hidx).of_ne hne
      exact h.added hk i0 hb (by rw [hbf, hf0]) hbt (by rw [hbf, hbt]; exact hone)
        (Or.inl hf0)
    · -- a new arc into the sink
      have hf2 : 2 ≤ mapOf g low high a.from_ := by omega
      have hempty := (h4 _ _ hf2 hidx).neg_one
      simp only at hok ⊢
      have key := @ArcsUpTo.appended g low high lam nl done st
        (st.recordSink (mapOf g low high a.from_)) a h hk hfl htl rfl
        (by rw [ht1]; exact hok)
        (by
          intro v i hv hi
          simp only [ArcScratch.recordSink] at hi
          exact (h3 v i hv hi).append_other (by simp only [newArc]; omega))
        (by
          intro v i hv hi
          rw [ht1]
          simp only [ArcScratch.recordSink] at hi
          by_cases hvt : v = mapOf g low high a.from_
          · subst hvt
            have hlt : mapOf g low high a.from_ < st.sinkAdjacentArcIndices.length := by
              rw [h.1.2.2.1]; exact hfl
            rw [List.getElem?_set_self hlt] at hi
            cases hi
            rw [hcur]
            exact IndexFor.append_new hempty rfl rfl
          · rw [List.getElem?_set_ne (fun e => hvt e.symm)] at hi
            exact (h4 v i hv hi).append_other (by simp only [newArc]; omega))
        (by intro _; rw [ht1]; exact hempty)
      rw [ht1] at key
      exact key
    · -- one more arc into the sink out of the same node
      have hf2 : 2 ≤ mapOf g low high a.from_ := by omega
      obtain ⟨i0, b, hb, hbf, hbt, hone⟩ := (h4 _ _ hf2 hidx).of_ne hne
      exact h.added hk i0 hb hbf (by rw [hbt, ht1]) (by rw [hbf, hbt]; exact hone)
        (Or.inr ht1)
    · -- an arc between two interior nodes
      exact @ArcsUpTo.appended g low high lam nl done st st a h hk hfl htl rfl hok
        (fun v i hv hi => (h3 v i hv hi).append_other (by simp only [newArc]; omega))
        (fun v i hv hi => (h4 v i hv hi).append_other (by simp only [newArc]; omega))
        (by intro hc; omega)

theorem ArcsUpTo.fold {g : Super} (hg : SuperOK g) {low high : List Int} {nodeMap : List Nat}
    {nl : Nat} {lam : ℚ}
    (hmap : ∀ x < g.numNodesSuper, nodeMap[x]? = some (mapOf g low high x))
    (hnl : ∀ x < g.numNodesSuper, mapOf g low high x < nl) :
    ∀ (as done : List Arc) (st st' : ArcScratch),
      (∀ a ∈ as, a.from_ < g.numNodesSuper ∧ a.to_ < g.numNodesSuper) →
      ArcsUpTo g low high lam nl done st →
      as.foldlM (contractArc g nodeMap lam) st = .ok st' →
      ArcsUpTo g low high lam nl (done ++ as) st' := by
  intro as
  induction as with
  | nil =>
    intro done st st' _ h hres
    rw [List.foldlM_nil] at hres
    cases hres
    rw [List.append_nil]
    exact h
  | cons a rest ih =>
    intro done st st' hall h hres
    rw [List.foldlM_cons] at hres
    obtain ⟨st1, h1, hres⟩ := bind_eq_ok.mp hres
    have := ih (done ++ [a]) st1 st' (fun b hb => hall b (List.mem_cons_of_mem _ hb))
      (h.extend hg hmap hnl (hall a (List.mem_cons_self _ _)) h1) hres
    rw [List.append_assoc] at this
    exact this

/-! ## What the arc loop leaves alone -/

theorem incAdjacent_erase {a r : List Node} {i : Nat} (h : incAdjacent a i = .ok r) :
    r.map Node.eraseAdjacent = a.map Node.eraseAdjacent := by
  unfold incAdjacent at h
  split at h
  · rename_i nd hnd
    cases h
    rw [List.map_set]
    have hlt : i < a.length := by
      by_contra hc
      rw [List.getElem?_eq_none (by omega)] at hnd
      cases hnd
    apply List.ext_getElem?
    intro m
    by_cases hm : m = i
    · subst hm
      rw [List.getElem?_set_self (by simpa using hlt), List.getElem?_map, hnd]
      rfl
    · rw [List.getElem?_set_ne (fun e => hm e.symm)]
  · cases h

theorem appendNew_keeps {g : Super} {nodeMap : List Nat} {lam : ℚ} {st st' : ArcScratch}
    {old : Arc} (h : appendNew g nodeMap lam st old = .ok st') :
    st'.problem.frame = st.problem.frame := by
  rw [appendNew] at h
  obtain ⟨⟨new, nl⟩, hc, h⟩ := bind_eq_ok.mp h
  cases h
  rw [copyArcNew] at hc
  obtain ⟨c, -, hc⟩ := bind_eq_ok.mp hc
  obtain ⟨f, -, hc⟩ := bind_eq_ok.mp hc
  obtain ⟨t, -, hc⟩ := bind_eq_ok.mp hc
  obtain ⟨nf, -, hc⟩ := bind_eq_ok.mp hc
  obtain ⟨nt, -, hc⟩ := bind_eq_ok.mp hc
  obtain ⟨n1, h1, hc⟩ := bind_eq_ok.mp hc
  obtain ⟨n2, h2, hc⟩ := bind_eq_ok.mp hc
  cases hc
  simp only [CutProblem.frame, incAdjacent_erase h2, incAdjacent_erase h1]

theorem addInto_keeps {g : Super} {lam : ℚ} {st st' : ArcScratch} {old : Arc} {idx : Int}
    (h : addInto g lam st old idx = .ok st') :
    st'.problem.frame = st.problem.frame := by
  rw [addInto] at h
  split at h
  · cases h
  · obtain ⟨t, -, h⟩ := bind_eq_ok.mp h
    obtain ⟨new, -, h⟩ := bind_eq_ok.mp h
    cases h
    rfl

theorem contractArc_keeps {g : Super} {nodeMap : List Nat} {lam : ℚ} {st st' : ArcScratch}
    {old : Arc} (h : contractArc g nodeMap lam st old = .ok st') :
    st'.problem.frame = st.problem.frame := by
  rw [contractArc] at h
  obtain ⟨f, -, h⟩ := bind_eq_ok.mp h
  obtain ⟨t, -, h⟩ := bind_eq_ok.mp h
  obtain ⟨nf, -, h⟩ := bind_eq_ok.mp h
  obtain ⟨nt, -, h⟩ := bind_eq_ok.mp h
  split at h
  · cases h; rfl
  · split at h
    · obtain ⟨idx, -, h⟩ := bind_eq_ok.mp h
      split at h
      · simp only at h
        have e := appendNew_keeps h
        exact e
      · exact addInto_keeps h
    · split at h
      · obtain ⟨idx, -, h⟩ := bind_eq_ok.mp h
        split at h
        · simp only at h
          have e := appendNew_keeps h
          exact e
        · exact addInto_keeps h
      · exact appendNew_keeps h

theorem contractFold_keeps {g : Super} {nodeMap : List Nat} {lam : ℚ} (as : List Arc)
    {st st' : ArcScratch} (h : as.foldlM (contractArc g nodeMap lam) st = .ok st') :
    st'.problem.frame = st.problem.frame :=
  foldlM_invariant (contractArc g nodeMap lam) (fun s => s.problem.frame = st.problem.frame)
    (fun b a b' hb hf => (contractArc_keeps hf).trans hb) as st st' rfl h

/-! ## The built problem -/

theorem mapOf_lt (g : Super) (low high : List Int) {x : Nat} (hx : x < g.numNodesSuper) :
    mapOf g low high x < 2 + interiorBefore g low high g.numNodesSuper := by
  rcases mapOf_cases g low high x with ⟨-, -, -, e⟩ | ⟨-, -, -, e⟩ | ⟨-, -, hi, e⟩
  · omega
  · omega
  · have := interiorBefore_lt g low high hx hi
    omega

theorem map_erase_fresh (nl : List Node) (h : ∀ m nd, nl[m]? = some nd → FreshNode m nd) :
    nl.map Node.eraseAdjacent = nl := by
  apply List.ext_getElem?
  intro m
  rw [List.getElem?_map]
  cases hm : nl[m]? with
  | none => rfl
  | some nd =>
    have := h m nd hm
    unfold FreshNode at this
    simp only [Option.map_some', Option.some.injEq]
    rw [this]
    rfl

theorem arcsBetween_le_one_of_index {arcs : List Arc} {f t : Nat} {idx : Int}
    (h : IndexFor arcs f t idx) : (arcsBetween arcs f t).length ≤ 1 := by
  rcases h with ⟨-, h⟩ | ⟨-, b, -, -, -, h⟩ <;> rw [h] <;> simp

theorem arcsBetween_eq_nil {arcs : List Arc} {f t : Nat}
    (h : ∀ b ∈ arcs, ¬ (b.from_ = f ∧ b.to_ = t)) : arcsBetween arcs f t = [] := by
  unfold arcsBetween
  rw [List.filter_eq_nil_iff]
  intro b hb
  have := h b hb
  simp only [Bool.and_eq_true, decide_eq_true_eq]
  exact this

theorem initializeContractedProblem_built {g : Super} {lam : ℚ} {low high : List Int}
    {p : CutProblem} (hg : SuperOK g) (hlow : g.numNodesSuper ≤ low.length)
    (hhigh : g.numNodesSuper ≤ high.length)
    (hp : initializeContractedProblem g lam low high = .ok p) :
    Built g low high lam p := by
  obtain ⟨r, hr, hinv⟩ := buildNodeMap_spec g low high hlow hhigh
  obtain ⟨nodeMap, nSrc, nSnk, nList⟩ := r
  obtain ⟨m1, hmap, m3, m4, m5⟩ := hinv
  simp only at m1 hmap m3 m4 m5
  subst m3 m4 m5
  obtain ⟨n1, n2, fr, e1, e2, e3, hros, l1, l2, l3⟩ := builder_rosters hg hmap
  obtain ⟨nl, ss, ks, c1, c2⟩ := fr
  simp only at l1 l2 l3
  rw [initializeContractedProblem] at hp
  simp only [hr, ok_bind, e1, e2, e3] at hp
  obtain ⟨st', hfold, hp⟩ := bind_eq_ok.mp hp
  cases hp
  have hrc := hros
  obtain ⟨r1, r2, r3, r4, r5, r6, r7, r8⟩ := hros
  simp only at r1 r2 r3 r4 r5 r6 r7 r8
  have hnl := fun x (hx : x < g.numNodesSuper) => mapOf_lt g low high hx
  have harcs : ∀ a ∈ g.arcListSuper.take g.numArcsSuper,
      a.from_ < g.numNodesSuper ∧ a.to_ < g.numNodesSuper :=
    fun a ha => hg.2 a (List.mem_of_mem_take ha)
  set N := 2 + interiorBefore g low high g.numNodesSuper with hN
  have hfresh0 : ∀ (m : Nat) (nd : Node), nl[m]? = some nd → nd.numAdjacent = 0 := by
    intro m nd hm
    have := r8 m nd hm
    unfold FreshNode at this
    rw [this]
    rfl
  have h0 : ArcsUpTo g low high lam N []
      { problem :=
          { numNodesInList := N,
            numSourceSet := ((List.range g.numNodesSuper).filter (toSource g low)).length,
            numSinkSet := ((List.range g.numNodesSuper).filter (toSink g low high)).length,
            numArcs := 0, solved := 0, lambdaValue := lam, arcList := [], nodeList := nl,
            cutValue := 0, sourceSet := ss, sinkSet := ks, optimalSourceSetIndicator := none },
        sourceAdjacentArcIndices := List.replicate N (-1),
        sinkAdjacentArcIndices := List.replicate N (-1),
        currentArc := 0 } := by
    refine ⟨⟨l1, by simp, by simp, rfl, rfl, ?_, ?_⟩, ?_, ?_, ?_, ?_, ?_, ?_⟩
    · intro idx hidx
      exact Or.inl (List.eq_of_mem_replicate hidx)
    · intro idx hidx
      exact Or.inl (List.eq_of_mem_replicate hidx)
    · intro b hb
      cases hb
    · intro v idx _ hidx
      have : idx = -1 := List.eq_of_mem_replicate (List.getElem?_mem hidx)
      exact Or.inl ⟨this, rfl⟩
    · intro v idx _ hidx
      have : idx = -1 := List.eq_of_mem_replicate (List.getElem?_mem hidx)
      exact Or.inl ⟨this, rfl⟩
    · intro f t
      rfl
    · intro f t _ _
      rfl
    · intro m nd hm
      simp only at hm ⊢
      rw [hfresh0 m nd hm]
      rfl
  have hfin := ArcsUpTo.fold hg hmap hnl _ [] _ st' harcs h0 hfold
  rw [List.nil_append] at hfin
  have hfr := contractFold_keeps _ hfold
  obtain ⟨⟨s1, s2, s3, s4, s5, s6, s7⟩, a2, a3, a4, a5, a6, a7⟩ := hfin
  simp only [CutProblem.frame, CutProblem.mk.injEq, List.map_nil, true_and] at hfr
  obtain ⟨f1, f2, f3, f4, f5, f6, f7, f8, f9, f10⟩ := hfr
  rw [map_erase_fresh nl r8] at f6
  refine ⟨f1, ?_, by rw [s1, f1], by rw [f8, l2, f2], by rw [f9, l3, f3], s4, ?_, ?_, a5, a6,
    a7, f5, f4, f7, f10⟩
  · simp only
    rw [f6, f8, f9, f2, f3]
    exact ⟨rfl, rfl, r3, r4, r5, by rw [← r1]; exact r6, by rw [← r2]; exact r7, r8⟩
  · intro b hb
    simp only at hb ⊢
    rw [f1]
    exact a2 b hb
  · intro v
    simp only
    by_cases hv : 2 ≤ v ∧ v < N
    · have i1 : v < st'.sourceAdjacentArcIndices.length := by rw [s2]; exact hv.2
      have i2 : v < st'.sinkAdjacentArcIndices.length := by rw [s3]; exact hv.2
      exact ⟨arcsBetween_le_one_of_index (a3 v _ hv.1 (List.getElem?_eq_getElem i1)),
        arcsBetween_le_one_of_index (a4 v _ hv.1 (List.getElem?_eq_getElem i2))⟩
    · have e1 : arcsBetween st'.problem.arcList 0 v = [] := by
        apply arcsBetween_eq_nil
        intro b hb hc
        obtain ⟨q1, q2, q3, q4, q5, q6, -⟩ := a2 b hb
        have : ¬ (2 ≤ v ∧ v < N) := hv
        omega
      have e2 : arcsBetween st'.problem.arcList v 1 = [] := by
        apply arcsBetween_eq_nil
        intro b hb hc
        obtain ⟨q1, q2, q3, q4, q5, q6, -⟩ := a2 b hb
        have : ¬ (2 ≤ v ∧ v < N) := hv
        omega
      rw [e1, e2]
      simp

/-! ## The engine writes neither `originalIndex` nor the end points of an arc -/

theorem Keeps.fails {α : Type} (proj : α → State) (k) (e : Err) :
    Keeps proj k (.error e : Except Err α) := by
  constructor
  intro r h; cases h

theorem Keeps.ok {α : Type} {proj : α → State} {k} {a : α} (h : (proj a).keys = k) :
    Keeps proj k (.ok a) := by
  constructor
  intro r hr; cases hr; exact h

theorem Keeps.bindE {α β : Type} {pa : α → State} {pb : β → State} {k}
    {x : Except Err α} {f : α → Except Err β}
    (hx : Keeps pa k x) (hf : ∀ a, (pa a).keys = k → Keeps pb k (f a)) :
    Keeps pb k (x >>= f) := by
  constructor
  intro r h
  obtain ⟨a, ha, hb⟩ := bind_eq_ok.mp h
  exact (hf a (hx.out a ha)).out r hb

theorem Keeps.bindV {α β : Type} {pb : β → State} {k}
    {x : Except Err α} {f : α → Except Err β} (hf : ∀ a, Keeps pb k (f a)) :
    Keeps pb k (x >>= f) := by
  constructor
  intro r h
  obtain ⟨a, -, hb⟩ := bind_eq_ok.mp h
  exact (hf a).out r hb

theorem modNode_keeps {s : State} {k} (hs : s.keys = k) (i : Nat) (f : Node → Node)
    (hf : ∀ nd, (f nd).originalIndex = nd.originalIndex ∧ (f nd).number = nd.number) :
    Keeps id k (s.modNode i f) := by
  constructor
  intro r h
  unfold State.modNode at h
  split at h
  · rename_i nd hnd
    cases h
    rw [← hs]
    simp only [id, State.keys, List.map_set, Prod.mk.injEq, true_and, and_true]
    apply List.ext_getElem?
    intro m
    by_cases hm : m = i
    · subst hm
      have hlt : m < s.nodesList.length := by
        by_contra hc
        rw [List.getElem?_eq_none (by omega)] at hnd
        cases hnd
      rw [List.getElem?_set_self (by simpa using hlt), List.getElem?_map, hnd, (hf nd).1,
        (hf nd).2]
      rfl
    · rw [List.getElem?_set_ne (fun e => hm e.symm)]
  · cases h

theorem modArc_keeps {s : State} {k} (hs : s.keys = k) (i : Nat) (f : Arc → Arc)
    (hf : ∀ a, (f a).from_ = a.from_ ∧ (f a).to_ = a.to_ ∧ (f a).capacity = a.capacity) :
    Keeps id k (s.modArc i f) := by
  constructor
  intro r h
  unfold State.modArc at h
  split at h
  · rename_i a ha
    cases h
    rw [← hs]
    simp only [id, State.keys, List.map_set, Prod.mk.injEq, true_and]
    apply List.ext_getElem?
    intro m
    by_cases hm : m = i
    · subst hm
      have hlt : m < s.arcList.length := by
        by_contra hc
        rw [List.getElem?_eq_none (by omega)] at ha
        cases ha
      rw [List.getElem?_set_self (by simpa using hlt), List.getElem?_map, ha, (hf a).1,
        (hf a).2.1, (hf a).2.2]
      rfl
    · rw [List.getElem?_set_ne (fun e => hm e.symm)]
  · cases h

theorem modRoot_keeps {s : State} {k} (hs : s.keys = k) (i : Nat) (f : Root → Root) :
    Keeps id k (s.modRoot i f) := by
  constructor
  intro r h
  unfold State.modRoot at h
  split at h
  · cases h; exact hs
  · cases h

theorem modCount_keeps {s : State} {k} (hs : s.keys = k) (i : Nat) (f : Nat → Nat) :
    Keeps id k (s.modCount i f) := by
  constructor
  intro r h
  unfold State.modCount at h
  split at h
  · cases h; exact hs
  · cases h

theorem addOutOfTreeNode_keeps {s : State} {k} (hs : s.keys = k) (n out : Nat) :
    Keeps id k (addOutOfTreeNode s n out) := by
  simp only [addOutOfTreeNode]
  refine Keeps.bindV (fun nd => ?_)
  split
  · exact modNode_keeps hs _ _ (fun _ => ⟨rfl, rfl⟩)
  · exact Keeps.fails _ _ _

theorem addToStrongBucket_keeps {s : State} {k} (hs : s.keys = k) (newRoot bucket : Nat) :
    Keeps id k (addToStrongBucket s newRoot bucket) := by
  simp only [addToStrongBucket]
  refine Keeps.bindV (fun rb => ?_)
  split
  · refine Keeps.bindV (fun e => ?_)
    refine Keeps.bindE (modNode_keeps hs _ _ (fun _ => ⟨rfl, rfl⟩)) (fun s1 h1 => ?_)
    refine Keeps.bindE (modRoot_keeps h1 _ _) (fun s2 h2 => ?_)
    exact modNode_keeps h2 _ _ (fun _ => ⟨rfl, rfl⟩)
  · refine Keeps.bindE (modRoot_keeps hs _ _) (fun s2 h2 => ?_)
    exact modNode_keeps h2 _ _ (fun _ => ⟨rfl, rfl⟩)

theorem addRelationship_keeps {s : State} {k} (hs : s.keys = k) (newParent child : Nat) :
    Keeps id k (addRelationship s newParent child) := by
  simp only [addRelationship]
  refine Keeps.bindV (fun p => ?_)
  refine Keeps.bindE (modNode_keeps hs _ _ (fun _ => ⟨rfl, rfl⟩)) (fun s1 h1 => ?_)
  exact modNode_keeps h1 _ _ (fun _ => ⟨rfl, rfl⟩)

theorem breakRelationship_keeps (fuel : Nat) {s : State} {k} (hs : s.keys = k)
    (oldParent child : Nat) : Keeps id k (breakRelationship fuel s oldParent child) := by
  simp only [breakRelationship]
  refine Keeps.bindE (modNode_keeps hs _ _ (fun _ => ⟨rfl, rfl⟩)) (fun s1 h1 => ?_)
  refine Keeps.bindV (fun p => Keeps.bindV (fun c => ?_))
  split
  · refine Keeps.bindE (modNode_keeps h1 _ _ (fun _ => ⟨rfl, rfl⟩)) (fun s2 h2 => ?_)
    exact modNode_keeps h2 _ _ (fun _ => ⟨rfl, rfl⟩)
  · refine Keeps.bindV (fun first => Keeps.bindV (fun cur => ?_))
    refine Keeps.bindE (modNode_keeps h1 _ _ (fun _ => ⟨rfl, rfl⟩)) (fun s2 h2 => ?_)
    exact modNode_keeps h2 _ _ (fun _ => ⟨rfl, rfl⟩)

theorem Keeps.bindS {β : Type} {pb : β → State} {k}
    {x : Except Err State} {f : State → Except Err β}
    (hx : Keeps id k x) (hf : ∀ a, a.keys = k → Keeps pb k (f a)) :
    Keeps pb k (x >>= f) :=
  Keeps.bindE hx hf

theorem Keeps.bindP {γ β : Type} {pb : β → State} {k}
    {x : Except Err (State × γ)} {f : State × γ → Except Err β}
    (hx : Keeps Prod.fst k x) (hf : ∀ a, a.1.keys = k → Keeps pb k (f a)) :
    Keeps pb k (x >>= f) :=
  Keeps.bindE hx hf

theorem Keeps.okS {k} {s : State} (h : s.keys = k) : Keeps id k (.ok s) := Keeps.ok h

theorem Keeps.okP {γ : Type} {k} {s : State} {c : γ} (h : s.keys = k) :
    Keeps Prod.fst k (.ok (s, c)) := Keeps.ok h

theorem mergeLoop_keeps {k} : ∀ (fuel : Nat) (s : State), s.keys = k →
    ∀ current newParent newArc, Keeps Prod.fst k (mergeLoop s fuel current newParent newArc) := by
  intro fuel
  induction fuel with
  | zero => intros; exact Keeps.fails _ _ _
  | succ n ih =>
    intro s hs current newParent newArc
    simp only [mergeLoop]
    refine Keeps.bindV (fun cur => ?_)
    split
    · exact Keeps.okP hs
    · refine Keeps.bindV (fun oldArc => ?_)
      refine Keeps.bindS (modNode_keeps hs _ _ (fun _ => ⟨rfl, rfl⟩)) (fun s1 h1 => ?_)
      refine Keeps.bindS (breakRelationship_keeps _ h1 _ _) (fun s2 h2 => ?_)
      refine Keeps.bindS (addRelationship_keeps h2 _ _) (fun s3 h3 => ?_)
      refine Keeps.bindS (modArc_keeps h3 _ _ (fun _ => ⟨rfl, rfl, rfl⟩)) (fun s4 h4 => ?_)
      exact ih s4 h4 _ _ _

theorem merge_keeps (fuel : Nat) {s : State} {k} (hs : s.keys = k) (parent child newArc : Nat) :
    Keeps id k (merge fuel s parent child newArc) := by
  simp only [merge]
  have hs' : ({ s with numMergers := incU s.numMergers } : State).keys = k := hs
  refine Keeps.bindP (mergeLoop_keeps fuel _ hs' _ _ _) (fun r hr => ?_)
  obtain ⟨s1, c, np, na⟩ := r
  simp only at hr ⊢
  refine Keeps.bindS (modNode_keeps hr _ _ (fun _ => ⟨rfl, rfl⟩)) (fun s2 h2 => ?_)
  exact addRelationship_keeps h2 _ _

theorem pushUpward_keeps (fuel : Nat) {s : State} {k} (hs : s.keys = k)
    (currentArc child parent : Nat) (resCap : ℚ) :
    Keeps id k (pushUpward fuel s currentArc child parent resCap) := by
  simp only [pushUpward]
  have hs' : ({ s with numPushes := incU s.numPushes } : State).keys = k := hs
  refine Keeps.bindV (fun c => ?_)
  split
  · refine Keeps.bindS (modNode_keeps hs' _ _ (fun _ => ⟨rfl, rfl⟩)) (fun s1 h1 => ?_)
    refine Keeps.bindS (modArc_keeps h1 _ _ (fun _ => ⟨rfl, rfl, rfl⟩)) (fun s2 h2 => ?_)
    exact modNode_keeps h2 _ _ (fun _ => ⟨rfl, rfl⟩)
  · refine Keeps.bindS (modArc_keeps hs' _ _ (fun _ => ⟨rfl, rfl, rfl⟩)) (fun s1 h1 => ?_)
    refine Keeps.bindS (modNode_keeps h1 _ _ (fun _ => ⟨rfl, rfl⟩)) (fun s2 h2 => ?_)
    refine Keeps.bindS (modNode_keeps h2 _ _ (fun _ => ⟨rfl, rfl⟩)) (fun s3 h3 => ?_)
    refine Keeps.bindS (modArc_keeps h3 _ _ (fun _ => ⟨rfl, rfl, rfl⟩)) (fun s4 h4 => ?_)
    refine Keeps.bindS (addOutOfTreeNode_keeps h4 _ _) (fun s5 h5 => ?_)
    refine Keeps.bindS (breakRelationship_keeps _ h5 _ _) (fun s6 h6 => ?_)
    refine Keeps.bindV (fun c2 => ?_)
    exact addToStrongBucket_keeps h6 _ _

theorem pushDownward_keeps (fuel : Nat) {s : State} {k} (hs : s.keys = k)
    (currentArc child parent : Nat) (flow : ℚ) :
    Keeps id k (pushDownward fuel s currentArc child parent flow) := by
  simp only [pushDownward]
  have hs' : ({ s with numPushes := incU s.numPushes } : State).keys = k := hs
  refine Keeps.bindV (fun c => ?_)
  split
  · refine Keeps.bindS (modNode_keeps hs' _ _ (fun _ => ⟨rfl, rfl⟩)) (fun s1 h1 => ?_)
    refine Keeps.bindS (modArc_keeps h1 _ _ (fun _ => ⟨rfl, rfl, rfl⟩)) (fun s2 h2 => ?_)
    exact modNode_keeps h2 _ _ (fun _ => ⟨rfl, rfl⟩)
  · refine Keeps.bindS (modArc_keeps hs' _ _ (fun _ => ⟨rfl, rfl, rfl⟩)) (fun s1 h1 => ?_)
    refine Keeps.bindS (modNode_keeps h1 _ _ (fun _ => ⟨rfl, rfl⟩)) (fun s2 h2 => ?_)
    refine Keeps.bindS (modNode_keeps h2 _ _ (fun _ => ⟨rfl, rfl⟩)) (fun s3 h3 => ?_)
    refine Keeps.bindS (modArc_keeps h3 _ _ (fun _ => ⟨rfl, rfl, rfl⟩)) (fun s4 h4 => ?_)
    refine Keeps.bindS (addOutOfTreeNode_keeps h4 _ _) (fun s5 h5 => ?_)
    refine Keeps.bindS (breakRelationship_keeps _ h5 _ _) (fun s6 h6 => ?_)
    refine Keeps.bindV (fun c2 => ?_)
    exact addToStrongBucket_keeps h6 _ _

theorem pushExcessLoop_keeps (bfuel : Nat) {k} : ∀ (fuel : Nat) (s : State), s.keys = k →
    ∀ current prevEx, Keeps Prod.fst k (pushExcessLoop bfuel s fuel current prevEx) := by
  intro fuel
  induction fuel with
  | zero => intros; exact Keeps.fails _ _ _
  | succ n ih =>
    intro s hs current prevEx
    simp only [pushExcessLoop]
    refine Keeps.bindV (fun cur => ?_)
    split
    · exact Keeps.okP hs
    · split
      · exact Keeps.okP hs
      · refine Keeps.bindV (fun p => Keeps.bindV (fun atp => Keeps.bindV (fun a => ?_)))
        split
        · exact Keeps.bindS (pushUpward_keeps _ hs _ _ _ _) (fun s1 h1 => ih s1 h1 _ _)
        · exact Keeps.bindS (pushDownward_keeps _ hs _ _ _ _) (fun s1 h1 => ih s1 h1 _ _)

theorem pushExcess_keeps (fuel : Nat) {s : State} {k} (hs : s.keys = k) (strongRoot : Nat) :
    Keeps id k (pushExcess fuel s strongRoot) := by
  simp only [pushExcess]
  refine Keeps.bindP (pushExcessLoop_keeps fuel fuel s hs _ _) (fun r hr => ?_)
  obtain ⟨s1, c, pe⟩ := r
  simp only at hr ⊢
  refine Keeps.bindV (fun cur => ?_)
  split
  · exact addToStrongBucket_keeps hr _ _
  · exact Keeps.okS hr

theorem findWeakNodeLoop_keeps (strongNode : Nat) {k} : ∀ (n : Nat) (s : State), s.keys = k →
    ∀ i, Keeps Prod.fst k (findWeakNodeLoop strongNode n s i) := by
  intro n
  induction n with
  | zero =>
    intro s hs i
    simp only [findWeakNodeLoop]
    exact Keeps.bindS (modNode_keeps hs _ _ (fun _ => ⟨rfl, rfl⟩)) (fun s1 h1 => Keeps.okP h1)
  | succ n ih =>
    intro s hs i
    simp only [findWeakNodeLoop]
    have hs' : ({ s with numArcScans := incU s.numArcScans } : State).keys = k := hs
    refine Keeps.bindV (fun nd => Keeps.bindV (fun out => Keeps.bindV (fun a =>
      Keeps.bindV (fun t => ?_))))
    split
    · exact Keeps.bindS (modNode_keeps hs' _ _ (fun _ => ⟨rfl, rfl⟩))
        (fun s1 h1 => Keeps.okP h1)
    · refine Keeps.bindV (fun f => ?_)
      split
      · exact Keeps.bindS (modNode_keeps hs' _ _ (fun _ => ⟨rfl, rfl⟩))
          (fun s1 h1 => Keeps.okP h1)
      · exact ih _ hs' _

theorem findWeakNode_keeps {s : State} {k} (hs : s.keys = k) (strongNode : Nat) :
    Keeps Prod.fst k (findWeakNode s strongNode) := by
  simp only [findWeakNode]
  exact Keeps.bindV (fun nd => findWeakNodeLoop_keeps _ _ s hs _)

theorem checkChildrenLoop_keeps (curNode : Nat) {k} : ∀ (n : Nat) (s : State), s.keys = k →
    Keeps Prod.fst k (checkChildrenLoop curNode n s) := by
  intro n
  induction n with
  | zero => intros; exact Keeps.fails _ _ _
  | succ n ih =>
    intro s hs
    simp only [checkChildrenLoop]
    refine Keeps.bindV (fun cur => ?_)
    split
    · exact Keeps.okP hs
    · refine Keeps.bindV (fun ch => ?_)
      split
      · exact Keeps.okP hs
      · exact Keeps.bindS (modNode_keeps hs _ _ (fun _ => ⟨rfl, rfl⟩)) (fun s1 h1 => ih s1 h1)

theorem checkChildren_keeps (fuel : Nat) {s : State} {k} (hs : s.keys = k) (curNode : Nat) :
    Keeps id k (checkChildren fuel s curNode) := by
  simp only [checkChildren]
  refine Keeps.bindP (checkChildrenLoop_keeps _ _ s hs) (fun r hr => ?_)
  obtain ⟨s1, found⟩ := r
  simp only at hr ⊢
  split
  · exact Keeps.okS hr
  · refine Keeps.bindV (fun cur => ?_)
    refine Keeps.bindS (modCount_keeps hr _ _) (fun s2 h2 => ?_)
    refine Keeps.bindS (modNode_keeps h2 _ _ (fun _ => ⟨rfl, rfl⟩)) (fun s3 h3 => ?_)
    refine Keeps.bindV (fun cur2 => ?_)
    refine Keeps.bindS (modCount_keeps h3 _ _) (fun s4 h4 => ?_)
    have h4' : ({ s4 with numRelabels := incU s4.numRelabels } : State).keys = k := h4
    exact modNode_keeps h4' _ _ (fun _ => ⟨rfl, rfl⟩)

theorem liftNode_keeps {s : State} {k} (hs : s.keys = k) (current : Nat) :
    Keeps id k (liftNode s current) := by
  simp only [liftNode]
  refine Keeps.bindV (fun cur => ?_)
  refine Keeps.bindS (modCount_keeps hs _ _) (fun s2 h2 => ?_)
  exact modNode_keeps h2 _ _ (fun _ => ⟨rfl, rfl⟩)

theorem liftAllLoop_keeps {k} : ∀ (n : Nat) (s : State), s.keys = k →
    ∀ c, Keeps id k (liftAllLoop n s c) := by
  intro n
  induction n with
  | zero => intros; exact Keeps.fails _ _ _
  | succ n ih =>
    intro s hs c
    cases c with
    | none =>
      simp only [liftAllLoop]
      exact Keeps.okS hs
    | some current =>
      simp only [liftAllLoop]
      refine Keeps.bindV (fun cur => ?_)
      split
      · refine Keeps.bindV (fun t => ?_)
        refine Keeps.bindS (modNode_keeps hs _ _ (fun _ => ⟨rfl, rfl⟩)) (fun s1 h1 => ?_)
        refine Keeps.bindS (modNode_keeps h1 _ _ (fun _ => ⟨rfl, rfl⟩)) (fun s2 h2 => ?_)
        exact Keeps.bindS (liftNode_keeps h2 _) (fun s3 h3 => ih s3 h3 _)
      · exact ih s hs _

theorem liftAll_keeps (fuel : Nat) {s : State} {k} (hs : s.keys = k) (rootNode : Nat) :
    Keeps id k (liftAll fuel s rootNode) := by
  simp only [liftAll]
  refine Keeps.bindS (modNode_keeps hs _ _ (fun _ => ⟨rfl, rfl⟩)) (fun s1 h1 => ?_)
  exact Keeps.bindS (liftNode_keeps h1 _) (fun s2 h2 => liftAllLoop_keeps _ s2 h2 _)

theorem gapLoop_keeps (lfuel i : Nat) {k} : ∀ (n : Nat) (s : State), s.keys = k →
    Keeps id k (gapLoop lfuel i n s) := by
  intro n
  induction n with
  | zero => intros; exact Keeps.fails _ _ _
  | succ n ih =>
    intro s hs
    simp only [gapLoop]
    refine Keeps.bindV (fun rb => ?_)
    split
    · exact Keeps.okS hs
    · have hs' : ({ s with numGaps := incU s.numGaps } : State).keys = k := hs
      refine Keeps.bindV (fun r => ?_)
      refine Keeps.bindS (modRoot_keeps hs' _ _) (fun s1 h1 => ?_)
      exact Keeps.bindS (liftAll_keeps _ h1 _) (fun s2 h2 => ih s2 h2)

theorem scanBuckets_keeps (fuel : Nat) {k} : ∀ (j : Nat) (s : State), s.keys = k →
    Keeps Prod.fst k (scanBuckets fuel j s) := by
  intro j
  induction j with
  | zero =>
    intro s hs
    simp only [scanBuckets]
    exact Keeps.okP hs
  | succ j ih =>
    intro s hs
    simp only [scanBuckets]
    refine Keeps.bindV (fun rb => ?_)
    split
    · exact ih s hs
    · have hs' : ({ s with highestStrongLabel := j + 1 } : State).keys = k := hs
      refine Keeps.bindV (fun c => ?_)
      split
      · refine Keeps.bindV (fun r => ?_)
        refine Keeps.bindS (modRoot_keeps hs' _ _) (fun s1 h1 => ?_)
        exact Keeps.bindS (modNode_keeps h1 _ _ (fun _ => ⟨rfl, rfl⟩))
          (fun s2 h2 => Keeps.okP h2)
      · exact Keeps.bindS (gapLoop_keeps _ _ _ _ hs') (fun s1 h1 => ih s1 h1)

theorem liftZeroLoop_keeps {k} : ∀ (n : Nat) (s : State), s.keys = k →
    Keeps id k (liftZeroLoop n s) := by
  intro n
  induction n with
  | zero => intros; exact Keeps.fails _ _ _
  | succ n ih =>
    intro s hs
    simp only [liftZeroLoop]
    refine Keeps.bindV (fun rb => ?_)
    split
    · exact Keeps.okS hs
    · refine Keeps.bindV (fun r => ?_)
      refine Keeps.bindS (modRoot_keeps hs _ _) (fun s1 h1 => ?_)
      refine Keeps.bindS (modNode_keeps h1 _ _ (fun _ => ⟨rfl, rfl⟩)) (fun s2 h2 => ?_)
      refine Keeps.bindS (modCount_keeps h2 _ _) (fun s3 h3 => ?_)
      refine Keeps.bindS (modCount_keeps h3 _ _) (fun s4 h4 => ?_)
      have h4' : ({ s4 with numRelabels := incU s4.numRelabels } : State).keys = k := h4
      refine Keeps.bindV (fun r2 => ?_)
      exact Keeps.bindS (addToStrongBucket_keeps h4' _ _) (fun s5 h5 => ih s5 h5)

theorem getHighestStrongRoot_keeps (fuel : Nat) {s : State} {k} (hs : s.keys = k) :
    Keeps Prod.fst k (getHighestStrongRoot fuel s) := by
  simp only [getHighestStrongRoot]
  refine Keeps.bindP (scanBuckets_keeps _ _ s hs) (fun r hr => ?_)
  obtain ⟨s1, found⟩ := r
  simp only at hr ⊢
  split
  · exact Keeps.okP hr
  · refine Keeps.bindV (fun rb => ?_)
    split
    · exact Keeps.okP hr
    · refine Keeps.bindS (liftZeroLoop_keeps _ s1 hr) (fun s2 h2 => ?_)
      have h2' : ({ s2 with highestStrongLabel := 1 } : State).keys = k := h2
      refine Keeps.bindV (fun rb1 => Keeps.bindV (fun sr => Keeps.bindV (fun r => ?_)))
      refine Keeps.bindS (modRoot_keeps h2' _ _) (fun s3 h3 => ?_)
      exact Keeps.bindS (modNode_keeps h3 _ _ (fun _ => ⟨rfl, rfl⟩))
        (fun s4 h4 => Keeps.okP h4)

theorem processRootLoop_keeps (bfuel strongRoot : Nat) {k} : ∀ (n : Nat) (s : State),
    s.keys = k → ∀ strongNode, Keeps id k (processRootLoop bfuel strongRoot n s strongNode) := by
  intro n
  induction n with
  | zero => intros; exact Keeps.fails _ _ _
  | succ n ih =>
    intro s hs strongNode
    simp only [processRootLoop]
    refine Keeps.bindV (fun nd => ?_)
    split
    · refine Keeps.bindV (fun t => ?_)
      refine Keeps.bindS (modNode_keeps hs _ _ (fun _ => ⟨rfl, rfl⟩)) (fun s1 h1 => ?_)
      refine Keeps.bindS (modNode_keeps h1 _ _ (fun _ => ⟨rfl, rfl⟩)) (fun s2 h2 => ?_)
      refine Keeps.bindP (findWeakNode_keeps h2 _) (fun r hr => ?_)
      obtain ⟨s3, found⟩ := r
      simp only at hr ⊢
      split
      · exact Keeps.bindS (merge_keeps _ hr _ _ _) (fun s4 h4 => pushExcess_keeps _ h4 _)
      · exact Keeps.bindS (checkChildren_keeps _ hr _) (fun s4 h4 => ih s4 h4 _)
    · split
      · exact Keeps.bindS (checkChildren_keeps _ hs _) (fun s4 h4 => ih s4 h4 _)
      · refine Keeps.bindV (fun r => ?_)
        refine Keeps.bindS (addToStrongBucket_keeps hs _ _) (fun s1 h1 => ?_)
        exact Keeps.okS h1

theorem processRoot_keeps (fuel : Nat) {s : State} {k} (hs : s.keys = k) (strongRoot : Nat) :
    Keeps id k (processRoot fuel s strongRoot) := by
  simp only [processRoot]
  refine Keeps.bindS (modNode_keeps hs _ _ (fun _ => ⟨rfl, rfl⟩)) (fun s1 h1 => ?_)
  refine Keeps.bindP (findWeakNode_keeps h1 _) (fun r hr => ?_)
  obtain ⟨s3, found⟩ := r
  simp only at hr ⊢
  split
  · exact Keeps.bindS (merge_keeps _ hr _ _ _) (fun s4 h4 => pushExcess_keeps _ h4 _)
  · exact Keeps.bindS (checkChildren_keeps _ hr _)
      (fun s4 h4 => processRootLoop_keeps _ _ _ s4 h4 _)

theorem pseudoflowPhase1_keeps (ifuel : Nat) {k} : ∀ (n : Nat) (s : State), s.keys = k →
    Keeps id k (pseudoflowPhase1 ifuel n s) := by
  intro n
  induction n with
  | zero => intros; exact Keeps.fails _ _ _
  | succ n ih =>
    intro s hs
    simp only [pseudoflowPhase1]
    refine Keeps.bindP (getHighestStrongRoot_keeps _ hs) (fun r hr => ?_)
    obtain ⟨s1, found⟩ := r
    simp only at hr ⊢
    split
    · exact Keeps.okS hr
    · exact Keeps.bindS (processRoot_keeps _ hr _) (fun s2 h2 => ih s2 h2)

theorem Keeps.foldlM {α : Type} {k} (f : State → α → Except Err State)
    (hf : ∀ s a, s.keys = k → Keeps id k (f s a)) :
    ∀ (l : List α) (s : State), s.keys = k → Keeps id k (l.foldlM f s) := by
  intro l
  induction l with
  | nil =>
    intro s hs
    exact Keeps.okS hs
  | cons a l ih =>
    intro s hs
    rw [List.foldlM_cons]
    exact Keeps.bindS (hf s a hs) (fun s1 h1 => ih s1 h1)

theorem saturateSourceArc_keeps {s : State} {k} (hs : s.keys = k) (tempArc : Nat) :
    Keeps id k (saturateSourceArc s tempArc) := by
  simp only [saturateSourceArc]
  refine Keeps.bindS (modArc_keeps hs _ _ (fun _ => ⟨rfl, rfl, rfl⟩)) (fun s1 h1 => ?_)
  exact Keeps.bindV (fun a => modNode_keeps h1 _ _ (fun _ => ⟨rfl, rfl⟩))

theorem saturateSinkArc_keeps {s : State} {k} (hs : s.keys = k) (tempArc : Nat) :
    Keeps id k (saturateSinkArc s tempArc) := by
  simp only [saturateSinkArc]
  refine Keeps.bindS (modArc_keeps hs _ _ (fun _ => ⟨rfl, rfl, rfl⟩)) (fun s1 h1 => ?_)
  exact Keeps.bindV (fun a => modNode_keeps h1 _ _ (fun _ => ⟨rfl, rfl⟩))

theorem labelStrong_keeps {s : State} {k} (hs : s.keys = k) (i : Nat) :
    Keeps id k (labelStrong s i) := by
  simp only [labelStrong]
  refine Keeps.bindV (fun nd => ?_)
  split
  · refine Keeps.bindS (modNode_keeps hs _ _ (fun _ => ⟨rfl, rfl⟩)) (fun s1 h1 => ?_)
    exact Keeps.bindS (modCount_keeps h1 _ _) (fun s2 h2 => addToStrongBucket_keeps h2 _ _)
  · exact Keeps.okS hs

theorem simpleInitialization_keeps {s : State} {k} (hs : s.keys = k) :
    Keeps id k (simpleInitialization s) := by
  simp only [simpleInitialization]
  refine Keeps.bindV (fun src => ?_)
  refine Keeps.bindS (Keeps.foldlM _ (fun s a h => saturateSourceArc_keeps h a) _ s hs)
    (fun s1 h1 => ?_)
  refine Keeps.bindV (fun snk => ?_)
  refine Keeps.bindS (Keeps.foldlM _ (fun s a h => saturateSinkArc_keeps h a) _ s1 h1)
    (fun s2 h2 => ?_)
  refine Keeps.bindS (modNode_keeps h2 _ _ (fun _ => ⟨rfl, rfl⟩)) (fun s3 h3 => ?_)
  refine Keeps.bindS (modNode_keeps h3 _ _ (fun _ => ⟨rfl, rfl⟩)) (fun s4 h4 => ?_)
  refine Keeps.bindS (Keeps.foldlM _ (fun s a h => labelStrong_keeps h a) _ s4 h4)
    (fun s5 h5 => ?_)
  refine Keeps.bindS (modNode_keeps h5 _ _ (fun _ => ⟨rfl, rfl⟩)) (fun s6 h6 => ?_)
  refine Keeps.bindS (modNode_keeps h6 _ _ (fun _ => ⟨rfl, rfl⟩)) (fun s7 h7 => ?_)
  exact Keeps.bindV (fun c1 => modCount_keeps h7 _ _)

theorem placeArc_keeps {s : State} {k} (hs : s.keys = k) (i : Nat) :
    Keeps id k (placeArc s i) := by
  simp only [placeArc]
  refine Keeps.bindV (fun a => Keeps.bindV (fun t => Keeps.bindV (fun f => ?_)))
  split
  · split
    · exact modArc_keeps hs _ _ (fun _ => ⟨rfl, rfl, rfl⟩)
    · split
      · exact addOutOfTreeNode_keeps hs _ _
      · exact addOutOfTreeNode_keeps hs _ _
  · exact Keeps.okS hs

theorem createMemoryStructures_keeps {s : State} {k} (hs : s.keys = k) (numArcs : Nat) :
    Keeps id k (createMemoryStructures s numArcs) := by
  simp only [createMemoryStructures]
  refine Keeps.bindS (Keeps.foldlM _ (fun s a h => placeArc_keeps h a) _ s hs)
    (fun s1 h1 => ?_)
  exact Keeps.okS h1

/-! ## Reading the source set off a solved problem -/

theorem writeChar_spec {a r : List Int} {i v : Int} (h : writeChar a i v = .ok r) :
    0 ≤ i ∧ i.toNat < a.length ∧ r = a.set i.toNat v := by
  unfold writeChar at h
  split at h
  · cases h
  · split at h
    · cases h
      exact ⟨by omega, by assumption, rfl⟩
    · cases h

theorem markRoster_spec (v : Int) :
    ∀ (roster : List Node) (ind ind' : List Int), markRoster v roster ind = .ok ind' →
      ind'.length = ind.length
      ∧ (∀ nd ∈ roster, 0 ≤ nd.originalIndex ∧ nd.originalIndex.toNat < ind.length)
      ∧ ∀ x : Nat, ind'[x]? =
          if (x : Int) ∈ roster.map (fun nd => nd.originalIndex) then some v else ind[x]? := by
  intro roster
  induction roster with
  | nil =>
    intro ind ind' h
    simp only [markRoster] at h
    cases h
    simp
  | cons nd rest ih =>
    intro ind ind' h
    simp only [markRoster] at h
    obtain ⟨ind1, h1, h⟩ := bind_eq_ok.mp h
    obtain ⟨w0, w1, rfl⟩ := writeChar_spec h1
    obtain ⟨l, hall, hget⟩ := ih _ _ h
    rw [List.length_set] at l hall
    refine ⟨l, ?_, ?_⟩
    · intro m hm
      rcases List.mem_cons.mp hm with rfl | hm
      · exact ⟨w0, w1⟩
      · exact hall m hm
    · intro x
      rw [hget x]
      simp only [List.map_cons, List.mem_cons]
      by_cases hx : (x : Int) ∈ rest.map (fun nd => nd.originalIndex)
      · simp [hx]
      · rw [if_neg hx]
        by_cases hx0 : (x : Int) = nd.originalIndex
        · have : nd.originalIndex.toNat = x := by omega
          rw [if_pos (Or.inl hx0), this, List.getElem?_set_self (by omega)]
        · have : nd.originalIndex.toNat ≠ x := by omega
          rw [if_neg (by tauto), List.getElem?_set_ne this]

/-- The bit that `solveProblem` writes for a node with label `label`. -/
theorem readLabels_spec (s : State) (flag : Nat) :
    ∀ (is : List Nat) (ind ind' : List Int), readLabels s flag is ind = .ok ind' →
      ind'.length = ind.length
      ∧ (∀ x : Nat, (∀ i ∈ is, ∀ nd, s.nodesList[i]? = some nd → nd.originalIndex ≠ (x : Int)) →
          ind'[x]? = ind[x]?)
      ∧ (∀ (x i : Nat) (nd : Node), i ∈ is → s.nodesList[i]? = some nd →
          nd.originalIndex = (x : Int) →
          (∀ j ∈ is, ∀ nd', s.nodesList[j]? = some nd' → nd'.originalIndex = (x : Int) → j = i) →
          ind'[x]? = some (if flag = 1 then (if nd.label ≥ s.numNodes then 0 else 1)
            else (if nd.label ≥ s.numNodes then 1 else 0))) := by
  intro is
  induction is with
  | nil =>
    intro ind ind' h
    simp only [readLabels] at h
    cases h
    exact ⟨rfl, fun _ _ => rfl, fun x i nd hi => by cases hi⟩
  | cons i0 rest ih =>
    intro ind ind' h
    simp only [readLabels, State.node] at h
    obtain ⟨nd0, hnd0, h⟩ := bind_eq_ok.mp h
    obtain ⟨ind1, h1, h⟩ := bind_eq_ok.mp h
    obtain ⟨w0, w1, rfl⟩ := writeChar_spec h1
    obtain ⟨l, hother, hsame⟩ := ih _ _ h
    have hnd0' : s.nodesList[i0]? = some nd0 := by
      cases hq : s.nodesList[i0]? with
      | none => rw [hq] at hnd0; cases hnd0
      | some q => rw [hq] at hnd0; cases hnd0; rfl
    rw [List.length_set] at l
    refine ⟨l, ?_, ?_⟩
    · intro x hx
      rw [hother x (fun i hi nd hnd => hx i (List.mem_cons_of_mem _ hi) nd hnd)]
      have := hx i0 (List.mem_cons_self _ _) nd0 hnd0'
      rw [List.getElem?_set_ne (by omega)]
    · intro x i nd hi hnd horig huniq
      rcases List.mem_cons.mp hi with rfl | hi'
      · have hnot : ∀ j ∈ rest, ∀ nd', s.nodesList[j]? = some nd' →
            nd'.originalIndex ≠ (x : Int) ∨ j = i := by
          intro j hj nd' hnd'
          by_cases e : nd'.originalIndex = (x : Int)
          · exact Or.inr (huniq j (List.mem_cons_of_mem _ hj) nd' hnd' e)
          · exact Or.inl e
        by_cases hmem : i ∈ rest
        · exact hsame x i nd hmem hnd horig
            (fun j hj nd' hnd' e => huniq j (List.mem_cons_of_mem _ hj) nd' hnd' e)
        · rw [hother x (fun j hj nd' hnd' => by
            rcases hnot j hj nd' hnd' with e | e
            · exact e
            · subst e; exact absurd hj hmem)]
          rw [hnd0'] at hnd
          cases hnd
          have : nd0.originalIndex.toNat = x := by omega
          rw [this, List.getElem?_set_self (by omega)]
      · exact hsame x i nd hi' hnd horig
          (fun j hj nd' hnd' e => huniq j (List.mem_cons_of_mem _ hj) nd' hnd' e)

theorem class_counts (g : Super) (low high : List Int) (n : Nat) :
    ((List.range n).filter (toSource g low)).length
      + ((List.range n).filter (toSink g low high)).length + interiorBefore g low high n = n := by
  induction n with
  | zero => rfl
  | succ n ih =>
    rw [filter_range_succ_length, filter_range_succ_length, interiorBefore_succ]
    rcases mapOf_cases g low high n with ⟨c1, c2, c3, -⟩ | ⟨c1, c2, c3, -⟩ | ⟨c1, c2, c3, -⟩ <;>
      simp only [c1, c2, c3, if_true, Bool.false_eq_true, if_false] <;> omega

theorem interior_onto (g : Super) (low high : List Int) :
    ∀ (n c : Nat), c < interiorBefore g low high n →
      ∃ y < n, isInterior g low high y = true ∧ interiorBefore g low high y = c := by
  intro n
  induction n with
  | zero => intro c hc; simp [interiorBefore] at hc
  | succ n ih =>
    intro c hc
    rw [interiorBefore_succ] at hc
    by_cases hlt : c < interiorBefore g low high n
    · obtain ⟨y, hy, h1, h2⟩ := ih c hlt
      exact ⟨y, by omega, h1, h2⟩
    · by_cases hi : isInterior g low high n = true
      · rw [hi] at hc
        simp only [if_true] at hc
        exact ⟨n, by omega, hi, by omega⟩
      · have : isInterior g low high n = false := by simpa using hi
        rw [this] at hc
        simp at hc
        omega

theorem interiorBefore_inj (g : Super) (low high : List Int) {x y : Nat}
    (hx : isInterior g low high x = true) (hy : isInterior g low high y = true)
    (h : interiorBefore g low high x = interiorBefore g low high y) : x = y := by
  rcases Nat.lt_trichotomy x y with hlt | heq | hgt
  · have := interiorBefore_lt g low high hlt hx
    omega
  · exact heq
  · have := interiorBefore_lt g low high hgt hy
    omega

theorem getElem?_map_eq {α β : Type} {f : α → β} {l1 l2 : List α} (h : l1.map f = l2.map f)
    (i : Nat) : (l1[i]?).map f = (l2[i]?).map f := by
  rw [← List.getElem?_map, ← List.getElem?_map, h]

theorem mem_drop_two_range {N i : Nat} : i ∈ (List.range N).drop 2 ↔ 2 ≤ i ∧ i < N := by
  constructor
  · intro h
    obtain ⟨k, hk⟩ := List.mem_iff_getElem?.mp h
    rw [List.getElem?_drop] at hk
    have hlt : 2 + k < N := by
      by_contra hc
      rw [List.getElem?_eq_none (by simp; omega)] at hk
      cases hk
    rw [List.getElem?_range hlt] at hk
    cases hk
    omega
  · intro h
    refine List.mem_iff_getElem?.mpr ⟨i - 2, ?_⟩
    rw [List.getElem?_drop, show 2 + (i - 2) = i by omega, List.getElem?_range h.2]

theorem mem_roster_iff (p : Nat → Bool) (n x : Nat) :
    (x : Int) ∈ List.map (fun y : Nat => (y : Int)) (List.filter p (List.range n))
      ↔ x < n ∧ p x = true := by
  simp only [List.mem_map, List.mem_filter, List.mem_range]
  constructor
  · rintro ⟨y, ⟨h1, h2⟩, h3⟩
    have : y = x := by omega
    subst this
    exact ⟨h1, h2⟩
  · rintro ⟨h1, h2⟩
    exact ⟨x, ⟨h1, h2⟩, rfl⟩

theorem Built.interior_node {g : Super} {low high : List Int} {lam : ℚ} {p : CutProblem}
    (hb : Built g low high lam p) {x : Nat} (hx : x < g.numNodesSuper)
    (hi : isInterior g low high x = true) :
    (p.nodeList[mapOf g low high x]?).map (fun nd => nd.originalIndex) = some (x : Int) := by
  have := hb.2.1.2.2.2.2.1 x hx hi
  simp only [List.getElem?_map, Option.map_map] at this
  exact this

theorem Built.node_is_interior {g : Super} {low high : List Int} {lam : ℚ} {p : CutProblem}
    (hb : Built g low high lam p) {j : Nat} (h2 : 2 ≤ j) (hj : j < p.numNodesInList) :
    ∃ y < g.numNodesSuper, isInterior g low high y = true ∧ mapOf g low high y = j
      ∧ (p.nodeList[j]?).map (fun nd => nd.originalIndex) = some (y : Int) := by
  have hN := hb.1
  obtain ⟨y, hy, hi, hc⟩ := interior_onto g low high g.numNodesSuper (j - 2) (by omega)
  have hm : mapOf g low high y = j := by rw [mapOf_interior hi, hc]; omega
  refine ⟨y, hy, hi, hm, ?_⟩
  rw [← hm]
  exact hb.interior_node hy hi

/-- The source set that `solveProblem` leaves in `optimalSourceSetIndicator`. -/
theorem solveProblem_indicator {g : Super} {lam : ℚ} {low high : List Int} {p : CutProblem}
    {fuel flag : Nat} {r : CutProblem × Stats}
    (hg : SuperOK g) (hlow : g.numNodesSuper ≤ low.length)
    (hhigh : g.numNodesSuper ≤ high.length)
    (hp : initializeContractedProblem g lam low high = .ok p)
    (hs : solveProblem fuel g p flag = .ok r) :
    ∃ ind, r.1.optimalSourceSetIndicator = some ind ∧ ind.length = g.numNodesSuper
      ∧ ∀ x < g.numNodesSuper,
        (toSource g low x = true → ind[x]? = some 1)
        ∧ (toSink g low high x = true → ind[x]? = some 0)
        ∧ (isInterior g low high x = true →
            ∃ nd, r.1.nodeList[mapOf g low high x]? = some nd
              ∧ ind[x]? = some (labelBit flag p.numNodesInList nd.label)) := by
  have hb := initializeContractedProblem_built hg hlow hhigh hp
  obtain ⟨b1, b2, b3, b4, b5, -⟩ := hb
  obtain ⟨q1, q2, -, -, -, q6, q7, -⟩ := b2
  simp only at q1 q2 q6 q7
  have hcount := class_counts g low high g.numNodesSuper
  have hsrc : ∀ x : Nat, (x : Int) ∈ (p.sourceSet.take p.numSourceSet).map
      (fun nd => nd.originalIndex) ↔ x < g.numNodesSuper ∧ toSource g low x = true := by
    intro x
    rw [q6]
    exact mem_roster_iff _ _ _
  have hsnk : ∀ x : Nat, (x : Int) ∈ (p.sinkSet.take p.numSinkSet).map
      (fun nd => nd.originalIndex) ↔ x < g.numNodesSuper ∧ toSink g low high x = true := by
    intro x
    rw [q7]
    exact mem_roster_iff _ _ _
  have hclass : ∀ x, (toSource g low x = true → toSink g low high x = false)
      ∧ (isInterior g low high x = true →
          toSource g low x = false ∧ toSink g low high x = false) := by
    intro x
    rcases mapOf_cases g low high x with ⟨c1, c2, c3, -⟩ | ⟨c1, c2, c3, -⟩ | ⟨c1, c2, c3, -⟩ <;>
      simp [c1, c2, c3]
  rw [solveProblem] at hs
  by_cases h2 : p.numNodesInList = 2
  · simp only [h2, if_true] at hs
    obtain ⟨ind1, h1, hs⟩ := bind_eq_ok.mp hs
    obtain ⟨ind2, h2', hs⟩ := bind_eq_ok.mp hs
    obtain ⟨cut, -, hs⟩ := bind_eq_ok.mp hs
    cases hs
    obtain ⟨l1, -, g1⟩ := markRoster_spec 1 _ _ _ h1
    obtain ⟨l2, -, g2⟩ := markRoster_spec 0 _ _ _ h2'
    refine ⟨ind2, rfl, by rw [l2, l1, List.length_replicate], fun x hx => ⟨?_, ?_, ?_⟩⟩
    · intro hc
      rw [g2 x, if_neg (by rw [hsnk]; simp [(hclass x).1 hc]), g1 x,
        if_pos ((hsrc x).mpr ⟨hx, hc⟩)]
    · intro hc
      rw [g2 x, if_pos ((hsnk x).mpr ⟨hx, hc⟩)]
    · intro hc
      have := interiorBefore_lt g low high hx hc
      omega
  · simp only [h2, if_false] at hs
    obtain ⟨s1, e1, hs⟩ := bind_eq_ok.mp hs
    obtain ⟨s2, e2, hs⟩ := bind_eq_ok.mp hs
    obtain ⟨s3, e3, hs⟩ := bind_eq_ok.mp hs
    obtain ⟨ind1, h1, hs⟩ := bind_eq_ok.mp hs
    obtain ⟨ind2, h2', hs⟩ := bind_eq_ok.mp hs
    obtain ⟨ind3, h3', hs⟩ := bind_eq_ok.mp hs
    obtain ⟨cut, -, hs⟩ := bind_eq_ok.mp hs
    cases hs
    have k1 := (createMemoryStructures_keeps rfl _).out s1 e1
    have k2 := (simpleInitialization_keeps k1).out s2 e2
    have k3 := (pseudoflowPhase1_keeps _ _ s2 k2).out s3 e3
    simp only [id, State.keys, Prod.mk.injEq] at k3
    obtain ⟨kn, -, -, knodes, -⟩ := k3
    have korig : ∀ i : Nat, (s3.nodesList[i]?).map (fun nd : Node => nd.originalIndex)
        = (p.nodeList[i]?).map (fun nd : Node => nd.originalIndex) := by
      intro i
      have := getElem?_map_eq knodes i
      have h := congrArg (Option.map Prod.fst) this
      simpa only [Option.map_map] using h
    obtain ⟨l1, o1, a1⟩ := readLabels_spec s3 flag _ _ _ h1
    obtain ⟨l2, -, g2⟩ := markRoster_spec 1 _ _ _ h2'
    obtain ⟨l3, -, g3⟩ := markRoster_spec 0 _ _ _ h3'
    have hb' := initializeContractedProblem_built hg hlow hhigh hp
    refine ⟨ind3, rfl, ?_, fun x hx => ⟨?_, ?_, ?_⟩⟩
    · rw [l3, l2, l1, List.length_replicate, b1]
      have e4 := q1
      have e5 := q2
      omega
    · intro hc
      rw [g3 x, if_neg (by rw [hsnk]; simp [(hclass x).1 hc]), g2 x,
        if_pos ((hsrc x).mpr ⟨hx, hc⟩)]
    · intro hc
      rw [g3 x, if_pos ((hsnk x).mpr ⟨hx, hc⟩)]
    · intro hc
      obtain ⟨c1, c2⟩ := (hclass x).2 hc
      have hnode := hb'.interior_node hx hc
      rw [← korig] at hnode
      cases hnd : s3.nodesList[mapOf g low high x]? with
      | none => rw [hnd] at hnode; cases hnode
      | some nd =>
        rw [hnd] at hnode
        simp only [Option.map_some', Option.some.injEq] at hnode
        refine ⟨nd, rfl, ?_⟩
        rw [g3 x, if_neg (by rw [hsnk]; simp [c2]), g2 x, if_neg (by rw [hsrc]; simp [c1])]
        have hmem : mapOf g low high x ∈ (List.range p.numNodesInList).drop 2 := by
          rw [mem_drop_two_range, b1, mapOf_interior hc]
          have := interiorBefore_lt g low high hx hc
          omega
        have := a1 x (mapOf g low high x) nd hmem hnd hnode (by
          intro j hj nd' hnd' horig'
          rw [mem_drop_two_range] at hj
          obtain ⟨y, hy, hyi, hym, hyo⟩ := hb'.node_is_interior hj.1 hj.2
          rw [← korig, hnd'] at hyo
          simp only [Option.map_some', Option.some.injEq] at hyo
          have : y = x := by omega
          subst this
          exact hym.symm)
        rw [this, kn]
        rfl

/-! ## Nested source sets -/

theorem labelBit_cases (flag n l : Nat) : labelBit flag n l = 0 ∨ labelBit flag n l = 1 := by
  unfold labelBit
  split <;> split <;> simp

theorem sourceSetOf_spec {g : Super} {lam : ℚ} {kS kK : List Int} {fuel flag : Nat}
    {ind : List Int} (hg : SuperOK g) (hS : g.numNodesSuper ≤ kS.length)
    (hK : g.numNodesSuper ≤ kK.length)
    (h : sourceSetOf g lam kS kK fuel flag = .ok (some ind)) :
    IsIndicator g.numNodesSuper ind
      ∧ ∀ x < g.numNodesSuper,
        (toSource g kS x = true → ind[x]? = some 1)
        ∧ (toSink g kS kK x = true → ind[x]? = some 0)
        ∧ (ind[x]? = some 0 ∨ ind[x]? = some 1) := by
  unfold sourceSetOf at h
  obtain ⟨p, hp, h⟩ := bind_eq_ok.mp h
  cases hr : solveProblem fuel g p flag with
  | error e => rw [hr] at h; cases h
  | ok r =>
    rw [hr] at h
    obtain ⟨ind', hind, hlen, hall⟩ := solveProblem_indicator hg hS hK hp hr
    have e : r.1.optimalSourceSetIndicator = some ind := by
      simp only [Except.map, Except.ok.injEq] at h
      exact h
    rw [e] at hind
    cases hind
    have hval : ∀ x < g.numNodesSuper, ind[x]? = some 0 ∨ ind[x]? = some 1 := by
      intro x hx
      obtain ⟨a1, a2, a3⟩ := hall x hx
      rcases mapOf_cases g kS kK x with ⟨c1, -, -, -⟩ | ⟨-, c2, -, -⟩ | ⟨-, -, c3, -⟩
      · exact Or.inr (a1 c1)
      · exact Or.inl (a2 c2)
      · obtain ⟨nd, -, hnd⟩ := a3 c3
        rcases labelBit_cases flag p.numNodesInList nd.label with e | e
        · exact Or.inl (by rw [hnd, e])
        · exact Or.inr (by rw [hnd, e])
    refine ⟨⟨hlen, ?_⟩, fun x hx => ⟨(hall x hx).1, (hall x hx).2.1, hval x hx⟩⟩
    intro v hv
    obtain ⟨i, hi, rfl⟩ := List.mem_iff_getElem.mp hv
    have := hval i (by omega)
    rw [List.getElem?_eq_getElem hi] at this
    simpa using this

theorem IsIndicator.cases {n : Nat} {S : List Int} (h : IsIndicator n S) {x : Nat}
    (hx : x < n) : S[x]? = some 0 ∨ S[x]? = some 1 := by
  have hlt : x < S.length := by rw [h.1]; exact hx
  rw [List.getElem?_eq_getElem hlt]
  rcases h.2 _ (List.getElem_mem hlt) with e | e <;> simp [e]

/-- The source set of a probe lies between the known source set and the
complement of the known sink set, when the super source is in the latter. -/
theorem sourceSetOf_between {g : Super} {lam : ℚ} {kS kK : List Int} {fuel flag : Nat}
    {ind : List Int} (hg : SuperOK g) (hkS : IsIndicator g.numNodesSuper kS)
    (hkK : IsIndicator g.numNodesSuper kK) (hnest : NestedIn g.numNodesSuper kS kK)
    (hsrc : g.sourceSuper < g.numNodesSuper → kK[g.sourceSuper]? = some 1)
    (h : sourceSetOf g lam kS kK fuel flag = .ok (some ind)) :
    IsIndicator g.numNodesSuper ind ∧ NestedIn g.numNodesSuper kS ind
      ∧ NestedIn g.numNodesSuper ind kK
      ∧ (g.sourceSuper < g.numNodesSuper → ind[g.sourceSuper]? = some 1) := by
  obtain ⟨hind, hall⟩ := sourceSetOf_spec hg (by rw [hkS.1]) (by rw [hkK.1]) h
  refine ⟨hind, ?_, ?_, ?_⟩
  · intro x hx hl
    exact (hall x hx).1 (by simp [toSource, hl])
  · intro x hx hi
    rcases hkK.cases hx with e0 | e1
    · exfalso
      by_cases hs : toSource g kS x = true
      · simp only [toSource, Bool.or_eq_true, decide_eq_true_eq] at hs
        rcases hs with hs | hs
        · subst hs
          rw [hsrc hx] at e0
          cases e0
        · rw [hnest x hx hs] at e0
          cases e0
      · have hk : toSink g kS kK x = true := by
          have hs' : toSource g kS x = false := by simpa using hs
          simp [toSink, hs', e0]
        rw [(hall x hx).2.1 hk] at hi
        cases hi
    · exact e1
  · intro hx
    exact (hall _ hx).1 (by simp [toSource])

/-! ## Counting the breakpoints of `parametricCut` -/

theorem filter_len_le (a b c d : Nat → Bool) :
    ∀ n : Nat, (∀ x < n, (if a x then 1 else 0) + (if b x then 1 else 0)
        + (if c x then 1 else 0) ≤ (if d x then 1 else 0)) →
      ((List.range n).filter a).length + ((List.range n).filter b).length
        + ((List.range n).filter c).length ≤ ((List.range n).filter d).length := by
  intro n
  induction n with
  | zero => intro _; simp
  | succ n ih =>
    intro h
    have h1 := ih (fun x hx => h x (by omega))
    have h2 := h n (by omega)
    rw [filter_range_succ_length, filter_range_succ_length, filter_range_succ_length,
      filter_range_succ_length]
    omega

theorem foldl_zero (l : List Int) (h : ∀ c ∈ l, c = 0) :
    l.foldl (fun sum c => (sum + c) % (U32 : Int)) 0 = 0 := by
  induction l with
  | nil => rfl
  | cons x l ih =>
    rw [List.foldl_cons, h x (List.mem_cons_self _ _)]
    simp only [add_zero, Int.zero_emod]
    exact ih (fun c hc => h c (List.mem_cons_of_mem _ hc))

theorem sum_pos_exists {array : List Int} {n : Nat} (h : 0 < sum_array_char array n) :
    ∃ x < n, ∃ c, array[x]? = some c ∧ c ≠ 0 := by
  by_contra hc
  have hall : ∀ c ∈ array.take n, c = 0 := by
    intro c hcm
    obtain ⟨i, hi⟩ := List.mem_iff_getElem?.mp hcm
    by_contra hne
    have hlt : i < n := by
      by_contra hge
      rw [List.getElem?_take_eq_none (by omega)] at hi
      cases hi
    rw [List.getElem?_take_of_lt hlt] at hi
    exact hc ⟨i, hlt, c, hi, hne⟩
  unfold sum_array_char at h
  rw [foldl_zero _ hall] at h
  simp at h

theorem gainCount_pos {g : Super} {low high d : List Int}
    (hl : IsIndicator g.numNodesSuper low) (hh : IsIndicator g.numNodesSuper high)
    (hn : NestedIn g.numNodesSuper low high)
    (hd : differenceSourceSets g low high = .ok d)
    (hs : 0 < sum_array_char d g.numNodesSuper) : 1 ≤ gainCount g.numNodesSuper low high := by
  obtain ⟨x, hx, c, hc, hne⟩ := sum_pos_exists hs
  obtain ⟨l, h, e1, e2, e3⟩ := differenceSourceSets_get hd hx
  rw [hc] at e3
  cases e3
  have hmem : x ∈ (List.range g.numNodesSuper).filter
      (fun x => decide (high[x]? = some 1) && decide (low[x]? = some 0)) := by
    rw [List.mem_filter]
    refine ⟨List.mem_range.mpr hx, ?_⟩
    rcases hl.cases hx with a | a <;> rcases hh.cases hx with b | b
    · rw [a] at e1; rw [b] at e2; cases e1; cases e2; simp at hne
    · simp [a, b]
    · have := hn x hx a
      rw [b] at this
      cases this
    · rw [a] at e1; rw [b] at e2; cases e1; cases e2; simp at hne
  unfold gainCount
  exact List.length_pos_of_mem hmem

theorem gainCount_split {g : Super} {lam1 lam2 : ℚ} {fuel1 fuel2 flag1 flag2 : Nat}
    {low high mn mx : List Int} (hg : SuperOK g)
    (hl : IsIndicator g.numNodesSuper low) (hh : IsIndicator g.numNodesSuper high)
    (hsrc : g.sourceSuper < g.numNodesSuper → low[g.sourceSuper]? = some 1)
    (hmn : sourceSetOf g lam1 low high fuel1 flag1 = .ok (some mn))
    (hmx : sourceSetOf g lam2 mn high fuel2 flag2 = .ok (some mx)) :
    IsIndicator g.numNodesSuper mn ∧ IsIndicator g.numNodesSuper mx
      ∧ NestedIn g.numNodesSuper mn mx
      ∧ (g.sourceSuper < g.numNodesSuper → mx[g.sourceSuper]? = some 1)
      ∧ gainCount g.numNodesSuper low mn + gainCount g.numNodesSuper mn mx
          + gainCount g.numNodesSuper mx high ≤ gainCount g.numNodesSuper low high := by
  obtain ⟨i1, a1⟩ := sourceSetOf_spec hg (by rw [hl.1]) (by rw [hh.1]) hmn
  obtain ⟨i2, a2⟩ := sourceSetOf_spec hg (by rw [i1.1]) (by rw [hh.1]) hmx
  have hnest : NestedIn g.numNodesSuper mn mx :=
    fun x hx hm => (a2 x hx).1 (by simp [toSource, hm])
  refine ⟨i1, i2, hnest, fun hx => (a2 _ hx).1 (by simp [toSource]), ?_⟩
  unfold gainCount
  apply filter_len_le
  intro x hx
  obtain ⟨m1, m2, -⟩ := a1 x hx
  obtain ⟨x1, x2, -⟩ := a2 x hx
  have hmnsrc : g.sourceSuper < g.numNodesSuper → mn[g.sourceSuper]? = some 1 :=
    fun hs => (a1 _ hs).1 (by simp [toSource])
  have f1 : low[x]? = some 1 → mn[x]? = some 1 := fun h => m1 (by simp [toSource, h])
  have f2 : mn[x]? = some 1 → mx[x]? = some 1 := fun h => x1 (by simp [toSource, h])
  have f3 : mn[x]? = some 1 → low[x]? = some 0 → high[x]? = some 1 := by
    intro hm hlo
    rcases hh.cases hx with hi | hi
    · exfalso
      have hs : toSource g low x = false := by
        simp only [toSource, Bool.or_eq_false_iff, decide_eq_false_iff_not, hlo]
        refine ⟨fun e => ?_, by simp⟩
        subst e
        have := hsrc hx
        rw [hlo] at this
        cases this
      have := m2 (by simp [toSink, hs, hi])
      rw [hm] at this
      cases this
    · exact hi
  have f4 : mx[x]? = some 1 → mn[x]? = some 0 → high[x]? = some 1 := by
    intro hm hlo
    rcases hh.cases hx with hi | hi
    · exfalso
      have hs : toSource g mn x = false := by
        simp only [toSource, Bool.or_eq_false_iff, decide_eq_false_iff_not, hlo]
        refine ⟨fun e => ?_, by simp⟩
        subst e
        have := hmnsrc hx
        rw [hlo] at this
        cases this
      have := x2 (by simp [toSink, hs, hi])
      rw [hm] at this
      cases this
    · exact hi
  rcases hl.cases hx with lo | lo <;> rcases hh.cases hx with hi | hi <;>
    rcases i1.cases hx with mi | mi <;> rcases i2.cases hx with ma | ma
  all_goals first
    | (simp [lo, hi, mi, ma]; done)
    | (exfalso
       first
         | (skip; have hz := f1 lo; rw [mi] at hz; cases hz; done)
         | (skip; have hz := f2 mi; rw [ma] at hz; cases hz; done)
         | (skip; have hz := f3 mi lo; rw [hi] at hz; cases hz; done)
         | (skip; have hz := f4 ma mi; rw [hi] at hz; cases hz; done))

theorem deref_eq_ok {α : Type} {o : Option α} {a : α} (h : deref o = .ok a) : o = some a := by
  cases o with
  | none => cases h
  | some x => cases h; rfl

theorem sourceSetOf_of {g : Super} {lam : ℚ} {kS kK : List Int} {fuel flag : Nat}
    {p : CutProblem} {r : CutProblem × Stats} {ind : List Int}
    (hp : initializeContractedProblem g lam kS kK = .ok p)
    (hr : solveProblem fuel g p flag = .ok r)
    (hi : deref r.1.optimalSourceSetIndicator = .ok ind) :
    sourceSetOf g lam kS kK fuel flag = .ok (some ind) := by
  unfold sourceSetOf
  rw [hp, ok_bind, hr, ← deref_eq_ok hi]
  rfl

/-- The breakpoints that `parametricCut` appends are at most as many as the
nodes of `S_high` outside `S_low`. -/
theorem parametricCut_count {g : Super} (hg : SuperOK g) (fuel : Nat) :
    ∀ (depth : Nat) (gl gl' : Globals) (low high : CutProblem) (lowInd highInd : List Int),
      low.optimalSourceSetIndicator = some lowInd →
      high.optimalSourceSetIndicator = some highInd →
      IsIndicator g.numNodesSuper lowInd → IsIndicator g.numNodesSuper highInd →
      (g.sourceSuper < g.numNodesSuper → lowInd[g.sourceSuper]? = some 1) →
      parametricCut fuel g depth gl low high = .ok gl' →
      gl'.breakpoints.length
        ≤ gl.breakpoints.length + gainCount g.numNodesSuper lowInd highInd := by
  intro depth
  induction depth with
  | zero => intro gl gl' low high lowInd highInd _ _ _ _ _ h; cases h
  | succ depth ih =>
    intro gl gl' low high lowInd highInd hlo hhi il ih' hsrc h
    rw [parametricCut] at h
    simp only [hlo, hhi, deref, ok_bind] at h
    obtain ⟨diff, hdiff, h⟩ := bind_eq_ok.mp h
    by_cases hsum : 0 < sum_array_char diff g.numNodesSuper
    · simp only [gt_iff_lt, hsum, if_true] at h
      obtain ⟨Klow, hKl, h⟩ := bind_eq_ok.mp h
      obtain ⟨Khigh, hKh, h⟩ := bind_eq_ok.mp h
      obtain ⟨lam, hlam, h⟩ := bind_eq_ok.mp h
      obtain ⟨pmin, hpmin, h⟩ := bind_eq_ok.mp h
      obtain ⟨⟨rmin, smin⟩, hrmin, h⟩ := bind_eq_ok.mp h
      simp only at h
      obtain ⟨minInd, hmi, h⟩ := bind_eq_ok.mp h
      obtain ⟨pmax, hpmax, h⟩ := bind_eq_ok.mp h
      obtain ⟨⟨rmax, smax⟩, hrmax, h⟩ := bind_eq_ok.mp h
      simp only at h
      obtain ⟨maxInd, hma, h⟩ := bind_eq_ok.mp h
      obtain ⟨d2, hd2, h⟩ := bind_eq_ok.mp h
      have smn := sourceSetOf_of hpmin hrmin hmi
      have smx := sourceSetOf_of hpmax hrmax hma
      obtain ⟨i1, i2, hnest, hmxsrc, hsplit⟩ := gainCount_split hg il ih' hsrc smn smx
      have hmi' := deref_eq_ok hmi
      have hma' := deref_eq_ok hma
      simp only at hmi' hma'
      by_cases hs2 : 0 < sum_array_char d2 g.numNodesSuper
      · simp only [hs2, if_true] at h
        obtain ⟨gl1, hgl1, h⟩ := bind_eq_ok.mp h
        obtain ⟨gl2, hgl2, h⟩ := bind_eq_ok.mp h
        obtain ⟨b1, -, -, -⟩ := addBreakpoint_ok hgl1
        have c1 := ih _ _ _ _ lowInd minInd hlo hmi' il i1 hsrc hgl2
        have c2 := ih _ _ _ _ maxInd highInd hma' hhi i2 ih' hmxsrc h
        have c3 := gainCount_pos i1 i2 hnest hd2 hs2
        rw [b1] at c1
        simp only [List.length_append, List.length_singleton] at c1
        omega
      · simp only [hs2, if_false, pure, Except.pure, ok_bind] at h
        obtain ⟨gl2, hgl2, h⟩ := bind_eq_ok.mp h
        have c1 := ih _ _ _ _ lowInd minInd hlo hmi' il i1 hsrc hgl2
        have c2 := ih _ _ _ _ maxInd highInd hma' hhi i2 ih' hmxsrc h
        simp only at c1
        omega
    · simp only [gt_iff_lt, hsum, if_false] at h
      cases h
      omega

theorem gainCount_le (n : Nat) (low high : List Int) (src snk : Nat) (hs : src < n)
    (hk : snk < n) (hne : src ≠ snk) (h1 : low[src]? = some 1) (h2 : high[snk]? = some 0) :
    gainCount n low high + 2 ≤ n := by
  unfold gainCount
  have key := filter_len_le
    (fun x => decide (high[x]? = some 1) && decide (low[x]? = some 0))
    (fun x => decide (x = src)) (fun x => decide (x = snk)) (fun _ => true) n (by
      intro x _
      by_cases e1 : x = src
      · subst e1
        have : ¬ x = snk := hne
        simp [h1, this]
      · by_cases e2 : x = snk
        · subst e2
          simp [h2, e1]
        · simp only [e1, e2, decide_False, if_true]
          split <;> simp)
  have c1 : ((List.range n).filter (fun x => decide (x = src))).length = 1 := by
    rw [← List.countP_eq_length_filter]
    have : List.countP (fun x => decide (x = src)) (List.range n) = List.count src (List.range n) := by
      rw [List.count]
      congr 1
    rw [this, List.count_eq_one_of_mem (List.nodup_range n) (List.mem_range.mpr hs)]
  have c2 : ((List.range n).filter (fun x => decide (x = snk))).length = 1 := by
    rw [← List.countP_eq_length_filter]
    have : List.countP (fun x => decide (x = snk)) (List.range n) = List.count snk (List.range n) := by
      rw [List.count]
      congr 1
    rw [this, List.count_eq_one_of_mem (List.nodup_range n) (List.mem_range.mpr hk)]
  have c3 : ((List.range n).filter (fun _ => true)).length = n := by simp
  omega

/-! ## The number of breakpoints that `hpf_solve` returns -/

theorem hpf_solve_count {fuel depth numNodesIn numArcsIn sourceIn sinkIn : Nat}
    {arcMatrix : List ℚ} {lambdaLow lambdaHigh : ℚ} {round : Int} {out : Output}
    (htab : ArcTable numNodesIn numArcsIn arcMatrix)
    (hs : sourceIn < numNodesIn) (hk : sinkIn < numNodesIn) (hne : sourceIn ≠ sinkIn)
    (hlt : lambdaLow < lambdaHigh)
    (h : hpf_solve fuel depth numNodesIn numArcsIn sourceIn sinkIn arcMatrix lambdaLow lambdaHigh
      round = .ok out) :
    out.numBreakpoints + 1 ≤ numNodesIn := by
  obtain ⟨g0, hread, hok, -⟩ := readGraphSuper_ok sourceIn sinkIn lambdaLow lambdaHigh round
    htab (by omega)
  obtain ⟨f1, -, f3, f4, -, -, -, f8, -, -⟩ := readGraphSuper_fields hread
  rw [if_neg (ne_of_lt hlt)] at f8
  rw [hpf_solve] at h
  simp only [hread, ok_bind] at h
  obtain ⟨plow, hplow, h⟩ := bind_eq_ok.mp h
  rw [if_pos f8] at h
  obtain ⟨phigh, hphigh, h⟩ := bind_eq_ok.mp h
  obtain ⟨⟨rlow, slow⟩, hrlow, h⟩ := bind_eq_ok.mp h
  obtain ⟨⟨rhigh, shigh⟩, hrhigh, h⟩ := bind_eq_ok.mp h
  simp only at h
  obtain ⟨gl1, hgl1, h⟩ := bind_eq_ok.mp h
  obtain ⟨highInd, hhi, h⟩ := bind_eq_ok.mp h
  obtain ⟨gl2, hgl2, h⟩ := bind_eq_ok.mp h
  cases h
  -- the source set of the lower end
  have hlow : ∃ lowInd, rlow.optimalSourceSetIndicator = some lowInd := by
    cases depth with
    | zero => cases hgl1
    | succ d =>
      rw [parametricCut] at hgl1
      obtain ⟨lowInd, hl, -⟩ := bind_eq_ok.mp hgl1
      exact ⟨lowInd, deref_eq_ok hl⟩
  obtain ⟨lowInd, hlo⟩ := hlow
  have hn : ({ g0 with arcListSuper := qsort g0.arcListSuper } : Super).numNodesSuper
      = numNodesIn := f1
  have hsrc : ({ g0 with arcListSuper := qsort g0.arcListSuper } : Super).sourceSuper
      = sourceIn := f3
  have hsnk : ({ g0 with arcListSuper := qsort g0.arcListSuper } : Super).sinkSuper
      = sinkIn := f4
  have s1 := sourceSetOf_of hplow hrlow (by rw [hlo]; rfl)
  have s2 := sourceSetOf_of hphigh hrhigh hhi
  obtain ⟨i1, a1⟩ := sourceSetOf_spec hok (le_of_eq (List.length_replicate _ _).symm)
    (le_of_eq (List.length_replicate _ _).symm) s1
  obtain ⟨i2, a2⟩ := sourceSetOf_spec hok (le_of_eq (List.length_replicate _ _).symm)
    (le_of_eq (List.length_replicate _ _).symm) s2
  rw [hn] at i1 i2 a1 a2
  have e1 : lowInd[sourceIn]? = some 1 := by
    refine (a1 sourceIn hs).1 ?_
    simp only [toSource, Bool.or_eq_true, decide_eq_true_eq]
    exact Or.inl f3.symm
  have e2 : highInd[sinkIn]? = some 0 := by
    refine (a2 sinkIn hk).2.1 ?_
    simp only [toSink, toSource, Bool.and_eq_true, Bool.not_eq_true', Bool.or_eq_false_iff,
      decide_eq_false_iff_not, Bool.or_eq_true, decide_eq_true_eq]
    refine ⟨⟨fun e => hne (by rw [← f3]; exact e.symm), ?_⟩, Or.inl f4.symm⟩
    rw [List.getElem?_replicate]
    split <;> simp
  have c1 := parametricCut_count hok fuel depth _ gl1 rlow rhigh lowInd highInd hlo
    (deref_eq_ok hhi) (by rw [hn]; exact i1) (by rw [hn]; exact i2)
    (by intro _; rw [hsrc]; exact e1) hgl1
  rw [hn] at c1
  have c2 := gainCount_le numNodesIn lowInd highInd sourceIn sinkIn hs hk hne e1 e2
  obtain ⟨b1, -, -, -⟩ := addBreakpoint_ok hgl2
  simp only [prepareOutput, b1, List.length_append, List.length_singleton, List.length_nil]
    at c1 ⊢
  omega

/-! ## Facts about the node map for the claims -/

theorem mapOf_eq_zero_iff (g : Super) (low high : List Int) (x : Nat) :
    mapOf g low high x = 0 ↔ (x = g.sourceSuper ∨ low[x]? = some 1) := by
  rcases mapOf_cases g low high x with ⟨c1, -, -, e⟩ | ⟨c1, -, -, e⟩ | ⟨c1, -, -, e⟩ <;>
    simp only [toSource, Bool.or_eq_true, decide_eq_true_eq, Bool.or_eq_false_iff,
      decide_eq_false_iff_not] at c1 <;> rw [e]
  · simp [c1]
  · constructor
    · intro h; omega
    · intro h; tauto
  · constructor
    · intro h; omega
    · intro h; tauto

theorem mapOf_eq_one_iff (g : Super) (low high : List Int) (x : Nat) :
    mapOf g low high x = 1 ↔
      (¬ (x = g.sourceSuper ∨ low[x]? = some 1) ∧ (x = g.sinkSuper ∨ high[x]? = some 0)) := by
  rcases mapOf_cases g low high x with ⟨c1, c2, -, e⟩ | ⟨c1, c2, -, e⟩ | ⟨c1, c2, -, e⟩ <;>
    simp only [toSink, c1, Bool.not_true, Bool.not_false, Bool.false_and, Bool.true_and,
      Bool.or_eq_true, decide_eq_true_eq, Bool.or_eq_false_iff, decide_eq_false_iff_not] at c2
      <;>
    simp only [toSource, Bool.or_eq_true, decide_eq_true_eq, Bool.or_eq_false_iff,
      decide_eq_false_iff_not] at c1 <;> rw [e]
  · constructor
    · intro h; omega
    · intro h; tauto
  · simp only [true_iff]
    tauto
  · constructor
    · intro h; omega
    · intro h; tauto

theorem two_le_mapOf_iff (g : Super) (low high : List Int) (x : Nat) :
    2 ≤ mapOf g low high x ↔ isInterior g low high x = true := by
  rcases mapOf_cases g low high x with ⟨-, -, c3, e⟩ | ⟨-, -, c3, e⟩ | ⟨-, -, c3, e⟩ <;>
    rw [e, c3] <;> simp

theorem interiorBefore_eq_count (g : Super) (low high : List Int) (x : Nat) :
    interiorBefore g low high x
      = ((List.range x).filter (fun y => decide (2 ≤ mapOf g low high y))).length := by
  unfold interiorBefore
  congr 1
  apply List.filter_congr
  intro y _
  by_cases h : isInterior g low high y = true
  · rw [h]
    exact (decide_eq_true ((two_le_mapOf_iff g low high y).mpr h)).symm
  · have h' : isInterior g low high y = false := by simpa using h
    rw [h']
    exact (decide_eq_false (fun hc => h ((two_le_mapOf_iff g low high y).mp hc))).symm

theorem Built.counts {g : Super} {low high : List Int} {lam : ℚ} {p : CutProblem}
    (hb : Built g low high lam p) :
    p.numNodesInList = 2 + interiorBefore g low high g.numNodesSuper
      ∧ p.numSourceSet = ((List.range g.numNodesSuper).filter (toSource g low)).length
      ∧ p.numSinkSet = ((List.range g.numNodesSuper).filter (toSink g low high)).length :=
  ⟨hb.1, hb.2.1.1, hb.2.1.2.1⟩

/-! ## The builder, the source sets and the breakpoint count -/

/-- C25: for indicator arrays that cover the super nodes, the first loop of
`initializeContractedProblem` returns a node map that sends super node `x` to
0 iff `x` is the super source or `known_source[x] = 1`, otherwise to 1 iff `x`
is the super sink or `known_sink[x] = 0`, and otherwise to 2 plus the number
of earlier nodes sent to an index of 2 or more.  So the interior indices are
exactly `2 .. numNodesInList - 1` in increasing order of the original index,
`numSourceSet + numSinkSet + (numNodesInList - 2)` is the number of super
nodes, the super source is sent to 0, and the super sink to 1 when it differs
from the source and `known_source[sink]` is not 1.  A problem that the builder
returns carries these three counts. -/
theorem node_map_of_builder (g : Super) (low high : List Int)
    (hlow : g.numNodesSuper ≤ low.length) (hhigh : g.numNodesSuper ≤ high.length) :
    ∃ nodeMap nSrc nSnk nList,
      buildNodeMap g low high (List.range g.numNodesSuper) ([], 0, 0, 2)
        = .ok (nodeMap, nSrc, nSnk, nList)
      ∧ nodeMap.length = g.numNodesSuper
      ∧ (∀ x < g.numNodesSuper, nodeMap[x]? = some (mapOf g low high x)
          ∧ (mapOf g low high x = 0 ↔ (x = g.sourceSuper ∨ low[x]? = some 1))
          ∧ (mapOf g low high x = 1 ↔
              (¬ (x = g.sourceSuper ∨ low[x]? = some 1)
                ∧ (x = g.sinkSuper ∨ high[x]? = some 0)))
          ∧ (2 ≤ mapOf g low high x → mapOf g low high x
              = 2 + ((List.range x).filter
                  (fun y => decide (2 ≤ mapOf g low high y))).length))
      ∧ (∀ m, 2 ≤ m → m < nList → ∃ x < g.numNodesSuper, mapOf g low high x = m)
      ∧ (∀ x < g.numNodesSuper, mapOf g low high x < nList)
      ∧ (∀ x y, x < y → 2 ≤ mapOf g low high x → 2 ≤ mapOf g low high y →
          mapOf g low high x < mapOf g low high y)
      ∧ nSrc + nSnk + (nList - 2) = g.numNodesSuper
      ∧ (g.sourceSuper < g.numNodesSuper → nodeMap[g.sourceSuper]? = some 0)
      ∧ (g.sinkSuper < g.numNodesSuper → g.sinkSuper ≠ g.sourceSuper →
          low[g.sinkSuper]? ≠ some 1 → nodeMap[g.sinkSuper]? = some 1)
      ∧ (∀ lam p, SuperOK g → initializeContractedProblem g lam low high = .ok p →
          p.numNodesInList = nList ∧ p.numSourceSet = nSrc ∧ p.numSinkSet = nSnk) := by
  obtain ⟨r, hr, hinv⟩ := buildNodeMap_spec g low high hlow hhigh
  obtain ⟨nodeMap, nSrc, nSnk, nList⟩ := r
  obtain ⟨m1, hmap, m3, m4, m5⟩ := hinv
  simp only at m1 hmap m3 m4 m5
  have hcount := class_counts g low high g.numNodesSuper
  refine ⟨nodeMap, nSrc, nSnk, nList, hr, m1, ?_, ?_, ?_, ?_, by omega, ?_, ?_, ?_⟩
  · intro x hx
    refine ⟨hmap x hx, mapOf_eq_zero_iff g low high x, mapOf_eq_one_iff g low high x, ?_⟩
    intro h2
    rw [mapOf_interior ((two_le_mapOf_iff g low high x).mp h2), interiorBefore_eq_count]
  · intro m h2 hm
    obtain ⟨y, hy, hi, hc⟩ := interior_onto g low high g.numNodesSuper (m - 2) (by omega)
    exact ⟨y, hy, by rw [mapOf_interior hi, hc]; omega⟩
  · intro x hx
    rw [m5]
    exact mapOf_lt g low high hx
  · intro x y hxy h2x h2y
    have hi := (two_le_mapOf_iff g low high x).mp h2x
    have hj := (two_le_mapOf_iff g low high y).mp h2y
    rw [mapOf_interior hi, mapOf_interior hj]
    have := interiorBefore_lt g low high hxy hi
    omega
  · intro hs
    rw [hmap _ hs, (mapOf_eq_zero_iff g low high _).mpr (Or.inl rfl)]
  · intro hk hne hl
    rw [hmap _ hk, (mapOf_eq_one_iff g low high _).mpr ⟨by tauto, Or.inl rfl⟩]
  · intro lam p hg hp
    obtain ⟨c1, c2, c3⟩ := (initializeContractedProblem_built hg hlow hhigh hp).counts
    exact ⟨by rw [c1, m5], by rw [c2, m3], by rw [c3, m4]⟩

/-- C25, an instance: scenario S2 with the known source set `{0}` and the
known sink set `{2}`, where the node map is [0, 2, 1]. -/
theorem node_map_of_builder_witness :
    ∃ nodeMap nSrc nSnk nList,
      buildNodeMap (S2 1) [1, 0, 0] [1, 1, 0] (List.range (S2 1).numNodesSuper) ([], 0, 0, 2)
        = .ok (nodeMap, nSrc, nSnk, nList)
      ∧ nodeMap.length = (S2 1).numNodesSuper
      ∧ (∀ x < (S2 1).numNodesSuper, nodeMap[x]? = some (mapOf (S2 1) [1, 0, 0] [1, 1, 0] x)
          ∧ (mapOf (S2 1) [1, 0, 0] [1, 1, 0] x = 0
              ↔ (x = (S2 1).sourceSuper ∨ ([1, 0, 0] : List Int)[x]? = some 1))
          ∧ (mapOf (S2 1) [1, 0, 0] [1, 1, 0] x = 1 ↔
              (¬ (x = (S2 1).sourceSuper ∨ ([1, 0, 0] : List Int)[x]? = some 1)
                ∧ (x = (S2 1).sinkSuper ∨ ([1, 1, 0] : List Int)[x]? = some 0)))
          ∧ (2 ≤ mapOf (S2 1) [1, 0, 0] [1, 1, 0] x → mapOf (S2 1) [1, 0, 0] [1, 1, 0] x
              = 2 + ((List.range x).filter
                  (fun y => decide (2 ≤ mapOf (S2 1) [1, 0, 0] [1, 1, 0] y))).length))
      ∧ (∀ m, 2 ≤ m → m < nList →
          ∃ x < (S2 1).numNodesSuper, mapOf (S2 1) [1, 0, 0] [1, 1, 0] x = m)
      ∧ (∀ x < (S2 1).numNodesSuper, mapOf (S2 1) [1, 0, 0] [1, 1, 0] x < nList)
      ∧ (∀ x y, x < y → 2 ≤ mapOf (S2 1) [1, 0, 0] [1, 1, 0] x →
          2 ≤ mapOf (S2 1) [1, 0, 0] [1, 1, 0] y →
          mapOf (S2 1) [1, 0, 0] [1, 1, 0] x < mapOf (S2 1) [1, 0, 0] [1, 1, 0] y)
      ∧ nSrc + nSnk + (nList - 2) = (S2 1).numNodesSuper
      ∧ ((S2 1).sourceSuper < (S2 1).numNodesSuper → nodeMap[(S2 1).sourceSuper]? = some 0)
      ∧ ((S2 1).sinkSuper < (S2 1).numNodesSuper → (S2 1).sinkSuper ≠ (S2 1).sourceSuper →
          ([1, 0, 0] : List Int)[(S2 1).sinkSuper]? ≠ some 1 →
          nodeMap[(S2 1).sinkSuper]? = some 1)
      ∧ (∀ lam p, SuperOK (S2 1) →
          initializeContractedProblem (S2 1) lam [1, 0, 0] [1, 1, 0] = .ok p →
          p.numNodesInList = nList ∧ p.numSourceSet = nSrc ∧ p.numSinkSet = nSnk) :=
  node_map_of_builder (S2 1) [1, 0, 0] [1, 1, 0] (by decide) (by decide)

theorem blankScratch_ok (nl : Nat) (lam : ℚ) : ScratchOK nl lam (blankScratch nl lam) := by
  refine ⟨by simp [blankScratch], by simp [blankScratch], by simp [blankScratch], rfl, rfl,
    ?_, ?_⟩
  · intro idx hidx
    exact Or.inl (List.eq_of_mem_replicate hidx)
  · intro idx hidx
    exact Or.inl (List.eq_of_mem_replicate hidx)

theorem S2_table : ArcTable 3 2 [0, 1, 0, 1, 1, 2, 10, 0] := by
  intro i hi
  have : i = 0 ∨ i = 1 := by omega
  rcases this with rfl | rfl
  · exact ⟨0, 1, 0, 1, rfl, rfl, rfl, rfl, by decide!, by decide!, by decide!, by decide!⟩
  · exact ⟨1, 2, 10, 0, rfl, rfl, rfl, rfl, by decide!, by decide!, by decide!, by decide!⟩

theorem S2_sets :
    sourceSetOf (S2 1) 0 [0, 0, 0] [1, 1, 1] 8 0 = .ok (some [1, 0, 0])
    ∧ sourceSetOf (S2 1) 20 [0, 0, 0] [1, 1, 1] 8 0 = .ok (some [1, 1, 0])
    ∧ sourceSetOf (S2 1) (math_max (10 - TOL) 0) [1, 0, 0] [1, 1, 0] 8 0 = .ok (some [1, 0, 0])
    ∧ sourceSetOf (S2 1) (math_min (10 + TOL) 20) [1, 0, 0] [1, 1, 0] 8 0
        = .ok (some [1, 1, 0]) := by
  refine ⟨by decide!, by decide!, by decide!, by decide!⟩

/-- C26: in the arc loop of `initializeContractedProblem`, a super arc whose
mapped end points `(f, t)` satisfy one of `f = t`, `t = 0`, `f = 1`,
`f = 0 and t = 1` leaves the scratch data, with the arc list and every
`numAdjacent`, as they are, and its capacity is not looked at, so no negative
capacity is reported for it.  Every other super arc goes through the capacity
test of `copyArcNew` or `copyArcAdd` and then either is appended to the arc
list as the arc `(f, t)` or has its capacity added to an arc of the list. -/
theorem builder_drops_arc (g : Super) (low high : List Int) (lam : ℚ) (nodeMap : List Nat)
    (nSrc nSnk nl : Nat) (st : ArcScratch) (a : Arc)
    (hg : SuperOK g) (hlow : g.numNodesSuper ≤ low.length)
    (hhigh : g.numNodesSuper ≤ high.length)
    (hbuild : buildNodeMap g low high (List.range g.numNodesSuper) ([], 0, 0, 2)
      = .ok (nodeMap, nSrc, nSnk, nl))
    (ha : a ∈ g.arcListSuper) (hst : ScratchOK nl lam st) :
    nodeMap[a.from_]? = some (mapOf g low high a.from_)
    ∧ nodeMap[a.to_]? = some (mapOf g low high a.to_)
    ∧ (keptBy g low high a = false ↔
        (mapOf g low high a.from_ = mapOf g low high a.to_ ∨ mapOf g low high a.to_ = 0
          ∨ mapOf g low high a.from_ = 1
          ∨ (mapOf g low high a.from_ = 0 ∧ mapOf g low high a.to_ = 1)))
    ∧ (keptBy g low high a = false → contractArc g nodeMap lam st a = .ok st)
    ∧ (keptBy g low high a = true →
        ∃ st1 : ℚ → ArcScratch,
          contractArc g nodeMap lam st a
            = (roundCapacity g (a.multiplier * lam + a.constant) lam >>= fun c => .ok (st1 c))
          ∧ ∀ c, (st1 c).problem.arcList = st.problem.arcList
                ++ [newArc (mapOf g low high a.from_) (mapOf g low high a.to_) c]
              ∨ ∃ k b, st.problem.arcList[k]? = some b
                  ∧ (st1 c).problem.arcList
                      = st.problem.arcList.set k { b with capacity := b.capacity + c }) := by
  obtain ⟨r, hr, hinv⟩ := buildNodeMap_spec g low high hlow hhigh
  rw [hbuild] at hr
  cases hr
  obtain ⟨m1, hmap, m3, m4, m5⟩ := hinv
  simp only at m1 hmap m3 m4 m5
  have hnl : ∀ x < g.numNodesSuper, mapOf g low high x < nl := by
    intro x hx
    rw [m5]
    exact mapOf_lt g low high hx
  have hin := hg.2 a ha
  refine ⟨hmap _ hin.1, hmap _ hin.2, ?_, ?_, ?_⟩
  · constructor
    · intro hk
      by_contra hc
      have := (keptBy_iff g low high a).mpr (by tauto)
      rw [hk] at this
      cases this
    · intro hc
      by_contra hk
      have hk' : keptBy g low high a = true := by simpa using hk
      have := (keptBy_iff g low high a).mp hk'
      tauto
  · intro hk
    rcases contractArc_eq hg hmap hnl hin hst with ⟨-, e⟩ | ⟨hk', -⟩
    · exact e
    · rw [hk] at hk'
      cases hk'
  · intro hk
    rcases contractArc_eq hg hmap hnl hin hst with ⟨hk', -⟩ | ⟨-, st1, e, hcase⟩
    · rw [hk] at hk'
      cases hk'
    · refine ⟨st1, e, fun c => ?_⟩
      obtain ⟨-, -, -, -, -, h6, h7⟩ := hst
      rcases hcase with ⟨hf0, -, rfl⟩ | ⟨-, idx, hidx, hne, rfl⟩ | ⟨-, ht1, -, rfl⟩
          | ⟨-, -, idx, hidx, hne, rfl⟩ | ⟨-, -, rfl⟩
      · left
        rw [hf0]
        rfl
      · right
        rcases h6 idx (List.getElem?_mem hidx) with e0 | ⟨e0, e1⟩
        · exact absurd e0 hne
        · refine ⟨idx.toNat, _, List.getElem?_eq_getElem e1, ?_⟩
          simp only [ArcScratch.added, List.getElem?_eq_getElem e1]
      · left
        rw [ht1]
        rfl
      · right
        rcases h7 idx (List.getElem?_mem hidx) with e0 | ⟨e0, e1⟩
        · exact absurd e0 hne
        · refine ⟨idx.toNat, _, List.getElem?_eq_getElem e1, ?_⟩
          simp only [ArcScratch.added, List.getElem?_eq_getElem e1]
      · left
        rfl

/-- C26, an instance: scenario S2 with the known source set `{0}` and the
known sink set `{2}` at `lambda = 5`: the arc (1,2) has the mapped end points
(2,1) and is kept. -/
theorem builder_drops_arc_witness :
    buildNodeMap (S2 1) [1, 0, 0] [1, 1, 0] (List.range (S2 1).numNodesSuper) ([], 0, 0, 2)
      = .ok ([0, 2, 1], 1, 1, 3)
    ∧ keptBy (S2 1) [1, 0, 0] [1, 1, 0] (superArc 1 2 10 0) = true
    ∧ ([0, 2, 1] : List Nat)[(superArc 1 2 10 0).from_]?
        = some (mapOf (S2 1) [1, 0, 0] [1, 1, 0] (superArc 1 2 10 0).from_)
    ∧ ([0, 2, 1] : List Nat)[(superArc 1 2 10 0).to_]?
        = some (mapOf (S2 1) [1, 0, 0] [1, 1, 0] (superArc 1 2 10 0).to_)
    ∧ (keptBy (S2 1) [1, 0, 0] [1, 1, 0] (superArc 1 2 10 0) = false ↔
        (mapOf (S2 1) [1, 0, 0] [1, 1, 0] (superArc 1 2 10 0).from_
            = mapOf (S2 1) [1, 0, 0] [1, 1, 0] (superArc 1 2 10 0).to_
          ∨ mapOf (S2 1) [1, 0, 0] [1, 1, 0] (superArc 1 2 10 0).to_ = 0
          ∨ mapOf (S2 1) [1, 0, 0] [1, 1, 0] (superArc 1 2 10 0).from_ = 1
          ∨ (mapOf (S2 1) [1, 0, 0] [1, 1, 0] (superArc 1 2 10 0).from_ = 0
              ∧ mapOf (S2 1) [1, 0, 0] [1, 1, 0] (superArc 1 2 10 0).to_ = 1)))
    ∧ (keptBy (S2 1) [1, 0, 0] [1, 1, 0] (superArc 1 2 10 0) = false →
        contractArc (S2 1) [0, 2, 1] 5 (blankScratch 3 5) (superArc 1 2 10 0)
          = .ok (blankScratch 3 5))
    ∧ (keptBy (S2 1) [1, 0, 0] [1, 1, 0] (superArc 1 2 10 0) = true →
        ∃ st1 : ℚ → ArcScratch,
          contractArc (S2 1) [0, 2, 1] 5 (blankScratch 3 5) (superArc 1 2 10 0)
            = (roundCapacity (S2 1) ((superArc 1 2 10 0).multiplier * 5
                + (superArc 1 2 10 0).constant) 5 >>= fun c => .ok (st1 c))
          ∧ ∀ c, (st1 c).problem.arcList = (blankScratch 3 5).problem.arcList
                ++ [newArc (mapOf (S2 1) [1, 0, 0] [1, 1, 0] (superArc 1 2 10 0).from_)
                    (mapOf (S2 1) [1, 0, 0] [1, 1, 0] (superArc 1 2 10 0).to_) c]
              ∨ ∃ k b, (blankScratch 3 5).problem.arcList[k]? = some b
                  ∧ (st1 c).problem.arcList
                      = (blankScratch 3 5).problem.arcList.set k
                          { b with capacity := b.capacity + c }) :=
  ⟨by decide!, by decide!,
    builder_drops_arc (S2 1) [1, 0, 0] [1, 1, 0] 5 [0, 2, 1] 1 1 3 (blankScratch 3 5)
      (superArc 1 2 10 0) (by decide!) (by decide) (by decide) (by decide!) (by decide!)
      (blankScratch_ok 3 5)⟩

/-- C27: on a well-formed super graph, `initializeContractedProblem` at
`lam` returns when `roundNegativeCapacity` is not 0 or no kept super arc has
a negative capacity at `lam`, and for every problem it returns: for every
node `v` the arc list holds at most one arc `(0, v)` and at most one arc
`(v, 1)`; for every pair `(f, t)`, so for `(0, v)` and `(v, 1)`, the
capacities of the contracted arcs from `f` to `t` sum to the sum of
`max(0, constant + multiplier * lam)` over the kept super arcs mapped to
`(f, t)`; between two interior nodes the contracted arcs are, one for one and
in order, the kept super arcs, each with capacity
`max(0, constant + multiplier * lam)`; and `numArcs` is the length of the arc
list. -/
theorem merged_capacities (g : Super) (lam : ℚ) (low high : List Int)
    (hg : SuperOK g) (hlow : g.numNodesSuper ≤ low.length)
    (hhigh : g.numNodesSuper ≤ high.length) :
    ((g.roundNegativeCapacity ≠ 0
        ∨ ∀ a ∈ g.arcListSuper.take g.numArcsSuper, keptBy g low high a = true →
            0 ≤ a.multiplier * lam + a.constant) →
      ∃ p, initializeContractedProblem g lam low high = .ok p)
    ∧ ∀ p, initializeContractedProblem g lam low high = .ok p →
      (∀ v, (arcsBetween p.arcList 0 v).length ≤ 1 ∧ (arcsBetween p.arcList v 1).length ≤ 1)
      ∧ (∀ f t, capacityBetween p.arcList f t
          = ((superArcsTo g low high (g.arcListSuper.take g.numArcsSuper) f t).map
              (fun a => max 0 (a.constant + a.multiplier * lam))).sum)
      ∧ (∀ f t, 2 ≤ f → 2 ≤ t → (arcsBetween p.arcList f t).map (fun b => b.capacity)
          = (superArcsTo g low high (g.arcListSuper.take g.numArcsSuper) f t).map
              (fun a => max 0 (a.constant + a.multiplier * lam)))
      ∧ p.numArcs = p.arcList.length
      ∧ ∀ b ∈ p.arcList, b.from_ < p.numNodesInList ∧ b.to_ < p.numNodesInList
          ∧ b.from_ ≠ b.to_ ∧ b.to_ ≠ 0 ∧ b.from_ ≠ 1 ∧ ¬ (b.from_ = 0 ∧ b.to_ = 1) := by
  constructor
  · intro hround
    obtain ⟨r, hr, hcase⟩ := initializeContractedProblem_spec g lam low high hg hlow hhigh
    obtain ⟨r', hr', hinv⟩ := buildNodeMap_spec g low high hlow hhigh
    rw [hr] at hr'
    cases hr'
    obtain ⟨-, hmap, -⟩ := hinv
    rcases hcase with ⟨⟨h0, a, ha, hkept, hneg⟩, -⟩ | ⟨-, hp⟩
    · exfalso
      rcases hround with h1 | h1
      · exact h1 h0
      · have hin := hg.2 a (List.mem_of_mem_take ha)
        have hk : keptBy g low high a = true := by
          rw [keptBy_iff]
          unfold keptArc at hkept
          rw [hmap _ hin.1, hmap _ hin.2] at hkept
          simp only [Option.some.injEq] at hkept
          tauto
        have := h1 a ha hk
        linarith
    · exact hp
  · intro p hp
    obtain ⟨-, -, -, -, -, b6, b7, b8, b9, b10, -⟩ :=
      initializeContractedProblem_built hg hlow hhigh hp
    refine ⟨b8, b9, b10, b6, fun b hb => ?_⟩
    obtain ⟨s1, s2, s3, s4, s5, s6, -⟩ := b7 b hb
    exact ⟨s1, s2, s3, s4, s5, s6⟩

/-- C27, an instance: the input with two tied paths, with the known source
set `{0}` and the known sink set `{3}`, at `lambda = 2`. -/
theorem merged_capacities_witness :
    ((tiedPaths.roundNegativeCapacity ≠ 0
        ∨ ∀ a ∈ tiedPaths.arcListSuper.take tiedPaths.numArcsSuper,
            keptBy tiedPaths [1, 0, 0, 0] [1, 1, 1, 0] a = true →
            0 ≤ a.multiplier * 2 + a.constant) →
      ∃ p, initializeContractedProblem tiedPaths 2 [1, 0, 0, 0] [1, 1, 1, 0] = .ok p)
    ∧ ∀ p, initializeContractedProblem tiedPaths 2 [1, 0, 0, 0] [1, 1, 1, 0] = .ok p →
      (∀ v, (arcsBetween p.arcList 0 v).length ≤ 1 ∧ (arcsBetween p.arcList v 1).length ≤ 1)
      ∧ (∀ f t, capacityBetween p.arcList f t
          = ((superArcsTo tiedPaths [1, 0, 0, 0] [1, 1, 1, 0]
              (tiedPaths.arcListSuper.take tiedPaths.numArcsSuper) f t).map
              (fun a => max 0 (a.constant + a.multiplier * 2))).sum)
      ∧ (∀ f t, 2 ≤ f → 2 ≤ t → (arcsBetween p.arcList f t).map (fun b => b.capacity)
          = (superArcsTo tiedPaths [1, 0, 0, 0] [1, 1, 1, 0]
              (tiedPaths.arcListSuper.take tiedPaths.numArcsSuper) f t).map
              (fun a => max 0 (a.constant + a.multiplier * 2)))
      ∧ p.numArcs = p.arcList.length
      ∧ ∀ b ∈ p.arcList, b.from_ < p.numNodesInList ∧ b.to_ < p.numNodesInList
          ∧ b.from_ ≠ b.to_ ∧ b.to_ ≠ 0 ∧ b.from_ ≠ 1 ∧ ¬ (b.from_ = 0 ∧ b.to_ = 1) :=
  merged_capacities tiedPaths 2 [1, 0, 0, 0] [1, 1, 1, 0] (by decide!) (by decide) (by decide)

/-- C28: on a well-formed super graph, when `solveProblem` with `flag`
returns on a problem that `initializeContractedProblem` built from the known
source set `low` and the known sink set `high`, the problem has an indicator
array with one entry for each super node: the entry is 1 for every node that
was collapsed into the artificial source, 0 for every node that was collapsed
into the artificial sink, and for an interior node, which has the index
`mapOf` in the problem, it is 1 iff `label ≥ numNodes` when `flag` is not 1
and 1 iff `label < numNodes` when `flag = 1`.  The problems with two nodes,
which skip the engine, are covered. -/
theorem indicator_extraction (g : Super) (lam : ℚ) (low high : List Int) (fuel flag : Nat)
    (hg : SuperOK g) (hlow : g.numNodesSuper ≤ low.length)
    (hhigh : g.numNodesSuper ≤ high.length) :
    ∀ (p : CutProblem) (r : CutProblem × Stats),
      initializeContractedProblem g lam low high = .ok p →
      solveProblem fuel g p flag = .ok r →
      ∃ ind, r.1.optimalSourceSetIndicator = some ind ∧ ind.length = g.numNodesSuper
        ∧ ∀ x < g.numNodesSuper,
          (toSource g low x = true → ind[x]? = some 1)
          ∧ (toSink g low high x = true → ind[x]? = some 0)
          ∧ (isInterior g low high x = true →
              ∃ nd, r.1.nodeList[mapOf g low high x]? = some nd
                ∧ (ind[x]? = some 1 ∨ ind[x]? = some 0)
                ∧ (flag = 1 → (ind[x]? = some 1 ↔ nd.label < p.numNodesInList))
                ∧ (flag ≠ 1 → (ind[x]? = some 1 ↔ nd.label ≥ p.numNodesInList))) := by
  intro p r hp hs
  obtain ⟨ind, h1, h2, h3⟩ := solveProblem_indicator hg hlow hhigh hp hs
  refine ⟨ind, h1, h2, fun x hx => ?_⟩
  obtain ⟨a1, a2, a3⟩ := h3 x hx
  refine ⟨a1, a2, fun hi => ?_⟩
  obtain ⟨nd, n1, n2⟩ := a3 hi
  refine ⟨nd, n1, ?_, ?_, ?_⟩
  · rw [n2]
    unfold labelBit
    split <;> split <;> simp
  · intro hf
    rw [n2]
    unfold labelBit
    rw [if_pos hf]
    split <;> simp <;> omega
  · intro hf
    rw [n2]
    unfold labelBit
    rw [if_neg hf]
    split <;> simp <;> omega

/-- C28, an instance: scenario S2 with the known source set `{0}` and the
known sink set `{2}` at `lambda = 20`, with either flag; with flag 0 the
indicator array is [1, 1, 0]. -/
theorem indicator_extraction_witness :
    sourceSetOf (S2 1) 20 [1, 0, 0] [1, 1, 0] 8 0 = .ok (some [1, 1, 0])
    ∧ ∀ (p : CutProblem) (r : CutProblem × Stats),
      initializeContractedProblem (S2 1) 20 [1, 0, 0] [1, 1, 0] = .ok p →
      solveProblem 8 (S2 1) p 0 = .ok r →
      ∃ ind, r.1.optimalSourceSetIndicator = some ind ∧ ind.length = (S2 1).numNodesSuper
        ∧ ∀ x < (S2 1).numNodesSuper,
          (toSource (S2 1) [1, 0, 0] x = true → ind[x]? = some 1)
          ∧ (toSink (S2 1) [1, 0, 0] [1, 1, 0] x = true → ind[x]? = some 0)
          ∧ (isInterior (S2 1) [1, 0, 0] [1, 1, 0] x = true →
              ∃ nd, r.1.nodeList[mapOf (S2 1) [1, 0, 0] [1, 1, 0] x]? = some nd
                ∧ (ind[x]? = some 1 ∨ ind[x]? = some 0)
                ∧ ((0 : Nat) = 1 → (ind[x]? = some 1 ↔ nd.label < p.numNodesInList))
                ∧ ((0 : Nat) ≠ 1 → (ind[x]? = some 1 ↔ nd.label ≥ p.numNodesInList))) :=
  ⟨by decide!,
    indicator_extraction (S2 1) 20 [1, 0, 0] [1, 1, 0] 8 0 (by decide!) (by decide)
      (by decide)⟩

/-- C21: when `hpf_solve` returns on a well-formed input with
`lambda_lo < lambda_hi`, the breakpoints before the final sentinel are at most
`|V| - 2`, so at most `|V| - 1`, and at most one when there is a single node
besides source and sink.  This follows from the count for `parametricCut`:
on a well-formed super graph, when a call with the indicator arrays `lowInd`
and `highInd`, the source in `lowInd`, returns, the breakpoints appended by
the call and all its recursive calls are at most the nodes of `S_high` that
are not in `S_low`. -/
theorem breakpoint_count (fuel depth numNodesIn numArcsIn sourceIn sinkIn : Nat)
    (arcMatrix : List ℚ) (lambdaLow lambdaHigh : ℚ) (round : Int) (out : Output)
    (htab : ArcTable numNodesIn numArcsIn arcMatrix)
    (hs : sourceIn < numNodesIn) (hk : sinkIn < numNodesIn) (hne : sourceIn ≠ sinkIn)
    (hlt : lambdaLow < lambdaHigh)
    (h : hpf_solve fuel depth numNodesIn numArcsIn sourceIn sinkIn arcMatrix lambdaLow lambdaHigh
      round = .ok out) :
    out.numBreakpoints - 1 ≤ numNodesIn - 2
    ∧ out.numBreakpoints - 1 ≤ numNodesIn - 1
    ∧ (numNodesIn = 3 → out.numBreakpoints - 1 ≤ 1)
    ∧ ∀ (g : Super), SuperOK g →
        ∀ (fuel1 depth1 : Nat) (gl gl1 : Globals) (low high : CutProblem)
          (lowInd highInd : List Int),
          low.optimalSourceSetIndicator = some lowInd →
          high.optimalSourceSetIndicator = some highInd →
          IsIndicator g.numNodesSuper lowInd → IsIndicator g.numNodesSuper highInd →
          (g.sourceSuper < g.numNodesSuper → lowInd[g.sourceSuper]? = some 1) →
          parametricCut fuel1 g depth1 gl low high = .ok gl1 →
          gl1.breakpoints.length
            ≤ gl.breakpoints.length + gainCount g.numNodesSuper lowInd highInd := by
  have key := hpf_solve_count htab hs hk hne hlt h
  refine ⟨by omega, by omega, fun _ => by omega, ?_⟩
  intro g hg fuel1 depth1 gl gl1 low high lowInd highInd h1 h2 h3 h4 h5 h6
  exact parametricCut_count hg fuel1 depth1 gl gl1 low high lowInd highInd h1 h2 h3 h4 h5 h6

/-- C21, an instance: scenario S2 with the rounding flag set, three nodes,
where the call returns the two breakpoints [10, 20]. -/
theorem breakpoint_count_witness :
    (2 : Nat) - 1 ≤ 3 - 2
    ∧ (2 : Nat) - 1 ≤ 3 - 1
    ∧ (3 = 3 → (2 : Nat) - 1 ≤ 1)
    ∧ ∀ (g : Super), SuperOK g →
        ∀ (fuel1 depth1 : Nat) (gl gl1 : Globals) (low high : CutProblem)
          (lowInd highInd : List Int),
          low.optimalSourceSetIndicator = some lowInd →
          high.optimalSourceSetIndicator = some highInd →
          IsIndicator g.numNodesSuper lowInd → IsIndicator g.numNodesSuper highInd →
          (g.sourceSuper < g.numNodesSuper → lowInd[g.sourceSuper]? = some 1) →
          parametricCut fuel1 g depth1 gl low high = .ok gl1 →
          gl1.breakpoints.length
            ≤ gl.breakpoints.length + gainCount g.numNodesSuper lowInd highInd :=
  breakpoint_count 8 8 3 2 0 2 [0, 1, 0, 1, 1, 2, 10, 0] 0 20 1 _ S2_table (by decide)
    (by decide) (by decide) (by norm_num) S2_run_rounding

/-- C22: on a well-formed super graph, in a call of `parametricCut` that
returns, with indicator arrays `lowInd` and `highInd` such that
`S_low ⊆ S_high`, the source in `S_low`, and a non-empty difference, the two
probes are the source sets that `solveProblem` finds on the problems built
from `(lowInd, highInd)` and from `(minInd, highInd)`, they satisfy
`S_low ⊆ S_min ⊆ S_max ⊆ S_high`, both are 0/1 arrays over the super nodes
with the source in them, and the two recursive calls are made on
`(low, minimalIntersect)` and `(maximalIntersect, high)`.  Nothing is assumed
about what the engine computes; the same holds for a probe solved with
either flag. -/
theorem nested_cuts_kept (g : Super) (fuel depth : Nat) (gl : Globals) (low high : CutProblem)
    (lowInd highInd diff : List Int)
    (hg : SuperOK g)
    (hlo : low.optimalSourceSetIndicator = some lowInd)
    (hhi : high.optimalSourceSetIndicator = some highInd)
    (il : IsIndicator g.numNodesSuper lowInd) (ih : IsIndicator g.numNodesSuper highInd)
    (hnest : NestedIn g.numNodesSuper lowInd highInd)
    (hsrc : g.sourceSuper < g.numNodesSuper → lowInd[g.sourceSuper]? = some 1)
    (hdiff : differenceSourceSets g lowInd highInd = .ok diff)
    (hpos : 0 < sum_array_char diff g.numNodesSuper)
    (h : (parametricCut fuel g (depth + 1) gl low high).toBool = true) :
    (∃ (lam : ℚ) (minP maxP : CutProblem) (minInd maxInd : List Int) (gl1 gl2 gl3 : Globals),
      minP.optimalSourceSetIndicator = some minInd
      ∧ maxP.optimalSourceSetIndicator = some maxInd
      ∧ sourceSetOf g (math_max (lam - TOL) g.LAMBDA_LOW) lowInd highInd fuel 0
          = .ok (some minInd)
      ∧ sourceSetOf g (math_min (lam + TOL) g.LAMBDA_HIGH) minInd highInd fuel 0
          = .ok (some maxInd)
      ∧ parametricCut fuel g depth gl1 low minP = .ok gl2
      ∧ parametricCut fuel g depth gl2 maxP high = .ok gl3
      ∧ parametricCut fuel g (depth + 1) gl low high = .ok gl3
      ∧ IsIndicator g.numNodesSuper minInd ∧ IsIndicator g.numNodesSuper maxInd
      ∧ NestedIn g.numNodesSuper lowInd minInd
      ∧ NestedIn g.numNodesSuper minInd maxInd
      ∧ NestedIn g.numNodesSuper maxInd highInd
      ∧ (g.sourceSuper < g.numNodesSuper → minInd[g.sourceSuper]? = some 1)
      ∧ (g.sourceSuper < g.numNodesSuper → maxInd[g.sourceSuper]? = some 1))
    ∧ ∀ (lam1 lam2 : ℚ) (fuel1 fuel2 flag1 flag2 : Nat) (mn mx : List Int),
        sourceSetOf g lam1 lowInd highInd fuel1 flag1 = .ok (some mn) →
        sourceSetOf g lam2 mn highInd fuel2 flag2 = .ok (some mx) →
        NestedIn g.numNodesSuper lowInd mn ∧ NestedIn g.numNodesSuper mn mx
          ∧ NestedIn g.numNodesSuper mx highInd := by
  have hsrcH : g.sourceSuper < g.numNodesSuper → highInd[g.sourceSuper]? = some 1 :=
    fun hx => hnest _ hx (hsrc hx)
  have chain : ∀ (lam1 lam2 : ℚ) (fuel1 fuel2 flag1 flag2 : Nat) (mn mx : List Int),
      sourceSetOf g lam1 lowInd highInd fuel1 flag1 = .ok (some mn) →
      sourceSetOf g lam2 mn highInd fuel2 flag2 = .ok (some mx) →
      IsIndicator g.numNodesSuper mn ∧ IsIndicator g.numNodesSuper mx
        ∧ NestedIn g.numNodesSuper lowInd mn ∧ NestedIn g.numNodesSuper mn mx
        ∧ NestedIn g.numNodesSuper mx highInd
        ∧ (g.sourceSuper < g.numNodesSuper → mn[g.sourceSuper]? = some 1)
        ∧ (g.sourceSuper < g.numNodesSuper → mx[g.sourceSuper]? = some 1) := by
    intro lam1 lam2 fuel1 fuel2 flag1 flag2 mn mx h1 h2
    obtain ⟨a1, a2, a3, a4⟩ := sourceSetOf_between hg il ih hnest hsrcH h1
    obtain ⟨b1, b2, b3, b4⟩ := sourceSetOf_between hg a1 ih a3 hsrcH h2
    exact ⟨a1, b1, a2, b2, b3, a4, b4⟩
  refine ⟨?_, fun lam1 lam2 fuel1 fuel2 flag1 flag2 mn mx h1 h2 => ?_⟩
  · cases hres : parametricCut fuel g (depth + 1) gl low high with
    | error e => rw [hres] at h; cases h
    | ok gl3 =>
      have h' := hres
      rw [parametricCut] at h'
      simp only [hlo, hhi, deref, ok_bind, hdiff, gt_iff_lt, hpos, if_true] at h'
      obtain ⟨Klow, hKl, h'⟩ := bind_eq_ok.mp h'
      obtain ⟨Khigh, hKh, h'⟩ := bind_eq_ok.mp h'
      obtain ⟨lam, hlam, h'⟩ := bind_eq_ok.mp h'
      obtain ⟨pmin, hpmin, h'⟩ := bind_eq_ok.mp h'
      obtain ⟨⟨rmin, smin⟩, hrmin, h'⟩ := bind_eq_ok.mp h'
      simp only at h'
      obtain ⟨minInd, hmi, h'⟩ := bind_eq_ok.mp h'
      obtain ⟨pmax, hpmax, h'⟩ := bind_eq_ok.mp h'
      obtain ⟨⟨rmax, smax⟩, hrmax, h'⟩ := bind_eq_ok.mp h'
      simp only at h'
      obtain ⟨maxInd, hma, h'⟩ := bind_eq_ok.mp h'
      obtain ⟨d2, hd2, h'⟩ := bind_eq_ok.mp h'
      have smn := sourceSetOf_of hpmin hrmin hmi
      have smx := sourceSetOf_of hpmax hrmax hma
      obtain ⟨c1, c2, c3, c4, c5, c6, c7⟩ := chain _ _ _ _ _ _ _ _ smn smx
      by_cases hs2 : 0 < sum_array_char d2 g.numNodesSuper
      · simp only [hs2, if_true] at h'
        obtain ⟨gl1, hgl1, h'⟩ := bind_eq_ok.mp h'
        obtain ⟨gl2, hgl2, h'⟩ := bind_eq_ok.mp h'
        exact ⟨lam, rmin, rmax, minInd, maxInd, gl1, gl2, gl3, deref_eq_ok hmi,
          deref_eq_ok hma, smn, smx, hgl2, h', rfl, c1, c2, c3, c4, c5, c6, c7⟩
      · simp only [hs2, if_false, pure, Except.pure, ok_bind] at h'
        obtain ⟨gl2, hgl2, h'⟩ := bind_eq_ok.mp h'
        exact ⟨lam, rmin, rmax, minInd, maxInd, _, gl2, gl3, deref_eq_ok hmi,
          deref_eq_ok hma, smn, smx, hgl2, h', rfl, c1, c2, c3, c4, c5, c6, c7⟩
  · obtain ⟨-, -, c3, c4, c5, -, -⟩ := chain _ _ _ _ _ _ _ _ h1 h2
    exact ⟨c3, c4, c5⟩

theorem S2_nested : NestedIn (S2 1).numNodesSuper [1, 0, 0] [1, 1, 0] := by
  intro x hx hl
  have hx3 : x < 3 := hx
  have : x = 0 ∨ x = 1 ∨ x = 2 := by omega
  rcases this with rfl | rfl | rfl
  · rfl
  · rfl
  · exact absurd hl (by decide)

/-- C22, an instance: scenario S2 with the rounding flag set, the first call
of `parametricCut`, from the source sets `{0}` and `{0, 1}` of the two ends. -/
theorem nested_cuts_kept_witness :
    (∃ (lam : ℚ) (minP maxP : CutProblem) (minInd maxInd : List Int) (gl1 gl2 gl3 : Globals),
      minP.optimalSourceSetIndicator = some minInd
      ∧ maxP.optimalSourceSetIndicator = some maxInd
      ∧ sourceSetOf (S2 1) (math_max (lam - TOL) (S2 1).LAMBDA_LOW) [1, 0, 0] [1, 1, 0] 8 0
          = .ok (some minInd)
      ∧ sourceSetOf (S2 1) (math_min (lam + TOL) (S2 1).LAMBDA_HIGH) minInd [1, 1, 0] 8 0
          = .ok (some maxInd)
      ∧ parametricCut 8 (S2 1) 7 gl1 (solvedWith [1, 0, 0]) minP = .ok gl2
      ∧ parametricCut 8 (S2 1) 7 gl2 maxP (solvedWith [1, 1, 0]) = .ok gl3
      ∧ parametricCut 8 (S2 1) (7 + 1) (startGlobals [0, 20, 20]) (solvedWith [1, 0, 0])
          (solvedWith [1, 1, 0]) = .ok gl3
      ∧ IsIndicator (S2 1).numNodesSuper minInd ∧ IsIndicator (S2 1).numNodesSuper maxInd
      ∧ NestedIn (S2 1).numNodesSuper [1, 0, 0] minInd
      ∧ NestedIn (S2 1).numNodesSuper minInd maxInd
      ∧ NestedIn (S2 1).numNodesSuper maxInd [1, 1, 0]
      ∧ ((S2 1).sourceSuper < (S2 1).numNodesSuper → minInd[(S2 1).sourceSuper]? = some 1)
      ∧ ((S2 1).sourceSuper < (S2 1).numNodesSuper → maxInd[(S2 1).sourceSuper]? = some 1))
    ∧ ∀ (lam1 lam2 : ℚ) (fuel1 fuel2 flag1 flag2 : Nat) (mn mx : List Int),
        sourceSetOf (S2 1) lam1 [1, 0, 0] [1, 1, 0] fuel1 flag1 = .ok (some mn) →
        sourceSetOf (S2 1) lam2 mn [1, 1, 0] fuel2 flag2 = .ok (some mx) →
        NestedIn (S2 1).numNodesSuper [1, 0, 0] mn ∧ NestedIn (S2 1).numNodesSuper mn mx
          ∧ NestedIn (S2 1).numNodesSuper mx [1, 1, 0] :=
  nested_cuts_kept (S2 1) 8 7 (startGlobals [0, 20, 20]) (solvedWith [1, 0, 0])
    (solvedWith [1, 1, 0]) [1, 0, 0] [1, 1, 0] [0, 1, 0] (by decide!) rfl rfl (by decide)
    (by decide) S2_nested (by decide!) (by decide!) (by decide!) (by decide!)

theorem cutCapacity_cons (nl : List Node) (ind : List Int) (a : Arc) (rest : List Arc) :
    cutCapacity nl ind (a :: rest)
      = (if crossesCut nl ind a = true then a.capacity else 0) + cutCapacity nl ind rest := by
  unfold cutCapacity
  by_cases h : crossesCut nl ind a = true
  · rw [List.filter_cons_of_pos h, if_pos h, List.map_cons, List.sum_cons]
  · rw [List.filter_cons_of_neg h, if_neg h, zero_add]

theorem readChar_of_lt {ind : List Int} {i : Int} (h0 : 0 ≤ i) (h1 : i.toNat < ind.length) :
    readChar ind i = .ok (ind.get ⟨i.toNat, h1⟩) := by
  unfold readChar
  rw [if_neg (by omega), List.getElem?_eq_getElem h1]
  rfl

/-- The sum that `evaluateCut` adds to `cutValue`. -/
theorem evaluateCut_sum (q : CutProblem) (ind : List Int) :
    ∀ (arcs : List Arc) (c : ℚ), (∀ a ∈ arcs, CutReadable q.nodeList ind a) →
      evaluateCut q ind arcs c = .ok (c + cutCapacity q.nodeList ind arcs) := by
  intro arcs
  induction arcs with
  | nil =>
    intro c _
    simp [evaluateCut, cutCapacity]
  | cons a rest ih =>
    intro c hall
    obtain ⟨f, t, hf, ht, hfrom, hto⟩ := hall a (List.mem_cons_self _ _)
    have ihr := fun c => ih c (fun b hb => hall b (List.mem_cons_of_mem _ hb))
    have hfi : decide (nodeIndicator q.nodeList ind a.from_ = some 1)
        = (if 0 ≤ f.originalIndex then decide (ind[f.originalIndex.toNat]? = some 1)
            else false) := by
      simp only [nodeIndicator, hf]
      split <;> simp
    have hti : decide (nodeIndicator q.nodeList ind a.to_ = some 0)
        = (if 0 ≤ t.originalIndex then decide (ind[t.originalIndex.toNat]? = some 0)
            else false) := by
      simp only [nodeIndicator, ht]
      split <;> simp
    rw [evaluateCut, cutCapacity_cons]
    simp only [hf, ht, deref, ok_bind, crossesCut, hfi, hti]
    rcases hfrom with ⟨f0, f1⟩ | ⟨f0, f1, f2⟩
    · simp only [f1, if_true, pure, Except.pure, ok_bind, f0, decide_True, Bool.true_or,
        Bool.true_and]
      rcases hto with ⟨t0, t1⟩ | ⟨t0, t1, t2⟩
      · simp only [t1, if_true, pure, Except.pure, ok_bind, t0, decide_True, Bool.true_or]
        rw [ihr]
        congr 1
        ring
      · have tne : t.originalIndex ≠ -2 := by omega
        simp only [tne, if_false, readChar_of_lt t1 t2, ok_bind, pure, Except.pure, t0,
          decide_False, Bool.false_or, t1, if_true, List.getElem?_eq_getElem t2,
          Option.some.injEq, List.get_eq_getElem]
        by_cases hc : ind[t.originalIndex.toNat] = 0
        · simp only [hc, decide_True, if_true]
          rw [ihr]
          congr 1
          ring
        · simp only [hc, decide_False, if_false, Bool.false_eq_true]
          rw [ihr]
          congr 1
          ring
    · have fne : f.originalIndex ≠ -1 := by omega
      simp only [fne, if_false, readChar_of_lt f1 f2, ok_bind, pure, Except.pure, f0,
        decide_False, Bool.false_or, f1, if_true, List.getElem?_eq_getElem f2,
        Option.some.injEq, List.get_eq_getElem]
      by_cases hc : ind[f.originalIndex.toNat] = 1
      · simp only [hc, decide_True, if_true, Bool.true_and]
        rcases hto with ⟨t0, t1⟩ | ⟨t0, t1, t2⟩
        · simp only [t1, if_true, pure, Except.pure, ok_bind, t0, decide_True, Bool.true_or]
          rw [ihr]
          congr 1
          ring
        · have tne : t.originalIndex ≠ -2 := by omega
          simp only [tne, if_false, readChar_of_lt t1 t2, ok_bind, pure, Except.pure, t0,
            decide_False, Bool.false_or, t1, if_true, List.getElem?_eq_getElem t2,
            Option.some.injEq, List.get_eq_getElem]
          by_cases hc' : ind[t.originalIndex.toNat] = 0
          · simp only [hc', decide_True, if_true]
            rw [ihr]
            congr 1
            ring
          · simp only [hc', decide_False, if_false, Bool.false_eq_true]
            rw [ihr]
            congr 1
            ring
      · simp only [hc, decide_False, if_false, Bool.false_eq_true, Bool.false_and]
        rw [ihr]
        congr 1
        ring

theorem nodeIndicator_congr {nl nl' : List Node} (ind : List Int)
    (h : nl.map (fun nd : Node => nd.originalIndex) = nl'.map (fun nd : Node => nd.originalIndex))
    (m : Nat) : nodeIndicator nl ind m = nodeIndicator nl' ind m := by
  have e := getElem?_map_eq h m
  unfold nodeIndicator
  cases h1 : nl[m]? with
  | none =>
    cases h2 : nl'[m]? with
    | none => rfl
    | some b => rw [h1, h2] at e; cases e
  | some a =>
    cases h2 : nl'[m]? with
    | none => rw [h1, h2] at e; cases e
    | some b =>
      rw [h1, h2] at e
      simp only [Option.map_some', Option.some.injEq] at e
      simp only [e]

theorem cutCapacity_congr {nl nl' : List Node} (ind : List Int)
    (h : nl.map (fun nd : Node => nd.originalIndex) = nl'.map (fun nd : Node => nd.originalIndex)) :
    ∀ (arcs arcs' : List Arc),
      arcs.map (fun a : Arc => (a.from_, a.to_, a.capacity))
        = arcs'.map (fun a : Arc => (a.from_, a.to_, a.capacity)) →
      cutCapacity nl ind arcs = cutCapacity nl' ind arcs' := by
  intro arcs
  induction arcs with
  | nil =>
    intro arcs' he
    cases arcs' with
    | nil => rfl
    | cons b rest => cases he
  | cons a rest ih =>
    intro arcs' he
    cases arcs' with
    | nil => cases he
    | cons b rest' =>
      simp only [List.map_cons, List.cons.injEq, Prod.mk.injEq] at he
      obtain ⟨⟨e1, e2, e3⟩, he⟩ := he
      rw [cutCapacity_cons, cutCapacity_cons, ih rest' he]
      have : crossesCut nl ind a = crossesCut nl' ind b := by
        unfold crossesCut
        rw [e1, e2, nodeIndicator_congr ind h, nodeIndicator_congr ind h]
      rw [this, e3]

theorem map_fst_of_keys {nl nl' : List Node}
    (h : nl.map (fun nd : Node => (nd.originalIndex, nd.number))
      = nl'.map (fun nd : Node => (nd.originalIndex, nd.number))) :
    nl.map (fun nd : Node => nd.originalIndex) = nl'.map (fun nd : Node => nd.originalIndex) := by
  have := congrArg (List.map Prod.fst) h
  simpa only [List.map_map] using this

/-- The arcs of a built problem can be read by `evaluateCut` with any
indicator array over the super nodes, also after an engine run. -/
theorem Built.readable {g : Super} {low high : List Int} {lam : ℚ} {p : CutProblem}
    (hb : Built g low high lam p) {nl : List Node} {ind : List Int} {arcs : List Arc}
    (hn : nl.map (fun nd : Node => nd.originalIndex)
      = p.nodeList.map (fun nd : Node => nd.originalIndex))
    (hi : ind.length = g.numNodesSuper)
    (ha : arcs.map (fun a : Arc => (a.from_, a.to_, a.capacity))
      = p.arcList.map (fun a : Arc => (a.from_, a.to_, a.capacity))) :
    ∀ a ∈ arcs, CutReadable nl ind a := by
  intro a hmem
  have hk : (a.from_, a.to_, a.capacity)
      ∈ p.arcList.map (fun a : Arc => (a.from_, a.to_, a.capacity)) := by
    rw [← ha]
    exact List.mem_map_of_mem _ hmem
  obtain ⟨b, hbm, hbk⟩ := List.mem_map.mp hk
  simp only [Prod.mk.injEq] at hbk
  obtain ⟨k1, k2, -⟩ := hbk
  obtain ⟨s1, s2, s3, s4, s5, s6, -⟩ := hb.2.2.2.2.2.2.1 b hbm
  rw [k1] at s1 s3 s5 s6
  rw [k2] at s2 s3 s4 s6
  have hlen : nl.length = p.numNodesInList := by
    have := congrArg List.length hn
    simp only [List.length_map] at this
    rw [this, hb.2.2.1]
  have horig : ∀ i : Nat, (nl[i]?).map (fun nd : Node => nd.originalIndex)
      = (p.nodeList[i]?).map (fun nd : Node => nd.originalIndex) := getElem?_map_eq hn
  have h0 : (p.nodeList[0]?).map (fun nd : Node => nd.originalIndex) = some (-1) := by
    have := hb.2.1.2.2.1
    simp only [List.getElem?_map, Option.map_map] at this
    exact this
  have h1 : (p.nodeList[1]?).map (fun nd : Node => nd.originalIndex) = some (-2) := by
    have := hb.2.1.2.2.2.1
    simp only [List.getElem?_map, Option.map_map] at this
    exact this
  have hint : ∀ j, 2 ≤ j → j < p.numNodesInList → ∀ nd, nl[j]? = some nd →
      0 ≤ nd.originalIndex ∧ nd.originalIndex.toNat < ind.length := by
    intro j hj2 hjN nd hnd
    obtain ⟨y, hy, -, -, hyo⟩ := hb.node_is_interior hj2 hjN
    rw [← horig, hnd] at hyo
    simp only [Option.map_some', Option.some.injEq] at hyo
    rw [hyo, hi]
    exact ⟨by omega, by simpa using hy⟩
  refine ⟨nl.get ⟨a.from_, by omega⟩, nl.get ⟨a.to_, by omega⟩,
    List.getElem?_eq_getElem (by omega), List.getElem?_eq_getElem (by omega), ?_, ?_⟩
  · by_cases hf : a.from_ = 0
    · left
      refine ⟨hf, ?_⟩
      have e := horig a.from_
      have e2 : (p.nodeList[a.from_]?).map (fun nd : Node => nd.originalIndex) = some (-1) := by
        rw [hf]
        exact h0
      have hh : nl[a.from_]? = some (nl.get ⟨a.from_, by omega⟩) :=
        List.getElem?_eq_getElem (by omega)
      rw [hh, e2] at e
      simpa only [Option.map_some', Option.some.injEq] using e
    · right
      exact ⟨hf, hint a.from_ (by omega) s1 _ (List.getElem?_eq_getElem (by omega))⟩
  · by_cases ht : a.to_ = 1
    · left
      refine ⟨ht, ?_⟩
      have e := horig a.to_
      have e2 : (p.nodeList[a.to_]?).map (fun nd : Node => nd.originalIndex) = some (-2) := by
        rw [ht]
        exact h1
      have hh : nl[a.to_]? = some (nl.get ⟨a.to_, by omega⟩) :=
        List.getElem?_eq_getElem (by omega)
      rw [hh, e2] at e
      simpa only [Option.map_some', Option.some.injEq] using e
    · right
      exact ⟨ht, hint a.to_ (by omega) s2 _ (List.getElem?_eq_getElem (by omega))⟩

/-- The cut value that `solveProblem` leaves on a built problem with an
interior node. -/
theorem solveProblem_cut {g : Super} {lam : ℚ} {low high : List Int} {p : CutProblem}
    {fuel flag : Nat} {r : CutProblem × Stats}
    (hg : SuperOK g) (hlow : g.numNodesSuper ≤ low.length)
    (hhigh : g.numNodesSuper ≤ high.length)
    (hp : initializeContractedProblem g lam low high = .ok p)
    (hs : solveProblem fuel g p flag = .ok r) (h2 : p.numNodesInList ≠ 2) :
    ∃ ind, r.1.optimalSourceSetIndicator = some ind
      ∧ r.1.cutValue = cutCapacity p.nodeList ind p.arcList
      ∧ r.1.cutValue = cutCapacity r.1.nodeList ind r.1.arcList
      ∧ r.1.nodeList.map (fun nd : Node => nd.originalIndex)
          = p.nodeList.map (fun nd : Node => nd.originalIndex)
      ∧ r.1.arcList.map (fun a : Arc => (a.from_, a.to_, a.capacity))
          = p.arcList.map (fun a : Arc => (a.from_, a.to_, a.capacity)) := by
  have hb := initializeContractedProblem_built hg hlow hhigh hp
  obtain ⟨ind, hind, hlen, -⟩ := solveProblem_indicator hg hlow hhigh hp hs
  have hnum : p.numArcs = p.arcList.length := hb.2.2.2.2.2.1
  rw [solveProblem] at hs
  simp only [h2, if_false] at hs
  obtain ⟨s1, e1, hs⟩ := bind_eq_ok.mp hs
  obtain ⟨s2, e2, hs⟩ := bind_eq_ok.mp hs
  obtain ⟨s3, e3, hs⟩ := bind_eq_ok.mp hs
  obtain ⟨ind1, h1, hs⟩ := bind_eq_ok.mp hs
  obtain ⟨ind2, h2', hs⟩ := bind_eq_ok.mp hs
  obtain ⟨ind3, h3', hs⟩ := bind_eq_ok.mp hs
  obtain ⟨cut, hcut, hs⟩ := bind_eq_ok.mp hs
  cases hs
  simp only [Option.some.injEq] at hind
  subst hind
  have k1 := (createMemoryStructures_keeps rfl _).out s1 e1
  have k2 := (simpleInitialization_keeps k1).out s2 e2
  have k3 := (pseudoflowPhase1_keeps _ _ s2 k2).out s3 e3
  simp only [id, State.keys, Prod.mk.injEq] at k3
  obtain ⟨-, -, -, knodes, karcs⟩ := k3
  have hn := map_fst_of_keys knodes
  by_cases hf : flag = 1
  · simp only [hf, if_true] at hcut ⊢
    rw [hnum, List.take_length] at hcut
    rw [evaluateCut_sum _ _ _ _ (hb.readable hn hlen rfl)] at hcut
    simp only [zero_add, Except.ok.injEq] at hcut
    refine ⟨_, rfl, ?_, hcut.symm, hn, trivial⟩
    rw [← hcut]
    exact cutCapacity_congr _ hn _ _ rfl
  · simp only [hf, if_false] at hcut karcs ⊢
    have hlenA : s3.arcList.length = p.arcList.length := by
      have := congrArg List.length karcs
      simpa only [List.length_map] using this
    rw [hnum, ← hlenA, List.take_length] at hcut
    rw [evaluateCut_sum _ _ _ _ (hb.readable hn hlen karcs)] at hcut
    simp only [zero_add, Except.ok.injEq] at hcut
    refine ⟨_, rfl, ?_, hcut.symm, hn, karcs⟩
    rw [← hcut]
    exact cutCapacity_congr _ hn _ _ karcs

/-- C29: on a well-formed super graph, when `solveProblem` with either
flag returns on a problem that `initializeContractedProblem` built with at
least one interior node, `cutValue` is the sum of the capacities of the
contracted arcs, taken as the builder made them, whose tail is the artificial
source or has indicator 1 and whose head is the artificial sink or has
indicator 0.  The engine run leaves the end points and the capacity of every
arc and the original index of every node as they were, so the sum over the
arcs of the returned problem is the same. -/
theorem cut_value_is_cut_capacity (g : Super) (lam : ℚ) (low high : List Int)
    (fuel flag : Nat) (hg : SuperOK g) (hlow : g.numNodesSuper ≤ low.length)
    (hhigh : g.numNodesSuper ≤ high.length)
    (hint : 0 < interiorBefore g low high g.numNodesSuper) :
    ∀ (p : CutProblem) (r : CutProblem × Stats),
      initializeContractedProblem g lam low high = .ok p →
      solveProblem fuel g p flag = .ok r →
      ∃ ind, r.1.optimalSourceSetIndicator = some ind
        ∧ r.1.cutValue = cutCapacity p.nodeList ind p.arcList
        ∧ r.1.cutValue = cutCapacity r.1.nodeList ind r.1.arcList
        ∧ r.1.nodeList.map (fun nd : Node => nd.originalIndex)
            = p.nodeList.map (fun nd : Node => nd.originalIndex)
        ∧ r.1.arcList.map (fun a : Arc => (a.from_, a.to_, a.capacity))
            = p.arcList.map (fun a : Arc => (a.from_, a.to_, a.capacity)) := by
  intro p r hp hs
  have hb := initializeContractedProblem_built hg hlow hhigh hp
  have hN := hb.1
  exact solveProblem_cut hg hlow hhigh hp hs (by omega)

/-- C29, an instance: scenario S2 at `lambda = 5` with the source and the
sink as the only known nodes: the one interior node is on the sink side and
the cut value is 5, the capacity of the arc out of the source, with either
flag. -/
theorem cut_value_is_cut_capacity_witness :
    (initializeContractedProblem (S2 1) 5 [0, 0, 0] [1, 1, 1] >>= fun p =>
        (solveProblem 8 (S2 1) p 0).map
          (fun r => (r.1.optimalSourceSetIndicator, r.1.cutValue,
            r.1.arcList.map (fun a : Arc => (a.from_, a.to_, a.capacity)))))
      = .ok (some [1, 0, 0], 5, [(0, 2, 5), (2, 1, 10)])
    ∧ (initializeContractedProblem (S2 1) 5 [0, 0, 0] [1, 1, 1] >>= fun p =>
        (solveProblem 8 (S2 1) p 1).map
          (fun r => (r.1.optimalSourceSetIndicator, r.1.cutValue,
            r.1.arcList.map (fun a : Arc => (a.from_, a.to_, a.capacity)))))
      = .ok (some [1, 0, 0], 5, [(0, 2, 5), (2, 1, 10)])
    ∧ ∀ (p : CutProblem) (r : CutProblem × Stats),
      initializeContractedProblem (S2 1) 5 [0, 0, 0] [1, 1, 1] = .ok p →
      solveProblem 8 (S2 1) p 1 = .ok r →
      ∃ ind, r.1.optimalSourceSetIndicator = some ind
        ∧ r.1.cutValue = cutCapacity p.nodeList ind p.arcList
        ∧ r.1.cutValue = cutCapacity r.1.nodeList ind r.1.arcList
        ∧ r.1.nodeList.map (fun nd : Node => nd.originalIndex)
            = p.nodeList.map (fun nd : Node => nd.originalIndex)
        ∧ r.1.arcList.map (fun a : Arc => (a.from_, a.to_, a.capacity))
            = p.arcList.map (fun a : Arc => (a.from_, a.to_, a.capacity)) :=
  ⟨by decide!, by decide!,
    cut_value_is_cut_capacity (S2 1) 5 [0, 0, 0] [1, 1, 1] 8 1 (by decide!) (by decide)
      (by decide) (by decide)⟩

/-- Filtering the indices of a list by a test on the entry gives the entries
that pass the test. -/
theorem filter_range_bridge {α : Type} (Q : Option α → Bool) (hQ : Q none = false) :
    ∀ (l : List α),
      ((List.range l.length).filter (fun i => Q l[i]?)).map (fun i => l[i]?)
        = (l.filter (fun a => Q (some a))).map some := by
  intro l
  induction l using List.reverseRecOn with
  | nil => rfl
  | append_singleton l a ih =>
    rw [List.length_append, List.length_singleton, List.range_succ, List.filter_append,
      List.map_append, List.filter_append, List.map_append]
    congr 1
    · rw [← ih]
      have e1 : (List.range l.length).filter (fun i => Q (l ++ [a])[i]?)
          = (List.range l.length).filter (fun i => Q l[i]?) := by
        apply List.filter_congr
        intro i hi
        rw [List.getElem?_append_left (List.mem_range.mp hi)]
      rw [e1]
      apply List.map_congr_left
      intro i hi
      have := List.mem_range.mp (List.mem_filter.mp hi).1
      rw [List.getElem?_append_left this]
    · have e2 : (l ++ [a])[l.length]? = some a := by
        rw [List.getElem?_append_right (le_refl _)]
        simp
      by_cases hq : Q (some a) = true
      · simp [e2, hq]
      · simp [e2, hq]

theorem outArcs_succ (arcs : List Arc) (m k : Nat) :
    outArcs arcs m (k + 1)
      = outArcs arcs m k ++ (if arcGoesTo m arcs[k]? = true then [k] else []) := by
  unfold outArcs
  rw [List.range_succ, List.filter_append]
  congr 1
  by_cases h : arcGoesTo m arcs[k]? = true
  · simp [h]
  · simp [h]

theorem outArcs_length_le (arcs : List Arc) (m : Nat) {k K : Nat} (h : k ≤ K) :
    (outArcs arcs m k).length ≤ (outArcs arcs m K).length :=
  ((List.range_sublist.mpr h).filter _).length_le

theorem outArcs_mem {arcs : List Arc} {m k i : Nat} :
    i ∈ outArcs arcs m k ↔ i < k ∧ arcGoesTo m arcs[i]? = true := by
  simp [outArcs]

theorem filter_le_two {α : Type} (p q1 q2 : α → Bool)
    (h : ∀ a, p a = true → q1 a = true ∨ q2 a = true) :
    ∀ (l : List α), (l.filter p).length ≤ (l.filter q1).length + (l.filter q2).length := by
  intro l
  induction l with
  | nil => simp
  | cons a rest ih =>
    have ha := h a
    simp only [List.filter_cons]
    cases hp : p a <;> cases h1 : q1 a <;> cases h2 : q2 a <;>
      simp only [hp, h1, h2, if_true, if_false, List.length_cons, Bool.false_eq_true] <;>
      first | omega | (exfalso; rw [hp, h1, h2] at ha; simpa using ha)

theorem filter_two_le {α : Type} (q1 q2 : α → Bool)
    (h : ∀ a, ¬ (q1 a = true ∧ q2 a = true)) :
    ∀ (l : List α), (∀ a ∈ l, ¬ (q1 a = true ∧ q2 a = true)) →
      (l.filter q1).length + (l.filter q2).length ≤ l.length := by
  intro l
  induction l with
  | nil => intro _; simp
  | cons a rest ih =>
    intro _
    have ih' := ih (fun b _ => h b)
    have ha := h a
    simp only [List.filter_cons]
    cases h1 : q1 a <;> cases h2 : q2 a <;>
      simp only [h1, h2, if_true, if_false, List.length_cons, Bool.false_eq_true] <;>
      first | omega | (exfalso; rw [h1, h2] at ha; simp at ha)

theorem goes_le_degree (m : Nat) (arcs : List Arc) :
    (arcs.filter (fun a => arcGoesTo m (some a))).length ≤ degreeIn arcs m := by
  unfold degreeIn
  apply filter_le_two
  intro a ha
  simp only [arcGoesTo] at ha
  by_cases h1 : a.to_ = 1
  · rw [if_pos h1] at ha
    right
    simp only [decide_eq_true_eq] at ha ⊢
    omega
  · rw [if_neg h1] at ha
    left
    exact ha

theorem degree_le_length (m : Nat) : ∀ (arcs : List Arc), (∀ a ∈ arcs, a.from_ ≠ a.to_) →
    degreeIn arcs m ≤ arcs.length := by
  intro arcs
  induction arcs with
  | nil => intro _; simp [degreeIn]
  | cons a rest ih =>
    intro hall
    have ih' := ih (fun b hb => hall b (List.mem_cons_of_mem _ hb))
    have hne := hall a (List.mem_cons_self _ _)
    unfold degreeIn at ih' ⊢
    simp only [List.filter_cons, List.length_cons]
    by_cases h2 : a.from_ = m <;> by_cases h3 : a.to_ = m <;>
      simp only [h2, h3, if_true, if_false, decide_True, decide_False, List.length_cons,
        Bool.false_eq_true] <;> first | omega | (exfalso; exact hne (h2.trans h3.symm))

theorem outArcs_full_length (arcs : List Arc) (m : Nat) :
    (outArcs arcs m arcs.length).length
      = (arcs.filter (fun a => arcGoesTo m (some a))).length := by
  have := congrArg List.length (filter_range_bridge (arcGoesTo m) rfl arcs)
  simpa only [List.length_map] using this

theorem out_lt_degree {nl : List Node} {arcs : List Arc} (hin : FreshInput nl arcs)
    {m k : Nat} (hk : k < arcs.length) (hgo : arcGoesTo m arcs[k]? = true) :
    (outArcs arcs m k).length < degreeIn arcs m % U32 := by
  obtain ⟨-, hU, hshape, -⟩ := hin
  have h1 := outArcs_succ arcs m k
  rw [if_pos hgo] at h1
  have h2 := outArcs_length_le arcs m (Nat.succ_le_of_lt hk)
  rw [h1, List.length_append, List.length_singleton, outArcs_full_length] at h2
  have h3 := goes_le_degree m arcs
  have h4 := degree_le_length m arcs (fun a ha => (hshape a ha).2.2.1)
  rw [Nat.mod_eq_of_lt (by omega)]
  omega

theorem FreshInput.number {nl : List Node} {arcs : List Arc} (hin : FreshInput nl arcs)
    {m : Nat} {nd : Node} (h : nl[m]? = some nd) :
    nd.number = m ∧ nd.numAdjacent = degreeIn arcs m % U32 ∧ nd.excess = 0 ∧ nd.label = 0
      ∧ nd.next = none ∧ nd.outOfTree = [] := by
  have := hin.2.2.2 m nd h
  rw [this]
  exact ⟨rfl, rfl, rfl, rfl, rfl, rfl⟩

/-- One pass of the arc loop of `createMemoryStructures`. -/
theorem placeArc_step {s0 s : State} {k : Nat} (hin : FreshInput s0.nodesList s0.arcList)
    (hsrc : s0.source = 0) (hsnk : s0.sink = 1) (hs : PlacedUpTo s0 k s)
    (hk : k < s0.arcList.length) :
    ∃ s', placeArc s k = .ok s' ∧ PlacedUpTo s0 (k + 1) s' := by
  obtain ⟨p1, p2, p3, p4, p5, p6, p7, p8⟩ := hs
  have hshape := hin.2.2.1 _ (List.getElem_mem hk)
  obtain ⟨a1, a2, a3, a4, a5, a6, -⟩ := hshape
  have hak : s0.arcList[k]? = some s0.arcList[k] := List.getElem?_eq_getElem hk
  have hT : s0.nodesList[s0.arcList[k].to_]? = some s0.nodesList[s0.arcList[k].to_] :=
    List.getElem?_eq_getElem a2
  have hF : s0.nodesList[s0.arcList[k].from_]? = some s0.nodesList[s0.arcList[k].from_] :=
    List.getElem?_eq_getElem a1
  have nT := (hin.number hT).1
  have nF := (hin.number hF).1
  have step : ∀ n, n < s0.nodesList.length → arcGoesTo n s0.arcList[k]? = true →
      (∀ m, m ≠ n → arcGoesTo m s0.arcList[k]? = false) →
      ∃ s', addOutOfTreeNode s n k = .ok s' ∧ PlacedUpTo s0 (k + 1) s' := by
    intro n hn hgo hother
    have hN : s0.nodesList[n]? = some s0.nodesList[n] := List.getElem?_eq_getElem hn
    have hlt := out_lt_degree hin hk hgo
    unfold addOutOfTreeNode
    simp only [State.node, p8 _ _ hN, deref, ok_bind, Node.numOutOfTree, (hin.number hN).2.1,
      hlt, if_true, State.modNode]
    refine ⟨_, rfl, p1, p2, p3, p4, p5, p6, ?_, ?_⟩
    · simp only [List.length_set]
      exact p7
    · intro m nd0 hm
      by_cases hmn : m = n
      · subst hmn
        rw [hN] at hm
        cases hm
        simp only [List.getElem?_set_self (by rw [p7]; exact hn)]
        rw [outArcs_succ, if_pos hgo, (hin.number hN).2.1]
      · simp only [List.getElem?_set_ne (Ne.symm hmn)]
        rw [p8 _ _ hm, outArcs_succ, hother m hmn]
        simp
  unfold placeArc
  simp only [State.arc, State.node, p1, hak, deref, ok_bind, p8 _ _ hT, p8 _ _ hF, nT, nF,
    p3, p4, hsrc, hsnk]
  have c1 : ¬ (0 = s0.arcList[k].to_ ∨ 1 = s0.arcList[k].from_
      ∨ s0.arcList[k].from_ = s0.arcList[k].to_) := by
    rintro (h | h | h)
    · exact a4 h.symm
    · exact a5 h.symm
    · exact a3 h
  have c2 : ¬ (0 = s0.arcList[k].from_ ∧ s0.arcList[k].to_ = 1) := by
    rintro ⟨h1, h2⟩
    exact a6 ⟨h1.symm, h2⟩
  simp only [c1, not_false_eq_true, if_true, c2, if_false]
  by_cases ht : s0.arcList[k].to_ = 1
  · simp only [ht, if_true]
    refine step 1 (by have := hin.1; omega) ?_ ?_
    · simp [hak, arcGoesTo, ht]
    · intro m hm
      simp [hak, arcGoesTo, ht, hm]
  · simp only [ht, if_false]
    refine step _ a1 ?_ ?_
    · simp [hak, arcGoesTo, ht]
    · intro m hm
      simp only [hak, arcGoesTo, ht, if_false, decide_eq_false_iff_not]
      exact fun h => hm h.symm

/-- The arc loop of `createMemoryStructures` returns. -/
theorem placeArc_fold {s0 : State} (hin : FreshInput s0.nodesList s0.arcList)
    (hsrc : s0.source = 0) (hsnk : s0.sink = 1) :
    ∀ (n k : Nat) (s : State), k + n = s0.arcList.length → PlacedUpTo s0 k s →
      ∃ s', ((List.range' k n).foldlM placeArc s) = .ok s'
        ∧ PlacedUpTo s0 s0.arcList.length s' := by
  intro n
  induction n with
  | zero =>
    intro k s hk hs
    refine ⟨s, rfl, ?_⟩
    have : k = s0.arcList.length := by omega
    rw [← this]
    exact hs
  | succ n ih =>
    intro k s hk hs
    obtain ⟨s1, e1, h1⟩ := placeArc_step hin hsrc hsnk hs (by omega)
    obtain ⟨s2, e2, h2⟩ := ih (k + 1) s1 (by omega) h1
    refine ⟨s2, ?_, h2⟩
    rw [List.range'_succ, List.foldlM_cons, e1, ok_bind]
    exact e2

theorem PlacedUpTo.initial (s0 : State) (hin : FreshInput s0.nodesList s0.arcList) :
    PlacedUpTo s0 0 s0 := by
  refine ⟨rfl, rfl, rfl, rfl, rfl, rfl, rfl, ?_⟩
  intro m nd0 hm
  rw [hm]
  have := (hin.number hm).2.2.2.2.2
  simp only [outArcs, List.range_zero, List.filter_nil, Option.some.injEq]
  rw [← this]

/-- What `createMemoryStructures` returns on fresh input: the arcs and the
scalars as they were, every node with the arcs that go into its out-of-tree
array, and empty buckets and zero counts for every label. -/
theorem createMemoryStructures_fresh {s0 : State}
    (hin : FreshInput s0.nodesList s0.arcList) (hsrc : s0.source = 0) (hsnk : s0.sink = 1) :
    ∃ s1, createMemoryStructures s0 s0.arcList.length = .ok s1
      ∧ PlacedUpTo { s0 with strongRoots := List.replicate s0.numNodes initializeRoot,
                             labelCount := List.replicate s0.numNodes 0 }
          s0.arcList.length s1 := by
  obtain ⟨s', e, p1, p2, p3, p4, p5, p6, p7, p8⟩ :=
    placeArc_fold hin hsrc hsnk s0.arcList.length 0 s0 (by omega) (PlacedUpTo.initial s0 hin)
  unfold createMemoryStructures
  rw [List.range_eq_range', e, ok_bind]
  refine ⟨_, rfl, p1, p2, p3, p4, ?_, ?_, p7, p8⟩
  · simp only [p2]
  · simp only [p2]

theorem saturateWith_eq (sel : Arc → Nat) (sg : ℚ) {s : State} {i : Nat} {a : Arc} {nd : Node}
    (hsel : ∀ (a : Arc) (x : ℚ), sel { a with flow := x } = sel a)
    (ha : s.arcList[i]? = some a) (hn : s.nodesList[sel a]? = some nd) :
    saturateWith sel sg s i
      = .ok { s with
          arcList := s.arcList.set i { a with flow := a.capacity },
          nodesList := s.nodesList.set (sel a)
            { nd with excess := nd.excess + sg * a.capacity } } := by
  have hi : i < s.arcList.length := by
    rcases Nat.lt_or_ge i s.arcList.length with h | h
    · exact h
    · rw [List.getElem?_eq_none h] at ha
      cases ha
  unfold saturateWith
  simp only [State.modArc, ha, ok_bind, State.arc, List.getElem?_set_self hi, deref,
    State.modNode, hsel, hn]

theorem capacityInto_nil (sel : Arc → Nat) (arcs : List Arc) (m : Nat) :
    capacityInto sel arcs [] m = 0 := rfl

theorem capacityInto_cons (sel : Arc → Nat) (arcs : List Arc) (i : Nat) (L : List Nat)
    (m : Nat) :
    capacityInto sel arcs (i :: L) m
      = capacityAt sel arcs m i + capacityInto sel arcs L m := by
  simp only [capacityInto, List.map_cons, List.sum_cons]

theorem capacityInto_congr (sel : Arc → Nat) {arcs arcs' : List Arc} (L : List Nat) (m : Nat)
    (h : ∀ j : Nat, (arcs'[j]?).map (fun a => (sel a, a.capacity))
      = (arcs[j]?).map (fun a => (sel a, a.capacity))) :
    capacityInto sel arcs' L m = capacityInto sel arcs L m := by
  unfold capacityInto
  apply congrArg
  apply List.map_congr_left
  intro j _
  have hj := h j
  unfold capacityAt
  cases h1 : arcs[j]? with
  | none =>
    cases h2 : arcs'[j]? with
    | none => rfl
    | some b => rw [h1, h2] at hj; cases hj
  | some a =>
    cases h2 : arcs'[j]? with
    | none => rw [h1, h2] at hj; cases hj
    | some b =>
      rw [h1, h2] at hj
      simp only [Option.map_some', Option.some.injEq, Prod.mk.injEq] at hj
      simp only [hj.1, hj.2]

/-- The saturation loop returns, and what it leaves. -/
theorem saturate_fold (sel : Arc → Nat) (sg : ℚ)
    (hsel : ∀ (a : Arc) (x : ℚ), sel { a with flow := x } = sel a) :
    ∀ (L : List Nat) (s : State),
      (∀ i ∈ L, ∃ a, s.arcList[i]? = some a ∧ sel a < s.nodesList.length) →
      ∃ s1, L.foldlM (saturateWith sel sg) s = .ok s1 ∧ SaturatedBy sel sg s L s1 := by
  intro L
  induction L with
  | nil =>
    intro s _
    refine ⟨s, rfl, rfl, rfl, rfl, rfl, rfl, rfl, ?_, rfl, ?_⟩
    · intro j a ha
      simp [ha]
    · intro m nd hm
      rw [hm, capacityInto_nil, mul_zero, add_zero]
  | cons i L ih =>
    intro s hall
    obtain ⟨a, ha, hlt⟩ := hall i (List.mem_cons_self _ _)
    have hi : i < s.arcList.length := by
      rcases Nat.lt_or_ge i s.arcList.length with h | h
      · exact h
      · rw [List.getElem?_eq_none h] at ha
        cases ha
    have hn : s.nodesList[sel a]? = some s.nodesList[sel a] := List.getElem?_eq_getElem hlt
    have e1 := saturateWith_eq sel sg hsel ha hn
    have harcs : ∀ j : Nat, (((s.arcList.set i { a with flow := a.capacity })[j]?).map
        (fun a => (sel a, a.capacity))) = (s.arcList[j]?).map (fun a => (sel a, a.capacity)) := by
      intro j
      by_cases hj : i = j
      · subst hj
        rw [List.getElem?_set_self hi, ha]
        simp only [Option.map_some', hsel]
      · rw [List.getElem?_set_ne hj]
    obtain ⟨s1, e2, q1, q2, q3, q4, q5, q6, q7, q8, q9⟩ := ih
      { s with
          arcList := s.arcList.set i { a with flow := a.capacity },
          nodesList := s.nodesList.set (sel a)
            { s.nodesList[sel a] with
              excess := s.nodesList[sel a].excess + sg * a.capacity } } (by
      intro i' hi'
      obtain ⟨a', ha', hlt'⟩ := hall i' (List.mem_cons_of_mem _ hi')
      by_cases hj : i = i'
      · subst hj
        rw [ha] at ha'
        cases ha'
        refine ⟨_, List.getElem?_set_self hi, ?_⟩
        simp only [hsel, List.length_set]
        exact hlt
      · refine ⟨a', ?_, ?_⟩
        · simp only [List.getElem?_set_ne hj]
          exact ha'
        · simp only [List.length_set]
          exact hlt')
    refine ⟨s1, ?_, q1, q2, q3, q4, q5, ?_, ?_, ?_, ?_⟩
    · rw [List.foldlM_cons, e1, ok_bind]
      exact e2
    · rw [q6]
      simp only [List.length_set]
    · intro j b hb
      by_cases hj : i = j
      · subst hj
        rw [ha] at hb
        cases hb
        rw [q7 _ _ (List.getElem?_set_self hi)]
        simp only [List.mem_cons, true_or, if_true]
        split <;> rfl
      · have hb' : (s.arcList.set i { a with flow := a.capacity })[j]? = some b := by
          rw [List.getElem?_set_ne hj]
          exact hb
        rw [q7 _ _ hb']
        have : (j ∈ i :: L) ↔ j ∈ L := by
          simp only [List.mem_cons]
          constructor
          · rintro (h | h)
            · exact absurd h.symm hj
            · exact h
          · exact Or.inr
        simp only [this]
    · rw [q8]
      simp only [List.length_set]
    · intro m nd hm
      have hc := capacityInto_congr sel L m harcs
      simp only at hc
      rw [capacityInto_cons]
      simp only [capacityAt, ha]
      by_cases hmn : sel a = m
      · subst hmn
        rw [hn] at hm
        cases hm
        rw [q9 _ _ (List.getElem?_set_self hlt), hc]
        simp only [if_true, Option.some.injEq]
        congr 1
        ring
      · have hm' : (s.nodesList.set (sel a)
            { s.nodesList[sel a] with
              excess := s.nodesList[sel a].excess + sg * a.capacity })[m]? = some nd := by
          rw [List.getElem?_set_ne hmn]
          exact hm
        rw [q9 _ _ hm', hc]
        simp only [hmn, if_false, zero_add]

theorem nextIn_cons_ne {a m : Nat} (h : a ≠ m) : ∀ (rest : List Nat),
    nextIn (a :: rest) m = nextIn rest m := by
  intro rest
  cases rest with
  | nil => rfl
  | cons b r => simp only [nextIn, h, if_false]

theorem nextIn_cons_self (a : Nat) (rest : List Nat) :
    nextIn (a :: rest) a = rest.head? := by
  cases rest with
  | nil => rfl
  | cons b r => simp only [nextIn, if_true, List.head?_cons]

theorem nextIn_append_new {k : Nat} : ∀ (P : List Nat), k ∉ P → nextIn (P ++ [k]) k = none := by
  intro P
  induction P with
  | nil => intro _; rfl
  | cons a rest ih =>
    intro hk
    have h1 : a ≠ k := fun h => hk (by rw [h]; exact List.mem_cons_self _ _)
    rw [List.cons_append, nextIn_cons_ne h1]
    exact ih (fun h => hk (List.mem_cons_of_mem _ h))

theorem nextIn_append_last {k e : Nat} : ∀ (P : List Nat), P.Nodup → P.getLast? = some e →
    nextIn (P ++ [k]) e = some k := by
  intro P
  induction P with
  | nil => intro _ h; cases h
  | cons a rest ih =>
    intro hnd hl
    cases rest with
    | nil =>
      simp only [List.getLast?_singleton, Option.some.injEq] at hl
      subst hl
      simp only [List.singleton_append, nextIn, if_true]
    | cons b r =>
      rw [List.getLast?_cons_cons] at hl
      have hmem : e ∈ b :: r := List.mem_of_getLast?_eq_some hl
      have hne : a ≠ e := by
        intro h
        subst h
        exact (List.nodup_cons.mp hnd).1 hmem
      rw [List.cons_append, nextIn_cons_ne hne]
      exact ih (List.nodup_cons.mp hnd).2 hl

theorem nextIn_append_other {k m : Nat} : ∀ (P : List Nat), m ∈ P → P.getLast? ≠ some m →
    nextIn (P ++ [k]) m = nextIn P m := by
  intro P
  induction P with
  | nil => intro h; cases h
  | cons a rest ih =>
    intro hm hl
    cases rest with
    | nil =>
      exfalso
      simp only [List.mem_singleton] at hm
      subst hm
      exact hl rfl
    | cons b r =>
      by_cases h : a = m
      · subst h
        simp only [List.cons_append, nextIn, if_true]
      · rw [List.cons_append, nextIn_cons_ne h, nextIn_cons_ne h]
        rw [List.getLast?_cons_cons] at hl
        refine ih ?_ hl
        rcases List.mem_cons.mp hm with e | e
        · exact absurd e.symm h
        · exact e

/-- Following `next` from the head of a list without repetition whose
members are chained in order gives the list. -/
theorem bucketChain_eq (nl : List Node) : ∀ (P : List Nat) (fuel : Nat), P.Nodup →
    P.length ≤ fuel → (∀ m ∈ P, (nl[m]?).bind (fun nd => nd.next) = nextIn P m) →
    bucketChain nl fuel P.head? = P := by
  intro P
  induction P with
  | nil =>
    intro fuel _ _ _
    cases fuel <;> rfl
  | cons a rest ih =>
    intro fuel hnd hlen hall
    cases fuel with
    | zero => simp at hlen
    | succ f =>
      simp only [List.head?_cons, bucketChain]
      rw [hall a (List.mem_cons_self _ _), nextIn_cons_self]
      congr 1
      refine ih f (List.nodup_cons.mp hnd).2 (by simpa using hlen) ?_
      intro m hm
      rw [hall m (List.mem_cons_of_mem _ hm)]
      have hne : a ≠ m := by
        intro h
        subst h
        exact (List.nodup_cons.mp hnd).1 hm
      exact nextIn_cons_ne hne rest

theorem strongBelow_succ (nl : List Node) (k : Nat) :
    strongBelow nl (k + 1)
      = strongBelow nl k ++ (if isStrong nl k = true then [k] else []) := by
  unfold strongBelow
  rw [List.range_succ, List.filter_append]
  congr 1
  by_cases h : isStrong nl k = true
  · simp [h]
  · simp [h]

theorem strongBelow_nodup (nl : List Node) (k : Nat) : (strongBelow nl k).Nodup :=
  (List.nodup_range k).filter _

theorem strongBelow_mem {nl : List Node} {k m : Nat} :
    m ∈ strongBelow nl k ↔ m < k ∧ ∃ nd, nl[m]? = some nd ∧ 0 < nd.excess := by
  unfold strongBelow
  rw [List.mem_filter, List.mem_range]
  unfold isStrong
  constructor
  · rintro ⟨h1, h2⟩
    refine ⟨h1, ?_⟩
    cases hn : nl[m]? with
    | none => rw [hn] at h2; cases h2
    | some nd =>
      rw [hn] at h2
      exact ⟨nd, rfl, by simpa using h2⟩
  · rintro ⟨h1, nd, h2, h3⟩
    refine ⟨h1, ?_⟩
    rw [h2]
    simpa using h3

theorem strongBelow_length_le (nl : List Node) (k : Nat) : (strongBelow nl k).length ≤ k := by
  unfold strongBelow
  calc ((List.range k).filter _).length ≤ (List.range k).length := List.length_filter_le _ _
    _ = k := List.length_range k

theorem getElem?_lt {α : Type} {l : List α} {i : Nat} {a : α} (h : l[i]? = some a) :
    i < l.length := by
  rcases Nat.lt_or_ge i l.length with h1 | h1
  · exact h1
  · rw [List.getElem?_eq_none h1] at h
    cases h

theorem addToStrongBucket_empty {s : State} {k : Nat} {nd : Node}
    (hr : s.strongRoots[1]? = some { start := none, end_ := none })
    (hn : s.nodesList[k]? = some nd) :
    addToStrongBucket s k 1
      = .ok { s with
          strongRoots := s.strongRoots.set 1 { start := some k, end_ := some k },
          nodesList := s.nodesList.set k { nd with next := none } } := by
  unfold addToStrongBucket
  simp only [State.root, hr, deref, ok_bind, State.modRoot, State.modNode, hn]

theorem addToStrongBucket_nonempty {s : State} {k a e : Nat} {nde ndk : Node}
    (hr : s.strongRoots[1]? = some { start := some a, end_ := some e })
    (he : s.nodesList[e]? = some nde) (hk : s.nodesList[k]? = some ndk) (hek : e ≠ k) :
    addToStrongBucket s k 1
      = .ok { s with
          strongRoots := s.strongRoots.set 1 { start := some a, end_ := some k },
          nodesList := (s.nodesList.set e { nde with next := some k }).set k
            { ndk with next := none } } := by
  unfold addToStrongBucket
  simp only [State.root, hr, deref, ok_bind, State.modRoot, State.modNode, he,
    List.getElem?_set_ne hek, hk]

theorem isExcess_pos (x : ℚ) : isExcess x > 0 ↔ 0 < x := by
  unfold isExcess
  constructor
  · intro h
    by_contra hc
    by_cases hx : x < 0
    · rw [if_pos hx] at h
      exact absurd h (by decide)
    · rw [if_neg hx, if_neg (by simpa using hc)] at h
      exact absurd h (by decide)
  · intro h
    rw [if_neg (by linarith), if_pos h]
    decide

theorem labelStrong_strong {s : State} {k c : Nat} {nd : Node}
    (hn : s.nodesList[k]? = some nd) (hpos : 0 < nd.excess) (hc : s.labelCount[1]? = some c) :
    labelStrong s k
      = addToStrongBucket { s with
          nodesList := s.nodesList.set k { nd with label := 1 },
          labelCount := s.labelCount.set 1 (incU c) } k 1 := by
  unfold labelStrong
  simp only [State.node, hn, deref, ok_bind, (isExcess_pos nd.excess).mpr hpos, if_true,
    State.modNode, State.modCount, hc]

theorem labelStrong_weak {s : State} {k : Nat} {nd : Node}
    (hn : s.nodesList[k]? = some nd) (hneg : ¬ 0 < nd.excess) :
    labelStrong s k = .ok s := by
  unfold labelStrong
  have : ¬ isExcess nd.excess > 0 := fun h => hneg ((isExcess_pos nd.excess).mp h)
  simp only [State.node, hn, deref, ok_bind, this, if_false]

theorem strongMark_not_mem {P : List Nat} {m : Nat} (h : m ∉ P) (nd : Node) :
    strongMark P m nd = nd := by
  unfold strongMark
  simp only [h, if_false]

theorem strongMark_mem {P : List Nat} {m : Nat} (h : m ∈ P) (nd : Node) :
    strongMark P m nd = { nd with label := 1, next := nextIn P m } := by
  unfold strongMark
  simp only [h, if_true]

theorem get_set_two {α : Type} (l : List α) (i : Nat) (x y : α) (h : i < l.length) :
    ((l.set i x).set i y)[i]? = some y :=
  List.getElem?_set_self (by rw [List.length_set]; exact h)

theorem get_set_three {α : Type} (l : List α) (k e : Nat) (x y z : α) (h : k < l.length) :
    (((l.set k x).set e y).set k z)[k]? = some z :=
  List.getElem?_set_self (by rw [List.length_set, List.length_set]; exact h)

theorem get_set_three_mid {α : Type} (l : List α) (k e : Nat) (x y z : α) (h : e < l.length)
    (hne : e ≠ k) : (((l.set k x).set e y).set k z)[e]? = some y := by
  rw [List.getElem?_set_ne (Ne.symm hne)]
  exact List.getElem?_set_self (by rw [List.length_set]; exact h)

theorem LabelledUpTo.first {s : State} (hR : s.strongRoots[1]? = some initializeRoot)
    (hC : s.labelCount[1]? = some 0) : LabelledUpTo s 0 s := by
  refine ⟨rfl, rfl, rfl, rfl, ?_, ?_, rfl, ?_⟩
  · apply List.ext_getElem?
    intro i
    by_cases hi : 1 = i
    · subst hi
      rw [List.getElem?_set_self (getElem?_lt hR), hR]
      rfl
    · rw [List.getElem?_set_ne hi]
  · apply List.ext_getElem?
    intro i
    by_cases hi : 1 = i
    · subst hi
      rw [List.getElem?_set_self (getElem?_lt hC), hC]
      rfl
    · rw [List.getElem?_set_ne hi]
  · intro m nd hm
    rw [hm, strongMark_not_mem]
    simp [strongBelow]

/-- One pass of the labelling loop of `simpleInitialization`. -/
theorem labelStrong_step {s s1 : State} {k : Nat} (hs : LabelledUpTo s k s1)
    (hk : k < s.nodesList.length) (hR : 1 < s.strongRoots.length)
    (hC : 1 < s.labelCount.length) :
    ∃ s2, labelStrong s1 k = .ok s2 ∧ LabelledUpTo s (k + 1) s2 := by
  obtain ⟨p1, p2, p3, p4, p5, p6, p7, p8⟩ := hs
  have hnd : s.nodesList[k]? = some s.nodesList[k] := List.getElem?_eq_getElem hk
  have hkP : k ∉ strongBelow s.nodesList k := fun h => by
    have := (strongBelow_mem.mp h).1
    omega
  have hn1 : s1.nodesList[k]? = some s.nodesList[k] := by
    rw [p8 _ _ hnd, strongMark_not_mem hkP]
  have hsucc := strongBelow_succ s.nodesList k
  have hk1 : k < s1.nodesList.length := by rw [p7]; exact hk
  by_cases hpos : 0 < s.nodesList[k].excess
  · have hst : isStrong s.nodesList k = true := by
      unfold isStrong
      rw [hnd]
      simpa using hpos
    rw [hst, if_pos rfl] at hsucc
    have hc1 : s1.labelCount[1]? = some ((strongBelow s.nodesList k).length % U32) := by
      rw [p6, List.getElem?_set_self hC]
    rw [labelStrong_strong hn1 hpos hc1]
    have hmemP : ∀ m, m ∈ strongBelow s.nodesList (k + 1)
        ↔ m ∈ strongBelow s.nodesList k ∨ m = k := by
      intro m
      rw [hsucc, List.mem_append, List.mem_singleton]
    have hcount : s1.labelCount.set 1 (incU ((strongBelow s.nodesList k).length % U32))
        = s.labelCount.set 1 (((strongBelow s.nodesList k).length + 1) % U32) := by
      rw [p6, List.set_set, incU_mod]
    have hn2 : ({ s1 with
        nodesList := s1.nodesList.set k { s.nodesList[k] with label := 1 },
        labelCount := s1.labelCount.set 1 (incU ((strongBelow s.nodesList k).length % U32)) }
        : State).nodesList[k]? = some { s.nodesList[k] with label := 1 } := by
      simp only [List.getElem?_set_self (by rw [p7]; exact hk)]
    by_cases hP : strongBelow s.nodesList k = []
    · have hr : ({ s1 with
          nodesList := s1.nodesList.set k { s.nodesList[k] with label := 1 },
          labelCount := s1.labelCount.set 1 (incU ((strongBelow s.nodesList k).length % U32)) }
          : State).strongRoots[1]? = some { start := none, end_ := none } := by
        simp only [p5, List.getElem?_set_self hR, hP, List.head?_nil, List.getLast?_nil]
      rw [addToStrongBucket_empty hr hn2]
      refine ⟨_, rfl, p1, p2, p3, p4, ?_, ?_, ?_, ?_⟩
      · simp only [p5, List.set_set, hsucc, hP, List.nil_append, List.head?_cons,
          List.getLast?_singleton]
      · simp only [hsucc, List.length_append, List.length_singleton]
        exact hcount
      · simp only [List.length_set]
        exact p7
      · intro m nd hm
        rw [hsucc, hP, List.nil_append]
        by_cases hmk : m = k
        · subst hmk
          rw [hnd] at hm
          cases hm
          show ((s1.nodesList.set m _).set m _)[m]? = _
          rw [get_set_two _ _ _ _ hk1, strongMark_mem (List.mem_singleton.mpr rfl)]
          rfl
        · show ((s1.nodesList.set k _).set k _)[m]? = _
          rw [List.getElem?_set_ne (Ne.symm hmk), List.getElem?_set_ne (Ne.symm hmk),
            p8 _ _ hm, hP, strongMark_not_mem (by simp),
            strongMark_not_mem (by simpa using hmk)]
    · have hne : strongBelow s.nodesList k ≠ [] := hP
      have hlast := List.getLast?_eq_getLast _ hne
      have hhead := List.head?_eq_head hne
      have heP : (strongBelow s.nodesList k).getLast hne ∈ strongBelow s.nodesList k :=
        List.getLast_mem hne
      obtain ⟨hek, nde, hnde, -⟩ := strongBelow_mem.mp heP
      have hek' : (strongBelow s.nodesList k).getLast hne ≠ k := by omega
      have he1 : (strongBelow s.nodesList k).getLast hne < s1.nodesList.length := by omega
      have hr : ({ s1 with
          nodesList := s1.nodesList.set k { s.nodesList[k] with label := 1 },
          labelCount := s1.labelCount.set 1 (incU ((strongBelow s.nodesList k).length % U32)) }
          : State).strongRoots[1]?
            = some { start := some ((strongBelow s.nodesList k).head hne),
                     end_ := some ((strongBelow s.nodesList k).getLast hne) } := by
        simp only [p5, List.getElem?_set_self hR, hlast, hhead]
      have hn3 : ({ s1 with
          nodesList := s1.nodesList.set k { s.nodesList[k] with label := 1 },
          labelCount := s1.labelCount.set 1 (incU ((strongBelow s.nodesList k).length % U32)) }
          : State).nodesList[(strongBelow s.nodesList k).getLast hne]?
            = some (strongMark (strongBelow s.nodesList k)
                ((strongBelow s.nodesList k).getLast hne) nde) := by
        simp only [List.getElem?_set_ne (Ne.symm hek')]
        exact p8 _ _ hnde
      rw [addToStrongBucket_nonempty hr hn3 hn2 hek']
      have e1 : (strongBelow s.nodesList k ++ [k]).head?
          = some ((strongBelow s.nodesList k).head hne) := by
        rw [List.head?_append_of_ne_nil _ hne, hhead]
      have e2 : (strongBelow s.nodesList k ++ [k]).getLast? = some k := List.getLast?_concat _
      refine ⟨_, rfl, p1, p2, p3, p4, ?_, ?_, ?_, ?_⟩
      · simp only [p5, List.set_set, hsucc, e1, e2]
      · simp only [hsucc, List.length_append, List.length_singleton]
        exact hcount
      · simp only [List.length_set]
        exact p7
      · intro m nd hm
        by_cases hmk : m = k
        · subst hmk
          rw [hnd] at hm
          cases hm
          show (((s1.nodesList.set m _).set _ _).set m _)[m]? = _
          rw [get_set_three _ _ _ _ _ _ hk1, strongMark_mem ((hmemP _).mpr (Or.inr rfl)),
            hsucc, nextIn_append_new _ hkP]
        · by_cases hme : m = (strongBelow s.nodesList k).getLast hne
          · rw [hme] at hm ⊢
            rw [hnde] at hm
            cases hm
            show (((s1.nodesList.set k _).set _ _).set k _)[_]? = _
            rw [get_set_three_mid _ _ _ _ _ _ he1 hek',
              strongMark_mem ((hmemP _).mpr (Or.inl heP)), strongMark_mem heP, hsucc,
              nextIn_append_last _ (strongBelow_nodup _ _) hlast]
          · show (((s1.nodesList.set k _).set _ _).set k _)[m]? = _
            rw [List.getElem?_set_ne (Ne.symm hmk), List.getElem?_set_ne (Ne.symm hme),
              List.getElem?_set_ne (Ne.symm hmk), p8 _ _ hm]
            by_cases hmP : m ∈ strongBelow s.nodesList k
            · rw [strongMark_mem hmP, strongMark_mem ((hmemP _).mpr (Or.inl hmP)), hsucc,
                nextIn_append_other _ hmP (by
                  rw [hlast]
                  intro h
                  exact hme (Option.some.inj h).symm)]
            · rw [strongMark_not_mem hmP, strongMark_not_mem (by
                rw [hmemP]
                rintro (h | h)
                · exact hmP h
                · exact hmk h)]
  · have hst : isStrong s.nodesList k = false := by
      unfold isStrong
      rw [hnd]
      simpa using hpos
    rw [hst, if_neg (by simp), List.append_nil] at hsucc
    rw [labelStrong_weak hn1 hpos]
    refine ⟨s1, rfl, p1, p2, p3, p4, ?_, ?_, p7, ?_⟩
    · rw [hsucc]
      exact p5
    · rw [hsucc]
      exact p6
    · rw [hsucc]
      exact p8

/-- The labelling loop of `simpleInitialization` returns. -/
theorem labelStrong_fold {s : State} (hR : 1 < s.strongRoots.length)
    (hC : 1 < s.labelCount.length) :
    ∀ (n k : Nat) (s1 : State), k + n = s.nodesList.length → LabelledUpTo s k s1 →
      ∃ s2, ((List.range' k n).foldlM labelStrong s1) = .ok s2
        ∧ LabelledUpTo s s.nodesList.length s2 := by
  intro n
  induction n with
  | zero =>
    intro k s1 hk hs
    refine ⟨s1, rfl, ?_⟩
    have : k = s.nodesList.length := by omega
    rw [← this]
    exact hs
  | succ n ih =>
    intro k s1 hk hs
    obtain ⟨s2, e1, h1⟩ := labelStrong_step hs (by omega) hR hC
    obtain ⟨s3, e2, h2⟩ := ih (k + 1) s2 (by omega) h1
    refine ⟨s3, ?_, h2⟩
    rw [List.range'_succ, List.foldlM_cons, e1, ok_bind]
    exact e2

theorem sum_filter_ite {α : Type} (p c : α → Bool) (w : α → ℚ) : ∀ (l : List α),
    ((l.filter p).map (fun a => if c a = true then w a else 0)).sum
      = ((l.filter (fun a => p a && c a)).map w).sum := by
  intro l
  induction l with
  | nil => rfl
  | cons a rest ih =>
    simp only [List.filter_cons]
    cases hp : p a <;> cases hc : c a <;>
      simp only [Bool.false_and, Bool.true_and, Bool.and_false, Bool.and_true, if_true, if_false,
        Bool.false_eq_true, List.map_cons, List.sum_cons, hc, ih, zero_add]

/-- The capacities collected through the out-of-tree array of node `n`, as a
sum over the arc list. -/
theorem capacityInto_outArcs (sel : Arc → Nat) (arcs : List Arc) (n v : Nat) :
    capacityInto sel arcs (outArcs arcs n arcs.length) v
      = ((arcs.filter (fun a => arcGoesTo n (some a) && decide (sel a = v))).map
          (fun a => a.capacity)).sum := by
  have hb := filter_range_bridge (arcGoesTo n) rfl arcs
  have h1 : (outArcs arcs n arcs.length).map (capacityAt sel arcs v)
      = (((List.range arcs.length).filter (fun i => arcGoesTo n arcs[i]?)).map
          (fun i => arcs[i]?)).map (fun o => match o with
            | some a => if decide (sel a = v) = true then a.capacity else 0
            | none => 0) := by
    rw [List.map_map]
    apply List.map_congr_left
    intro i _
    cases h : arcs[i]? <;> simp [capacityAt, Function.comp, h]
  unfold capacityInto
  rw [h1, hb, List.map_map, ← sum_filter_ite]
  rfl

theorem capacityInto_source (arcs : List Arc) {v : Nat} (hv : v ≠ 1) :
    capacityInto (fun a => a.to_) arcs (outArcs arcs 0 arcs.length) v
      = capacityBetween arcs 0 v := by
  rw [capacityInto_outArcs]
  unfold capacityBetween arcsBetween
  congr 2
  apply List.filter_congr
  intro a _
  simp only [arcGoesTo]
  by_cases h1 : a.to_ = 1 <;> by_cases h2 : a.from_ = 0 <;> by_cases h3 : a.to_ = v <;>
    simp [h1, h2, h3] <;> omega

theorem capacityInto_sink (arcs : List Arc) {v : Nat} (hv : v ≠ 1) :
    capacityInto (fun a => a.from_) arcs (outArcs arcs 1 arcs.length) v
      = capacityBetween arcs v 1 := by
  rw [capacityInto_outArcs]
  unfold capacityBetween arcsBetween
  congr 2
  apply List.filter_congr
  intro a _
  simp only [arcGoesTo]
  by_cases h1 : a.to_ = 1 <;> by_cases h2 : a.from_ = 1 <;> by_cases h3 : a.from_ = v <;>
    simp [h1, h2, h3] <;> omega

theorem saturateSourceArc_eq (s : State) (i : Nat) :
    saturateSourceArc s i = saturateWith (fun a => a.to_) 1 s i := by
  unfold saturateSourceArc saturateWith
  simp only [one_mul]

theorem saturateSinkArc_eq (s : State) (i : Nat) :
    saturateSinkArc s i = saturateWith (fun a => a.from_) (-1) s i := by
  unfold saturateSinkArc saturateWith
  simp only [neg_one_mul, ← sub_eq_add_neg]

theorem foldlM_congr_fn {α β : Type} {f g : β → α → Except Err β} (h : ∀ b a, f b a = g b a)
    (l : List α) (b : β) : l.foldlM f b = l.foldlM g b := by
  have : f = g := funext (fun b => funext (fun a => h b a))
  rw [this]

theorem modNode_eq {s : State} {i : Nat} {nd : Node} (f : Node → Node)
    (h : s.nodesList[i]? = some nd) :
    s.modNode i f = .ok { s with nodesList := s.nodesList.set i (f nd) } := by
  unfold State.modNode
  rw [h]

theorem modCount_eq {s : State} {i c : Nat} (f : Nat → Nat) (h : s.labelCount[i]? = some c) :
    s.modCount i f = .ok { s with labelCount := s.labelCount.set i (f c) } := by
  unfold State.modCount
  rw [h]

theorem modNode_source_sink {s : State} {a b : Node} (f g : Node → Node)
    (hs : s.source = 0) (hk : s.sink = 1) (h0 : s.nodesList[0]? = some a)
    (h1 : s.nodesList[1]? = some b) :
    (s.modNode s.source f >>= fun s1 => s1.modNode s1.sink g)
      = .ok { s with nodesList := (s.nodesList.set 0 (f a)).set 1 (g b) } := by
  have h1' : (s.nodesList.set 0 (f a))[1]? = some b := by
    rw [List.getElem?_set_ne (by decide)]
    exact h1
  have e : ∀ k, k = 0 →
      s.modNode k f = .ok { s with nodesList := s.nodesList.set 0 (f a) } := by
    intro k hk0
    subst hk0
    exact modNode_eq f h0
  have e := e s.source hs
  rw [e, ok_bind]
  have key : ∀ k, k = 1 →
      State.modNode { s with nodesList := s.nodesList.set 0 (f a) } k g
        = .ok { s with nodesList := (s.nodesList.set 0 (f a)).set 1 (g b) } := by
    intro k hk1
    subst hk1
    exact @modNode_eq { s with nodesList := s.nodesList.set 0 (f a) } 1 b g h1'
  exact key s.sink hk

/-- The two saturation loops of `simpleInitialization` and the two writes
that follow them, on the state that `createMemoryStructures` leaves. -/
theorem saturation_fresh {s0 s1 : State} (hin : FreshInput s0.nodesList s0.arcList)
    (hp : PlacedUpTo s0 s0.arcList.length s1) (hsrc : s0.source = 0) (hsnk : s0.sink = 1) :
    ∃ sD, (do
        let src ← s1.node s1.source
        let s ← src.outOfTree.foldlM saturateSourceArc s1
        let snk ← s.node s.sink
        let s ← snk.outOfTree.foldlM saturateSinkArc s
        let s ← s.modNode s.source (fun x => { x with excess := 0 })
        s.modNode s.sink (fun x => { x with excess := 0 })) = .ok sD
      ∧ sD.numNodes = s0.numNodes ∧ sD.source = 0 ∧ sD.sink = 1
      ∧ sD.strongRoots = s0.strongRoots ∧ sD.labelCount = s0.labelCount
      ∧ sD.arcList.length = s0.arcList.length
      ∧ (∀ (j : Nat) (a : Arc), s0.arcList[j]? = some a →
          sD.arcList[j]? = some (if a.from_ = 0 ∨ a.to_ = 1 then { a with flow := a.capacity }
            else a))
      ∧ sD.nodesList.length = s0.nodesList.length
      ∧ ∀ (m : Nat) (nd0 : Node), s0.nodesList[m]? = some nd0 →
          sD.nodesList[m]? = some { nd0 with
            outOfTree := outArcs s0.arcList m s0.arcList.length,
            excess := if m < 2 then 0 else excessOf s0.arcList m } := by
  obtain ⟨p1, p2, p3, p4, p5, p6, p7, p8⟩ := hp
  obtain ⟨hN2, hU, hshape, hfresh⟩ := hin
  have hin : FreshInput s0.nodesList s0.arcList := ⟨hN2, hU, hshape, hfresh⟩
  have h0 : s0.nodesList[0]? = some s0.nodesList[0] := List.getElem?_eq_getElem (by omega)
  have h1 : s0.nodesList[1]? = some s0.nodesList[1] := List.getElem?_eq_getElem (by omega)
  -- the first loop
  have e1 : s1.node s1.source = .ok { s0.nodesList[0] with
      outOfTree := outArcs s0.arcList 0 s0.arcList.length } := by
    simp only [State.node, p3, hsrc, p8 _ _ h0, deref]
  obtain ⟨sB, e2, q1, q2, q3, q4, q5, q6, q7, q8, q9⟩ :=
    saturate_fold (fun a => a.to_) 1 (fun _ _ => rfl)
      (outArcs s0.arcList 0 s0.arcList.length) s1 (by
        intro i hi
        have hi' := (outArcs_mem.mp hi).1
        refine ⟨s0.arcList[i], by rw [p1]; exact List.getElem?_eq_getElem hi', ?_⟩
        rw [p7]
        exact (hshape _ (List.getElem_mem hi')).2.1)
  rw [p1] at q7 q9
  rw [p7] at q8
  rw [p1] at q6
  -- the second loop
  have e3 : sB.node sB.sink = .ok { s0.nodesList[1] with
      outOfTree := outArcs s0.arcList 1 s0.arcList.length,
      excess := s0.nodesList[1].excess
        + 1 * capacityInto (fun a => a.to_) s0.arcList
            (outArcs s0.arcList 0 s0.arcList.length) 1 } := by
    simp only [State.node, q3, p4, hsnk, q9 _ _ (p8 _ _ h1), deref]
  obtain ⟨sC, e4, r1, r2, r3, r4, r5, r6, r7, r8, r9⟩ :=
    saturate_fold (fun a => a.from_) (-1) (fun _ _ => rfl)
      (outArcs s0.arcList 1 s0.arcList.length) sB (by
        intro i hi
        have hi' := (outArcs_mem.mp hi).1
        refine ⟨_, q7 _ _ (List.getElem?_eq_getElem hi'), ?_⟩
        rw [q8]
        have := (hshape _ (List.getElem_mem hi')).1
        split <;> exact this)
  have hcongr : ∀ v, capacityInto (fun a => a.from_) sB.arcList
      (outArcs s0.arcList 1 s0.arcList.length) v
        = capacityInto (fun a => a.from_) s0.arcList
            (outArcs s0.arcList 1 s0.arcList.length) v := by
    intro v
    apply capacityInto_congr
    intro j
    cases hj : s0.arcList[j]? with
    | none =>
      have : sB.arcList[j]? = none := by
        rw [List.getElem?_eq_none_iff] at hj ⊢
        omega
      rw [this]
    | some a =>
      rw [q7 _ _ hj]
      split <;> rfl
  -- the nodes after the two loops
  have hC : ∀ (m : Nat) (nd0 : Node), s0.nodesList[m]? = some nd0 →
      sC.nodesList[m]? = some { nd0 with
        outOfTree := outArcs s0.arcList m s0.arcList.length,
        excess := nd0.excess
          + 1 * capacityInto (fun a => a.to_) s0.arcList
              (outArcs s0.arcList 0 s0.arcList.length) m
          + (-1) * capacityInto (fun a => a.from_) s0.arcList
              (outArcs s0.arcList 1 s0.arcList.length) m } := by
    intro m nd0 hm
    rw [r9 _ _ (q9 _ _ (p8 _ _ hm)), hcongr]
  have hC0 := hC _ _ h0
  have hC1 := hC _ _ h1
  have e5 := modNode_source_sink (fun x => { x with excess := 0 })
    (fun x => { x with excess := 0 }) (by rw [r2, q2, p3, hsrc]) (by rw [r3, q3, p4, hsnk])
    hC0 hC1
  refine ⟨_, Eq.trans ?_ e5, ?_, ?_, ?_, ?_, ?_, ?_, ?_, ?_, ?_⟩
  · simp only [e1, ok_bind]
    rw [foldlM_congr_fn saturateSourceArc_eq, e2, ok_bind, e3, ok_bind]
    simp only []
    rw [foldlM_congr_fn saturateSinkArc_eq, e4, ok_bind]
  · simp only [r1, q1, p2]
  · simp only [r2, q2, p3, hsrc]
  · simp only [r3, q3, p4, hsnk]
  · simp only [r4, q4, p5]
  · simp only [r5, q5, p6]
  · simp only [r6, q6]
  · intro j a hj
    have hj' := getElem?_lt hj
    show sC.arcList[j]? = _
    rw [r7 _ _ (q7 _ _ hj)]
    obtain ⟨-, -, -, a4, a5, a6, -⟩ := hshape a (List.getElem?_mem hj)
    have m0 : j ∈ outArcs s0.arcList 0 s0.arcList.length ↔ (a.to_ ≠ 1 ∧ a.from_ = 0) := by
      rw [outArcs_mem, hj]
      simp only [arcGoesTo]
      by_cases h : a.to_ = 1 <;> simp [h, hj']
    have m1 : j ∈ outArcs s0.arcList 1 s0.arcList.length ↔ a.to_ = 1 := by
      rw [outArcs_mem, hj]
      simp only [arcGoesTo]
      by_cases h : a.to_ = 1
      · simp [h, hj']
      · simp [h, a5]
    by_cases c1 : a.to_ = 1
    · rw [if_neg (fun h => (m0.mp h).1 c1), if_pos (m1.mpr c1), if_pos (Or.inr c1)]
    · by_cases c2 : a.from_ = 0
      · rw [if_pos (m0.mpr ⟨c1, c2⟩), if_neg (mt m1.mp c1), if_pos (Or.inl c2)]
      · rw [if_neg (fun h => c2 (m0.mp h).2), if_neg (mt m1.mp c1), if_neg (by
          rintro (h | h)
          · exact c2 h
          · exact c1 h)]
  · simp only [List.length_set, r8, q8]
  · intro m nd0 hm
    show ((sC.nodesList.set 0 _).set 1 _)[m]? = _
    by_cases hm0 : m = 0
    · subst hm0
      rw [h0] at hm
      cases hm
      rw [List.getElem?_set_ne (by decide),
        List.getElem?_set_self (by rw [r8, q8]; omega)]
      simp only [Nat.zero_lt_two, if_true]
    · by_cases hm1 : m = 1
      · subst hm1
        rw [h1] at hm
        cases hm
        rw [List.getElem?_set_self (by rw [List.length_set, r8, q8]; omega)]
        simp only [Nat.one_lt_two, if_true]
      · rw [List.getElem?_set_ne (Ne.symm hm1), List.getElem?_set_ne (Ne.symm hm0), hC _ _ hm]
        have hx : nd0.excess = 0 := (hin.number hm).2.2.1
        have hlt : ¬ m < 2 := by omega
        rw [capacityInto_source _ hm1, capacityInto_sink _ hm1, hx]
        simp only [hlt, if_false, excessOf, Option.some.injEq]
        congr 1
        ring

theorem modNode_ex {s : State} {i k : Nat} {nd : Node} (f : Node → Node) (hk : k = i)
    (h : s.nodesList[i]? = some nd) :
    ∃ s1, s.modNode k f = .ok s1 ∧ s1.nodesList = s.nodesList.set i (f nd)
      ∧ s1.numNodes = s.numNodes ∧ s1.source = s.source ∧ s1.sink = s.sink
      ∧ s1.arcList = s.arcList ∧ s1.strongRoots = s.strongRoots
      ∧ s1.labelCount = s.labelCount := by
  subst hk
  exact ⟨_, modNode_eq f h, rfl, rfl, rfl, rfl, rfl, rfl, rfl⟩

theorem modCount_ex {s : State} {i c : Nat} (f : Nat → Nat) (h : s.labelCount[i]? = some c) :
    ∃ s1, s.modCount i f = .ok s1 ∧ s1.labelCount = s.labelCount.set i (f c)
      ∧ s1.nodesList = s.nodesList
      ∧ s1.numNodes = s.numNodes ∧ s1.source = s.source ∧ s1.sink = s.sink
      ∧ s1.arcList = s.arcList ∧ s1.strongRoots = s.strongRoots :=
  ⟨_, modCount_eq f h, rfl, rfl, rfl, rfl, rfl, rfl, rfl⟩

/-- What `simpleInitialization` returns on the state that
`createMemoryStructures` leaves for fresh input. -/
theorem simpleInitialization_fresh {s0 s1 : State}
    (hin : FreshInput s0.nodesList s0.arcList)
    (hp : PlacedUpTo s0 s0.arcList.length s1) (hsrc : s0.source = 0) (hsnk : s0.sink = 1)
    (hN : s0.numNodes = s0.nodesList.length)
    (hR : s0.strongRoots = List.replicate s0.numNodes initializeRoot)
    (hC : s0.labelCount = List.replicate s0.numNodes 0) :
    ∃ s2, simpleInitialization s1 = .ok s2
      ∧ s2.numNodes = s0.numNodes ∧ s2.source = 0 ∧ s2.sink = 1
      ∧ s2.arcList.length = s0.arcList.length
      ∧ (∀ (j : Nat) (a : Arc), s0.arcList[j]? = some a →
          s2.arcList[j]? = some (if a.from_ = 0 ∨ a.to_ = 1 then { a with flow := a.capacity }
            else a))
      ∧ s2.nodesList.length = s0.nodesList.length
      ∧ (∀ nd0 : Node, s0.nodesList[0]? = some nd0 →
          s2.nodesList[0]? = some { nd0 with
            outOfTree := outArcs s0.arcList 0 s0.arcList.length,
            excess := 0, label := s0.numNodes })
      ∧ (∀ nd0 : Node, s0.nodesList[1]? = some nd0 →
          s2.nodesList[1]? = some { nd0 with
            outOfTree := outArcs s0.arcList 1 s0.arcList.length,
            excess := 0, label := 0 })
      ∧ (∀ (v : Nat) (nd0 : Node), 2 ≤ v → s0.nodesList[v]? = some nd0 →
          s2.nodesList[v]? = some (strongMark (strongNodes s0.arcList s0.numNodes) v
            { nd0 with
              outOfTree := outArcs s0.arcList v s0.arcList.length,
              excess := excessOf s0.arcList v }))
      ∧ s2.strongRoots = s0.strongRoots.set 1
          { start := (strongNodes s0.arcList s0.numNodes).head?,
            end_ := (strongNodes s0.arcList s0.numNodes).getLast? }
      ∧ s2.labelCount = (s0.labelCount.set 1
            ((strongNodes s0.arcList s0.numNodes).length % U32)).set 0
          (subU (subU s0.numNodes 2) ((strongNodes s0.arcList s0.numNodes).length % U32)) := by
  obtain ⟨sD, eD, d1, d2, d3, d4, d5, d6, d7, d8, d9⟩ := saturation_fresh hin hp hsrc hsnk
  have hN2 : 2 ≤ s0.nodesList.length := hin.1
  have h0 : s0.nodesList[0]? = some s0.nodesList[0] := List.getElem?_eq_getElem (by omega)
  have h1 : s0.nodesList[1]? = some s0.nodesList[1] := List.getElem?_eq_getElem (by omega)
  -- the strong nodes
  have hP : strongBelow sD.nodesList sD.nodesList.length = strongNodes s0.arcList s0.numNodes := by
    unfold strongBelow strongNodes
    rw [d8, hN]
    apply List.filter_congr
    intro m hm
    have hm' := List.mem_range.mp hm
    have hnd := d9 _ _ (List.getElem?_eq_getElem hm')
    unfold isStrong
    rw [hnd]
    by_cases h2 : m < 2
    · have : ¬ 2 ≤ m := by omega
      simp [h2, this]
    · have : 2 ≤ m := by omega
      simp [h2, this]
  -- the labelling loop
  have hR1 : sD.strongRoots[1]? = some initializeRoot := by
    rw [d4, hR, List.getElem?_replicate, if_pos (by omega)]
  have hC1 : sD.labelCount[1]? = some 0 := by
    rw [d5, hC, List.getElem?_replicate, if_pos (by omega)]
  obtain ⟨sE, eE, t1, t2, t3, t4, t5, t6, t7, t8⟩ :=
    labelStrong_fold (getElem?_lt hR1) (getElem?_lt hC1) sD.nodesList.length 0 sD (by omega)
      (LabelledUpTo.first hR1 hC1)
  rw [hP] at t5 t6 t8
  have e7 : (List.range sD.numNodes).foldlM labelStrong sD = .ok sE := by
    rw [List.range_eq_range', d1, hN, ← d8]
    exact eE
  -- the last writes
  have hE0 := t8 _ _ (d9 _ _ h0)
  have hE1 := t8 _ _ (d9 _ _ h1)
  obtain ⟨sF1, e8, u1, u2, u3, u4, u5, u6, u7⟩ :=
    @modNode_ex sE 0 sE.source _ (fun x => { x with label := sE.numNodes })
      (by rw [t2, d2]) hE0
  have hF1 : sF1.nodesList[1]? = some (strongMark (strongNodes s0.arcList s0.numNodes) 1
      { s0.nodesList[1] with
        outOfTree := outArcs s0.arcList 1 s0.arcList.length,
        excess := if 1 < 2 then 0 else excessOf s0.arcList 1 }) := by
    rw [u1, List.getElem?_set_ne (by decide)]
    exact hE1
  obtain ⟨sF2, e9, v1, v2, v3, v4, v5, v6, v7⟩ :=
    @modNode_ex sF1 1 sF1.sink _ (fun x => { x with label := 0 })
      (by rw [u4, t3, d3]) hF1
  have hc : sF2.labelCount[1]?
      = some ((strongNodes s0.arcList s0.numNodes).length % U32) := by
    rw [v7, u7, t6, List.getElem?_set_self (by rw [d5]; exact getElem?_lt (by rw [← d5]; exact hC1))]
  have e10 : sF2.count 1 = .ok ((strongNodes s0.arcList s0.numNodes).length % U32) := by
    simp only [State.count, hc, deref]
  have hc0 : sF2.labelCount[0]? = some 0 := by
    rw [v7, u7, t6, List.getElem?_set_ne (by decide), d5, hC, List.getElem?_replicate,
      if_pos (by omega)]
  obtain ⟨sF, e11, w1, w2, w3, w4, w5, w6, w7⟩ :=
    @modCount_ex sF2 0 0 (fun _ => subU (subU sF2.numNodes 2)
      ((strongNodes s0.arcList s0.numNodes).length % U32)) hc0
  -- the run
  obtain ⟨src, a1, eD⟩ := bind_eq_ok.mp eD
  obtain ⟨sB, a2, eD⟩ := bind_eq_ok.mp eD
  obtain ⟨snk, a3, eD⟩ := bind_eq_ok.mp eD
  obtain ⟨sC, a4, eD⟩ := bind_eq_ok.mp eD
  obtain ⟨sD1, a5, a6⟩ := bind_eq_ok.mp eD
  have hnum : sF2.numNodes = s0.numNodes := by rw [v2, u2, t1, d1]
  have z0 : 0 ∉ strongNodes s0.arcList s0.numNodes := by
    simp [strongNodes]
  have z1 : 1 ∉ strongNodes s0.arcList s0.numNodes := by
    simp [strongNodes]
  refine ⟨sF, ?_, ?_, ?_, ?_, ?_, ?_, ?_, ?_, ?_, ?_, ?_, ?_⟩
  · unfold simpleInitialization
    simp only [a1, ok_bind, a2, a3, a4, a5, a6, e7, e8, e9, e10, e11]
  · rw [w3, hnum]
  · rw [w4, v3, u3, t2, d2]
  · rw [w5, v4, u4, t3, d3]
  · rw [w6, v5, u5, t4, d6]
  · intro j a hj
    rw [w6, v5, u5, t4]
    exact d7 j a hj
  · rw [w2, v1, u1, List.length_set, List.length_set, t7, d8]
  · intro nd0 hnd
    rw [h0] at hnd
    cases hnd
    rw [w2, v1, u1, List.getElem?_set_ne (by decide),
      List.getElem?_set_self (by rw [t7, d8]; omega), strongMark_not_mem z0]
    simp only [t1, d1, Nat.zero_lt_two, if_true]
  · intro nd0 hnd
    rw [h1] at hnd
    cases hnd
    rw [w2, v1, List.getElem?_set_self (by rw [u1, List.length_set, t7, d8]; omega),
      strongMark_not_mem z1]
    simp only [Nat.one_lt_two, if_true]
  · intro v nd0 hv hnd
    rw [w2, v1, u1, List.getElem?_set_ne (by omega), List.getElem?_set_ne (by omega),
      t8 _ _ (d9 _ _ hnd), if_neg (by omega)]
  · rw [w7, v6, u6, t5, d4]
  · rw [w1, v7, u7, t6, d5, hnum]

theorem count_single (n x : Nat) (hx : x < n) :
    ((List.range n).filter (fun y => decide (y = x))).length = 1 := by
  rw [← List.countP_eq_length_filter]
  have : List.countP (fun y => decide (y = x)) (List.range n) = List.count x (List.range n) := by
    rw [List.count]
    congr 1
  rw [this, List.count_eq_one_of_mem (List.nodup_range n) (List.mem_range.mpr hx)]

theorem strongNodes_length_le (arcs : List Arc) {n : Nat} (hn : 2 ≤ n) :
    (strongNodes arcs n).length + 2 ≤ n := by
  have key := filter_len_le
    (fun v => decide (2 ≤ v) && decide (0 < excessOf arcs v))
    (fun y => decide (y = 0)) (fun y => decide (y = 1)) (fun _ => true) n (by
      intro x _
      by_cases e0 : x = 0
      · subst e0
        simp
      · by_cases e1 : x = 1
        · subst e1
          simp
        · simp only [e0, e1, decide_False, if_true]
          split <;> simp)
  have c1 := count_single n 0 (by omega)
  have c2 := count_single n 1 (by omega)
  have c3 : ((List.range n).filter (fun _ => true)).length = n := by simp
  unfold strongNodes
  omega

theorem strongNodes_mem {arcs : List Arc} {n v : Nat} :
    v ∈ strongNodes arcs n ↔ v < n ∧ 2 ≤ v ∧ 0 < excessOf arcs v := by
  simp [strongNodes]

theorem subU_small {n k : Nat} (hn : n < U32) (h2 : 2 ≤ n) (hk : k + 2 ≤ n) :
    subU (subU n 2) (k % U32) = n - 2 - k := by
  have hU : U32 = 4294967296 := rfl
  have hk' : k % U32 = k := Nat.mod_eq_of_lt (by omega)
  have h1 : subU n 2 = n - 2 := by
    unfold subU
    rw [Nat.mod_eq_of_lt (show 2 < U32 by omega)]
    have : n + (U32 - 2) = (n - 2) + U32 := by omega
    rw [this, Nat.add_mod_right, Nat.mod_eq_of_lt (by omega)]
  rw [h1, hk']
  unfold subU
  rw [hk']
  have : n - 2 + (U32 - k) = (n - 2 - k) + U32 := by omega
  rw [this, Nat.add_mod_right, Nat.mod_eq_of_lt (by omega)]

/-- A built problem with fewer than 2^32 arcs is fresh input for the engine. -/
theorem Built.fresh {g : Super} {low high : List Int} {lam : ℚ} {p : CutProblem}
    (hb : Built g low high lam p) (hA : p.numArcs < U32) :
    FreshInput p.nodeList p.arcList := by
  obtain ⟨b1, b2, b3, -, -, b6, b7, -, -, -, b11, -⟩ := hb
  refine ⟨by omega, by omega, ?_, ?_⟩
  · intro a ha
    rw [b3]
    exact b7 a ha
  · intro m nd hm
    have hfr := b2.2.2.2.2.2.2.2 m nd.eraseAdjacent (by
      simp only [List.getElem?_map, hm, Option.map_some'])
    have hdeg := b11 m nd hm
    unfold FreshNode at hfr
    cases nd
    simp only [Node.eraseAdjacent, initializeNode, Node.mk.injEq] at hfr hdeg ⊢
    obtain ⟨f1, f2, f3, f4, f5, f6, f7, -, f9, -, f11, f12⟩ := hfr
    exact ⟨f1, f2, f3, f4, f5, f6, f7, hdeg, f9, trivial, f11, f12⟩

/-- C30: on a well-formed super graph, for a problem that
`initializeContractedProblem` built, with fewer than 2^32 nodes and arcs,
`createMemoryStructures` and then `simpleInitialization`, started as
`solveProblem` starts them with the maximal-source flag 0, return, and in the
state they leave: the end points and capacities of the arcs are as built;
every arc out of the source and every arc into the sink has flow = capacity;
source and sink have excess 0, the source has label `numNodes` and the sink
label 0; every interior node `v` has as excess the capacities of the arcs from
the source into `v` less the capacities of the arcs from `v` into the sink,
has label 1 and is in the chain of `strongRoots[1]` when that excess is
positive, and has label 0 and is not in the chain otherwise; `labelCount[1]`
is the number of nodes with label 1 and `labelCount[0]` is
`(numNodes - 2) - labelCount[1]`. -/
theorem simple_initialization (g : Super) (lam : ℚ) (low high : List Int)
    (hg : SuperOK g) (hlow : g.numNodesSuper ≤ low.length)
    (hhigh : g.numNodesSuper ≤ high.length) :
    ∀ p : CutProblem, initializeContractedProblem g lam low high = .ok p →
      p.numArcs < U32 → p.numNodesInList < U32 →
      ∃ s1 s2, createMemoryStructures (startState p) p.numArcs = .ok s1
        ∧ simpleInitialization s1 = .ok s2
        ∧ s2.numNodes = p.numNodesInList
        ∧ s2.arcList.map (fun a : Arc => (a.from_, a.to_, a.capacity))
            = p.arcList.map (fun a : Arc => (a.from_, a.to_, a.capacity))
        ∧ (∀ a ∈ s2.arcList, a.from_ = 0 ∨ a.to_ = 1 → a.flow = a.capacity)
        ∧ (∃ nd, s2.nodesList[0]? = some nd ∧ nd.excess = 0 ∧ nd.label = p.numNodesInList)
        ∧ (∃ nd, s2.nodesList[1]? = some nd ∧ nd.excess = 0 ∧ nd.label = 0)
        ∧ (∃ r, s2.strongRoots[1]? = some r
            ∧ ∀ v, 2 ≤ v → v < p.numNodesInList →
              ∃ nd, s2.nodesList[v]? = some nd
                ∧ nd.excess = capacityBetween p.arcList 0 v - capacityBetween p.arcList v 1
                ∧ (0 < nd.excess →
                    nd.label = 1 ∧ v ∈ bucketChain s2.nodesList s2.numNodes r.start)
                ∧ (¬ 0 < nd.excess →
                    nd.label = 0 ∧ v ∉ bucketChain s2.nodesList s2.numNodes r.start))
        ∧ s2.labelCount[1]?
            = some (s2.nodesList.filter (fun nd => decide (nd.label = 1))).length
        ∧ s2.labelCount[0]?
            = some (p.numNodesInList - 2
                - (s2.nodesList.filter (fun nd => decide (nd.label = 1))).length) := by
  intro p hp hA hV
  have hb := initializeContractedProblem_built hg hlow hhigh hp
  have hin := hb.fresh hA
  have b3 : p.nodeList.length = p.numNodesInList := hb.2.2.1
  have b6 : p.numArcs = p.arcList.length := hb.2.2.2.2.2.1
  have hN2 : 2 ≤ p.numNodesInList := by have := hin.1; omega
  obtain ⟨s1, e1, hpl⟩ := @createMemoryStructures_fresh (startState p) hin rfl rfl
  obtain ⟨s2, e2, f1, -, -, f4, f5, f6, f7, f8, f9, f10, f11⟩ :=
    @simpleInitialization_fresh
      { startState p with
          strongRoots := List.replicate (startState p).numNodes initializeRoot,
          labelCount := List.replicate (startState p).numNodes 0 }
      s1 hin hpl rfl rfl b3.symm rfl rfl
  simp only [startState] at f1 f4 f5 f6 f7 f8 f9 f10 f11
  have h0 : p.nodeList[0]? = some p.nodeList[0] := List.getElem?_eq_getElem (by omega)
  have h1 : p.nodeList[1]? = some p.nodeList[1] := List.getElem?_eq_getElem (by omega)
  have hlen := strongNodes_length_le p.arcList hN2
  have hmod : (strongNodes p.arcList p.numNodesInList).length % U32
      = (strongNodes p.arcList p.numNodesInList).length := Nat.mod_eq_of_lt (by omega)
  -- the chain of the bucket of label 1
  have hchain : bucketChain s2.nodesList s2.numNodes
      (strongNodes p.arcList p.numNodesInList).head? = strongNodes p.arcList p.numNodesInList := by
    refine bucketChain_eq _ _ _ ((List.nodup_range _).filter _) (by rw [f1]; omega) ?_
    intro m hm
    obtain ⟨m1, m2, -⟩ := strongNodes_mem.mp hm
    rw [f9 m _ m2 (List.getElem?_eq_getElem (by omega)), strongMark_mem hm]
    rfl
  -- the nodes with label 1
  have hcount : (s2.nodesList.filter (fun nd => decide (nd.label = 1))).length
      = (strongNodes p.arcList p.numNodesInList).length := by
    have hbr := congrArg List.length (filter_range_bridge hasLabelOne rfl s2.nodesList)
    simp only [List.length_map] at hbr
    have e : (s2.nodesList.filter (fun nd => decide (nd.label = 1)))
        = s2.nodesList.filter (fun a => hasLabelOne (some a)) := rfl
    rw [e, ← hbr, f6, b3]
    unfold strongNodes
    congr 1
    apply List.filter_congr
    intro m hm
    have hm' := List.mem_range.mp hm
    by_cases c0 : m = 0
    · subst c0
      rw [f7 _ h0]
      have : ¬ p.numNodesInList = 1 := by omega
      simp [hasLabelOne, this]
    · by_cases c1 : m = 1
      · subst c1
        rw [f8 _ h1]
        simp [hasLabelOne]
      · have hnd : p.nodeList[m]? = some p.nodeList[m] :=
          List.getElem?_eq_getElem (by omega)
        rw [f9 m _ (by omega) hnd]
        have hl0 : (p.nodeList[m]).label = 0 := (hin.number hnd).2.2.2.1
        by_cases hs : m ∈ strongNodes p.arcList p.numNodesInList
        · obtain ⟨-, s2', s3⟩ := strongNodes_mem.mp hs
          rw [strongMark_mem hs]
          simp [hasLabelOne, s2', s3]
        · rw [strongMark_not_mem hs]
          have : ¬ (2 ≤ m ∧ 0 < excessOf p.arcList m) := fun h =>
            hs (strongNodes_mem.mpr ⟨hm', h.1, h.2⟩)
          have h2m : 2 ≤ m := by omega
          have : ¬ 0 < excessOf p.arcList m := fun h => this ⟨h2m, h⟩
          simp [hasLabelOne, hl0, h2m, this]
  refine ⟨s1, s2, by rw [b6]; exact e1, e2, f1, ?_, ?_, ?_, ?_, ?_, ?_, ?_⟩
  · apply List.ext_getElem?
    intro j
    rw [List.getElem?_map, List.getElem?_map]
    cases hj : p.arcList[j]? with
    | none =>
      have : s2.arcList[j]? = none := by
        rw [List.getElem?_eq_none_iff] at hj ⊢
        omega
      rw [this]
    | some a =>
      rw [f5 _ _ hj]
      split <;> rfl
  · intro a ha hc
    obtain ⟨j, hj⟩ := List.mem_iff_getElem?.mp ha
    have hjl : j < p.arcList.length := by rw [← f4]; exact getElem?_lt hj
    have h := f5 _ _ (List.getElem?_eq_getElem hjl)
    rw [hj] at h
    simp only [Option.some.injEq] at h
    by_cases c : (p.arcList[j]).from_ = 0 ∨ (p.arcList[j]).to_ = 1
    · rw [if_pos c] at h
      rw [h]
    · rw [if_neg c] at h
      rw [h] at hc
      exact absurd hc c
  · exact ⟨_, f7 _ h0, rfl, rfl⟩
  · exact ⟨_, f8 _ h1, rfl, rfl⟩
  · refine ⟨{ start := (strongNodes p.arcList p.numNodesInList).head?,
               end_ := (strongNodes p.arcList p.numNodesInList).getLast? }, ?_, ?_⟩
    · rw [f10]
      exact List.getElem?_set_self (by rw [List.length_replicate]; omega)
    · intro v hv2 hvN
      have hnd : p.nodeList[v]? = some p.nodeList[v] := List.getElem?_eq_getElem (by omega)
      have hl0 : (p.nodeList[v]).label = 0 := (hin.number hnd).2.2.2.1
      refine ⟨_, f9 v _ hv2 hnd, rfl, ?_, ?_⟩
      · intro hpos
        have hs : v ∈ strongNodes p.arcList p.numNodesInList :=
          strongNodes_mem.mpr ⟨hvN, hv2, hpos⟩
        refine ⟨?_, ?_⟩
        · rw [strongMark_mem hs]
        · show v ∈ bucketChain s2.nodesList s2.numNodes
            (strongNodes p.arcList p.numNodesInList).head?
          rw [hchain]
          exact hs
      · intro hneg
        have hs : v ∉ strongNodes p.arcList p.numNodesInList :=
          fun h => hneg (strongNodes_mem.mp h).2.2
        refine ⟨?_, ?_⟩
        · rw [strongMark_not_mem hs]
          exact hl0
        · show v ∉ bucketChain s2.nodesList s2.numNodes
            (strongNodes p.arcList p.numNodesInList).head?
          rw [hchain]
          exact hs
  · rw [f11, hcount, List.getElem?_set_ne (by decide),
      List.getElem?_set_self (by rw [List.length_replicate]; omega), hmod]
  · rw [f11, hcount,
      List.getElem?_set_self (by rw [List.length_set, List.length_replicate]; omega),
      subU_small hV hN2 hlen]

/-- With the maximal-source flag 0 and more than two nodes, a run of
`solveProblem` that returns has started the engine in `startState`. -/
theorem solveProblem_start {fuel : Nat} {g : Super} {p : CutProblem}
    {r : CutProblem × Stats} (h : p.numNodesInList ≠ 2)
    (hs : solveProblem fuel g p 0 = .ok r) :
    ∃ s1 s2 s3, createMemoryStructures (startState p) p.numArcs = .ok s1
      ∧ simpleInitialization s1 = .ok s2 ∧ pseudoflowPhase1 fuel fuel s2 = .ok s3
      ∧ r.1.nodeList = s3.nodesList ∧ r.1.arcList = s3.arcList := by
  rw [solveProblem] at hs
  simp only [h, if_false, show ¬ ((0 : Nat) = 1) by decide] at hs
  obtain ⟨s1, e1, hs⟩ := bind_eq_ok.mp hs
  obtain ⟨s2, e2, hs⟩ := bind_eq_ok.mp hs
  obtain ⟨s3, e3, hs⟩ := bind_eq_ok.mp hs
  obtain ⟨ind1, -, hs⟩ := bind_eq_ok.mp hs
  obtain ⟨ind2, -, hs⟩ := bind_eq_ok.mp hs
  obtain ⟨ind3, -, hs⟩ := bind_eq_ok.mp hs
  obtain ⟨cut, -, hs⟩ := bind_eq_ok.mp hs
  cases hs
  exact ⟨s1, s2, s3, e1, e2, e3, rfl, rfl⟩

/-- C30, an instance: scenario S2 at `lambda = 15` with the source and the
sink as the only known nodes.  The arcs (0,2) and (2,1) of the problem have
the capacities 15 and 10, both get their capacity as flow, the interior node
gets excess 5 and label 1 and is the start of `strongRoots[1]`, and the label
counts are 0 and 1. -/
theorem simple_initialization_witness :
    (initializeContractedProblem (S2 1) 15 [0, 0, 0] [1, 1, 1] >>= fun p =>
      createMemoryStructures (startState p) p.numArcs >>= fun s =>
        (simpleInitialization s).map (fun s =>
          s.nodesList.map (fun nd : Node => (nd.excess, nd.label))))
      = .ok [(0, 3), (0, 0), (5, 1)]
    ∧ (initializeContractedProblem (S2 1) 15 [0, 0, 0] [1, 1, 1] >>= fun p =>
      createMemoryStructures (startState p) p.numArcs >>= fun s =>
        (simpleInitialization s).map (fun s =>
          (s.arcList.map (fun a : Arc => (a.from_, a.to_, a.flow, a.capacity)),
            s.labelCount)))
      = .ok ([(0, 2, 15, 15), (2, 1, 10, 10)], [0, 1, 0])
    ∧ (initializeContractedProblem (S2 1) 15 [0, 0, 0] [1, 1, 1] >>= fun p =>
      createMemoryStructures (startState p) p.numArcs >>= fun s =>
        (simpleInitialization s).map (fun s =>
          s.strongRoots.map (fun r : Root => r.start)))
      = .ok [none, some 2, none]
    ∧ ∀ p : CutProblem, initializeContractedProblem (S2 1) 15 [0, 0, 0] [1, 1, 1] = .ok p →
      p.numArcs < U32 → p.numNodesInList < U32 →
      ∃ s1 s2, createMemoryStructures (startState p) p.numArcs = .ok s1
        ∧ simpleInitialization s1 = .ok s2
        ∧ s2.numNodes = p.numNodesInList
        ∧ s2.arcList.map (fun a : Arc => (a.from_, a.to_, a.capacity))
            = p.arcList.map (fun a : Arc => (a.from_, a.to_, a.capacity))
        ∧ (∀ a ∈ s2.arcList, a.from_ = 0 ∨ a.to_ = 1 → a.flow = a.capacity)
        ∧ (∃ nd, s2.nodesList[0]? = some nd ∧ nd.excess = 0 ∧ nd.label = p.numNodesInList)
        ∧ (∃ nd, s2.nodesList[1]? = some nd ∧ nd.excess = 0 ∧ nd.label = 0)
        ∧ (∃ r, s2.strongRoots[1]? = some r
            ∧ ∀ v, 2 ≤ v → v < p.numNodesInList →
              ∃ nd, s2.nodesList[v]? = some nd
                ∧ nd.excess = capacityBetween p.arcList 0 v - capacityBetween p.arcList v 1
                ∧ (0 < nd.excess →
                    nd.label = 1 ∧ v ∈ bucketChain s2.nodesList s2.numNodes r.start)
                ∧ (¬ 0 < nd.excess →
                    nd.label = 0 ∧ v ∉ bucketChain s2.nodesList s2.numNodes r.start))
        ∧ s2.labelCount[1]?
            = some (s2.nodesList.filter (fun nd => decide (nd.label = 1))).length
        ∧ s2.labelCount[0]?
            = some (p.numNodesInList - 2
                - (s2.nodesList.filter (fun nd => decide (nd.label = 1))).length) :=
  ⟨by decide!, by decide!, by decide!,
    simple_initialization (S2 1) 15 [0, 0, 0] [1, 1, 1] (by decide!) (by decide) (by decide)⟩

/-! ## Sign tests, the rounding flag and `quickSort` -/

theorem steepArc_read : readGraphSuper 3 2 0 2 [0, 1, 0, 2, 1, 2, 6, 0] 0 8 0
    = .ok (steepArc 0, [0, 8, 8]) := by decide!

theorem steepArc_sorted :
    ({ steepArc 0 with arcListSuper := qsort (steepArc 0).arcListSuper } : Super) = steepArc 0 := by
  decide!

theorem steepArc_low : (initializeContractedProblem (steepArc 0) (steepArc 0).LAMBDA_LOW
      (List.replicate (steepArc 0).numNodesSuper 0) (List.replicate (steepArc 0).numNodesSuper 1)
    >>= fun p => (solveProblem 8 (steepArc 0) p 0).map (fun r => r.1.optimalSourceSetIndicator))
    = .ok (some [1, 0, 0]) := by decide!

theorem steepArc_high : (initializeContractedProblem (steepArc 0) (steepArc 0).LAMBDA_HIGH
      (List.replicate (steepArc 0).numNodesSuper 0) (List.replicate (steepArc 0).numNodesSuper 1)
    >>= fun p => (solveProblem 8 (steepArc 0) p 0).map (fun r => r.1.optimalSourceSetIndicator))
    = .ok (some [1, 1, 0]) := by decide!

theorem steepArc_diff :
    differenceSourceSets (steepArc 0) [1, 0, 0] [1, 1, 0] = .ok [0, 1, 0] := by decide!

theorem steepArc_Klow : internalCutCapacity (steepArc 0) [1, 0, 0]
    ((steepArc 0).arcListSuper.take (steepArc 0).numArcsSuper) 0 = .ok 0 := by decide!

theorem steepArc_Khigh : internalCutCapacity (steepArc 0) [1, 1, 0]
    ((steepArc 0).arcListSuper.take (steepArc 0).numArcsSuper) 0 = .ok 6 := by decide!

theorem steepArc_intersect : computeIntersect (steepArc 0) [0, 1, 0] (0 - 6) = .ok 6 := by
  decide!

theorem steepArc_intersect_rounding :
    computeIntersect (steepArc 1) [0, 1, 0] (0 - 6) = .ok 3 := by decide!

theorem steepArc_min :
    (initializeContractedProblem (steepArc 0) (math_max (6 - TOL) (steepArc 0).LAMBDA_LOW)
      [1, 0, 0] [1, 1, 0]
    >>= fun p => (solveProblem 8 (steepArc 0) p 0).map (fun r => r.1.optimalSourceSetIndicator))
    = .ok (some [1, 1, 0]) := by decide!

theorem steepArc_run_rounding : hpf_solve 8 8 3 2 0 2 [0, 1, 0, 2, 1, 2, 6, 0] 0 8 1
    = .ok { numBreakpoints := 2, cuts := [0, 8, 8], breakpoints := [3, 8],
            stats := [0, 0, 0, 0, 2] } := by decide!

/-- C37: the rounding flag matters although no capacity is negative.  On
`steepArc` (arcs `2 * lambda` out of the source and 6 into the sink, range
[0, 8]) every capacity is non-negative on the whole range and the input is
valid for both values of the flag.  With `round_negative_capacity = 1` the
call returns the breakpoints [3, 8] and the cuts array [0, 8, 8]; with the
flag 0 `computeIntersect` also counts the arc into the sink, gives 6 instead
of 3, and the call returns nothing, for any loop bound and depth bound. -/
theorem rounding_flag_matters :
    ValidInput (steepArc 0) ∧ ValidInput (steepArc 1)
    ∧ (∀ a ∈ (steepArc 0).arcListSuper, ∀ lam : ℚ, 0 ≤ lam → lam ≤ 8 →
        0 ≤ a.constant + a.multiplier * lam)
    ∧ computeIntersect (steepArc 0) [0, 1, 0] (0 - 6) = .ok 6
    ∧ computeIntersect (steepArc 1) [0, 1, 0] (0 - 6) = .ok 3
    ∧ (∀ fuel depth : Nat, (hpf_solve (8 + fuel) (8 + depth) 3 2 0 2
        [0, 1, 0, 2, 1, 2, 6, 0] 0 8 1).map
          (fun out => (out.numBreakpoints, out.breakpoints, out.cuts))
            = .ok (2, [3, 8], [0, 8, 8]))
    ∧ (∀ (fuel depth : Nat) (out : Output),
        hpf_solve fuel depth 3 2 0 2 [0, 1, 0, 2, 1, 2, 6, 0] 0 8 0 ≠ .ok out) :=
  ⟨by decide!, by decide!,
    by
      intro a ha lam h0 h8
      simp only [steepArc, superArc, List.mem_cons, List.mem_singleton, List.not_mem_nil,
        or_false] at ha
      rcases ha with rfl | rfl
      · simp only []
        linarith
      · simp only []
        linarith,
    steepArc_intersect, steepArc_intersect_rounding,
    fun fuel depth => by
      rw [hpf_solve_mono (Nat.le_add_right 8 fuel) (Nat.le_add_right 8 depth) _ _ _ _ _ _ _ _ _
        steepArc_run_rounding]
      rfl,
    fun fuel depth out => hpf_solve_never_ok_of_fixpoint steepArc_read steepArc_sorted
      (by decide!) steepArc_low steepArc_high steepArc_diff (by decide!) steepArc_Klow
      steepArc_Khigh steepArc_intersect
      (fun _ _ _ hp hr => solve_indicator_eq steepArc_min hp hr) fuel depth out⟩

/-- C40: `quickSort` does not sort a range of more than six arcs by descending
flow.  Seven arcs with the flows 7, 6, .., 1 (arc `i` at position `i`),
already in descending order, come back in ascending order 1, 2, .., 7: the
partition loop moves the arcs with a flow below the pivot to the left.  Only
the bubble sort used for a range of at most six arcs sorts by descending
flow, as on the six flows 1, 2, .., 6. -/
theorem quickSort_ascending :
    quickSort 20 (arcsWithFlows [7, 6, 5, 4, 3, 2, 1]) [0, 1, 2, 3, 4, 5, 6] 0 6
      = .ok [6, 5, 4, 3, 2, 1, 0]
    ∧ flowsOf (arcsWithFlows [7, 6, 5, 4, 3, 2, 1]) [6, 5, 4, 3, 2, 1, 0]
      = [1, 2, 3, 4, 5, 6, 7]
    ∧ ¬ List.Sorted (fun x y : ℚ => x ≥ y) [1, 2, 3, 4, 5, 6, 7]
    ∧ quickSort 0 (arcsWithFlows [1, 2, 3, 4, 5, 6]) [0, 1, 2, 3, 4, 5] 0 5
      = .ok [5, 4, 3, 2, 1, 0]
    ∧ flowsOf (arcsWithFlows [1, 2, 3, 4, 5, 6]) [5, 4, 3, 2, 1, 0] = [6, 5, 4, 3, 2, 1] :=
  ⟨by decide!, by decide!, by decide!, by decide!, by decide!⟩

/-! ## `findWeakNode` -/

theorem swapRemove_length (l : List Nat) (i : Nat) : (swapRemove l i).length = l.length - 1 := by
  simp [swapRemove]

theorem swapRemove_get (l : List Nat) (i j : Nat) (hj : j + 1 < l.length) :
    (swapRemove l i)[j]? = if j = i then l[l.length - 1]? else l[j]? := by
  have hne : l ≠ [] := by
    intro h
    subst h
    simp at hj
  unfold swapRemove
  rw [List.getElem?_dropLast, List.length_set, if_pos (by omega)]
  by_cases hji : j = i
  · subst hji
    rw [if_pos rfl, List.getElem?_set_self (by omega)]
    rw [← List.getLast?_eq_getElem?, List.getLastD_eq_getLast?,
      List.getLast?_eq_getLast _ hne]
    rfl
  · rw [if_neg hji, List.getElem?_set_ne (fun h => hji h.symm)]

theorem findWeakNodeLoop_spec (s : State) (n : Nat) (nd : Node)
    (hn : s.nodesList[n]? = some nd) :
    ∀ (k i c : Nat), k = nd.outOfTree.length - i → c + k < U32 →
      (∀ (j out : Nat), i ≤ j → nd.outOfTree[j]? = some out → arcReadable s out = true) →
      (∃ i1 out w, i ≤ i1 ∧ nd.outOfTree[i1]? = some out ∧ weakEnd s out = some w
        ∧ (∀ (j o : Nat), i ≤ j → j < i1 → nd.outOfTree[j]? = some o → weakEnd s o = none)
        ∧ findWeakNodeLoop n k { s with numArcScans := c } i
          = .ok ({ s with numArcScans := c + (i1 + 1 - i),
                          nodesList := s.nodesList.set n
                            { nd with nextArc := i1,
                                      outOfTree := swapRemove nd.outOfTree i1 } },
              some (out, w)))
      ∨ ((∀ (j o : Nat), i ≤ j → nd.outOfTree[j]? = some o → weakEnd s o = none)
        ∧ findWeakNodeLoop n k { s with numArcScans := c } i
          = .ok ({ s with numArcScans := c + k,
                          nodesList := s.nodesList.set n
                            { nd with nextArc := nd.outOfTree.length } }, none)) := by
  intro k
  induction k with
  | zero =>
    intro i c hk _ _
    right
    refine ⟨?_, ?_⟩
    · intro j o hij ho
      have := getElem?_lt ho
      omega
    · unfold findWeakNodeLoop
      rw [modNode_eq _ (by exact hn)]
      rfl
  | succ k ih =>
    intro i c hk hc hv
    have hi : i < nd.outOfTree.length := by omega
    obtain ⟨out, hout⟩ : ∃ out, nd.outOfTree[i]? = some out :=
      ⟨_, List.getElem?_eq_getElem hi⟩
    have hr := hv i out (Nat.le_refl i) hout
    unfold arcReadable at hr
    cases ha : s.arcList[out]? with
    | none => rw [ha] at hr; cases hr
    | some a =>
      rw [ha] at hr
      simp only [decide_eq_true_eq] at hr
      obtain ⟨t, ht⟩ : ∃ t, s.nodesList[a.to_]? = some t := ⟨_, List.getElem?_eq_getElem hr.1⟩
      obtain ⟨f, hf⟩ : ∃ f, s.nodesList[a.from_]? = some f :=
        ⟨_, List.getElem?_eq_getElem hr.2⟩
      have hinc : incU c = c + 1 := by
        unfold incU
        exact Nat.mod_eq_of_lt (by omega)
      unfold findWeakNodeLoop
      simp only [State.node, State.arc, hn, hout, ha, ht, hf, deref, ok_bind, hinc]
      by_cases h1 : t.label = subU s.highestStrongLabel 1
      · left
        refine ⟨i, out, a.to_, Nat.le_refl i, hout, ?_, ?_, ?_⟩
        · simp [weakEnd, ha, ht, h1]
        · intro j o h2 h3
          omega
        · rw [if_pos h1, modNode_eq _ (by exact hn)]
          simp only [ok_bind]
          have e : i + 1 - i = 1 := by omega
          rw [e]
      · rw [if_neg h1]
        by_cases h2 : f.label = subU s.highestStrongLabel 1
        · left
          refine ⟨i, out, a.from_, Nat.le_refl i, hout, ?_, ?_, ?_⟩
          · simp [weakEnd, ha, ht, hf, h1, h2]
          · intro j o h3 h4
            omega
          · rw [if_pos h2, modNode_eq _ (by exact hn)]
            simp only [ok_bind]
            have e : i + 1 - i = 1 := by omega
            rw [e]
        · rw [if_neg h2]
          have hw : weakEnd s out = none := by simp [weakEnd, ha, ht, hf, h1, h2]
          rcases ih (i + 1) (c + 1) (by omega) (by omega)
            (fun j o hj ho => hv j o (by omega) ho) with
            ⟨i1, o1, w, h3, h4, h5, h6, h7⟩ | ⟨h3, h4⟩
          · left
            refine ⟨i1, o1, w, by omega, h4, h5, ?_, ?_⟩
            · intro j o hj1 hj2 ho
              rcases Nat.eq_or_lt_of_le hj1 with e | e
              · subst e
                rw [hout] at ho
                cases ho
                exact hw
              · exact h6 j o e hj2 ho
            · rw [h7]
              have e : c + 1 + (i1 + 1 - (i + 1)) = c + (i1 + 1 - i) := by omega
              rw [e]
          · right
            refine ⟨?_, ?_⟩
            · intro j o hj1 ho
              rcases Nat.eq_or_lt_of_le hj1 with e | e
              · subst e
                rw [hout] at ho
                cases ho
                exact hw
              · exact h3 j o e ho
            · rw [h4]
              have e : c + 1 + k = c + (k + 1) := by omega
              rw [e]

theorem mem_drop_of_getElem? {l : List Nat} {a j x : Nat} (h : a ≤ j) (hx : l[j]? = some x) :
    x ∈ l.drop a := by
  have e : (l.drop a)[j - a]? = some x := by
    rw [List.getElem?_drop]
    have e1 : a + (j - a) = j := by omega
    rw [e1]
    exact hx
  exact List.getElem?_mem e

/-- C33: weak-node lookup is a swap-remove.  Let `nd` be the record of node
`n`, let every arc of its out-of-tree array from `nextArc` on be an arc of the
arc array between nodes of the node array, and let the counter `numArcScans`
have room for one step per arc.  Then `findWeakNode` returns: for the least
index `i ≥ nextArc` whose arc has an end point with label
`highestStrongLabel - 1` it returns that arc and that end point (the head
`to` when both have the label), sets `nextArc = i`, shortens the array by one
entry with the last entry moved into position `i`, and adds the `i + 1 -
nextArc` arcs inspected to `numArcScans`; when there is no such index it
returns null, sets `nextArc = numOutOfTree`, leaves the array alone and adds
`numOutOfTree - nextArc` to `numArcScans`. -/
theorem findWeakNode_swap_remove (s : State) (n : Nat) (nd : Node)
    (hn : s.nodesList[n]? = some nd)
    (hv : ∀ out ∈ nd.outOfTree.drop nd.nextArc, arcReadable s out = true)
    (hc : s.numArcScans + nd.outOfTree.length < U32) : WeakLookup s n nd := by
  have key := findWeakNodeLoop_spec s n nd hn (nd.outOfTree.length - nd.nextArc) nd.nextArc
    s.numArcScans rfl (by omega) (fun j out hj ho => hv out (mem_drop_of_getElem? hj ho))
  have hf : findWeakNode s n
      = findWeakNodeLoop n (nd.outOfTree.length - nd.nextArc)
          { s with numArcScans := s.numArcScans } nd.nextArc := by
    unfold findWeakNode
    simp only [State.node, hn, deref, ok_bind, Node.numOutOfTree]
  unfold WeakLookup
  rw [hf]
  rcases key with ⟨i, out, w, h1, h2, h3, h4, h5⟩ | ⟨h1, h2⟩
  · left
    have hi := getElem?_lt h2
    refine ⟨i, out, w, h1, h2, h3, h4, h5, ?_, fun j hj => swapRemove_get _ i j hj⟩
    rw [swapRemove_length]
    omega
  · right
    exact ⟨h1, h2⟩

/-- C33 on the state `grove`: the lookup at the strong root 5, whose array is
[3, 2, 4], passes arc 3 and returns arc 2 with its head 4; the array becomes
[3, 4], `nextArc` is 1 and `numArcScans` has grown from 10 to 12. -/
theorem findWeakNode_swap_remove_witness :
    WeakLookup grove 5 (treeNode none none none none [3, 2, 4] 2 5)
    ∧ (findWeakNode grove 5).map
        (fun r => (r.2, r.1.numArcScans, (r.1.nodesList[5]?).map
          (fun x => (x.outOfTree, x.nextArc))))
      = .ok (some (2, 4), 12, some ([3, 4], 1)) :=
  ⟨findWeakNode_swap_remove grove 5 (treeNode none none none none [3, 2, 4] 2 5)
      (by decide) (by decide) (by decide),
    by decide!⟩

/-! ## Chains through `next` -/

theorem isChain_nil {nl : List Node} {start : Option Nat} :
    isChain nl start [] = true ↔ start = none := by
  cases start <;> simp [isChain]

theorem isChain_cons {nl : List Node} {start : Option Nat} {b : Nat} {rest : List Nat} :
    isChain nl start (b :: rest) = true
      ↔ start = some b ∧ ∃ nd, nl[b]? = some nd ∧ isChain nl nd.next rest = true := by
  cases start with
  | none => simp [isChain]
  | some a =>
    by_cases hab : a = b
    · subst hab
      cases h : nl[a]? with
      | none => simp [isChain, h]
      | some nd => simp [isChain, h]
    · have : ¬ some a = some b := fun h => hab (Option.some.inj h)
      cases h : nl[a]? with
      | none => simp [isChain, h, hab]
      | some nd => simp [isChain, h, hab]

theorem isChain_head {nl : List Node} {start : Option Nat} {L : List Nat}
    (h : isChain nl start L = true) : start = L.head? := by
  cases L with
  | nil => simpa using isChain_nil.mp h
  | cons b rest => simpa using (isChain_cons.mp h).1

theorem isChain_mem {nl : List Node} :
    ∀ {L : List Nat} {start : Option Nat}, isChain nl start L = true →
      ∀ m ∈ L, ∃ nd, nl[m]? = some nd := by
  intro L
  induction L with
  | nil => intro _ _ m hm; cases hm
  | cons b rest ih =>
    intro start h m hm
    obtain ⟨_, nd, hnd, hr⟩ := isChain_cons.mp h
    rcases List.mem_cons.mp hm with e | e
    · subst e
      exact ⟨nd, hnd⟩
    · exact ih hr m e

theorem isChain_split {nl : List Node} :
    ∀ {A : List Nat} {start : Option Nat} {m : Nat} {C : List Nat},
      isChain nl start (A ++ m :: C) = true →
      ∃ nd, nl[m]? = some nd ∧ isChain nl nd.next C = true := by
  intro A
  induction A with
  | nil =>
    intro start m C h
    obtain ⟨_, nd, hnd, hr⟩ := isChain_cons.mp h
    exact ⟨nd, hnd, hr⟩
  | cons a A ih =>
    intro start m C h
    obtain ⟨_, nd, _, hr⟩ := isChain_cons.mp h
    exact ih hr

/-- In a chain without repetition, the node whose `next` is `c` stands right
before `c`. -/
theorem isChain_pred {nl : List Node} {start : Option Nat} {L : List Nat} {m c : Nat}
    {nd : Node} (h : isChain nl start L = true) (hn : L.Nodup) (hm : m ∈ L)
    (hnd : nl[m]? = some nd) (hc : nd.next = some c) :
    ∃ A C, L = A ++ m :: c :: C := by
  obtain ⟨A, C, rfl⟩ := List.append_of_mem hm
  obtain ⟨nd1, h1, h2⟩ := isChain_split h
  rw [hnd] at h1
  cases h1
  have h3 := isChain_head h2
  rw [hc] at h3
  cases C with
  | nil => cases h3
  | cons x C =>
    simp only [List.head?_cons, Option.some.injEq] at h3
    subst h3
    exact ⟨A, C, rfl⟩

theorem isChain_congr {nl nl1 : List Node} :
    ∀ {L : List Nat} {start : Option Nat},
      (∀ m ∈ L, ∀ nd, nl[m]? = some nd → ∃ nd1, nl1[m]? = some nd1 ∧ nd1.next = nd.next) →
      isChain nl start L = true → isChain nl1 start L = true := by
  intro L
  induction L with
  | nil =>
    intro start _ h
    exact isChain_nil.mpr (isChain_nil.mp h)
  | cons b rest ih =>
    intro start hf h
    obtain ⟨hs, nd, hnd, hr⟩ := isChain_cons.mp h
    obtain ⟨nd1, h1, h2⟩ := hf b (List.mem_cons_self _ _) nd hnd
    refine isChain_cons.mpr ⟨hs, nd1, h1, ?_⟩
    rw [h2]
    exact ih (fun m hm => hf m (List.mem_cons_of_mem _ hm)) hr

theorem isChain_unique {nl : List Node} :
    ∀ {L K : List Nat} {start : Option Nat},
      isChain nl start L = true → isChain nl start K = true → L = K := by
  intro L
  induction L with
  | nil =>
    intro K start h1 h2
    have e := isChain_nil.mp h1
    subst e
    cases K with
    | nil => rfl
    | cons a K => simp [isChain] at h2
  | cons b rest ih =>
    intro K start h1 h2
    obtain ⟨hs, nd, hnd, hr⟩ := isChain_cons.mp h1
    subst hs
    cases K with
    | nil => simp [isChain] at h2
    | cons a K =>
      obtain ⟨hs2, nd2, hnd2, hr2⟩ := isChain_cons.mp h2
      cases hs2
      rw [hnd] at hnd2
      cases hnd2
      rw [ih hr hr2]

/-! ## Lists of node records changed record by record -/

theorem mapIdx_congr_nodes {nl : List Node} {F G : Nat → Node → Node}
    (h : ∀ (m : Nat) (nd : Node), nl[m]? = some nd → F m nd = G m nd) :
    nl.mapIdx F = nl.mapIdx G := by
  apply List.ext_getElem?
  intro m
  rw [List.getElem?_mapIdx, List.getElem?_mapIdx]
  cases hm : nl[m]? with
  | none => rfl
  | some nd => simp only [Option.map_some', h m nd hm]

theorem set_eq_mapIdx {nl : List Node} {i : Nat} {nd : Node} (f : Node → Node)
    (h : nl[i]? = some nd) :
    nl.set i (f nd) = nl.mapIdx (fun m x => if m = i then f x else x) := by
  apply List.ext_getElem?
  intro m
  rw [List.getElem?_mapIdx, List.getElem?_set]
  by_cases hm : i = m
  · subst hm
    rw [if_pos rfl, if_pos (getElem?_lt h), h]
    simp
  · rw [if_neg hm]
    cases nl[m]? with
    | none => rfl
    | some x =>
      have hmi : ¬ m = i := fun e => hm e.symm
      simp only [Option.map_some', if_neg hmi]

theorem mapIdx_mapIdx_nodes (nl : List Node) (F G : Nat → Node → Node) :
    (nl.mapIdx F).mapIdx G = nl.mapIdx (fun m x => G m (F m x)) := by
  apply List.ext_getElem?
  intro m
  simp only [List.getElem?_mapIdx, Option.map_map]
  rfl

theorem getElem?_mapIdx_some {nl : List Node} {F : Nat → Node → Node} {m : Nat} {nd : Node}
    (h : nl[m]? = some nd) : (nl.mapIdx F)[m]? = some (F m nd) := by
  rw [List.getElem?_mapIdx, h]
  rfl

/-- Writing through a node pointer, as a change of every record. -/
theorem modNode_mapIdx {s : State} {i : Nat} {nd : Node} (f : Node → Node)
    (h : s.nodesList[i]? = some nd) :
    s.modNode i f
      = .ok { s with nodesList := s.nodesList.mapIdx (fun m x => if m = i then f x else x) } := by
  rw [modNode_eq f h, set_eq_mapIdx f h]

/-- Writing through a pointer to a node of the array, as a change of every
record. -/
theorem modNode_lt {s : State} {i : Nat} (f : Node → Node) (h : i < s.nodesList.length) :
    s.modNode i f
      = .ok { s with nodesList := s.nodesList.mapIdx (fun m x => if m = i then f x else x) } :=
  modNode_mapIdx f (List.getElem?_eq_getElem h)

/-! ## `breakRelationship`, `addRelationship`, `addToStrongBucket` -/

theorem head_ne_of_nodup {A : List Nat} {prev c : Nat} {C : List Nat}
    (hn : (A ++ prev :: c :: C).Nodup) : (A ++ prev :: c :: C).head? ≠ some c := by
  cases A with
  | nil =>
    simp only [List.nil_append, List.head?_cons, ne_eq, Option.some.injEq]
    intro e
    subst e
    simp at hn
  | cons a A =>
    simp only [List.cons_append, List.head?_cons, ne_eq, Option.some.injEq]
    intro e
    subst e
    simp at hn

theorem findPrevSibling_spec {s : State} {c : Nat} :
    ∀ (A : List Nat) (prev : Nat) (C : List Nat) (start : Option Nat) (fuel : Nat),
      isChain s.nodesList start (A ++ prev :: c :: C) = true →
      (A ++ prev :: c :: C).Nodup → A.length < fuel →
      ∃ first, start = some first ∧ findPrevSibling s c fuel first = .ok prev := by
  intro A
  induction A with
  | nil =>
    intro prev C start fuel h _ hf
    obtain ⟨hs, nd, hnd, hr⟩ := isChain_cons.mp h
    obtain ⟨hs2, _⟩ := isChain_cons.mp hr
    cases fuel with
    | zero => omega
    | succ fuel =>
      refine ⟨prev, hs, ?_⟩
      unfold findPrevSibling
      simp only [State.node, hnd, deref, ok_bind, hs2, if_true]
  | cons a A ih =>
    intro prev C start fuel h hn hf
    obtain ⟨hs, nd, hnd, hr⟩ := isChain_cons.mp h
    have hn1 : (A ++ prev :: c :: C).Nodup := (List.nodup_cons.mp hn).2
    cases fuel with
    | zero => simp at hf
    | succ fuel =>
      obtain ⟨first, h1, h2⟩ := ih prev C nd.next fuel hr hn1 (by simpa using hf)
      refine ⟨a, hs, ?_⟩
      have hne : nd.next ≠ some c := by
        rw [isChain_head hr]
        exact head_ne_of_nodup hn1
      rw [h1] at hne
      unfold findPrevSibling
      simp only [State.node, hnd, deref, ok_bind, h1, if_neg hne]
      exact h2

theorem erase_head_cons {c : Nat} {rest : List Nat} : ((c :: rest).erase c) = rest := by
  simp

theorem erase_middle {A : List Nat} {c : Nat} {C : List Nat} (h : c ∉ A) :
    (A ++ c :: C).erase c = A ++ C := by
  induction A with
  | nil => simp
  | cons a A ih =>
    have hac : a ≠ c := fun e => h (by simp [e])
    have hA : c ∉ A := fun e => h (List.mem_cons_of_mem _ e)
    rw [List.cons_append, List.erase_cons_tail (by simpa using hac), ih hA]
    rfl

theorem addRelationship_eq {s : State} {newParent child : Nat} {p c : Node}
    (hp : s.nodesList[newParent]? = some p) (hc : s.nodesList[child]? = some c) :
    addRelationship s newParent child
      = .ok { s with nodesList := s.nodesList.mapIdx (attached newParent child p.childList) } := by
  unfold addRelationship
  simp only [State.node, hp, deref, ok_bind]
  rw [modNode_mapIdx _ hc]
  simp only [ok_bind]
  rw [modNode_mapIdx _ (getElem?_mapIdx_some hp)]
  simp only [mapIdx_mapIdx_nodes]
  congr 2
  apply mapIdx_congr_nodes
  intro m nd _
  unfold attached
  by_cases h1 : m = child
  · subst h1
    by_cases h2 : m = newParent
    · subst h2
      simp
    · simp [h2]
  · by_cases h2 : m = newParent
    · subst h2
      simp [h1]
    · simp [h1, h2]

/-- The node right before `c` in a list without repetition is unique. -/
theorem pred_unique {A A2 C C2 : List Nat} {prev m c : Nat}
    (hn : (A ++ prev :: c :: C).Nodup) (h : A ++ prev :: c :: C = A2 ++ m :: c :: C2) :
    m = prev := by
  have h1 : (A ++ [prev]) ++ c :: C = (A2 ++ [m]) ++ c :: C2 := by simpa using h
  have hn1 : ((A ++ [prev]) ++ c :: C).Nodup := by simpa using hn
  have hc1 : c ∉ A ++ [prev] := fun hc =>
    (List.nodup_append.mp hn1).2.2 hc (List.mem_cons_self _ _)
  have hc2 : c ∉ C := (List.nodup_cons.mp (List.nodup_append.mp hn1).2.1).1
  have h2 := (List.append_cons_inj_of_not_mem hc1 hc2).mp h1
  have h3 := List.append_inj_right' h2.1 rfl
  simpa using h3.symm

/-- The first node of a chain without repetition is nobody's `next`. -/
theorem no_pred_of_head {nl : List Node} {start : Option Nat} {c m : Nat} {rest : List Nat}
    {nd : Node} (h : isChain nl start (c :: rest) = true) (hn : (c :: rest).Nodup)
    (hm : m ∈ c :: rest) (hnd : nl[m]? = some nd) : nd.next ≠ some c := by
  intro hc
  obtain ⟨A, C, e⟩ := isChain_pred h hn hm hnd hc
  have hcr : c ∉ rest := (List.nodup_cons.mp hn).1
  cases A with
  | nil =>
    simp only [List.nil_append, List.cons.injEq] at e
    exact hcr (e.2 ▸ List.mem_cons_self _ _)
  | cons a A =>
    simp only [List.cons_append, List.cons.injEq] at e
    exact hcr (e.2 ▸ by simp)

theorem breakRelationship_eq {s : State} {oldParent child : Nat} {p c : Node} {L : List Nat}
    {fuel : Nat} (hne : oldParent ≠ child) (hp : s.nodesList[oldParent]? = some p)
    (hc : s.nodesList[child]? = some c) (hL : isChain s.nodesList p.childList L = true)
    (hn : L.Nodup) (hm : child ∈ L) (hpL : oldParent ∉ L) (hf : L.length ≤ fuel) :
    breakRelationship fuel s oldParent child
      = .ok { s with nodesList := s.nodesList.mapIdx (detached oldParent child L c.next) } := by
  have hcn : child ≠ oldParent := fun e => hne e.symm
  obtain ⟨F1, hF1⟩ : ∃ F1 : Nat → Node → Node,
      F1 = fun m x => if m = child then { x with parent := none } else x := ⟨_, rfl⟩
  have hp1 : (s.nodesList.mapIdx F1)[oldParent]? = some p := by
    rw [getElem?_mapIdx_some hp, hF1]
    simp only [if_neg hne]
  have hc1 : (s.nodesList.mapIdx F1)[child]? = some { c with parent := none } := by
    rw [getElem?_mapIdx_some hc, hF1]
    simp only [if_true]
  unfold breakRelationship
  rw [modNode_mapIdx _ hc, ← hF1]
  simp only [ok_bind, State.node, hp1, hc1, deref]
  by_cases hfirst : p.childList = some child
  · rw [if_pos hfirst]
    have hh := isChain_head hL
    rw [hfirst] at hh
    obtain ⟨rest, hrest⟩ : ∃ rest, L = child :: rest := by
      cases L with
      | nil => cases hh
      | cons b rest =>
        simp only [List.head?_cons, Option.some.injEq] at hh
        exact ⟨rest, by rw [hh]⟩
    obtain ⟨_, c1, hc2, hr⟩ := isChain_cons.mp (hrest ▸ hL)
    rw [hc] at hc2
    cases hc2
    have hcnext := isChain_head hr
    have herase : L.erase child = rest := by
      rw [hrest]
      simp
    rw [modNode_mapIdx _ hp1]
    simp only [ok_bind]
    have hc3 : ((s.nodesList.mapIdx F1).mapIdx
        (fun m x => if m = oldParent then { x with childList := c.next } else x))[child]?
        = some { c with parent := none } := by
      rw [getElem?_mapIdx_some hc1]
      simp only [if_neg hcn]
    rw [modNode_mapIdx _ hc3]
    simp only [mapIdx_mapIdx_nodes]
    congr 2
    apply mapIdx_congr_nodes
    intro m nd hnd
    have hx : ¬ (m ∈ L ∧ nd.next = some child) := fun hx =>
      no_pred_of_head (hrest ▸ hL) (hrest ▸ hn) (hrest ▸ hx.1) hnd hx.2
    unfold detached
    rw [herase, ← hcnext, hF1]
    by_cases h1 : m = child
    · have h2 : ¬ m = oldParent := fun e => hcn (h1.symm.trans e)
      simp [h1, h2, hcn]
    · by_cases h2 : m = oldParent
      · have hx2 := hx
        rw [h2] at hx2
        simp [h1, h2, hx2, hne]
      · simp [h1, h2, hx]
  · rw [if_neg hfirst]
    obtain ⟨A1, C, hAC⟩ := List.append_of_mem hm
    have hA1 : A1 ≠ [] := by
      intro e
      subst e
      rw [hAC] at hL
      exact hfirst (isChain_cons.mp hL).1
    obtain ⟨A, prev, hAp⟩ : ∃ A prev, A1 = A ++ [prev] :=
      ⟨A1.dropLast, A1.getLast hA1, (List.dropLast_append_getLast hA1).symm⟩
    have hL2 : L = A ++ prev :: child :: C := by
      rw [hAC, hAp]
      simp
    have hL3 : isChain s.nodesList p.childList (A ++ prev :: child :: C) = true := hL2 ▸ hL
    have hn3 : (A ++ prev :: child :: C).Nodup := hL2 ▸ hn
    have hchain1 : isChain (s.nodesList.mapIdx F1) p.childList
        (A ++ prev :: child :: C) = true := by
      refine isChain_congr ?_ hL3
      intro m _ nd hnd
      refine ⟨_, getElem?_mapIdx_some hnd, ?_⟩
      rw [hF1]
      by_cases h1 : m = child
      · simp [h1]
      · simp [h1]
    have hlen : A.length < fuel := by
      rw [hL2] at hf
      simp at hf
      omega
    obtain ⟨first, hfst, hfind⟩ := @findPrevSibling_spec
      { s with nodesList := s.nodesList.mapIdx F1 } child A prev C p.childList fuel
      hchain1 hn3 hlen
    rw [hfst]
    simp only [deref, ok_bind, hfind]
    obtain ⟨ndp, hndp, hnext⟩ := isChain_split hL3
    have hpc : prev ≠ child := by
      intro e
      have h5 := (List.nodup_cons.mp (List.nodup_append.mp hn3).2.1).1
      exact h5 (e ▸ List.mem_cons_self _ _)
    have hprevnext : ndp.next = some child := (isChain_cons.mp hnext).1
    obtain ⟨_, c1, hc2, hr⟩ := isChain_cons.mp hnext
    rw [hc] at hc2
    cases hc2
    have hndp1 : (s.nodesList.mapIdx F1)[prev]? = some ndp := by
      rw [getElem?_mapIdx_some hndp, hF1]
      simp only [if_neg hpc]
    rw [modNode_mapIdx _ hndp1]
    simp only [ok_bind]
    have hc3 : ((s.nodesList.mapIdx F1).mapIdx
        (fun m x => if m = prev then { x with next := c.next } else x))[child]?
        = some { c with parent := none } := by
      rw [getElem?_mapIdx_some hc1]
      simp only [if_neg hpc.symm]
    rw [modNode_mapIdx _ hc3]
    simp only [mapIdx_mapIdx_nodes]
    congr 2
    apply mapIdx_congr_nodes
    intro m nd hnd
    have hnotin : child ∉ A ++ [prev] := by
      intro hx
      have hn1 : ((A ++ [prev]) ++ child :: C).Nodup := by simpa using hn3
      exact (List.nodup_append.mp hn1).2.2 hx (List.mem_cons_self _ _)
    have herase : L.erase child = A ++ prev :: C := by
      have e1 : L = (A ++ [prev]) ++ child :: C := by rw [hL2]; simp
      rw [e1, erase_middle hnotin]
      simp
    have hhead : (A ++ prev :: C).head? = p.childList := by
      rw [isChain_head hL3]
      cases A <;> rfl
    unfold detached
    rw [herase, hhead, hF1]
    by_cases h1 : m = child
    · have h2 : ¬ m = oldParent := fun e => hcn (h1.symm.trans e)
      have h3 : ¬ m = prev := fun e => hpc (e.symm.trans h1)
      simp [h1, h2, hcn, hpc.symm]
    · by_cases h2 : m = prev
      · have e : nd = ndp := by
          rw [h2, hndp] at hnd
          exact (Option.some.inj hnd).symm
        have hin : prev ∈ L := by rw [hL2]; simp
        have h4 : ¬ prev = oldParent := fun e => hpL (e ▸ hin)
        simp [h1, h2, e, hin, hprevnext, hpc, h4]
      · have hx : ¬ (m ∈ L ∧ nd.next = some child) := by
          intro hx
          obtain ⟨A2, C2, e⟩ := isChain_pred hL hn hx.1 hnd hx.2
          exact h2 (pred_unique hn3 (hL2.symm.trans e))
        by_cases h3 : m = oldParent
        · have hx2 := hx
          have h4 : ¬ oldParent = prev := fun e => h2 (h3.trans e)
          have e2 : nd = p := by
            rw [h3, hp] at hnd
            exact (Option.some.inj hnd).symm
          rw [h3] at hx2
          simp [h1, h2, h3, hne, h4, e2, hpL]
        · simp [h1, h2, h3, hx]

/-! ## Chains after the tree operations -/

theorem modRoot_eq {s : State} {i : Nat} {r : Root} (f : Root → Root)
    (h : s.strongRoots[i]? = some r) :
    s.modRoot i f = .ok { s with strongRoots := s.strongRoots.set i (f r) } := by
  unfold State.modRoot
  rw [h]

theorem isBucket_iff {nl : List Node} {rb : Root} {B : List Nat} :
    isBucket nl rb B = true
      ↔ isChain nl rb.start B = true ∧ (B = [] ∨ rb.end_ = B.getLast?) := by
  unfold isBucket
  simp [List.isEmpty_iff]

theorem addToStrongBucket_eq {s : State} {newRoot bucket : Nat} {rb : Root} {r : Node}
    {B : List Nat} (hb : s.strongRoots[bucket]? = some rb)
    (hB : isBucket s.nodesList rb B = true) (hr : s.nodesList[newRoot]? = some r) :
    addToStrongBucket s newRoot bucket
      = .ok { s with
          nodesList := s.nodesList.mapIdx (enqueued newRoot B)
          strongRoots := s.strongRoots.set bucket
            { start := (B ++ [newRoot]).head?, end_ := some newRoot } } := by
  obtain ⟨hch, hend⟩ := isBucket_iff.mp hB
  have hstart := isChain_head hch
  unfold addToStrongBucket
  simp only [State.root, hb, deref, ok_bind]
  cases B with
  | nil =>
    have hs : rb.start = none := by simpa using hstart
    rw [hs]
    simp only [State.modRoot, hb, ok_bind, State.modNode, hr]
    rw [set_eq_mapIdx (fun x => { x with next := none }) hr]
    congr 2
    apply mapIdx_congr_nodes
    intro m nd _
    unfold enqueued
    by_cases h1 : m = newRoot
    · simp [h1]
    · simp [h1]
  | cons b B =>
    have hs : rb.start = some b := by simpa using hstart
    have hne : b :: B ≠ [] := List.cons_ne_nil _ _
    have he : rb.end_ = some ((b :: B).getLast hne) := by
      rcases hend with h | h
      · cases h
      · rw [h, List.getLast?_eq_getLast _ hne]
    obtain ⟨nde, hnde⟩ := isChain_mem hch _ (List.getLast_mem hne)
    obtain ⟨e, hee⟩ : ∃ e, e = (b :: B).getLast hne := ⟨_, rfl⟩
    rw [← hee] at he hnde
    have hlast : (b :: B).getLast? = some e := by rw [List.getLast?_eq_getLast _ hne, hee]
    rw [hs]
    have e1 : ({ rb with end_ := some newRoot } : Root)
        = { start := (b :: B ++ [newRoot]).head?, end_ := some newRoot } := by
      cases rb
      simp only [List.cons_append, List.head?_cons] at hs ⊢
      rw [hs]
    have hlen := getElem?_lt hr
    have hlen2 := getElem?_lt hnde
    simp only [he, deref, State.modRoot, hb, modNode_lt, hlen2, hlen, List.length_mapIdx,
      ok_bind, mapIdx_mapIdx_nodes, e1]
    congr 2
    apply mapIdx_congr_nodes
    intro m nd _
    unfold enqueued
    rw [hlast]
    by_cases h1 : m = newRoot
    · simp only [if_pos h1]
      split <;> rfl
    · by_cases h2 : m = e
      · have h4 : ¬ e = newRoot := fun x => h1 (h2.trans x)
        simp only [h2, if_neg h4, if_true]
      · have h3 : ¬ some e = some m := fun x => h2 (Option.some.inj x).symm
        simp only [if_neg h1, if_neg h2, if_neg h3]

/-- After `breakRelationship`, the child list of the old parent is the old
one without the child. -/
theorem isChain_detached {nl : List Node} {oldParent child : Nat} {c : Node} {L : List Nat}
    {start : Option Nat} (hc : nl[child]? = some c) (hL : isChain nl start L = true)
    (hn : L.Nodup) (hm : child ∈ L) :
    isChain (nl.mapIdx (detached oldParent child L c.next)) (L.erase child).head?
      (L.erase child) = true := by
  obtain ⟨A, C, hAC⟩ := List.append_of_mem hm
  have hn1 : (A ++ child :: C).Nodup := hAC ▸ hn
  have hcA : child ∉ A := fun hx =>
    (List.nodup_append.mp hn1).2.2 hx (List.mem_cons_self _ _)
  have hcC : child ∉ C := (List.nodup_cons.mp (List.nodup_append.mp hn1).2.1).1
  have herase : L.erase child = A ++ C := by rw [hAC, erase_middle hcA]
  rw [herase]
  have key : ∀ (A1 : List Nat) (st : Option Nat), (∀ m ∈ A1, m ∈ A) →
      isChain nl st (A1 ++ child :: C) = true →
      isChain (nl.mapIdx (detached oldParent child L c.next)) (A1 ++ C).head? (A1 ++ C)
        = true := by
    intro A1
    induction A1 with
    | nil =>
      intro st _ h
      obtain ⟨_, c1, hc1, hr⟩ := isChain_cons.mp h
      rw [hc] at hc1
      cases hc1
      simp only [List.nil_append]
      rw [← isChain_head hr]
      refine isChain_congr ?_ hr
      intro m hmC nd hnd
      refine ⟨_, getElem?_mapIdx_some hnd, ?_⟩
      have h1 : m ≠ child := fun e => hcC (e ▸ hmC)
      have hmL : m ∈ L := by rw [hAC]; simp [hmC]
      have h2 : ¬ (m ∈ L ∧ nd.next = some child) := by
        intro hx
        obtain ⟨A2, C2, e⟩ := isChain_pred hL hn hmL hnd hx.2
        obtain ⟨X, Y, hXY⟩ := List.append_of_mem hmC
        have e3 : (A ++ child :: X) ++ m :: Y = A2 ++ m :: child :: C2 := by
          rw [← e, hAC, hXY]
          simp
        have hn2 : ((A ++ child :: X) ++ m :: Y).Nodup := by
          rw [e3, ← e]
          exact hn
        have hm1 : m ∉ A ++ child :: X := fun hx1 =>
          (List.nodup_append.mp hn2).2.2 hx1 (List.mem_cons_self _ _)
        have hm2 : m ∉ Y := (List.nodup_cons.mp (List.nodup_append.mp hn2).2.1).1
        have e4 := ((List.append_cons_inj_of_not_mem hm1 hm2).mp e3).2.2
        have : child ∈ Y := by rw [e4]; exact List.mem_cons_self _ _
        exact hcC (by rw [hXY]; simp [this])
      simp only [detached, if_neg h1, if_neg h2]
    | cons a A1 ih =>
      intro st hsub h
      obtain ⟨_, nd, hnd, hr⟩ := isChain_cons.mp h
      have haA : a ∈ A := hsub a (List.mem_cons_self _ _)
      have h1 : a ≠ child := fun e => hcA (e ▸ haA)
      have haL : a ∈ L := by rw [hAC]; simp [haA]
      have ih1 := ih nd.next (fun m hm1 => hsub m (List.mem_cons_of_mem _ hm1)) hr
      simp only [List.cons_append, List.head?_cons]
      refine isChain_cons.mpr ⟨rfl, _, getElem?_mapIdx_some hnd, ?_⟩
      have hnext : (detached oldParent child L c.next a nd).next = (A1 ++ C).head? := by
        simp only [detached, if_neg h1]
        cases A1 with
        | nil =>
          have hr0 : isChain nl nd.next (child :: C) = true := hr
          obtain ⟨hh, c1, hc1, hr1⟩ := isChain_cons.mp hr0
          rw [hc] at hc1
          cases hc1
          rw [if_pos ⟨haL, hh⟩]
          simpa using isChain_head hr1
        | cons x A2 =>
          have hr0 : isChain nl nd.next (x :: (A2 ++ child :: C)) = true := hr
          have hh := (isChain_cons.mp hr0).1
          have hx : x ≠ child := fun e =>
            hcA (e ▸ hsub x (by simp))
          have h2 : ¬ (a ∈ L ∧ nd.next = some child) := by
            intro h3
            rw [hh] at h3
            exact hx (Option.some.inj h3.2)
          rw [if_neg h2, hh]
          rfl
      rw [hnext]
      exact ih1
  exact key A start (fun _ h => h) (hAC ▸ hL)

/-! ## The tree operations as changes of the state -/

theorem modNode_ex2 {s : State} {i : Nat} {nd : Node} (f : Node → Node)
    (h : s.nodesList[i]? = some nd) :
    ∃ s1, s.modNode i f = .ok s1
      ∧ s1.nodesList = s.nodesList.mapIdx (fun m x => if m = i then f x else x)
      ∧ s1.arcList = s.arcList ∧ s1.strongRoots = s.strongRoots ∧ s1.rest = s.rest :=
  ⟨_, modNode_mapIdx f h, rfl, rfl, rfl, rfl⟩

theorem modArc_ex2 {s : State} {i : Nat} {a : Arc} (f : Arc → Arc)
    (h : s.arcList[i]? = some a) :
    ∃ s1, s.modArc i f = .ok s1 ∧ s1.nodesList = s.nodesList
      ∧ s1.arcList = s.arcList.set i (f a) ∧ s1.strongRoots = s.strongRoots
      ∧ s1.rest = s.rest := by
  refine ⟨{ s with arcList := s.arcList.set i (f a) }, ?_, rfl, rfl, rfl, rfl⟩
  unfold State.modArc
  rw [h]

theorem addOutOfTreeNode_ex (out : Nat) {s : State} {n : Nat} {nd : Node}
    (h : s.nodesList[n]? = some nd) (hroom : nd.outOfTree.length < nd.numAdjacent) :
    ∃ s1, addOutOfTreeNode s n out = .ok s1
      ∧ s1.nodesList = s.nodesList.mapIdx
          (fun m x => if m = n then { x with outOfTree := x.outOfTree ++ [out] } else x)
      ∧ s1.arcList = s.arcList ∧ s1.strongRoots = s.strongRoots ∧ s1.rest = s.rest := by
  obtain ⟨s1, e1, h1⟩ := modNode_ex2 (fun x => { x with outOfTree := x.outOfTree ++ [out] }) h
  refine ⟨s1, ?_, h1⟩
  unfold addOutOfTreeNode
  simp only [State.node, h, deref, ok_bind, Node.numOutOfTree, if_pos hroom]
  exact e1

theorem breakRelationship_ex {s : State} {oldParent child : Nat} {p c : Node} {L : List Nat}
    {fuel : Nat} (hne : oldParent ≠ child) (hp : s.nodesList[oldParent]? = some p)
    (hc : s.nodesList[child]? = some c) (hL : isChain s.nodesList p.childList L = true)
    (hn : L.Nodup) (hm : child ∈ L) (hpL : oldParent ∉ L) (hf : L.length ≤ fuel) :
    ∃ s1, breakRelationship fuel s oldParent child = .ok s1
      ∧ s1.nodesList = s.nodesList.mapIdx (detached oldParent child L c.next)
      ∧ s1.arcList = s.arcList ∧ s1.strongRoots = s.strongRoots ∧ s1.rest = s.rest :=
  ⟨_, breakRelationship_eq hne hp hc hL hn hm hpL hf, rfl, rfl, rfl, rfl⟩

theorem addRelationship_ex {s : State} {newParent child : Nat} {p c : Node}
    (hp : s.nodesList[newParent]? = some p) (hc : s.nodesList[child]? = some c) :
    ∃ s1, addRelationship s newParent child = .ok s1
      ∧ s1.nodesList = s.nodesList.mapIdx (attached newParent child p.childList)
      ∧ s1.arcList = s.arcList ∧ s1.strongRoots = s.strongRoots ∧ s1.rest = s.rest :=
  ⟨_, addRelationship_eq hp hc, rfl, rfl, rfl, rfl⟩

theorem addToStrongBucket_ex {s : State} {newRoot bucket : Nat} {rb : Root} {r : Node}
    {B : List Nat} (hb : s.strongRoots[bucket]? = some rb)
    (hB : isBucket s.nodesList rb B = true) (hr : s.nodesList[newRoot]? = some r) :
    ∃ s1, addToStrongBucket s newRoot bucket = .ok s1
      ∧ s1.nodesList = s.nodesList.mapIdx (enqueued newRoot B)
      ∧ s1.arcList = s.arcList
      ∧ s1.strongRoots = s.strongRoots.set bucket
          { start := (B ++ [newRoot]).head?, end_ := some newRoot }
      ∧ s1.rest = s.rest :=
  ⟨_, addToStrongBucket_eq hb hB hr, rfl, rfl, rfl, rfl⟩

/-! ## Chains after `addToStrongBucket` and `addRelationship` -/

theorem isChain_enqueued {nl : List Node} {r : Nat} {nd : Node} {B : List Nat}
    {start : Option Nat} (hr : nl[r]? = some nd) (hB : isChain nl start B = true)
    (hn : B.Nodup) (hrB : r ∉ B) :
    isChain (nl.mapIdx (enqueued r B)) (B ++ [r]).head? (B ++ [r]) = true := by
  have hlast : isChain (nl.mapIdx (enqueued r B)) (some r) [r] = true := by
    refine isChain_cons.mpr ⟨rfl, _, getElem?_mapIdx_some hr, ?_⟩
    simp only [enqueued, if_true]
    exact isChain_nil.mpr rfl
  have key : ∀ (S : List Nat) (st : Option Nat), isChain nl st S = true → S.Nodup → r ∉ S →
      (S ≠ [] → S.getLast? = B.getLast?) →
      isChain (nl.mapIdx (enqueued r B)) (S ++ [r]).head? (S ++ [r]) = true := by
    intro S
    induction S with
    | nil =>
      intro st _ _ _ _
      exact hlast
    | cons a S ih =>
      intro st h hnS hrS hl
      obtain ⟨_, nda, hnda, hrest⟩ := isChain_cons.mp h
      have har : a ≠ r := fun e => hrS (e ▸ List.mem_cons_self _ _)
      have hrS2 : r ∉ S := fun e => hrS (List.mem_cons_of_mem _ e)
      have haS : a ∉ S := (List.nodup_cons.mp hnS).1
      have hnS2 : S.Nodup := (List.nodup_cons.mp hnS).2
      have hl1 := hl (List.cons_ne_nil _ _)
      simp only [List.cons_append, List.head?_cons]
      refine isChain_cons.mpr ⟨rfl, _, getElem?_mapIdx_some hnda, ?_⟩
      cases S with
      | nil =>
        have e1 : B.getLast? = some a := by rw [← hl1]; rfl
        simp only [enqueued, if_neg har, e1, if_true]
        exact hlast
      | cons b S =>
        have hne : b :: S ≠ [] := List.cons_ne_nil _ _
        have e1 : (b :: S).getLast? = B.getLast? := by
          rw [← hl1, List.getLast?_cons_cons]
        have e2 : ¬ B.getLast? = some a := by
          rw [← e1, List.getLast?_eq_getLast _ hne]
          intro e
          exact haS ((Option.some.inj e) ▸ List.getLast_mem hne)
        have e3 := (isChain_cons.mp hrest).1
        simp only [enqueued, if_neg har, if_neg e2, e3]
        exact ih _ hrest hnS2 hrS2 (fun _ => e1)
  exact key B start hB hn hrB (fun _ => rfl)

theorem isBucket_enqueued {nl : List Node} {r : Nat} {nd : Node} {B : List Nat} {rb : Root}
    (hr : nl[r]? = some nd) (hB : isBucket nl rb B = true) (hn : B.Nodup) (hrB : r ∉ B) :
    isBucket (nl.mapIdx (enqueued r B)) { start := (B ++ [r]).head?, end_ := some r }
      (B ++ [r]) = true := by
  refine isBucket_iff.mpr ⟨isChain_enqueued hr (isBucket_iff.mp hB).1 hn hrB, Or.inr ?_⟩
  simp

theorem isChain_attached {nl : List Node} {newParent child : Nat} {c : Node}
    {first : Option Nat} {K : List Nat} (hc : nl[child]? = some c)
    (hK : isChain nl first K = true) (hcK : child ∉ K) :
    isChain (nl.mapIdx (attached newParent child first)) (some child) (child :: K) = true := by
  refine isChain_cons.mpr ⟨rfl, _, getElem?_mapIdx_some hc, ?_⟩
  simp only [attached, if_true]
  refine isChain_congr ?_ hK
  intro m hm nd hnd
  refine ⟨_, getElem?_mapIdx_some hnd, ?_⟩
  have h1 : m ≠ child := fun e => hcK (e ▸ hm)
  simp only [attached, if_neg h1]

/-- A chain none of whose nodes has its `next` written stays what it is. -/
theorem isChain_mapIdx {nl : List Node} {F : Nat → Node → Node} {K : List Nat}
    {start : Option Nat} (hF : ∀ m ∈ K, ∀ nd, nl[m]? = some nd → (F m nd).next = nd.next)
    (hK : isChain nl start K = true) : isChain (nl.mapIdx F) start K = true :=
  isChain_congr (fun m hm nd hnd => ⟨_, getElem?_mapIdx_some hnd, hF m hm nd hnd⟩) hK

/-! ## `pushUpward` and `pushDownward` -/

theorem isExcess_nonneg (x : ℚ) : isExcess x ≥ 0 ↔ 0 ≤ x := by
  unfold isExcess
  by_cases h1 : x < 0
  · simp [h1, not_le.mpr h1]
  · by_cases h2 : x > 0
    · simp [h1, h2, le_of_lt h2]
    · simp [h1, h2, not_lt.mp h1]

/-- The part of a push that does not fit which follows the update of the arc
and of the two excesses: the arc joins the out-of-tree array of the parent,
the child leaves the child list and joins its bucket. -/
theorem push_tail (arc : Nat) {s5 : State} {nl : List Node} {child parent : Nat} {amount : ℚ}
    {c p : Node} {L B : List Nat} {rb : Root} {fuel : Nat}
    (hne : parent ≠ child) (hc : nl[child]? = some c) (hp : nl[parent]? = some p)
    (hL : isChain nl p.childList L = true) (hn : L.Nodup) (hm : child ∈ L)
    (hpL : parent ∉ L) (hf : L.length ≤ fuel)
    (hroom : p.outOfTree.length < p.numAdjacent)
    (hb : s5.strongRoots[c.label]? = some rb) (hB : isBucket nl rb B = true)
    (hBL : ∀ m ∈ B, m ∉ L)
    (n5 : s5.nodesList = nl.mapIdx (fun m nd =>
      { nd with excess := if m = child then nd.excess - amount
          else if m = parent then nd.excess + amount else nd.excess })) :
    ∃ s8, (addOutOfTreeNode s5 parent arc >>= fun s6 =>
        breakRelationship fuel s6 parent child >>= fun s7 =>
          s7.node child >>= fun c7 => addToStrongBucket s7 child c7.label) = .ok s8
      ∧ s8.nodesList = nl.mapIdx (pushedNode arc child parent amount c.next L B)
      ∧ s8.arcList = s5.arcList
      ∧ s8.strongRoots = s5.strongRoots.set c.label
          { start := (B ++ [child]).head?, end_ := some child }
      ∧ s8.rest = s5.rest := by
  have hcp : child ≠ parent := fun e => hne e.symm
  have hp5 : s5.nodesList[parent]? = some { p with excess := p.excess + amount } := by
    rw [n5, getElem?_mapIdx_some hp]
    simp only [if_neg hne, if_true]
  obtain ⟨s6, e6, n6, a6, r6, o6⟩ := addOutOfTreeNode_ex arc hp5 hroom
  have n6a : s6.nodesList = nl.mapIdx (moved arc child parent amount) := by
    rw [n6, n5, mapIdx_mapIdx_nodes]
    apply mapIdx_congr_nodes
    intro m nd _
    unfold moved
    by_cases h1 : m = parent
    · have h2 : ¬ m = child := fun e => hne (h1.symm.trans e)
      simp only [if_pos h1, if_neg h2]
    · simp only [if_neg h1]
  have hp6 : s6.nodesList[parent]? = some (moved arc child parent amount parent p) := by
    rw [n6a, getElem?_mapIdx_some hp]
  have hc6 : s6.nodesList[child]? = some (moved arc child parent amount child c) := by
    rw [n6a, getElem?_mapIdx_some hc]
  have hL6 : isChain s6.nodesList (moved arc child parent amount parent p).childList L
      = true := by
    rw [n6a]
    exact isChain_mapIdx (fun _ _ _ _ => rfl) hL
  obtain ⟨s7, e7, n7, a7, r7, o7⟩ := breakRelationship_ex hne hp6 hc6 hL6 hn hm hpL hf
  have hc7 : s7.nodesList[child]?
      = some (detached parent child L c.next child (moved arc child parent amount child c)) := by
    rw [n7, getElem?_mapIdx_some hc6]
    rfl
  have hb7 : s7.strongRoots[c.label]? = some rb := by rw [r7, r6]; exact hb
  have hB7 : isBucket s7.nodesList rb B = true := by
    obtain ⟨h1, h2⟩ := isBucket_iff.mp hB
    refine isBucket_iff.mpr ⟨?_, h2⟩
    rw [n7, n6a, mapIdx_mapIdx_nodes]
    refine isChain_mapIdx ?_ h1
    intro m hmB nd _
    have h3 : m ≠ child := fun e => hBL m hmB (e ▸ hm)
    have h4 : ¬ (m ∈ L ∧ (moved arc child parent amount m nd).next = some child) :=
      fun hx => hBL m hmB hx.1
    simp only [detached, if_neg h3, if_neg h4]
    rfl
  obtain ⟨s8, e8, n8, a8, r8, o8⟩ := addToStrongBucket_ex hb7 hB7 hc7
  refine ⟨s8, ?_, ?_, ?_, ?_, ?_⟩
  · simp only [e6, ok_bind, e7, State.node, hc7, deref]
    exact e8
  · rw [n8, n7, n6a, mapIdx_mapIdx_nodes, mapIdx_mapIdx_nodes]
    rfl
  · rw [a8, a7, a6]
  · rw [r8, r7, r6]
  · rw [o8, o7, o6]

theorem pushUpward_over {s : State} {arc child parent : Nat} {a : Arc} {c p : Node}
    {L B : List Nat} {rb : Root} {fuel : Nat}
    (ha : s.arcList[arc]? = some a) (hc : s.nodesList[child]? = some c)
    (hp : s.nodesList[parent]? = some p) (hne : parent ≠ child)
    (hover : a.capacity - a.flow < c.excess)
    (hL : isChain s.nodesList p.childList L = true) (hn : L.Nodup) (hm : child ∈ L)
    (hpL : parent ∉ L) (hf : L.length ≤ fuel)
    (hroom : p.outOfTree.length < p.numAdjacent)
    (hb : s.strongRoots[c.label]? = some rb) (hB : isBucket s.nodesList rb B = true)
    (hBL : ∀ m ∈ B, m ∉ L) :
    ∃ s1, pushUpward fuel s arc child parent (a.capacity - a.flow) = .ok s1
      ∧ s1.nodesList = s.nodesList.mapIdx
          (pushedNode arc child parent (a.capacity - a.flow) c.next L B)
      ∧ s1.arcList = s.arcList.set arc { a with direction := 0, flow := a.capacity }
      ∧ s1.strongRoots = s.strongRoots.set c.label
          { start := (B ++ [child]).head?, end_ := some child }
      ∧ s1.rest = ({ s with numPushes := incU s.numPushes } : State).rest := by
  have hcond : ¬ isExcess (a.capacity - a.flow - c.excess) ≥ 0 := by
    rw [isExcess_nonneg]
    linarith
  have hlen := getElem?_lt ha
  obtain ⟨s1, e1, n1, a1, r1, o1⟩ := @modArc_ex2 { s with numPushes := incU s.numPushes } arc a
    (fun a => { a with direction := 0 }) ha
  have hp1 : s1.nodesList[parent]? = some p := by rw [n1]; exact hp
  obtain ⟨s2, e2, n2, a2, r2, o2⟩ :=
    modNode_ex2 (fun x => { x with excess := x.excess + (a.capacity - a.flow) }) hp1
  have hc2 : s2.nodesList[child]? = some c := by
    rw [n2, getElem?_mapIdx_some (n1 ▸ hc)]
    simp only [if_neg (fun e : child = parent => hne e.symm)]
  obtain ⟨s3, e3, n3, a3, r3, o3⟩ :=
    modNode_ex2 (fun x => { x with excess := x.excess - (a.capacity - a.flow) }) hc2
  have ha3 : s3.arcList[arc]? = some { a with direction := 0 } := by
    rw [a3, a2, a1]
    exact List.getElem?_set_self hlen
  obtain ⟨s4, e4, n4, a4, r4, o4⟩ := modArc_ex2 (fun a => { a with flow := a.capacity }) ha3
  have n4a : s4.nodesList = s.nodesList.mapIdx (fun m nd =>
      { nd with excess := if m = child then nd.excess - (a.capacity - a.flow)
          else if m = parent then nd.excess + (a.capacity - a.flow) else nd.excess }) := by
    rw [n4, n3, n2, n1, mapIdx_mapIdx_nodes]
    apply mapIdx_congr_nodes
    intro m nd _
    by_cases h1 : m = child
    · have h2 : ¬ m = parent := fun e => hne (e.symm.trans h1)
      simp only [if_pos h1, if_neg h2]
    · by_cases h2 : m = parent
      · simp only [if_neg h1, if_pos h2]
      · simp only [if_neg h1, if_neg h2]
  have hb4 : s4.strongRoots[c.label]? = some rb := by rw [r4, r3, r2, r1]; exact hb
  obtain ⟨s8, e8, n8, a8, r8, o8⟩ := push_tail arc hne hc hp hL hn hm hpL hf hroom hb4 hB hBL n4a
  refine ⟨s8, ?_, n8, ?_, ?_, ?_⟩
  · unfold pushUpward
    simp only [State.node, hc, deref, ok_bind, if_neg hcond, e1, e2, e3, e4]
    exact e8
  · rw [a8, a4, a3, a2, a1, List.set_set]
  · rw [r8, r4, r3, r2, r1]
  · rw [o8, o4, o3, o2, o1]

theorem pushDownward_over {s : State} {arc child parent : Nat} {a : Arc} {c p : Node}
    {L B : List Nat} {rb : Root} {fuel : Nat}
    (ha : s.arcList[arc]? = some a) (hc : s.nodesList[child]? = some c)
    (hp : s.nodesList[parent]? = some p) (hne : parent ≠ child)
    (hover : a.flow < c.excess)
    (hL : isChain s.nodesList p.childList L = true) (hn : L.Nodup) (hm : child ∈ L)
    (hpL : parent ∉ L) (hf : L.length ≤ fuel)
    (hroom : p.outOfTree.length < p.numAdjacent)
    (hb : s.strongRoots[c.label]? = some rb) (hB : isBucket s.nodesList rb B = true)
    (hBL : ∀ m ∈ B, m ∉ L) :
    ∃ s1, pushDownward fuel s arc child parent a.flow = .ok s1
      ∧ s1.nodesList = s.nodesList.mapIdx (pushedNode arc child parent a.flow c.next L B)
      ∧ s1.arcList = s.arcList.set arc { a with direction := 1, flow := 0 }
      ∧ s1.strongRoots = s.strongRoots.set c.label
          { start := (B ++ [child]).head?, end_ := some child }
      ∧ s1.rest = ({ s with numPushes := incU s.numPushes } : State).rest := by
  have hcond : ¬ isExcess (a.flow - c.excess) ≥ 0 := by
    rw [isExcess_nonneg]
    linarith
  have hlen := getElem?_lt ha
  have hcp : ¬ child = parent := fun e => hne e.symm
  obtain ⟨s1, e1, n1, a1, r1, o1⟩ := @modArc_ex2 { s with numPushes := incU s.numPushes } arc a
    (fun a => { a with direction := 1 }) ha
  have hc1 : s1.nodesList[child]? = some c := by rw [n1]; exact hc
  obtain ⟨s2, e2, n2, a2, r2, o2⟩ :=
    modNode_ex2 (fun x => { x with excess := x.excess - a.flow }) hc1
  have hp2 : s2.nodesList[parent]? = some p := by
    rw [n2, getElem?_mapIdx_some (n1 ▸ hp)]
    simp only [if_neg hne]
  obtain ⟨s3, e3, n3, a3, r3, o3⟩ :=
    modNode_ex2 (fun x => { x with excess := x.excess + a.flow }) hp2
  have ha3 : s3.arcList[arc]? = some { a with direction := 1 } := by
    rw [a3, a2, a1]
    exact List.getElem?_set_self hlen
  obtain ⟨s4, e4, n4, a4, r4, o4⟩ := modArc_ex2 (fun a => { a with flow := 0 }) ha3
  have n4a : s4.nodesList = s.nodesList.mapIdx (fun m nd =>
      { nd with excess := if m = child then nd.excess - a.flow
          else if m = parent then nd.excess + a.flow else nd.excess }) := by
    rw [n4, n3, n2, n1, mapIdx_mapIdx_nodes]
    apply mapIdx_congr_nodes
    intro m nd _
    by_cases h1 : m = child
    · have h2 : ¬ m = parent := fun e => hne (e.symm.trans h1)
      simp only [if_pos h1, if_neg h2]
    · by_cases h2 : m = parent
      · simp only [if_neg h1, if_pos h2]
      · simp only [if_neg h1, if_neg h2]
  have hb4 : s4.strongRoots[c.label]? = some rb := by rw [r4, r3, r2, r1]; exact hb
  obtain ⟨s8, e8, n8, a8, r8, o8⟩ := push_tail arc hne hc hp hL hn hm hpL hf hroom hb4 hB hBL n4a
  refine ⟨s8, ?_, n8, ?_, ?_, ?_⟩
  · unfold pushDownward
    simp only [State.node, hc, deref, ok_bind, if_neg hcond, e1, e2, e3, e4]
    exact e8
  · rw [a8, a4, a3, a2, a1, List.set_set]
  · rw [r8, r4, r3, r2, r1]
  · rw [o8, o4, o3, o2, o1]

theorem pushUpward_fits {s : State} {arc child parent : Nat} {a : Arc} {c p : Node}
    (fuel : Nat) (ha : s.arcList[arc]? = some a) (hc : s.nodesList[child]? = some c)
    (hp : s.nodesList[parent]? = some p) (hne : parent ≠ child)
    (hfit : c.excess ≤ a.capacity - a.flow) :
    ∃ s1, pushUpward fuel s arc child parent (a.capacity - a.flow) = .ok s1
      ∧ s1.nodesList = s.nodesList.mapIdx (passedOn child parent c.excess)
      ∧ s1.arcList = s.arcList.set arc { a with flow := a.flow + c.excess }
      ∧ s1.strongRoots = s.strongRoots
      ∧ s1.rest = ({ s with numPushes := incU s.numPushes } : State).rest := by
  have hcond : isExcess (a.capacity - a.flow - c.excess) ≥ 0 := by
    rw [isExcess_nonneg]
    linarith
  obtain ⟨s1, e1, n1, a1, r1, o1⟩ := @modNode_ex2 { s with numPushes := incU s.numPushes }
    parent p (fun x => { x with excess := x.excess + c.excess }) hp
  have ha1 : s1.arcList[arc]? = some a := by rw [a1]; exact ha
  obtain ⟨s2, e2, n2, a2, r2, o2⟩ := modArc_ex2 (fun x => { x with flow := x.flow + c.excess }) ha1
  have hc2 : s2.nodesList[child]? = some c := by
    rw [n2, n1]
    rw [getElem?_mapIdx_some (show ({ s with numPushes := incU s.numPushes } : State).nodesList[child]?
      = some c from hc)]
    simp only [if_neg (fun e : child = parent => hne e.symm)]
  obtain ⟨s3, e3, n3, a3, r3, o3⟩ := modNode_ex2 (fun x => { x with excess := 0 }) hc2
  refine ⟨s3, ?_, ?_, ?_, ?_, ?_⟩
  · unfold pushUpward
    simp only [State.node, hc, deref, ok_bind, if_pos hcond, e1, e2]
    exact e3
  · rw [n3, n2, n1, mapIdx_mapIdx_nodes]
    apply mapIdx_congr_nodes
    intro m nd _
    unfold passedOn
    by_cases h1 : m = child
    · simp only [if_pos h1]
      split <;> rfl
    · by_cases h2 : m = parent
      · simp only [if_neg h1, if_pos h2]
      · simp only [if_neg h1, if_neg h2]
  · rw [a3, a2, a1]
  · rw [r3, r2, r1]
  · rw [o3, o2, o1]

theorem pushDownward_fits {s : State} {arc child parent : Nat} {a : Arc} {c p : Node}
    (fuel : Nat) (ha : s.arcList[arc]? = some a) (hc : s.nodesList[child]? = some c)
    (hp : s.nodesList[parent]? = some p) (hne : parent ≠ child)
    (hfit : c.excess ≤ a.flow) :
    ∃ s1, pushDownward fuel s arc child parent a.flow = .ok s1
      ∧ s1.nodesList = s.nodesList.mapIdx (passedOn child parent c.excess)
      ∧ s1.arcList = s.arcList.set arc { a with flow := a.flow - c.excess }
      ∧ s1.strongRoots = s.strongRoots
      ∧ s1.rest = ({ s with numPushes := incU s.numPushes } : State).rest := by
  have hcond : isExcess (a.flow - c.excess) ≥ 0 := by
    rw [isExcess_nonneg]
    linarith
  obtain ⟨s1, e1, n1, a1, r1, o1⟩ := @modNode_ex2 { s with numPushes := incU s.numPushes }
    parent p (fun x => { x with excess := x.excess + c.excess }) hp
  have ha1 : s1.arcList[arc]? = some a := by rw [a1]; exact ha
  obtain ⟨s2, e2, n2, a2, r2, o2⟩ := modArc_ex2 (fun x => { x with flow := x.flow - c.excess }) ha1
  have hc2 : s2.nodesList[child]? = some c := by
    rw [n2, n1]
    rw [getElem?_mapIdx_some (show ({ s with numPushes := incU s.numPushes } : State).nodesList[child]?
      = some c from hc)]
    simp only [if_neg (fun e : child = parent => hne e.symm)]
  obtain ⟨s3, e3, n3, a3, r3, o3⟩ := modNode_ex2 (fun x => { x with excess := 0 }) hc2
  refine ⟨s3, ?_, ?_, ?_, ?_, ?_⟩
  · unfold pushDownward
    simp only [State.node, hc, deref, ok_bind, if_pos hcond, e1, e2]
    exact e3
  · rw [n3, n2, n1, mapIdx_mapIdx_nodes]
    apply mapIdx_congr_nodes
    intro m nd _
    unfold passedOn
    by_cases h1 : m = child
    · simp only [if_pos h1]
      split <;> rfl
    · by_cases h2 : m = parent
      · simp only [if_neg h1, if_pos h2]
      · simp only [if_neg h1, if_neg h2]
  · rw [a3, a2, a1]
  · rw [r3, r2, r1]
  · rw [o3, o2, o1]

/-! ## The claim on the pushes -/

theorem outcome_of_fits {s s1 : State} {arc child parent : Nat} {a : Arc} {c p : Node}
    {L B : List Nat} {flow1 : ℚ}
    (ha : s.arcList[arc]? = some a) (hc : s.nodesList[child]? = some c)
    (hp : s.nodesList[parent]? = some p) (hne : parent ≠ child)
    (hflow : 0 ≤ a.flow ∧ a.flow ≤ a.capacity)
    (hfit : c.excess ≤ residualOf a) (hex : 0 < c.excess)
    (hf1 : flow1 = if a.direction ≠ 0 then a.flow + c.excess else a.flow - c.excess)
    (n1 : s1.nodesList = s.nodesList.mapIdx (passedOn child parent c.excess))
    (a1 : s1.arcList = s.arcList.set arc { a with flow := flow1 })
    (r1 : s1.strongRoots = s.strongRoots)
    (o1 : s1.rest = ({ s with numPushes := incU s.numPushes } : State).rest) :
    PushOutcome s arc child parent a c p L B s1 := by
  have hmin : min c.excess (residualOf a) = c.excess := min_eq_left hfit
  have hcp : ¬ child = parent := fun e => hne e.symm
  refine ⟨passedOn child parent c.excess child c, passedOn child parent c.excess parent p,
    { a with flow := flow1 }, ?_, ?_, ?_, ?_, ?_, ?_, ?_, ?_, ?_, ?_, o1, ?_, ?_⟩
  · rw [n1, getElem?_mapIdx_some hc]
  · rw [n1, getElem?_mapIdx_some hp]
  · rw [a1]
    exact List.getElem?_set_self (getElem?_lt ha)
  · simp only [passedOn, if_true, if_neg hne]
    ring
  · simp only [passedOn, if_true, hmin]
    ring
  · simp only [passedOn, if_neg hne, if_true, hmin]
  · rw [hmin]
    exact hf1
  · show 0 ≤ flow1
    rw [hf1]
    unfold residualOf at hfit
    by_cases hd : a.direction ≠ 0
    · rw [if_pos hd]
      linarith [hflow.1]
    · rw [if_neg hd] at hfit ⊢
      linarith
  · show flow1 ≤ a.capacity
    rw [hf1]
    unfold residualOf at hfit
    by_cases hd : a.direction ≠ 0
    · rw [if_pos hd] at hfit ⊢
      linarith
    · rw [if_neg hd]
      linarith [hflow.2]
  · intro i hi
    rw [a1, List.getElem?_set_ne (fun e => hi e.symm)]
  · intro _
    refine ⟨?_, rfl, r1, n1⟩
    simp only [passedOn, if_true]
  · intro hlt
    exact absurd hfit (not_le.mpr hlt)

theorem outcome_of_over {s s1 : State} {arc child parent : Nat} {a : Arc} {c p : Node}
    {L B : List Nat} {rb : Root} {fuel : Nat}
    (ha : s.arcList[arc]? = some a) (hc : s.nodesList[child]? = some c)
    (hp : s.nodesList[parent]? = some p) (hne : parent ≠ child)
    (hflow : 0 ≤ a.flow ∧ a.flow ≤ a.capacity)
    (hover : residualOf a < c.excess)
    (hd : Detachable s child parent c p L B rb fuel)
    (n1 : s1.nodesList
      = s.nodesList.mapIdx (pushedNode arc child parent (residualOf a) c.next L B))
    (a1 : s1.arcList = s.arcList.set arc
      { a with flow := if a.direction ≠ 0 then a.capacity else 0,
               direction := 1 - a.direction })
    (r1 : s1.strongRoots = s.strongRoots.set c.label
      { start := (B ++ [child]).head?, end_ := some child })
    (o1 : s1.rest = ({ s with numPushes := incU s.numPushes } : State).rest) :
    PushOutcome s arc child parent a c p L B s1 := by
  obtain ⟨hL, hn, hm, hpL, _, _, hb, hB, hBn, hBL⟩ := hd
  have hmin : min c.excess (residualOf a) = residualOf a := min_eq_right (le_of_lt hover)
  have hcp : ¬ child = parent := fun e => hne e.symm
  have hcB : child ∉ B := fun e => hBL child e hm
  have hpc : ¬ (parent ∈ L ∧ (moved arc child parent (residualOf a) parent p).next
      = some child) := fun hx => hpL hx.1
  have hlastp : ¬ B.getLast? = some child := fun e => hcB (List.mem_of_getLast?_eq_some e)
  -- the node array after the first two steps
  have hc0 : (s.nodesList.mapIdx (moved arc child parent (residualOf a)))[child]?
      = some (moved arc child parent (residualOf a) child c) := getElem?_mapIdx_some hc
  have hL0 : isChain (s.nodesList.mapIdx (moved arc child parent (residualOf a)))
      p.childList L = true := isChain_mapIdx (fun _ _ _ _ => rfl) hL
  have hL1 := @isChain_detached _ parent _ _ _ _ hc0 hL0 hn hm
  have hsplit : s.nodesList.mapIdx (pushedNode arc child parent (residualOf a) c.next L B)
      = ((s.nodesList.mapIdx (moved arc child parent (residualOf a))).mapIdx
          (detached parent child L c.next)).mapIdx (enqueued child B) := by
    rw [mapIdx_mapIdx_nodes, mapIdx_mapIdx_nodes]
    rfl
  refine ⟨pushedNode arc child parent (residualOf a) c.next L B child c,
    pushedNode arc child parent (residualOf a) c.next L B parent p,
    { a with flow := if a.direction ≠ 0 then a.capacity else 0, direction := 1 - a.direction },
    ?_, ?_, ?_, ?_, ?_, ?_, ?_, ?_, ?_, ?_, o1, ?_, ?_⟩
  · rw [n1, getElem?_mapIdx_some hc]
  · rw [n1, getElem?_mapIdx_some hp]
  · rw [a1]
    exact List.getElem?_set_self (getElem?_lt ha)
  · simp only [pushedNode, enqueued, detached, moved, if_true, if_neg hne]
    ring
  · simp only [pushedNode, enqueued, detached, moved, if_true, hmin]
  · simp only [pushedNode, enqueued, detached, moved, if_true, if_neg hne, hmin]
  · rw [hmin]
    unfold residualOf
    by_cases hd0 : a.direction ≠ 0
    · simp only [if_pos hd0]
      ring
    · simp only [if_neg hd0]
      ring
  · show 0 ≤ (if a.direction ≠ 0 then a.capacity else 0)
    by_cases hd0 : a.direction ≠ 0
    · rw [if_pos hd0]
      linarith [hflow.1, hflow.2]
    · rw [if_neg hd0]
  · show (if a.direction ≠ 0 then a.capacity else 0) ≤ a.capacity
    by_cases hd0 : a.direction ≠ 0
    · rw [if_pos hd0]
    · rw [if_neg hd0]
      linarith [hflow.1, hflow.2]
  · intro i hi
    rw [a1, List.getElem?_set_ne (fun e => hi e.symm)]
  · intro hfit
    exact absurd hfit (not_le.mpr hover)
  · intro _
    refine ⟨rfl, ?_, ?_, ?_, ?_, ?_, ?_, n1⟩
    · simp only [pushedNode, enqueued, detached, moved, if_true]
      linarith
    · simp only [pushedNode, enqueued, detached, if_true]
    · simp only [pushedNode, enqueued, detached, moved, if_true]
    · rw [n1, hsplit]
      have e1 : (pushedNode arc child parent (residualOf a) c.next L B parent p).childList
          = (L.erase child).head? := by
        simp only [pushedNode, enqueued, detached, if_true]
      rw [e1]
      refine isChain_mapIdx ?_ hL1
      intro m hmL nd _
      have hmL2 : m ∈ L := List.mem_of_mem_erase hmL
      have h1 : m ≠ child := ((List.Nodup.mem_erase_iff hn).mp hmL).1
      have h2 : ¬ B.getLast? = some m := fun e =>
        hBL m (List.mem_of_getLast?_eq_some e) hmL2
      simp only [enqueued, if_neg h1, if_neg h2]
    · refine ⟨{ start := (B ++ [child]).head?, end_ := some child }, ?_, ?_⟩
      · rw [r1]
        exact List.getElem?_set_self (getElem?_lt hb)
      · rw [n1, hsplit]
        have hB1 : isBucket ((s.nodesList.mapIdx (moved arc child parent (residualOf a))).mapIdx
            (detached parent child L c.next)) rb B = true := by
          obtain ⟨h1, h2⟩ := isBucket_iff.mp hB
          refine isBucket_iff.mpr ⟨?_, h2⟩
          rw [mapIdx_mapIdx_nodes]
          refine isChain_mapIdx ?_ h1
          intro m hmB nd _
          have h3 : m ≠ child := fun e => hBL m hmB (e ▸ hm)
          have h4 : ¬ (m ∈ L ∧ (moved arc child parent (residualOf a) m nd).next
              = some child) := fun hx => hBL m hmB hx.1
          simp only [detached, if_neg h3, if_neg h4]
          rfl
        exact isBucket_enqueued (getElem?_mapIdx_some hc0) hB1 hBn hcB
    · intro k hk
      rw [r1, List.getElem?_set_ne (fun e => hk e.symm)]

/-- C32: a push conserves excess and respects capacity.  Let `a` be the record
of `arc`, with direction bit 0 or 1 and `0 ≤ flow ≤ capacity`, let `child` have
positive excess and let `parent` be another node.  `pushExcess` calls
`pushUpward` with `capacity - flow` when the bit is set and `pushDownward`
with `flow` otherwise; call this amount the residual.  The call returns, the
sum of the two excesses is unchanged, the amount moved is the minimum of the
excess of the child and the residual, and the new flow stays between 0 and the
capacity.  If the excess fits, the child ends with excess 0 and only the two
excesses and the flow of the arc have changed.  Otherwise (and then the child
list `L` of the parent and the bucket `B` of the label of the child have to
be well formed, with room in the out-of-tree array of the parent) the arc is
saturated (`flow = capacity` upward, `flow = 0` downward), its direction bit is
flipped, the child has left the child list of the parent and has no parent,
the arc is the new last entry of the out-of-tree array of the parent, and the
child, which keeps positive excess, is the new last root of the bucket
`strongRoots[child.label]`. -/
theorem push_conserves_excess (fuel : Nat) (s : State) (arc child parent : Nat) (a : Arc)
    (c p : Node) (L B : List Nat) (rb : Root)
    (ha : s.arcList[arc]? = some a) (hc : s.nodesList[child]? = some c)
    (hp : s.nodesList[parent]? = some p) (hne : parent ≠ child)
    (hdir : a.direction = 0 ∨ a.direction = 1)
    (hflow : 0 ≤ a.flow ∧ a.flow ≤ a.capacity) (hex : 0 < c.excess)
    (hd : residualOf a < c.excess → Detachable s child parent c p L B rb fuel) :
    ∃ s1, (if a.direction ≠ 0 then pushUpward fuel s arc child parent (a.capacity - a.flow)
        else pushDownward fuel s arc child parent a.flow) = .ok s1
      ∧ PushOutcome s arc child parent a c p L B s1 := by
  rcases hdir with h0 | h1
  · have hnot : ¬ a.direction ≠ 0 := fun h => h h0
    have hres : residualOf a = a.flow := by
      unfold residualOf
      rw [if_neg hnot]
    rw [if_neg hnot]
    by_cases hfit : c.excess ≤ a.flow
    · obtain ⟨s1, e1, n1, a1, r1, o1⟩ := pushDownward_fits fuel ha hc hp hne hfit
      exact ⟨s1, e1, outcome_of_fits ha hc hp hne hflow (hres ▸ hfit) hex
        (by rw [if_neg hnot]) n1 a1 r1 o1⟩
    · have hover : a.flow < c.excess := not_le.mp hfit
      have hdet := hd (hres ▸ hover)
      have ⟨hL, hn, hm, hpL, hf, hroom, hb, hB, hBn, hBL⟩ := hdet
      obtain ⟨s1, e1, n1, a1, r1, o1⟩ :=
        pushDownward_over ha hc hp hne hover hL hn hm hpL hf hroom hb hB hBL
      refine ⟨s1, e1, outcome_of_over ha hc hp hne hflow (hres ▸ hover) hdet
        (by rw [hres]; exact n1) ?_ r1 o1⟩
      rw [a1, if_neg hnot, h0]
  · have hyes : a.direction ≠ 0 := by rw [h1]; decide
    have hres : residualOf a = a.capacity - a.flow := by
      unfold residualOf
      rw [if_pos hyes]
    rw [if_pos hyes]
    by_cases hfit : c.excess ≤ a.capacity - a.flow
    · obtain ⟨s1, e1, n1, a1, r1, o1⟩ := pushUpward_fits fuel ha hc hp hne hfit
      exact ⟨s1, e1, outcome_of_fits ha hc hp hne hflow (hres ▸ hfit) hex
        (by rw [if_pos hyes]) n1 a1 r1 o1⟩
    · have hover : a.capacity - a.flow < c.excess := not_le.mp hfit
      have hdet := hd (hres ▸ hover)
      have ⟨hL, hn, hm, hpL, hf, hroom, hb, hB, hBn, hBL⟩ := hdet
      obtain ⟨s1, e1, n1, a1, r1, o1⟩ :=
        pushUpward_over ha hc hp hne hover hL hn hm hpL hf hroom hb hB hBL
      refine ⟨s1, e1, outcome_of_over ha hc hp hne hflow (hres ▸ hover) hdet
        (by rw [hres]; exact n1) ?_ r1 o1⟩
      rw [a1, if_pos hyes, h1]

/-- C32 on the state `grove`: node 3 (excess 5) pushes along arc 0 (capacity 5,
flow 2, upward) to its parent 2 (excess -4).  The residual 3 does not take the
excess: the arc ends with flow 5 and direction 0, node 3 keeps excess 2, has no
parent and is the only root of bucket 1, node 2 has excess -1, no child and the
out-of-tree array [0]. -/
theorem push_conserves_excess_witness :
    (∃ s1, (if (treeArc 3 2 5 2 1).direction ≠ 0 then
          pushUpward 1 grove 0 3 2 ((treeArc 3 2 5 2 1).capacity - (treeArc 3 2 5 2 1).flow)
        else pushDownward 1 grove 0 3 2 (treeArc 3 2 5 2 1).flow) = .ok s1
      ∧ PushOutcome grove 0 3 2 (treeArc 3 2 5 2 1)
          (treeNode (some 2) (some 4) none (some 0) [] 1 5)
          (treeNode none (some 3) none none [] 1 (-4)) [3] [] s1)
    ∧ (pushUpward 1 grove 0 3 2 3).map (fun s1 =>
        (s1.nodesList[3]?).map (fun x => (x.excess, x.parent, x.next)))
      = .ok (some ((2 : ℚ), none, none))
    ∧ (pushUpward 1 grove 0 3 2 3).map (fun s1 =>
        (s1.nodesList[2]?).map (fun x => (x.excess, x.childList, x.outOfTree)))
      = .ok (some ((-1 : ℚ), none, [0]))
    ∧ (pushUpward 1 grove 0 3 2 3).map (fun s1 =>
        ((s1.arcList[0]?).map (fun x => (x.flow, x.direction)), s1.strongRoots[1]?))
      = .ok (some ((5 : ℚ), 0), some { start := some 3, end_ := some 3 }) :=
  ⟨push_conserves_excess 1 grove 0 3 2 (treeArc 3 2 5 2 1)
      (treeNode (some 2) (some 4) none (some 0) [] 1 5)
      (treeNode none (some 3) none none [] 1 (-4)) [3] [] initializeRoot
      (by decide) (by decide) (by decide) (by decide) (by decide) (by decide!) (by decide!)
      (fun _ => by unfold Detachable; decide),
    by decide!, by decide!, by decide!⟩

/-! ## Child lists that match the parent pointers -/

theorem WellKept.chainOf {nl : List Node} {kids : Nat → List Nat} (h : WellKept nl kids)
    {n : Nat} {nd : Node} (hn : nl[n]? = some nd) :
    isChain nl nd.childList (kids n) = true := by
  have := (h n (getElem?_lt hn)).1
  rw [hn] at this
  exact this

theorem WellKept.nodupOf {nl : List Node} {kids : Nat → List Nat} (h : WellKept nl kids)
    {n : Nat} (hn : n < nl.length) : (kids n).Nodup := (h n hn).2.1

theorem WellKept.memIff {nl : List Node} {kids : Nat → List Nat} (h : WellKept nl kids)
    {n m : Nat} {ndm : Node} (hn : n < nl.length) (hm : nl[m]? = some ndm) :
    m ∈ kids n ↔ ndm.parent = some n := by
  have := (h n hn).2.2 m (getElem?_lt hm)
  rw [hm] at this
  exact this

theorem WellKept.mapIdx_same {nl : List Node} {kids : Nat → List Nat} {F : Nat → Node → Node}
    (h : WellKept nl kids)
    (hF : ∀ (m : Nat) (nd : Node), nl[m]? = some nd →
      (F m nd).parent = nd.parent ∧ (F m nd).childList = nd.childList
        ∧ (F m nd).next = nd.next) :
    WellKept (nl.mapIdx F) kids := by
  intro n hn
  rw [List.length_mapIdx] at hn
  obtain ⟨nd, hnd⟩ : ∃ nd, nl[n]? = some nd := ⟨_, List.getElem?_eq_getElem hn⟩
  refine ⟨?_, h.nodupOf hn, ?_⟩
  · rw [getElem?_mapIdx_some hnd]
    simp only [Option.some_bind, (hF n nd hnd).2.1]
    exact isChain_mapIdx (fun m _ x hx => (hF m x hx).2.2) (h.chainOf hnd)
  · intro m hm
    rw [List.length_mapIdx] at hm
    obtain ⟨ndm, hndm⟩ : ∃ ndm, nl[m]? = some ndm := ⟨_, List.getElem?_eq_getElem hm⟩
    rw [getElem?_mapIdx_some hndm]
    simp only [Option.some_bind, (hF m ndm hndm).1]
    exact h.memIff hn hndm

theorem WellKept.afterBreak {nl : List Node} {kids : Nat → List Nat} {p c : Nat}
    {pnd cnd : Node} (h : WellKept nl kids) (hp : nl[p]? = some pnd)
    (hc : nl[c]? = some cnd) (hcp : cnd.parent = some p) :
    WellKept (nl.mapIdx (detached p c (kids p) cnd.next))
      (Function.update kids p ((kids p).erase c)) := by
  have hpl := getElem?_lt hp
  have hcL : c ∈ kids p := (h.memIff hpl hc).mpr hcp
  intro n hn
  rw [List.length_mapIdx] at hn
  obtain ⟨nd, hnd⟩ : ∃ nd, nl[n]? = some nd := ⟨_, List.getElem?_eq_getElem hn⟩
  rw [getElem?_mapIdx_some hnd]
  by_cases hnp : n = p
  · rw [hnp, Function.update_same]
    have e : nd = pnd := by
      rw [hnp, hp] at hnd
      exact (Option.some.inj hnd).symm
    refine ⟨?_, (h.nodupOf hpl).erase c, ?_⟩
    · simp only [Option.some_bind, detached, if_true]
      exact isChain_detached hc (h.chainOf hp) (h.nodupOf hpl) hcL
    · intro m hm
      rw [List.length_mapIdx] at hm
      obtain ⟨ndm, hndm⟩ : ∃ ndm, nl[m]? = some ndm := ⟨_, List.getElem?_eq_getElem hm⟩
      rw [getElem?_mapIdx_some hndm, (h.nodupOf hpl).mem_erase_iff]
      simp only [Option.some_bind, detached]
      by_cases hmc : m = c
      · simp [hmc]
      · simp only [if_neg hmc, ne_eq, hmc, not_false_eq_true, true_and]
        exact h.memIff hpl hndm
  · rw [Function.update_noteq hnp]
    refine ⟨?_, h.nodupOf hn, ?_⟩
    · simp only [Option.some_bind, detached, if_neg hnp]
      refine isChain_mapIdx ?_ (h.chainOf hnd)
      intro m hmK x hx
      have hmn : x.parent = some n := (h.memIff hn hx).mp hmK
      have h1 : m ≠ c := by
        intro e
        rw [e, hc] at hx
        cases hx
        rw [hcp] at hmn
        exact hnp (Option.some.inj hmn).symm
      have h2 : ¬ (m ∈ kids p ∧ x.next = some c) := by
        intro hx2
        have := (h.memIff hpl hx).mp hx2.1
        rw [hmn] at this
        exact hnp (Option.some.inj this)
      simp only [detached, if_neg h1, if_neg h2]
    · intro m hm
      rw [List.length_mapIdx] at hm
      obtain ⟨ndm, hndm⟩ : ∃ ndm, nl[m]? = some ndm := ⟨_, List.getElem?_eq_getElem hm⟩
      rw [getElem?_mapIdx_some hndm]
      simp only [Option.some_bind, detached]
      by_cases hmc : m = c
      · have e : ndm = cnd := by
          rw [hmc, hc] at hndm
          exact (Option.some.inj hndm).symm
        rw [if_pos hmc, h.memIff hn hndm, e, hcp]
        constructor
        · intro hx
          exact absurd (Option.some.inj hx).symm hnp
        · intro hx
          cases hx
      · rw [if_neg hmc]
        exact h.memIff hn hndm

theorem WellKept.afterAdd {nl : List Node} {kids : Nat → List Nat} {q c : Nat}
    {qnd cnd : Node} (h : WellKept nl kids) (hq : nl[q]? = some qnd)
    (hc : nl[c]? = some cnd) (hcp : cnd.parent = none) :
    WellKept (nl.mapIdx (attached q c qnd.childList))
      (Function.update kids q (c :: kids q)) := by
  have hql := getElem?_lt hq
  have hcK : ∀ n, n < nl.length → c ∉ kids n := by
    intro n hn hx
    have := (h.memIff hn hc).mp hx
    rw [hcp] at this
    cases this
  intro n hn
  rw [List.length_mapIdx] at hn
  obtain ⟨nd, hnd⟩ : ∃ nd, nl[n]? = some nd := ⟨_, List.getElem?_eq_getElem hn⟩
  rw [getElem?_mapIdx_some hnd]
  by_cases hnq : n = q
  · rw [hnq, Function.update_same]
    refine ⟨?_, List.nodup_cons.mpr ⟨hcK q hql, h.nodupOf hql⟩, ?_⟩
    · simp only [Option.some_bind, attached, if_true]
      exact isChain_attached hc (h.chainOf hq) (hcK q hql)
    · intro m hm
      rw [List.length_mapIdx] at hm
      obtain ⟨ndm, hndm⟩ : ∃ ndm, nl[m]? = some ndm := ⟨_, List.getElem?_eq_getElem hm⟩
      rw [getElem?_mapIdx_some hndm]
      simp only [Option.some_bind, attached, List.mem_cons]
      by_cases hmc : m = c
      · simp [hmc]
      · simp only [if_neg hmc, hmc, false_or]
        exact h.memIff hql hndm
  · rw [Function.update_noteq hnq]
    refine ⟨?_, h.nodupOf hn, ?_⟩
    · simp only [Option.some_bind, attached, if_neg hnq]
      refine isChain_mapIdx ?_ (h.chainOf hnd)
      intro m hmK x _
      have h1 : m ≠ c := fun e => hcK n hn (e ▸ hmK)
      simp only [attached, if_neg h1]
    · intro m hm
      rw [List.length_mapIdx] at hm
      obtain ⟨ndm, hndm⟩ : ∃ ndm, nl[m]? = some ndm := ⟨_, List.getElem?_eq_getElem hm⟩
      rw [getElem?_mapIdx_some hndm]
      simp only [Option.some_bind, attached]
      by_cases hmc : m = c
      · rw [if_pos hmc]
        constructor
        · intro hx
          exact absurd (hmc ▸ hx) (hcK n hn)
        · intro hx
          exact absurd (Option.some.inj hx).symm hnq
      · rw [if_neg hmc]
        exact h.memIff hn hndm

/-! ## Parent paths -/

theorem isPath_single {nl : List Node} {x : Nat} :
    isPath nl [x] = true ↔ ∃ nd, nl[x]? = some nd ∧ nd.parent = none := by
  cases h : nl[x]? with
  | none => simp [isPath, h]
  | some nd => simp [isPath, h]

theorem isPath_cons {nl : List Node} {x y : Nat} {rest : List Nat} :
    isPath nl (x :: y :: rest) = true
      ↔ (∃ nd, nl[x]? = some nd ∧ nd.parent = some y) ∧ isPath nl (y :: rest) = true := by
  cases h : nl[x]? with
  | none => simp [isPath, h]
  | some nd => simp [isPath, h]

theorem isPath_ne_nil {nl : List Node} {R : List Nat} (h : isPath nl R = true) : R ≠ [] := by
  intro e
  subst e
  simp [isPath] at h

theorem isPath_congr {nl nl1 : List Node} :
    ∀ {R : List Nat},
      (∀ m ∈ R, ∀ nd, nl[m]? = some nd → ∃ nd1, nl1[m]? = some nd1 ∧ nd1.parent = nd.parent) →
      isPath nl R = true → isPath nl1 R = true := by
  intro R
  induction R with
  | nil => intro _ h; simp [isPath] at h
  | cons x rest ih =>
    intro hf h
    cases rest with
    | nil =>
      obtain ⟨nd, hnd, hp⟩ := isPath_single.mp h
      obtain ⟨nd1, h1, h2⟩ := hf x (List.mem_cons_self _ _) nd hnd
      exact isPath_single.mpr ⟨nd1, h1, h2.trans hp⟩
    | cons y rest =>
      obtain ⟨⟨nd, hnd, hp⟩, hr⟩ := isPath_cons.mp h
      obtain ⟨nd1, h1, h2⟩ := hf x (List.mem_cons_self _ _) nd hnd
      exact isPath_cons.mpr ⟨⟨nd1, h1, h2.trans hp⟩,
        ih (fun m hm => hf m (List.mem_cons_of_mem _ hm)) hr⟩

theorem isPath_mem {nl : List Node} :
    ∀ {R : List Nat}, isPath nl R = true → ∀ m ∈ R, ∃ nd, nl[m]? = some nd := by
  intro R
  induction R with
  | nil => intro h; simp [isPath] at h
  | cons x rest ih =>
    intro h m hm
    cases rest with
    | nil =>
      obtain ⟨nd, hnd, _⟩ := isPath_single.mp h
      rcases List.mem_cons.mp hm with e | e
      · exact ⟨nd, e ▸ hnd⟩
      · cases e
    | cons y rest =>
      obtain ⟨⟨nd, hnd, _⟩, hr⟩ := isPath_cons.mp h
      rcases List.mem_cons.mp hm with e | e
      · exact ⟨nd, e ▸ hnd⟩
      · exact ih hr m e

theorem isPath_last {nl : List Node} :
    ∀ {R : List Nat} (h : isPath nl R = true),
      ∃ nd, nl[R.getLast (isPath_ne_nil h)]? = some nd ∧ nd.parent = none := by
  intro R
  induction R with
  | nil => intro h; simp [isPath] at h
  | cons x rest ih =>
    intro h
    cases rest with
    | nil => exact isPath_single.mp h
    | cons y rest =>
      obtain ⟨_, hr⟩ := isPath_cons.mp h
      obtain ⟨nd, h1, h2⟩ := ih hr
      exact ⟨nd, by simpa using h1, h2⟩

theorem arcsUp_cons {nl : List Node} {m : Nat} {rest A : List Nat}
    (h : arcsUp nl (m :: rest) = some A) :
    ∃ a A1, A = a :: A1 ∧ (nl[m]?).bind (fun nd => nd.arcToParent) = some a
      ∧ arcsUp nl rest = some A1 := by
  unfold arcsUp at h
  cases h1 : (nl[m]?).bind (fun nd => nd.arcToParent) with
  | none => simp [h1] at h
  | some a =>
    cases h2 : arcsUp nl rest with
    | none => simp [h1, h2] at h
    | some A1 =>
      simp only [h1, h2, Option.some.injEq] at h
      exact ⟨a, A1, h.symm, rfl, rfl⟩

theorem arcsUp_congr {nl nl1 : List Node} :
    ∀ {R A : List Nat},
      (∀ m ∈ R, ∀ nd, nl[m]? = some nd →
        ∃ nd1, nl1[m]? = some nd1 ∧ nd1.arcToParent = nd.arcToParent) →
      (∀ m ∈ R, ∃ nd, nl[m]? = some nd) →
      arcsUp nl R = some A → arcsUp nl1 R = some A := by
  intro R
  induction R with
  | nil => intro A _ _ h; exact h
  | cons m rest ih =>
    intro A hf hex h
    obtain ⟨a, A1, e, h1, h2⟩ := arcsUp_cons h
    obtain ⟨nd, hnd⟩ := hex m (List.mem_cons_self _ _)
    obtain ⟨nd1, h3, h4⟩ := hf m (List.mem_cons_self _ _) nd hnd
    have h5 := ih (fun x hx => hf x (List.mem_cons_of_mem _ hx))
      (fun x hx => hex x (List.mem_cons_of_mem _ hx)) h2
    rw [hnd] at h1
    unfold arcsUp
    rw [h3, h5]
    simp only [Option.some_bind, h4] at h1 ⊢
    rw [h1, e]

theorem length_le_of_nodup_lt {L : List Nat} {n : Nat} (hn : L.Nodup) (h : ∀ m ∈ L, m < n) :
    L.length ≤ n := by
  have hs : L ⊆ List.range n := fun m hm => List.mem_range.mpr (h m hm)
  have := (List.subperm_of_subset hn hs).length_le
  simpa using this

theorem WellKept.length_le {nl : List Node} {kids : Nat → List Nat} (h : WellKept nl kids)
    {n : Nat} (hn : n < nl.length) : (kids n).length ≤ nl.length := by
  refine length_le_of_nodup_lt (h.nodupOf hn) ?_
  intro m hm
  obtain ⟨nd, hnd⟩ : ∃ nd, nl[n]? = some nd := ⟨_, List.getElem?_eq_getElem hn⟩
  obtain ⟨x, hx⟩ := isChain_mem (h.chainOf hnd) m hm
  exact getElem?_lt hx

/-! ## One round of the loop of `merge` -/

theorem payload_detached (p c : Nat) (L : List Nat) (cnext : Option Nat) (m : Nat)
    (nd : Node) : (detached p c L cnext m nd).payload = nd.payload := rfl

theorem payload_attached (q c : Nat) (first : Option Nat) (m : Nat) (nd : Node) :
    (attached q c first m nd).payload = nd.payload := rfl

theorem lookup_single (m c q a : Nat) :
    List.lookup m [(c, q, a)] = if m = c then some (q, a) else none := by
  by_cases h : m = c
  · subst h
    simp [List.lookup]
  · have : (m == c) = false := by simpa using h
    simp [List.lookup, this, h]

theorem merge_round {s : State} {kids : Nat → List Nat} {c c2 q a a0 fuel : Nat}
    {cnd c2nd qnd : Node} {arc0 : Arc}
    (hK : WellKept s.nodesList kids)
    (hc : s.nodesList[c]? = some cnd) (hc2 : s.nodesList[c2]? = some c2nd)
    (hq : s.nodesList[q]? = some qnd)
    (hcp : cnd.parent = some c2) (hc2c : c2 ≠ c) (hqc : q ≠ c)
    (hc2p : c2nd.parent ≠ some c2)
    (ha0 : s.arcList[a0]? = some arc0)
    (hfuel : s.nodesList.length ≤ fuel) :
    ∃ s1 s2 s3 s4 kids4,
      s.modNode c (fun x => { x with arcToParent := some a }) = .ok s1
      ∧ breakRelationship fuel s1 c2 c = .ok s2
      ∧ addRelationship s2 q c = .ok s3
      ∧ s3.modArc a0 (fun x => { x with direction := subU 1 x.direction }) = .ok s4
      ∧ Relinked s.nodesList s4.nodesList [(c, q, a)]
      ∧ WellKept s4.nodesList kids4
      ∧ s4.arcList = s.arcList.set a0 { arc0 with direction := subU 1 arc0.direction }
      ∧ s4.strongRoots = s.strongRoots ∧ s4.rest = s.rest := by
  have hc2l := getElem?_lt hc2
  obtain ⟨s1, e1, n1, a1, r1, o1⟩ := modNode_ex2 (fun x => { x with arcToParent := some a }) hc
  have hK1 : WellKept s1.nodesList kids := by
    rw [n1]
    refine hK.mapIdx_same ?_
    intro m nd _
    by_cases h : m = c
    · simp only [if_pos h, and_self]
    · simp only [if_neg h, and_self]
  have hc1 : s1.nodesList[c]? = some { cnd with arcToParent := some a } := by
    rw [n1, getElem?_mapIdx_some hc]
    simp only [if_true]
  have hc21 : s1.nodesList[c2]? = some c2nd := by
    rw [n1, getElem?_mapIdx_some hc2]
    simp only [if_neg hc2c]
  have hl1 : s1.nodesList.length = s.nodesList.length := by rw [n1, List.length_mapIdx]
  have hcL : c ∈ kids c2 := (hK1.memIff (hl1 ▸ hc2l) hc1).mpr hcp
  have hc2L : c2 ∉ kids c2 := fun hx => hc2p ((hK1.memIff (hl1 ▸ hc2l) hc21).mp hx)
  obtain ⟨s2, e2, n2, a2, r2, o2⟩ := breakRelationship_ex hc2c hc21 hc1 (hK1.chainOf hc21)
    (hK1.nodupOf (hl1 ▸ hc2l)) hcL hc2L
    (le_trans (hK1.length_le (hl1 ▸ hc2l)) (hl1 ▸ hfuel))
  have hK2 : WellKept s2.nodesList (Function.update kids c2 ((kids c2).erase c)) := by
    rw [n2]
    exact hK1.afterBreak hc21 hc1 hcp
  obtain ⟨qnd2, hq2⟩ : ∃ qnd2, s2.nodesList[q]? = some qnd2 := by
    rw [n2, n1]
    exact ⟨_, getElem?_mapIdx_some (getElem?_mapIdx_some hq)⟩
  have hc2' : s2.nodesList[c]?
      = some (detached c2 c (kids c2) cnd.next c { cnd with arcToParent := some a }) := by
    rw [n2, getElem?_mapIdx_some hc1]
  obtain ⟨s3, e3, n3, a3, r3, o3⟩ := addRelationship_ex hq2 hc2'
  have hK3 := hK2.afterAdd hq2 hc2' (by simp only [detached, if_true])
  rw [← n3] at hK3
  have ha3 : s3.arcList[a0]? = some arc0 := by rw [a3, a2, a1]; exact ha0
  obtain ⟨s4, e4, n4, a4, r4, o4⟩ :=
    modArc_ex2 (fun x => { x with direction := subU 1 x.direction }) ha3
  refine ⟨s1, s2, s3, s4, _, e1, e2, e3, e4, ?_, n4 ▸ hK3, ?_, ?_, ?_⟩
  · refine ⟨?_, ?_⟩
    · rw [n4, n3, n2, n1]
      simp only [List.length_mapIdx]
    · intro m nd hnd
      have hlook : s4.nodesList[m]? = some (attached q c qnd2.childList m
          (detached c2 c (kids c2) cnd.next m
            (if m = c then { nd with arcToParent := some a } else nd))) := by
        rw [n4, n3, n2, n1]
        exact getElem?_mapIdx_some (getElem?_mapIdx_some (getElem?_mapIdx_some hnd))
      refine ⟨_, hlook, ?_, ?_, ?_⟩
      · rw [payload_attached, payload_detached]
        by_cases h : m = c
        · simp only [if_pos h]
          rfl
        · simp only [if_neg h]
      · rw [lookup_single]
        by_cases h : m = c
        · simp only [attached, if_pos h]
        · simp only [attached, detached, if_neg h]
      · rw [lookup_single]
        by_cases h : m = c
        · simp only [attached, detached, if_pos h]
        · simp only [attached, detached, if_neg h]
  · rw [a4, a3, a2, a1]
  · rw [r4, r3, r2, r1]
  · rw [o4, o3, o2, o1]

theorem Relinked.cons_step {nl nl1 nl2 : List Node} {c q a : Nat}
    {lk : List (Nat × Nat × Nat)} (h1 : Relinked nl nl1 [(c, q, a)])
    (h2 : Relinked nl1 nl2 lk) (hc : lk.lookup c = none) :
    Relinked nl nl2 ((c, q, a) :: lk) := by
  refine ⟨h2.1.trans h1.1, ?_⟩
  intro m nd hnd
  obtain ⟨nd1, e1, p1, q1, r1⟩ := h1.2 m nd hnd
  obtain ⟨nd2, e2, p2, q2, r2⟩ := h2.2 m nd1 e1
  refine ⟨nd2, e2, p2.trans p1, ?_, ?_⟩
  · rw [q2, q1, lookup_single]
    by_cases h : m = c
    · subst h
      simp [List.lookup, hc]
    · have hb : (m == c) = false := by simpa using h
      simp only [List.lookup, hb, if_neg h]
  · rw [r2, r1, lookup_single]
    by_cases h : m = c
    · subst h
      simp [List.lookup, hc]
    · have hb : (m == c) = false := by simpa using h
      simp only [List.lookup, hb, if_neg h]

theorem Relinked.nil (nl : List Node) : Relinked nl nl [] :=
  ⟨rfl, fun _ nd hnd => ⟨nd, hnd, rfl, rfl, rfl⟩⟩

theorem loopLinks_lookup_none :
    ∀ (R A : List Nat) (q a m : Nat), m ∉ R → (loopLinks q a R A).lookup m = none := by
  intro R
  induction R with
  | nil => intro A q a m _; simp [loopLinks]
  | cons c R ih =>
    intro A q a m hm
    cases R with
    | nil => simp [loopLinks]
    | cons c2 R =>
      cases A with
      | nil => simp [loopLinks]
      | cons a0 A =>
        have h1 : m ≠ c := fun e => hm (e ▸ List.mem_cons_self _ _)
        have hb : (m == c) = false := by simpa using h1
        simp only [loopLinks, List.lookup, hb]
        exact ih A c a0 m (fun hx => hm (List.mem_cons_of_mem _ hx))

/-! ## The loop of `merge` -/

theorem flipArcs_nil (arcs : List Arc) : flipArcs [] arcs = arcs := by
  apply List.ext_getElem?
  intro j
  unfold flipArcs
  rw [List.getElem?_mapIdx]
  cases arcs[j]? with
  | none => rfl
  | some a => simp

theorem flipArcs_cons {arcs : List Arc} {a0 : Nat} {arc0 : Arc} {A : List Nat}
    (h : arcs[a0]? = some arc0) (hA : a0 ∉ A) :
    flipArcs A (arcs.set a0 { arc0 with direction := subU 1 arc0.direction })
      = flipArcs (a0 :: A) arcs := by
  apply List.ext_getElem?
  intro j
  unfold flipArcs
  rw [List.getElem?_mapIdx, List.getElem?_mapIdx]
  by_cases hj : j = a0
  · rw [hj, List.getElem?_set_self (getElem?_lt h), h]
    simp [hA]
  · rw [List.getElem?_set_ne (fun e => hj e.symm)]
    cases arcs[j]? with
    | none => rfl
    | some a => simp [hj]

theorem flipArcs_length (A : List Nat) (arcs : List Arc) :
    (flipArcs A arcs).length = arcs.length := by
  unfold flipArcs
  rw [List.length_mapIdx]

theorem mergeLoop_spec :
    ∀ (R A : List Nat) (c : Nat) (s : State) (kids : Nat → List Nat) (q a fuel r : Nat),
      isPath s.nodesList (c :: R) = true → (c :: R).Nodup → q ∉ c :: R →
      q < s.nodesList.length → WellKept s.nodesList kids →
      arcsUp s.nodesList (c :: R).dropLast = some A → A.Nodup →
      (∀ x ∈ A, x < s.arcList.length) →
      s.nodesList.length + (c :: R).length ≤ fuel + 1 →
      (c :: R).getLast? = some r →
      ∃ s1 kids1, mergeLoop s fuel c q a
          = .ok (s1, r, (lastLink q a (c :: R) A).1, (lastLink q a (c :: R) A).2)
        ∧ Relinked s.nodesList s1.nodesList (loopLinks q a (c :: R) A)
        ∧ WellKept s1.nodesList kids1
        ∧ s1.arcList = flipArcs A s.arcList ∧ s1.strongRoots = s.strongRoots
        ∧ s1.rest = s.rest := by
  intro R
  induction R with
  | nil =>
    intro A c s kids q a fuel r hP _ _ hq hK hA _ _ hf hr
    obtain ⟨cnd, hc, hcp⟩ := isPath_single.mp hP
    have hA0 : A = [] := by
      simp only [List.dropLast_single, arcsUp, Option.some.injEq] at hA
      exact hA.symm
    have hr0 : r = c := by
      simp only [List.getLast?_singleton, Option.some.injEq] at hr
      exact hr.symm
    cases fuel with
    | zero =>
      simp only [List.length_singleton] at hf
      omega
    | succ fuel =>
      refine ⟨s, kids, ?_, ?_, hK, ?_, rfl, rfl⟩
      · unfold mergeLoop
        simp only [State.node, hc, deref, ok_bind, hcp, hr0]
        rfl
      · exact Relinked.nil _
      · rw [hA0, flipArcs_nil]
  | cons c2 R ih =>
    intro A c s kids q a fuel r hP hn hqR hq hK hA hAn hAv hf hr
    obtain ⟨⟨cnd, hc, hcp⟩, hP2⟩ := isPath_cons.mp hP
    have hn2 : (c2 :: R).Nodup := (List.nodup_cons.mp hn).2
    have hcR : c ∉ c2 :: R := (List.nodup_cons.mp hn).1
    have hc2c : c2 ≠ c := fun e => hcR (e ▸ List.mem_cons_self _ _)
    have hqc : q ≠ c := fun e => hqR (e ▸ List.mem_cons_self _ _)
    obtain ⟨c2nd, hc2⟩ := isPath_mem hP2 c2 (List.mem_cons_self _ _)
    obtain ⟨qnd, hqn⟩ : ∃ qnd, s.nodesList[q]? = some qnd := ⟨_, List.getElem?_eq_getElem hq⟩
    have hdrop : (c :: c2 :: R).dropLast = c :: (c2 :: R).dropLast := rfl
    rw [hdrop] at hA
    obtain ⟨a0, A1, hAe, ha0, hA1⟩ := arcsUp_cons hA
    rw [hc] at ha0
    simp only [Option.some_bind] at ha0
    subst hAe
    have ha0A : a0 ∉ A1 := (List.nodup_cons.mp hAn).1
    have hA1n : A1.Nodup := (List.nodup_cons.mp hAn).2
    obtain ⟨arc0, harc0⟩ : ∃ arc0, s.arcList[a0]? = some arc0 :=
      ⟨_, List.getElem?_eq_getElem (hAv a0 (List.mem_cons_self _ _))⟩
    have hc2p : c2nd.parent ≠ some c2 := by
      cases R with
      | nil =>
        obtain ⟨x, hx, hxp⟩ := isPath_single.mp hP2
        rw [hc2] at hx
        cases hx
        rw [hxp]
        exact fun e => by cases e
      | cons c3 R =>
        obtain ⟨⟨x, hx, hxp⟩, _⟩ := isPath_cons.mp hP2
        rw [hc2] at hx
        cases hx
        rw [hxp]
        intro e
        have : c3 = c2 := Option.some.inj e
        exact (List.nodup_cons.mp hn2).1 (this ▸ List.mem_cons_self _ _)
    cases fuel with
    | zero =>
      simp only [List.length_cons] at hf
      omega
    | succ fuel =>
      have hfuel : s.nodesList.length ≤ fuel + 1 := by
        simp only [List.length_cons] at hf
        omega
      obtain ⟨s1, s2, s3, s4, kids4, e1, e2, e3, e4, hrel, hK4, ha4, hr4, ho4⟩ :=
        @merge_round s kids c c2 q a a0 (fuel + 1) cnd c2nd qnd arc0 hK hc hc2 hqn hcp hc2c hqc
          hc2p harc0 hfuel
      have hlen4 : s4.nodesList.length = s.nodesList.length := hrel.1
      have hsame : ∀ m ∈ c2 :: R, ∀ nd, s.nodesList[m]? = some nd →
          ∃ nd1, s4.nodesList[m]? = some nd1 ∧ nd1.parent = nd.parent
            ∧ nd1.arcToParent = nd.arcToParent := by
        intro m hm nd hnd
        obtain ⟨nd1, h1, _, h3, h4⟩ := hrel.2 m nd hnd
        have hmc : m ≠ c := fun e => hcR (e ▸ hm)
        rw [lookup_single, if_neg hmc] at h3 h4
        exact ⟨nd1, h1, h3, h4⟩
      have hP4 : isPath s4.nodesList (c2 :: R) = true :=
        isPath_congr (fun m hm nd hnd =>
          let ⟨nd1, h1, h2, _⟩ := hsame m hm nd hnd
          ⟨nd1, h1, h2⟩) hP2
      have hA4 : arcsUp s4.nodesList (c2 :: R).dropLast = some A1 :=
        arcsUp_congr (fun m hm nd hnd =>
          let ⟨nd1, h1, _, h3⟩ := hsame m (List.mem_of_mem_dropLast hm) nd hnd
          ⟨nd1, h1, h3⟩)
          (fun m hm => isPath_mem hP2 m (List.mem_of_mem_dropLast hm)) hA1
      have hAv4 : ∀ x ∈ A1, x < s4.arcList.length := by
        intro x hx
        rw [ha4, List.length_set]
        exact hAv x (List.mem_cons_of_mem _ hx)
      have hr2 : (c2 :: R).getLast? = some r := by
        rw [← hr, List.getLast?_cons_cons]
      obtain ⟨s5, kids5, e5, hrel5, hK5, ha5, hr5, ho5⟩ :=
        ih A1 c2 s4 kids4 c a0 fuel r hP4 hn2 hcR (hlen4 ▸ getElem?_lt hc) hK4 hA4 hA1n hAv4
          (by
            rw [hlen4]
            simp only [List.length_cons] at hf ⊢
            omega) hr2
      refine ⟨s5, kids5, ?_, ?_, hK5, ?_, hr5.trans hr4, ho5.trans ho4⟩
      · unfold mergeLoop
        simp only [State.node, hc, deref, ok_bind, hcp, ha0, e1, e2, e3, e4]
        exact e5
      · exact Relinked.cons_step hrel hrel5 (loopLinks_lookup_none _ _ _ _ _ hcR)
      · rw [ha5, ha4]
        exact flipArcs_cons harc0 ha0A

/-! ## The links that `merge` leaves -/

theorem arcsUp_length {nl : List Node} :
    ∀ {R A : List Nat}, arcsUp nl R = some A → A.length = R.length := by
  intro R
  induction R with
  | nil =>
    intro A h
    simp only [arcsUp, Option.some.injEq] at h
    rw [← h]
  | cons m rest ih =>
    intro A h
    obtain ⟨a, A1, e, _, h2⟩ := arcsUp_cons h
    rw [e, List.length_cons, List.length_cons, ih h2]

theorem loopLinks_index :
    ∀ (R A : List Nat) (q a i m : Nat), R.Nodup → A.length + 1 = R.length →
      i + 1 < R.length → R[i]? = some m →
      ∃ qi ai, (q :: R)[i]? = some qi ∧ (a :: A)[i]? = some ai
        ∧ (loopLinks q a R A).lookup m = some (qi, ai) := by
  intro R
  induction R with
  | nil => intro A q a i m _ _ hi _; simp at hi
  | cons c R ih =>
    intro A q a i m hn hl hi hm
    cases R with
    | nil => simp at hi
    | cons c2 R =>
      cases A with
      | nil => simp at hl
      | cons a0 A =>
        cases i with
        | zero =>
          simp only [List.getElem?_cons_zero, Option.some.injEq] at hm
          subst hm
          exact ⟨q, a, rfl, rfl, by simp [loopLinks, List.lookup]⟩
        | succ i =>
          have hm2 : (c2 :: R)[i]? = some m := by simpa using hm
          have hmc : m ≠ c := by
            intro e
            have := List.getElem?_mem hm2
            exact (List.nodup_cons.mp hn).1 (e ▸ this)
          have hb : (m == c) = false := by simpa using hmc
          obtain ⟨qi, ai, h1, h2, h3⟩ := ih A c a0 i m (List.nodup_cons.mp hn).2
            (by simpa using hl) (by simpa using hi) hm2
          refine ⟨qi, ai, by simpa using h1, by simpa using h2, ?_⟩
          simp only [loopLinks, List.lookup, hb]
          exact h3

theorem lastLink_index :
    ∀ (R A : List Nat) (q a : Nat), R ≠ [] → A.length + 1 = R.length →
      (q :: R)[R.length - 1]? = some (lastLink q a R A).1
      ∧ (a :: A)[R.length - 1]? = some (lastLink q a R A).2 := by
  intro R
  induction R with
  | nil => intro A q a h _; exact absurd rfl h
  | cons c R ih =>
    intro A q a _ hl
    cases R with
    | nil =>
      cases A with
      | nil => simp [lastLink]
      | cons a0 A => simp at hl
    | cons c2 R =>
      cases A with
      | nil => simp at hl
      | cons a0 A =>
        obtain ⟨h1, h2⟩ := ih A c a0 (List.cons_ne_nil _ _) (by simpa using hl)
        have e : (c :: c2 :: R).length - 1 = ((c2 :: R).length - 1) + 1 := by simp
        rw [e, List.getElem?_cons_succ, List.getElem?_cons_succ]
        exact ⟨h1, h2⟩

theorem lastLink_valid :
    ∀ (R A : List Nat) (q a n : Nat), q < n → (∀ m ∈ R, m < n) → (lastLink q a R A).1 < n := by
  intro R
  induction R with
  | nil => intro A q a n hq _; simpa [lastLink] using hq
  | cons c R ih =>
    intro A q a n hq hR
    cases R with
    | nil => simpa [lastLink] using hq
    | cons c2 R =>
      cases A with
      | nil => simpa [lastLink] using hq
      | cons a0 A =>
        simp only [lastLink]
        exact ih A c a0 n (hR c (List.mem_cons_self _ _))
          (fun m hm => hR m (List.mem_cons_of_mem _ hm))

theorem Relinked.then_one {nl nl1 nl2 : List Node} {r q a : Nat}
    {lk : List (Nat × Nat × Nat)} (h1 : Relinked nl nl1 lk)
    (h2 : Relinked nl1 nl2 [(r, q, a)]) :
    Relinked nl nl2 ((r, q, a) :: lk) := by
  refine ⟨h2.1.trans h1.1, ?_⟩
  intro m nd hnd
  obtain ⟨nd1, e1, p1, q1, r1⟩ := h1.2 m nd hnd
  obtain ⟨nd2, e2, p2, q2, r2⟩ := h2.2 m nd1 e1
  refine ⟨nd2, e2, p2.trans p1, ?_, ?_⟩
  · rw [q2, lookup_single]
    by_cases h : m = r
    · subst h
      simp [List.lookup]
    · have hb : (m == r) = false := by simpa using h
      simp only [List.lookup, hb, if_neg h]
      exact q1
  · rw [r2, lookup_single]
    by_cases h : m = r
    · subst h
      simp [List.lookup]
    · have hb : (m == r) = false := by simpa using h
      simp only [List.lookup, hb, if_neg h]
      exact r1

/-! ## `merge` -/

theorem merge_links {s : State} {kids : Nat → List Nat} {w x e fuel r : Nat}
    {R A : List Nat}
    (hP : isPath s.nodesList (x :: R) = true) (hn : (x :: R).Nodup) (hw : w ∉ x :: R)
    (hwv : w < s.nodesList.length) (hK : WellKept s.nodesList kids)
    (hA : arcsUp s.nodesList (x :: R).dropLast = some A) (hAn : A.Nodup)
    (hAv : ∀ a ∈ A, a < s.arcList.length)
    (hf : s.nodesList.length + (x :: R).length ≤ fuel + 1)
    (hr : (x :: R).getLast? = some r) :
    ∃ s1 kids1, merge fuel s w x e = .ok s1
      ∧ Relinked s.nodesList s1.nodesList
          ((r, lastLink w e (x :: R) A) :: loopLinks w e (x :: R) A)
      ∧ WellKept s1.nodesList kids1
      ∧ s1.arcList = flipArcs A s.arcList ∧ s1.strongRoots = s.strongRoots
      ∧ s1.rest = ({ s with numMergers := incU s.numMergers } : State).rest := by
  obtain ⟨s1, kids1, e1, hrel, hK1, ha1, hr1, ho1⟩ :=
    mergeLoop_spec R A x { s with numMergers := incU s.numMergers } kids w e fuel r
      hP hn hw hwv hK hA hAn hAv hf hr
  have hne : x :: R ≠ [] := List.cons_ne_nil _ _
  have hrlast : r = (x :: R).getLast hne := by
    rw [List.getLast?_eq_getLast _ hne] at hr
    exact (Option.some.inj hr).symm
  obtain ⟨rnd, hrnd, hrp⟩ := isPath_last hP
  rw [← hrlast] at hrnd
  have hrR : r ∈ x :: R := hrlast ▸ List.getLast_mem hne
  -- the root after the loop
  obtain ⟨rnd1, hrnd1, _, hrp1, _⟩ := hrel.2 r rnd hrnd
  have hlooknone : (loopLinks w e (x :: R) A).lookup r = none := by
    cases R with
    | nil => simp [loopLinks]
    | cons c2 R2 =>
      have hl := arcsUp_length hA
      cases A with
      | nil => simp [loopLinks]
      | cons a0 A1 =>
        -- the last node of the path is not among the nodes the loop handles
        have key : ∀ (R A : List Nat) (q a c : Nat), (c :: R).Nodup →
            (loopLinks q a (c :: R) A).lookup ((c :: R).getLast (List.cons_ne_nil _ _))
              = none := by
          intro R
          induction R with
          | nil => intro A q a c _; simp [loopLinks]
          | cons d R ih =>
            intro A q a c hnd
            cases A with
            | nil => simp [loopLinks]
            | cons b A =>
              have h1 : (c :: d :: R).getLast (List.cons_ne_nil _ _)
                  = (d :: R).getLast (List.cons_ne_nil _ _) := by simp
              have h2 : (d :: R).getLast (List.cons_ne_nil _ _) ≠ c := by
                intro e2
                exact (List.nodup_cons.mp hnd).1 (e2 ▸ List.getLast_mem _)
              have hb : ((d :: R).getLast (List.cons_ne_nil _ _) == c) = false := by
                simpa using h2
              rw [h1]
              simp only [loopLinks, List.lookup, hb]
              exact ih A c b d (List.nodup_cons.mp hnd).2
        rw [hrlast]
        exact key _ _ _ _ _ hn
  rw [hlooknone] at hrp1
  simp only at hrp1
  have hrp2 : rnd1.parent = none := hrp1.trans hrp
  have hlen1 : s1.nodesList.length = s.nodesList.length := hrel.1
  have hqv : (lastLink w e (x :: R) A).1 < s1.nodesList.length := by
    rw [hlen1]
    refine lastLink_valid _ _ _ _ _ hwv ?_
    intro m hm
    obtain ⟨nd, hnd⟩ := isPath_mem hP m hm
    exact getElem?_lt hnd
  obtain ⟨s2, e2, n2, a2, r2, o2⟩ :=
    modNode_ex2 (fun y => { y with arcToParent := some (lastLink w e (x :: R) A).2 }) hrnd1
  have hK2 : WellKept s2.nodesList kids1 := by
    rw [n2]
    refine hK1.mapIdx_same ?_
    intro m nd _
    by_cases h : m = r
    · simp only [if_pos h, and_self]
    · simp only [if_neg h, and_self]
  have hr2 : s2.nodesList[r]?
      = some { rnd1 with arcToParent := some (lastLink w e (x :: R) A).2 } := by
    rw [n2, getElem?_mapIdx_some hrnd1]
    simp only [if_true]
  obtain ⟨qnd2, hq2⟩ : ∃ qnd2, s2.nodesList[(lastLink w e (x :: R) A).1]? = some qnd2 := by
    refine ⟨_, List.getElem?_eq_getElem ?_⟩
    rw [n2, List.length_mapIdx]
    exact hqv
  obtain ⟨s3, e3, n3, a3, r3, o3⟩ := addRelationship_ex hq2 hr2
  have hK3 := hK2.afterAdd hq2 hr2 hrp2
  rw [← n3] at hK3
  have hfinal : Relinked s1.nodesList s3.nodesList [(r, lastLink w e (x :: R) A)] := by
    refine ⟨?_, ?_⟩
    · rw [n3, n2]
      simp only [List.length_mapIdx]
    · intro m nd hnd
      have hlook : s3.nodesList[m]? = some (attached (lastLink w e (x :: R) A).1 r
          qnd2.childList m
            (if m = r then { nd with arcToParent := some (lastLink w e (x :: R) A).2 }
              else nd)) := by
        rw [n3, n2]
        exact getElem?_mapIdx_some (getElem?_mapIdx_some hnd)
      refine ⟨_, hlook, ?_, ?_, ?_⟩
      · rw [payload_attached]
        by_cases h : m = r
        · simp only [if_pos h]
          rfl
        · simp only [if_neg h]
      · rw [lookup_single]
        by_cases h : m = r
        · simp only [attached, if_pos h]
        · simp only [attached, if_neg h]
      · rw [lookup_single]
        by_cases h : m = r
        · simp only [attached, if_pos h]
        · simp only [attached, if_neg h]
  refine ⟨s3, _, ?_, hrel.then_one hfinal, hK3, ?_, ?_, ?_⟩
  · unfold merge
    simp only [e1, ok_bind, e2]
    exact e3
  · rw [a3, a2, ha1]
  · rw [r3, r2, hr1]
  · rw [o3, o2, ho1]

/-! ## Parent paths of a forest -/

theorem isPath_suffix {nl : List Node} :
    ∀ {A : List Nat} {z : Nat} {C : List Nat},
      isPath nl (A ++ z :: C) = true → isPath nl (z :: C) = true := by
  intro A
  induction A with
  | nil => intro z C h; exact h
  | cons a A ih =>
    intro z C h
    cases A with
    | nil => exact (isPath_cons.mp h).2
    | cons b A => exact ih (isPath_cons.mp h).2

theorem isPath_unique {nl : List Node} :
    ∀ {C C1 : List Nat} {z : Nat},
      isPath nl (z :: C) = true → isPath nl (z :: C1) = true → C = C1 := by
  intro C
  induction C with
  | nil =>
    intro C1 z h h1
    obtain ⟨nd, hnd, hp⟩ := isPath_single.mp h
    cases C1 with
    | nil => rfl
    | cons y C1 =>
      obtain ⟨⟨nd1, hnd1, hp1⟩, _⟩ := isPath_cons.mp h1
      rw [hnd] at hnd1
      cases hnd1
      rw [hp] at hp1
      cases hp1
  | cons y C ih =>
    intro C1 z h h1
    obtain ⟨⟨nd, hnd, hp⟩, hr⟩ := isPath_cons.mp h
    cases C1 with
    | nil =>
      obtain ⟨nd1, hnd1, hp1⟩ := isPath_single.mp h1
      rw [hnd] at hnd1
      cases hnd1
      rw [hp] at hp1
      cases hp1
    | cons y1 C1 =>
      obtain ⟨⟨nd1, hnd1, hp1⟩, hr1⟩ := isPath_cons.mp h1
      rw [hnd] at hnd1
      cases hnd1
      rw [hp] at hp1
      cases hp1
      rw [ih hr hr1]

theorem isPath_nodup {nl : List Node} :
    ∀ {P : List Nat}, isPath nl P = true → P.Nodup := by
  intro P
  induction P with
  | nil => intro _; exact List.nodup_nil
  | cons x rest ih =>
    intro h
    cases rest with
    | nil => exact List.nodup_singleton x
    | cons y rest =>
      have hr := (isPath_cons.mp h).2
      refine List.nodup_cons.mpr ⟨?_, ih hr⟩
      intro hx
      obtain ⟨A, C, hAC⟩ := List.append_of_mem hx
      rw [hAC] at hr h
      have h1 := isPath_suffix hr
      have h2 := isPath_unique h h1
      have h3 := congrArg List.length h2
      simp at h3
      omega

theorem isPath_same_last {nl : List Node} {P Q : List Nat} {z : Nat}
    (hP : isPath nl P = true) (hQ : isPath nl Q = true) (hzP : z ∈ P) (hzQ : z ∈ Q) :
    P.getLast? = Q.getLast? := by
  obtain ⟨A, C, hAC⟩ := List.append_of_mem hzP
  obtain ⟨A1, C1, hAC1⟩ := List.append_of_mem hzQ
  rw [hAC] at hP
  rw [hAC1] at hQ
  have h := isPath_unique (isPath_suffix hP) (isPath_suffix hQ)
  rw [hAC, hAC1, h, List.getLast?_append, List.getLast?_append,
    List.getLast?_eq_getLast _ (List.cons_ne_nil z C1)]
  rfl

/-- Paths in the node array after a merge, for the nodes of the reversed
path. -/
theorem paths_of_reversed {nl1 : List Node} :
    ∀ (P : List Nat) (q : Nat) (Q : List Nat), isPath nl1 (q :: Q) = true →
      (∀ (i m : Nat), P[i]? = some m →
        ∃ nd1, nl1[m]? = some nd1 ∧ nd1.parent = (q :: P)[i]?) →
      ∀ m ∈ P, ∃ R1, R1.head? = some m ∧ isPath nl1 R1 = true := by
  intro P
  induction P with
  | nil => intro _ _ _ _ m hm; cases hm
  | cons c P ih =>
    intro q Q hQ hpar m hm
    obtain ⟨nd1, h1, h2⟩ := hpar 0 c (List.getElem?_cons_zero)
    have hc : isPath nl1 (c :: q :: Q) = true :=
      isPath_cons.mpr ⟨⟨nd1, h1, by simpa using h2⟩, hQ⟩
    rcases List.mem_cons.mp hm with e | e
    · exact ⟨c :: q :: Q, by simp [e], hc⟩
    · refine ih c (q :: Q) hc ?_ m e
      intro i x hx
      obtain ⟨nd, h3, h4⟩ := hpar (i + 1) x (by simpa using hx)
      exact ⟨nd, h3, by simpa using h4⟩

theorem paths_after {nl nl1 : List Node} {P : List Nat}
    (hin : ∀ m ∈ P, ∃ R1, R1.head? = some m ∧ isPath nl1 R1 = true)
    (hout : ∀ (m : Nat) (nd : Node), m ∉ P → nl[m]? = some nd →
      ∃ nd1, nl1[m]? = some nd1 ∧ nd1.parent = nd.parent) :
    ∀ (R : List Nat), isPath nl R = true →
      ∃ R1, R1.head? = R.head? ∧ isPath nl1 R1 = true := by
  intro R
  induction R with
  | nil => intro h; simp [isPath] at h
  | cons x rest ih =>
    intro h
    by_cases hx : x ∈ P
    · obtain ⟨R1, h1, h2⟩ := hin x hx
      exact ⟨R1, by simpa using h1, h2⟩
    · cases rest with
      | nil =>
        obtain ⟨nd, hnd, hp⟩ := isPath_single.mp h
        obtain ⟨nd1, h1, h2⟩ := hout x nd hx hnd
        exact ⟨[x], rfl, isPath_single.mpr ⟨nd1, h1, h2.trans hp⟩⟩
      | cons y rest =>
        obtain ⟨⟨nd, hnd, hp⟩, hr⟩ := isPath_cons.mp h
        obtain ⟨nd1, h1, h2⟩ := hout x nd hx hnd
        obtain ⟨R1, h3, h4⟩ := ih hr
        cases R1 with
        | nil => simp [isPath] at h4
        | cons y1 R1 =>
          simp only [List.head?_cons, Option.some.injEq] at h3
          subst h3
          exact ⟨x :: y1 :: R1, rfl, isPath_cons.mpr ⟨⟨nd1, h1, h2.trans hp⟩, h4⟩⟩

/-! ## The claim on `merge` -/

theorem flipArcs_get {A : List Nat} {arcs : List Arc} {j : Nat} {a : Arc}
    (h : arcs[j]? = some a) :
    (flipArcs A arcs)[j]?
      = some (if j ∈ A then { a with direction := subU 1 a.direction } else a) := by
  unfold flipArcs
  rw [List.getElem?_mapIdx, h]
  rfl

/-- C31: `merge` reverses the root path.  Let the child lists match the parent
pointers (`kids`), let the parent pointers have no cycle (`paths`), let
`P = paths x` be the parent path of `x`, whose nodes but the last have the
parent arcs `A`, distinct arcs of the arc array, and let `w` be a node whose
parent path ends at another root.  Then `merge (w, x, e)` returns, and in the
state it leaves: the node at position `i` of `P` has the node at position `i`
of `w :: P` as its parent and the arc at position `i` of `e :: A` as its
parent arc (so `x` hangs below `w` by `e`, and every other node of the path
hangs below the node that was its child, by the arc that joined them); the
direction bit of the arcs of `A` is replaced by `1 - direction` and no other
arc changes; the other nodes keep their parent and their parent arc; no node
changes outside its four tree links; the child lists again match the parent
pointers; and the parent pointers have no cycle. -/
theorem merge_reverses_root_path (fuel : Nat) (s : State) (w x e : Nat)
    (kids : Nat → List Nat) (paths : Nat → List Nat) (A : List Nat)
    (hK : WellKept s.nodesList kids) (hF : Forest s.nodesList paths)
    (hx : x < s.nodesList.length) (hw : w < s.nodesList.length)
    (hroot : (paths w).getLast? ≠ (paths x).getLast?)
    (hA : arcsUp s.nodesList (paths x).dropLast = some A) (hAn : A.Nodup)
    (hAv : ∀ a ∈ A, a < s.arcList.length)
    (hf : s.nodesList.length + (paths x).length ≤ fuel + 1) :
    ∃ s1, merge fuel s w x e = .ok s1 ∧ MergeOutcome s w e (paths x) A s1 := by
  obtain ⟨hxh, hP⟩ := hF x hx
  obtain ⟨hwh, hQ⟩ := hF w hw
  obtain ⟨R, hPR⟩ : ∃ R, paths x = x :: R := by
    cases hp : paths x with
    | nil => rw [hp] at hxh; cases hxh
    | cons y R =>
      rw [hp] at hxh
      simp only [List.head?_cons, Option.some.injEq] at hxh
      exact ⟨R, by rw [hxh]⟩
  obtain ⟨Q, hQR⟩ : ∃ Q, paths w = w :: Q := by
    cases hp : paths w with
    | nil => rw [hp] at hwh; cases hwh
    | cons y Q =>
      rw [hp] at hwh
      simp only [List.head?_cons, Option.some.injEq] at hwh
      exact ⟨Q, by rw [hwh]⟩
  rw [hPR] at hP hA hf hroot ⊢
  rw [hQR] at hQ hroot
  have hn : (x :: R).Nodup := isPath_nodup hP
  have hdisj : ∀ z ∈ x :: R, z ∉ w :: Q := fun z hz hzq =>
    hroot (isPath_same_last hP hQ hz hzq).symm
  have hwP : w ∉ x :: R := fun h => hdisj w h (List.mem_cons_self _ _)
  have hne : x :: R ≠ [] := List.cons_ne_nil _ _
  obtain ⟨r, hr⟩ : ∃ r, (x :: R).getLast? = some r := ⟨_, List.getLast?_eq_getLast _ hne⟩
  have hrlast : r = (x :: R).getLast hne := by
    rw [List.getLast?_eq_getLast _ hne] at hr
    exact (Option.some.inj hr).symm
  obtain ⟨s1, kids1, e1, hrel, hK1, ha1, hr1, ho1⟩ :=
    @merge_links s kids w x e fuel r R A hP hn hwP hw hK hA hAn hAv hf hr
  have hAl : A.length + 1 = (x :: R).length := by
    have := arcsUp_length hA
    rw [this, List.length_dropLast]
    simp
  -- the new links of the nodes of the path
  have hpath : ∀ (i m : Nat), (x :: R)[i]? = some m →
      ∃ nd1, s1.nodesList[m]? = some nd1 ∧ nd1.parent = (w :: x :: R)[i]?
        ∧ nd1.arcToParent = (e :: A)[i]? := by
    intro i m hm
    have hi := getElem?_lt hm
    obtain ⟨nd, hnd⟩ := isPath_mem hP m (List.getElem?_mem hm)
    obtain ⟨nd1, h1, _, h3, h4⟩ := hrel.2 m nd hnd
    by_cases hlast : i + 1 = (x :: R).length
    · have hmr : m = r := by
        rw [List.getLast?_eq_getElem?] at hr
        have e2 : (x :: R).length - 1 = i := by omega
        rw [e2, hm] at hr
        exact Option.some.inj hr
      obtain ⟨h5, h6⟩ := lastLink_index (x :: R) A w e hne hAl
      have e2 : (x :: R).length - 1 = i := by omega
      rw [e2] at h5 h6
      refine ⟨nd1, h1, ?_, ?_⟩
      · rw [h3, h5, hmr]
        simp [List.lookup]
      · rw [h4, h6, hmr]
        simp [List.lookup]
    · have hi2 : i + 1 < (x :: R).length := by omega
      obtain ⟨qi, ai, h5, h6, h7⟩ := loopLinks_index (x :: R) A w e i m hn hAl hi2 hm
      have hmr : m ≠ r := by
        intro e2
        rw [List.getLast?_eq_getElem?] at hr
        rw [e2] at hm
        exact List.nodup_iff_getElem?_ne_getElem?.mp hn i ((x :: R).length - 1) (by omega)
          (by omega) (hm.trans hr.symm)
      have hb : (m == r) = false := by simpa using hmr
      refine ⟨nd1, h1, ?_, ?_⟩
      · rw [h3, h5]
        simp only [List.lookup, hb, h7]
      · rw [h4, h6]
        simp only [List.lookup, hb, h7]
  have hother : ∀ (m : Nat) (nd : Node), m ∉ x :: R → s.nodesList[m]? = some nd →
      ∃ nd1, s1.nodesList[m]? = some nd1 ∧ nd1.parent = nd.parent
        ∧ nd1.arcToParent = nd.arcToParent := by
    intro m nd hm hnd
    obtain ⟨nd1, h1, _, h3, h4⟩ := hrel.2 m nd hnd
    have hmr : m ≠ r := fun e2 => hm (e2 ▸ hrlast ▸ List.getLast_mem hne)
    have hb : (m == r) = false := by simpa using hmr
    have hnone := loopLinks_lookup_none (x :: R) A w e m hm
    refine ⟨nd1, h1, ?_, ?_⟩
    · rw [h3]
      simp only [List.lookup, hb, hnone]
    · rw [h4]
      simp only [List.lookup, hb, hnone]
  -- the parent path of `w` is still one
  have hQ1 : isPath s1.nodesList (w :: Q) = true := by
    refine isPath_congr ?_ hQ
    intro m hm nd hnd
    obtain ⟨nd1, h1, h2, _⟩ := hother m nd (fun h => hdisj m h hm) hnd
    exact ⟨nd1, h1, h2⟩
  have hin := paths_of_reversed (x :: R) w Q hQ1
    (fun i m hm => let ⟨nd1, h1, h2, _⟩ := hpath i m hm; ⟨nd1, h1, h2⟩)
  have hafter := @paths_after s.nodesList s1.nodesList (x :: R) hin
    (fun m nd hm hnd => let ⟨nd1, h1, h2, _⟩ := hother m nd hm hnd; ⟨nd1, h1, h2⟩)
  refine ⟨s1, e1, hrel.1, hpath, hother, ?_, ?_, ?_, hr1, ho1, ⟨kids1, hK1⟩, ?_⟩
  · intro m nd hnd
    obtain ⟨nd1, h1, h2, _⟩ := hrel.2 m nd hnd
    exact ⟨nd1, h1, h2⟩
  · rw [ha1, flipArcs_length]
  · intro j a hj
    rw [ha1]
    exact flipArcs_get hj
  · -- a parent path for every node
    have hex : ∀ m, m < s1.nodesList.length →
        ∃ R1, R1.head? = some m ∧ isPath s1.nodesList R1 = true := by
      intro m hm
      rw [hrel.1] at hm
      obtain ⟨h1, h2⟩ := hF m hm
      obtain ⟨R1, h3, h4⟩ := hafter (paths m) h2
      exact ⟨R1, h3.trans h1, h4⟩
    classical
    refine ⟨fun m => if hm : m < s1.nodesList.length then Classical.choose (hex m hm) else [],
      ?_⟩
    intro m hm
    simp only [dif_pos hm]
    exact Classical.choose_spec (hex m hm)

/-- C31 on the state `grove`: `merge (5, 4, 2)` hangs the path 4, 3, 2 below the
root 5.  Node 4 gets the parent 5 and the parent arc 2, node 3 the parent 4 and
the arc 1, node 2 the parent 3 and the arc 0; the direction bits of the arcs 1
and 0 change from 0 to 1 and from 1 to 0. -/
theorem merge_reverses_root_path_witness :
    (∃ s1, merge 8 grove 5 4 2 = .ok s1 ∧ MergeOutcome grove 5 2 (grovePaths 4) [1, 0] s1)
    ∧ (merge 8 grove 5 4 2).map (fun s1 =>
        s1.nodesList.map (fun nd => (nd.parent, nd.arcToParent)))
      = .ok [(none, none), (none, none), (some 3, some 0), (some 4, some 1),
          (some 5, some 2), (none, none)]
    ∧ (merge 8 grove 5 4 2).map (fun s1 =>
        (s1.nodesList.map (fun nd => nd.childList), s1.arcList.map (fun a => a.direction)))
      = .ok ([none, none, none, some 2, some 3, some 4], [0, 1, 1, 1, 1]) :=
  ⟨merge_reverses_root_path 8 grove 5 4 2 groveKids grovePaths [1, 0]
      (by unfold WellKept; decide) (by unfold Forest; decide) (by decide) (by decide)
      (by decide) (by decide) (by decide) (by decide) (by decide),
    by decide!, by decide!⟩

/-! ## One step of `liftAll` -/

theorem mapIdx_id_nodes {nl : List Node} {F : Nat → Node → Node}
    (h : ∀ (m : Nat) (nd : Node), nl[m]? = some nd → F m nd = nd) : nl.mapIdx F = nl := by
  apply List.ext_getElem?
  intro m
  rw [List.getElem?_mapIdx]
  cases hm : nl[m]? with
  | none => rfl
  | some nd => simp only [Option.map_some', h m nd hm]

theorem dropCounts_nil (lc : List Nat) : dropCounts [] lc = lc := rfl

theorem dropCounts_cons (l : Nat) (ls lc : List Nat) :
    dropCounts (l :: ls) lc = dropCounts ls (lc.set l (decU ((lc[l]?).getD 0))) := rfl

theorem dropCounts_append (a b lc : List Nat) :
    dropCounts (a ++ b) lc = dropCounts b (dropCounts a lc) := by
  unfold dropCounts
  rw [List.foldl_append]

theorem dropCounts_length (ls : List Nat) : ∀ lc : List Nat,
    (dropCounts ls lc).length = lc.length := by
  induction ls with
  | nil => intro lc; rfl
  | cons l ls ih =>
    intro lc
    rw [dropCounts_cons, ih, List.length_set]

theorem labelsOf_congr {nl nl1 : List Node} {T : List Nat}
    (h : ∀ m ∈ T, (nl1[m]?).map (fun nd => nd.label) = (nl[m]?).map (fun nd => nd.label)) :
    labelsOf nl1 T = labelsOf nl T := by
  unfold labelsOf
  apply List.map_congr_left
  intro m hm
  rw [h m hm]

theorem labelsOf_append (nl : List Node) (a b : List Nat) :
    labelsOf nl (a ++ b) = labelsOf nl a ++ labelsOf nl b := by
  unfold labelsOf
  rw [List.map_append]

theorem subtree_cons (kids : Nat → List Nat) (d c : Nat) :
    subtree kids d c = c :: (subtree kids d c).tail := by
  cases d <;> rfl

/-- The scan of `current` is over: the loop goes up to its parent. -/
theorem liftAllLoop_leave (s : State) {nl : List Node} {lc : List Nat} {u : Nat}
    {und : Node} (fuel : Nat) (hu : nl[u]? = some und) (hns : und.nextScan = none) :
    liftAllLoop (fuel + 1) (s.relabel nl lc) (some u)
      = liftAllLoop fuel (s.relabel nl lc) und.parent := by
  rw [liftAllLoop]
  simp only [State.node, State.relabel, hu, deref, ok_bind, hns]

/-- The scan of `current` finds the child `c`: the loop steps down and lifts
`c`. -/
theorem liftAllLoop_enter (s : State) {nl : List Node} {lc : List Nat} {u c : Nat}
    {und cnd : Node} (fuel : Nat) (hu : nl[u]? = some und) (hc : nl[c]? = some cnd)
    (huc : u ≠ c) (hns : und.nextScan = some c) (hl : cnd.label < lc.length) :
    liftAllLoop (fuel + 1) (s.relabel nl lc) (some u)
      = liftAllLoop fuel
          (s.relabel (nl.mapIdx (entered u c cnd.next s.numNodes))
            (lc.set cnd.label (decU ((lc[cnd.label]?).getD 0)))) (some c) := by
  have hcu : ¬ c = u := fun e => huc e.symm
  have hlu := getElem?_lt hu
  have hlc := getElem?_lt hc
  have hv : lc[cnd.label]? = some (lc[cnd.label]) := List.getElem?_eq_getElem hl
  rw [liftAllLoop]
  simp only [State.node, State.relabel, hu, deref, ok_bind, hns, hc, modNode_lt, hlu, hlc,
    List.length_mapIdx, liftNode, List.getElem?_mapIdx, Option.map_some', if_neg hcu, if_true,
    State.modCount, hv, mapIdx_mapIdx_nodes, Option.getD_some]
  congr 2
  congr 1
  funext m nd
  unfold entered
  by_cases h1 : m = c
  · have h2 : ¬ m = u := fun e => huc (e.symm.trans h1)
    simp only [if_pos h1, if_neg h2]
  · simp only [if_neg h1]

/-! ## The scan of a list of children by `liftAll` -/

theorem liftAll_list (s : State) (kids : Nat → List Nat) (d : Nat)
    (hV : ∀ (c : Nat) (nl : List Node) (lc : List Nat) (cnd : Node) (fuel : Nat),
      WellKept nl kids → nl[c]? = some cnd → cnd.nextScan = cnd.childList →
      heightOk kids d c = true → (subtree kids d c).Nodup →
      (∀ m ∈ (subtree kids d c).tail, ∀ nd, nl[m]? = some nd → nd.label < lc.length) →
      liftAllLoop (fuel + (2 * (subtree kids d c).tail.length + 1)) (s.relabel nl lc) (some c)
        = liftAllLoop fuel
            (s.relabel (nl.mapIdx (scanned c (subtree kids d c).tail s.numNodes))
              (dropCounts (labelsOf nl (subtree kids d c).tail) lc)) cnd.parent) :
    ∀ (S : List Nat) (u : Nat) (nl : List Node) (lc : List Nat) (und : Node) (fuel : Nat),
      WellKept nl kids → nl[u]? = some und → isChain nl und.nextScan S = true →
      (∀ c ∈ S, c ∈ kids u) → (∀ c ∈ S, heightOk kids d c = true) →
      (u :: S.flatMap (subtree kids d)).Nodup →
      (∀ m ∈ S.flatMap (subtree kids d), ∀ nd, nl[m]? = some nd → nd.label < lc.length) →
      liftAllLoop (fuel + (2 * (S.flatMap (subtree kids d)).length + 1)) (s.relabel nl lc)
          (some u)
        = liftAllLoop fuel
            (s.relabel (nl.mapIdx (scanned u (S.flatMap (subtree kids d)) s.numNodes))
              (dropCounts (labelsOf nl (S.flatMap (subtree kids d))) lc)) und.parent := by
  intro S
  induction S with
  | nil =>
    intro u nl lc und fuel _ hu hch _ _ _ _
    have hns : und.nextScan = none := isChain_nil.mp hch
    simp only [List.flatMap_nil, List.length_nil, Nat.mul_zero, Nat.zero_add]
    rw [liftAllLoop_leave s fuel hu hns]
    have e1 : nl.mapIdx (scanned u [] s.numNodes) = nl := by
      apply mapIdx_id_nodes
      intro m nd hnd
      unfold scanned lifted
      by_cases h : m = u
      · rw [h, hu] at hnd
        cases hnd
        simp only [if_pos h]
        cases und
        simp only at hns
        simp only [hns]
      · simp only [if_neg h, List.not_mem_nil, if_false]
    rw [e1]
    rfl
  | cons c S ih =>
    intro u nl lc und fuel hK hu hch hkid hH hn hlab
    obtain ⟨hns, cnd, hc, hchS⟩ := isChain_cons.mp hch
    obtain ⟨Tt, hTt⟩ : ∃ Tt, Tt = (subtree kids d c).tail := ⟨_, rfl⟩
    have hTc : subtree kids d c = c :: Tt := by rw [hTt]; exact subtree_cons kids d c
    obtain ⟨T1, hT1⟩ : ∃ T1, T1 = S.flatMap (subtree kids d) := ⟨_, rfl⟩
    have hT : (c :: S).flatMap (subtree kids d) = c :: (Tt ++ T1) := by
      rw [List.flatMap_cons, hTc, hT1]
      rfl
    rw [hT] at hn hlab ⊢
    -- what the absence of repetition says
    have hn1 : (c :: (Tt ++ T1)).Nodup := (List.nodup_cons.mp hn).2
    have huT : u ∉ c :: (Tt ++ T1) := (List.nodup_cons.mp hn).1
    have huc : u ≠ c := fun e => huT (e ▸ List.mem_cons_self _ _)
    have hcu : ¬ c = u := fun e => huc e.symm
    have hcT : c ∉ Tt ++ T1 := (List.nodup_cons.mp hn1).1
    have hn2 : (Tt ++ T1).Nodup := (List.nodup_cons.mp hn1).2
    have hnTt : Tt.Nodup := (List.nodup_append.mp hn2).1
    have hnT1 : T1.Nodup := (List.nodup_append.mp hn2).2.1
    have hdis : ∀ m ∈ Tt, m ∉ T1 := fun m h1 h2 => (List.nodup_append.mp hn2).2.2 h1 h2
    have hcTt : c ∉ Tt := fun h => hcT (List.mem_append_left _ h)
    have hcT1 : c ∉ T1 := fun h => hcT (List.mem_append_right _ h)
    have huTt : u ∉ Tt := fun h => huT (List.mem_cons_of_mem _ (List.mem_append_left _ h))
    have huT1 : u ∉ T1 := fun h => huT (List.mem_cons_of_mem _ (List.mem_append_right _ h))
    have hul := getElem?_lt hu
    have hcp : cnd.parent = some u := (hK.memIff hul hc).mp (hkid c (List.mem_cons_self _ _))
    have hl : cnd.label < lc.length := hlab c (List.mem_cons_self _ _) cnd hc
    -- the state after the step down to `c`
    obtain ⟨nl3, hnl3⟩ : ∃ nl3, nl3 = nl.mapIdx (entered u c cnd.next s.numNodes) := ⟨_, rfl⟩
    obtain ⟨lc3, hlc3⟩ : ∃ lc3, lc3 = lc.set cnd.label (decU ((lc[cnd.label]?).getD 0)) :=
      ⟨_, rfl⟩
    have hK3 : WellKept nl3 kids := by
      rw [hnl3]
      refine hK.mapIdx_same ?_
      intro m nd _
      unfold entered
      by_cases h1 : m = c
      · simp only [if_pos h1, and_self]
      · by_cases h2 : m = u
        · simp only [if_neg h1, if_pos h2, and_self]
        · simp only [if_neg h1, if_neg h2, and_self]
    have hc3 : nl3[c]? = some { cnd with nextScan := cnd.childList, label := s.numNodes } := by
      rw [hnl3, getElem?_mapIdx_some hc]
      simp only [entered, if_true]
    have hsame3 : ∀ m, m ≠ c → ∀ nd, nl[m]? = some nd →
        ∃ nd3, nl3[m]? = some nd3 ∧ nd3.label = nd.label ∧ nd3.next = nd.next := by
      intro m hm nd hnd
      refine ⟨_, by rw [hnl3]; exact getElem?_mapIdx_some hnd, ?_, ?_⟩
      · unfold entered
        by_cases h2 : m = u
        · simp only [if_neg hm, if_pos h2]
        · simp only [if_neg hm, if_neg h2]
      · unfold entered
        by_cases h2 : m = u
        · simp only [if_neg hm, if_pos h2]
        · simp only [if_neg hm, if_neg h2]
    have hlen3 : lc3.length = lc.length := by rw [hlc3, List.length_set]
    have hlab3 : ∀ m ∈ Tt, ∀ nd, nl3[m]? = some nd → nd.label < lc3.length := by
      intro m hm nd3 hnd3
      have hmc : m ≠ c := fun e => hcTt (e ▸ hm)
      have hml : m < nl.length := by
        have := getElem?_lt hnd3
        rw [hnl3, List.length_mapIdx] at this
        exact this
      obtain ⟨nd, hnd⟩ : ∃ nd, nl[m]? = some nd := ⟨_, List.getElem?_eq_getElem hml⟩
      obtain ⟨x, hx, hxl, _⟩ := hsame3 m hmc nd hnd
      rw [hnd3] at hx
      cases hx
      rw [hlen3, hxl]
      exact hlab m (List.mem_cons_of_mem _ (List.mem_append_left _ hm)) nd hnd
    have hstep2 := hV c nl3 lc3 _ (fuel + (2 * T1.length + 1)) hK3 hc3 rfl
      (hH c (List.mem_cons_self _ _)) (hTc ▸ List.nodup_cons.mpr ⟨hcTt, hnTt⟩)
      (by rw [← hTt]; exact hlab3)
    rw [← hTt] at hstep2
    -- the state after the subtree of `c`
    obtain ⟨nl4, hnl4⟩ : ∃ nl4, nl4 = nl3.mapIdx (scanned c Tt s.numNodes) := ⟨_, rfl⟩
    obtain ⟨lc4, hlc4⟩ : ∃ lc4, lc4 = dropCounts (labelsOf nl3 Tt) lc3 := ⟨_, rfl⟩
    rw [← hnl4, ← hlc4] at hstep2
    have hK4 : WellKept nl4 kids := by
      rw [hnl4]
      refine hK3.mapIdx_same ?_
      intro m nd _
      unfold scanned lifted
      by_cases h1 : m = c
      · simp only [if_pos h1, and_self]
      · by_cases h2 : m ∈ Tt
        · simp only [if_neg h1, if_pos h2, and_self]
        · simp only [if_neg h1, if_neg h2, and_self]
    have hu4 : nl4[u]? = some { und with nextScan := cnd.next } := by
      rw [hnl4, hnl3, getElem?_mapIdx_some (getElem?_mapIdx_some hu)]
      simp only [entered, scanned, lifted, if_neg huc, if_true, if_neg huTt]
    have hsame4 : ∀ m, m ≠ c → m ∉ Tt → ∀ nd, nl[m]? = some nd →
        ∃ nd4, nl4[m]? = some nd4 ∧ nd4.label = nd.label ∧ nd4.next = nd.next := by
      intro m hm hmT nd hnd
      obtain ⟨nd3, h3, h3l, h3n⟩ := hsame3 m hm nd hnd
      refine ⟨_, by rw [hnl4]; exact getElem?_mapIdx_some h3, ?_, ?_⟩
      · simp only [scanned, lifted, if_neg hm, if_neg hmT]
        exact h3l
      · simp only [scanned, lifted, if_neg hm, if_neg hmT]
        exact h3n
    have hch4 : isChain nl4 cnd.next S = true := by
      refine isChain_congr ?_ hchS
      intro m hm nd hnd
      -- a node of `S` heads its own subtree, which lies in `T1`
      have hmT1 : m ∈ T1 := by
        rw [hT1]
        exact List.mem_flatMap.mpr ⟨m, hm, by rw [subtree_cons]; exact List.mem_cons_self _ _⟩
      have hmc : m ≠ c := fun e => hcT1 (e ▸ hmT1)
      have hmT : m ∉ Tt := fun h => hdis m h hmT1
      obtain ⟨nd4, h4, _, h4n⟩ := hsame4 m hmc hmT nd hnd
      exact ⟨nd4, h4, h4n⟩
    have hlen4 : lc4.length = lc.length := by rw [hlc4, dropCounts_length, hlen3]
    have hlab4 : ∀ m ∈ S.flatMap (subtree kids d), ∀ nd, nl4[m]? = some nd →
        nd.label < lc4.length := by
      rw [← hT1]
      intro m hm nd4 hnd4
      have hmc : m ≠ c := fun e => hcT1 (e ▸ hm)
      have hmT : m ∉ Tt := fun h => hdis m h hm
      have hml : m < nl.length := by
        have := getElem?_lt hnd4
        rw [hnl4, hnl3, List.length_mapIdx, List.length_mapIdx] at this
        exact this
      obtain ⟨nd, hnd⟩ : ∃ nd, nl[m]? = some nd := ⟨_, List.getElem?_eq_getElem hml⟩
      obtain ⟨x, hx, hxl, _⟩ := hsame4 m hmc hmT nd hnd
      rw [hnd4] at hx
      cases hx
      rw [hlen4, hxl]
      exact hlab m (List.mem_cons_of_mem _ (List.mem_append_right _ hm)) nd hnd
    have hstep3 := ih u nl4 lc4 _ fuel hK4 hu4 hch4
      (fun x hx => hkid x (List.mem_cons_of_mem _ hx))
      (fun x hx => hH x (List.mem_cons_of_mem _ hx))
      (by rw [← hT1]; exact List.nodup_cons.mpr ⟨huT1, hnT1⟩) hlab4
    rw [← hT1] at hstep3
    -- the three parts of the run
    have hfuel : fuel + (2 * (c :: (Tt ++ T1)).length + 1)
        = ((fuel + (2 * T1.length + 1)) + (2 * Tt.length + 1)) + 1 := by
      simp only [List.length_cons, List.length_append]
      omega
    rw [hfuel, liftAllLoop_enter s _ hu hc huc hns hl, ← hnl3, ← hlc3, hstep2]
    simp only [hcp]
    rw [hstep3]
    -- the final node array and the final counts
    have hnodes : nl4.mapIdx (scanned u T1 s.numNodes)
        = nl.mapIdx (scanned u (c :: (Tt ++ T1)) s.numNodes) := by
      rw [hnl4, hnl3, mapIdx_mapIdx_nodes, mapIdx_mapIdx_nodes]
      apply mapIdx_congr_nodes
      intro m nd _
      unfold scanned lifted entered
      by_cases h1 : m = u
      · have h2 : ¬ m = c := fun e => huc (h1.symm.trans e)
        have h3 : m ∉ Tt := fun h => huTt (h1 ▸ h)
        simp only [if_pos h1, if_neg h2, if_neg h3]
      · by_cases h2 : m = c
        · have h3 : m ∉ T1 := fun h => hcT1 (h2 ▸ h)
          have h4 : m ∈ c :: (Tt ++ T1) := h2 ▸ List.mem_cons_self _ _
          simp only [if_neg h1, if_pos h2, if_neg h3, if_pos h4]
        · by_cases h3 : m ∈ Tt
          · have h4 : m ∉ T1 := hdis m h3
            have h5 : m ∈ c :: (Tt ++ T1) :=
              List.mem_cons_of_mem _ (List.mem_append_left _ h3)
            simp only [if_neg h1, if_neg h2, if_pos h3, if_neg h4, if_pos h5]
          · by_cases h4 : m ∈ T1
            · have h5 : m ∈ c :: (Tt ++ T1) :=
                List.mem_cons_of_mem _ (List.mem_append_right _ h4)
              simp only [if_neg h1, if_neg h2, if_neg h3, if_pos h4, if_pos h5]
            · have h5 : m ∉ c :: (Tt ++ T1) := by
                intro h
                rcases List.mem_cons.mp h with e | e
                · exact h2 e
                · rcases List.mem_append.mp e with e | e
                  · exact h3 e
                  · exact h4 e
              simp only [if_neg h1, if_neg h2, if_neg h3, if_neg h4, if_neg h5]
    have hlabels3 : labelsOf nl3 Tt = labelsOf nl Tt := by
      apply labelsOf_congr
      intro m hm
      have hmc : m ≠ c := fun e => hcTt (e ▸ hm)
      cases hnd : nl[m]? with
      | none =>
        rw [hnl3, List.getElem?_mapIdx, hnd]
        rfl
      | some nd =>
        obtain ⟨nd3, h3, h3l, _⟩ := hsame3 m hmc nd hnd
        rw [h3]
        simp only [Option.map_some', h3l]
    have hlabels4 : labelsOf nl4 T1 = labelsOf nl T1 := by
      apply labelsOf_congr
      intro m hm
      have hmc : m ≠ c := fun e => hcT1 (e ▸ hm)
      have hmT : m ∉ Tt := fun h => hdis m h hm
      cases hnd : nl[m]? with
      | none =>
        rw [hnl4, hnl3, List.getElem?_mapIdx, List.getElem?_mapIdx, hnd]
        rfl
      | some nd =>
        obtain ⟨nd4, h4, h4l, _⟩ := hsame4 m hmc hmT nd hnd
        rw [h4]
        simp only [Option.map_some', h4l]
    have hcounts : dropCounts (labelsOf nl4 T1) lc4
        = dropCounts (labelsOf nl (c :: (Tt ++ T1))) lc := by
      rw [hlabels4, hlc4, hlabels3, hlc3]
      have e1 : labelsOf nl (c :: (Tt ++ T1))
          = cnd.label :: (labelsOf nl Tt ++ labelsOf nl T1) := by
        unfold labelsOf
        simp only [List.map_cons, List.map_append, hc, Option.map_some', Option.getD_some]
      rw [e1, dropCounts_cons, dropCounts_append]
    rw [hnodes, hcounts]

/-! ## `liftAll` -/

theorem liftAll_visit (s : State) (kids : Nat → List Nat) :
    ∀ (d c : Nat) (nl : List Node) (lc : List Nat) (cnd : Node) (fuel : Nat),
      WellKept nl kids → nl[c]? = some cnd → cnd.nextScan = cnd.childList →
      heightOk kids d c = true → (subtree kids d c).Nodup →
      (∀ m ∈ (subtree kids d c).tail, ∀ nd, nl[m]? = some nd → nd.label < lc.length) →
      liftAllLoop (fuel + (2 * (subtree kids d c).tail.length + 1)) (s.relabel nl lc) (some c)
        = liftAllLoop fuel
            (s.relabel (nl.mapIdx (scanned c (subtree kids d c).tail s.numNodes))
              (dropCounts (labelsOf nl (subtree kids d c).tail) lc)) cnd.parent := by
  intro d
  induction d with
  | zero =>
    intro c nl lc cnd fuel hK hc hns hH _ _
    have hk : kids c = [] := by
      simp only [heightOk, List.isEmpty_iff] at hH
      exact hH
    have hch := hK.chainOf hc
    rw [hk] at hch
    have hnone : cnd.nextScan = none := hns.trans (isChain_nil.mp hch)
    have e0 : (subtree kids 0 c).tail = [] := rfl
    rw [e0]
    simp only [List.length_nil, Nat.mul_zero, Nat.zero_add]
    rw [liftAllLoop_leave s fuel hc hnone]
    have e1 : nl.mapIdx (scanned c [] s.numNodes) = nl := by
      apply mapIdx_id_nodes
      intro m nd hnd
      unfold scanned lifted
      by_cases h : m = c
      · rw [h, hc] at hnd
        cases hnd
        simp only [if_pos h]
        cases cnd
        simp only at hnone
        simp only [hnone]
      · simp only [if_neg h, List.not_mem_nil, if_false]
    rw [e1]
    rfl
  | succ d ih =>
    intro c nl lc cnd fuel hK hc hns hH hn hlab
    have e0 : (subtree kids (d + 1) c).tail = (kids c).flatMap (subtree kids d) := rfl
    have e1 : subtree kids (d + 1) c = c :: (kids c).flatMap (subtree kids d) := rfl
    rw [e0] at hlab ⊢
    rw [e1] at hn
    have hall : ∀ x ∈ kids c, heightOk kids d x = true := by
      simp only [heightOk, List.all_eq_true] at hH
      exact hH
    exact liftAll_list s kids d (ih) (kids c) c nl lc cnd fuel hK hc
      (hns ▸ hK.chainOf hc) (fun x hx => hx) hall hn hlab

theorem dropCounts_get : ∀ (ls lc : List Nat) (l c : Nat), lc[l]? = some c →
    (dropCounts ls lc)[l]? = some (Nat.iterate decU (ls.count l) c) := by
  intro ls
  induction ls with
  | nil =>
    intro lc l c h
    simpa [dropCounts] using h
  | cons a ls ih =>
    intro lc l c h
    rw [dropCounts_cons]
    by_cases hal : a = l
    · subst hal
      have h1 : (lc.set a (decU ((lc[a]?).getD 0)))[a]? = some (decU c) := by
        rw [List.getElem?_set_self (getElem?_lt h), h]
        rfl
      rw [ih _ a (decU c) h1, List.count_cons_self, Function.iterate_succ_apply]
    · have h1 : (lc.set a (decU ((lc[a]?).getD 0)))[l]? = some c := by
        rw [List.getElem?_set_ne hal]
        exact h
      rw [ih _ l c h1, List.count_cons_of_ne (fun e => hal e.symm)]

theorem relabel_self (s : State) : s.relabel s.nodesList s.labelCount = s := rfl

/-- C34: gap relabelling lifts a whole subtree.  Let the child lists match the
parent pointers (`kids`), let `root` have no parent, let the child lists
below `root` form a tree of height at most `d` (no node is reached twice and
no node `d` levels down has a child), let every label in that subtree be an
index of `labelCount`, and let the fuel cover two steps per node.  Then
`liftAll` returns; in the state it leaves, exactly the nodes of the subtree
have the label `numNodes` (and their scan pointer is null), every other node
record and every other field of the subtree nodes, in particular all parent
pointers and child lists, is unchanged, and `labelCount[l]` has been
decremented once for every node of the subtree whose old label was `l`; the
rest of the state is unchanged. -/
theorem liftAll_lifts_subtree (fuel : Nat) (s : State) (root : Nat) (rnd : Node)
    (kids : Nat → List Nat) (d : Nat)
    (hK : WellKept s.nodesList kids) (hr : s.nodesList[root]? = some rnd)
    (hrp : rnd.parent = none) (hH : heightOk kids d root = true)
    (hn : (subtree kids d root).Nodup)
    (hlab : ∀ l ∈ labelsOf s.nodesList (subtree kids d root), l < s.labelCount.length)
    (hf : 2 * (subtree kids d root).length ≤ fuel) :
    liftAll fuel s root
      = .ok (s.relabel (s.nodesList.mapIdx (lifted (subtree kids d root) s.numNodes))
          (dropCounts (labelsOf s.nodesList (subtree kids d root)) s.labelCount))
    ∧ ∀ (l c : Nat), s.labelCount[l]? = some c →
        (dropCounts (labelsOf s.nodesList (subtree kids d root)) s.labelCount)[l]?
          = some (Nat.iterate decU ((labelsOf s.nodesList (subtree kids d root)).count l) c) := by
  refine ⟨?_, fun l c h => dropCounts_get _ _ l c h⟩
  obtain ⟨Tt, hTt⟩ : ∃ Tt, Tt = (subtree kids d root).tail := ⟨_, rfl⟩
  have hT : subtree kids d root = root :: Tt := by rw [hTt]; exact subtree_cons kids d root
  have hlab1 : ∀ m ∈ subtree kids d root, ∀ nd, s.nodesList[m]? = some nd →
      nd.label < s.labelCount.length := by
    intro m hm nd hnd
    refine hlab nd.label ?_
    unfold labelsOf
    refine List.mem_map.mpr ⟨m, hm, ?_⟩
    rw [hnd]
    rfl
  have hrT : root ∉ Tt := (List.nodup_cons.mp (hT ▸ hn)).1
  have hl : rnd.label < s.labelCount.length :=
    hlab1 root (hT ▸ List.mem_cons_self _ _) rnd hr
  have hlr := getElem?_lt hr
  have hv : s.labelCount[rnd.label]? = some (s.labelCount[rnd.label]) :=
    List.getElem?_eq_getElem hl
  -- the state when the loop starts
  obtain ⟨nl2, hnl2⟩ : ∃ nl2, nl2 = s.nodesList.mapIdx (fun m x =>
      if m = root then { x with nextScan := x.childList, label := s.numNodes } else x) :=
    ⟨_, rfl⟩
  obtain ⟨lc2, hlc2⟩ : ∃ lc2,
      lc2 = s.labelCount.set rnd.label (decU ((s.labelCount[rnd.label]?).getD 0)) := ⟨_, rfl⟩
  have hstart : liftAll fuel s root = liftAllLoop fuel (s.relabel nl2 lc2) (some root) := by
    unfold liftAll
    simp only [modNode_lt, hlr, ok_bind, liftNode, State.node, List.getElem?_mapIdx, hr,
      Option.map_some', if_true, deref, State.modCount, hv, List.length_mapIdx,
      mapIdx_mapIdx_nodes, Option.getD_some]
    rw [hnl2, hlc2, hv]
    unfold State.relabel
    congr 2
    · apply mapIdx_congr_nodes
      intro m x _
      by_cases h : m = root
      · simp only [if_pos h]
      · simp only [if_neg h]
  have hK2 : WellKept nl2 kids := by
    rw [hnl2]
    refine hK.mapIdx_same ?_
    intro m nd _
    by_cases h : m = root
    · simp only [if_pos h, and_self]
    · simp only [if_neg h, and_self]
  have hr2 : nl2[root]? = some { rnd with nextScan := rnd.childList, label := s.numNodes } := by
    rw [hnl2, getElem?_mapIdx_some hr]
    simp only [if_true]
  have hlen2 : lc2.length = s.labelCount.length := by rw [hlc2, List.length_set]
  have hsame : ∀ m, m ≠ root → ∀ nd, s.nodesList[m]? = some nd → nl2[m]? = some nd := by
    intro m hm nd hnd
    rw [hnl2, getElem?_mapIdx_some hnd]
    simp only [if_neg hm]
  have hlab2 : ∀ m ∈ (subtree kids d root).tail, ∀ nd, nl2[m]? = some nd →
      nd.label < lc2.length := by
    rw [← hTt]
    intro m hm nd2 hnd2
    have hmr : m ≠ root := fun e => hrT (e ▸ hm)
    have hml : m < s.nodesList.length := by
      have := getElem?_lt hnd2
      rw [hnl2, List.length_mapIdx] at this
      exact this
    obtain ⟨nd, hnd⟩ : ∃ nd, s.nodesList[m]? = some nd := ⟨_, List.getElem?_eq_getElem hml⟩
    rw [hsame m hmr nd hnd] at hnd2
    have e : nd = nd2 := Option.some.inj hnd2
    rw [← e, hlen2]
    exact hlab1 m (hT ▸ List.mem_cons_of_mem _ hm) nd hnd
  obtain ⟨f, hfe⟩ : ∃ f, fuel = (f + 1) + (2 * (subtree kids d root).tail.length + 1) := by
    refine ⟨fuel - (2 * (subtree kids d root).tail.length + 2), ?_⟩
    rw [hT] at hf
    rw [← hTt]
    simp only [List.length_cons] at hf
    omega
  have hvisit := liftAll_visit s kids d root nl2 lc2 _ (f + 1) hK2 hr2 rfl hH hn hlab2
  rw [← hTt] at hvisit
  rw [hstart, hfe, ← hTt, hvisit]
  simp only [hrp, liftAllLoop]
  -- the final node array and the final counts
  have hnodes : nl2.mapIdx (scanned root Tt s.numNodes)
      = s.nodesList.mapIdx (lifted (subtree kids d root) s.numNodes) := by
    rw [hnl2, hT, mapIdx_mapIdx_nodes]
    apply mapIdx_congr_nodes
    intro m nd _
    unfold scanned lifted
    by_cases h1 : m = root
    · have h2 : m ∈ root :: Tt := h1 ▸ List.mem_cons_self _ _
      simp only [if_pos h1, if_pos h2]
    · by_cases h2 : m ∈ Tt
      · have h3 : m ∈ root :: Tt := List.mem_cons_of_mem _ h2
        simp only [if_neg h1, if_pos h2, if_pos h3]
      · have h3 : m ∉ root :: Tt := fun h => by
          rcases List.mem_cons.mp h with e | e
          · exact h1 e
          · exact h2 e
        simp only [if_neg h1, if_neg h2, if_neg h3]
  have hlabels : labelsOf nl2 Tt = labelsOf s.nodesList Tt := by
    apply labelsOf_congr
    intro m hm
    have hmr : m ≠ root := fun e => hrT (e ▸ hm)
    rw [hnl2, List.getElem?_mapIdx]
    cases s.nodesList[m]? with
    | none => rfl
    | some nd => simp only [Option.map_some', if_neg hmr]
  have hcounts : dropCounts (labelsOf nl2 Tt) lc2
      = dropCounts (labelsOf s.nodesList (subtree kids d root)) s.labelCount := by
    rw [hlabels, hlc2, hT]
    have e1 : labelsOf s.nodesList (root :: Tt) = rnd.label :: labelsOf s.nodesList Tt := by
      unfold labelsOf
      simp only [List.map_cons, hr, Option.map_some', Option.getD_some]
    rw [e1, dropCounts_cons]
  rw [hnodes, hcounts]

/-- C34 on the state `grove`: `liftAll` at the root 2 lifts the nodes 2, 3 and 4
(the tree 2 - 3 - 4) to the label 6 and leaves the labels of the nodes 0, 1
and 5 alone; the three nodes had the label 1, so `labelCount[1]` drops from 3
to 0; parent pointers and child lists are as before. -/
theorem liftAll_lifts_subtree_witness :
    (liftAll 6 grove 2
        = .ok (grove.relabel
            (grove.nodesList.mapIdx (lifted (subtree groveKids 2 2) grove.numNodes))
            (dropCounts (labelsOf grove.nodesList (subtree groveKids 2 2)) grove.labelCount))
      ∧ ∀ (l c : Nat), grove.labelCount[l]? = some c →
          (dropCounts (labelsOf grove.nodesList (subtree groveKids 2 2)) grove.labelCount)[l]?
            = some (Nat.iterate decU
                ((labelsOf grove.nodesList (subtree groveKids 2 2)).count l) c))
    ∧ subtree groveKids 2 2 = [2, 3, 4]
    ∧ (liftAll 6 grove 2).map (fun s1 => (s1.nodesList.map (fun nd => nd.label), s1.labelCount))
      = .ok ([6, 0, 6, 6, 6, 2], [0, 0, 1, 0, 0, 0])
    ∧ (liftAll 6 grove 2).map (fun s1 =>
        s1.nodesList.map (fun nd => (nd.parent, nd.childList)))
      = .ok (grove.nodesList.map (fun nd => (nd.parent, nd.childList))) :=
  ⟨liftAll_lifts_subtree 6 grove 2 _ groveKids 2
      (by unfold WellKept; decide) (by rfl) (by decide) (by decide) (by decide)
      (by decide) (by decide),
    by decide, by decide!, by decide!⟩

/-- With a range of one point, whenever `hpf_solve` returns, every entry of the
cuts array it returns is `lam`: `readGraphSuper` fills the array with
`lambdaHigh = lam`, puts `lambdaLow = lam` at index 0, and the one call of
`addBreakpoint` changes no entry, whatever source set the solve found. -/
theorem hpf_solve_single_cuts {fuel depth numNodesIn numArcsIn sourceIn sinkIn : Nat}
    {arcMatrix : List ℚ} {lam : ℚ} {round : Int} {out : Output}
    (h : hpf_solve fuel depth numNodesIn numArcsIn sourceIn sinkIn arcMatrix lam lam round
      = .ok out) :
    out.cuts = List.replicate numNodesIn lam := by
  rw [hpf_solve_single] at h
  obtain ⟨⟨g0, nb⟩, hread, h⟩ := bind_eq_ok.mp h
  obtain ⟨hn, -, -, -, -, hlo, -, -, hpos, hnb⟩ := readGraphSuper_fields hread
  simp only at h
  obtain ⟨plow, hplow, h⟩ := bind_eq_ok.mp h
  obtain ⟨⟨rlow, slow⟩, hrlow, h⟩ := bind_eq_ok.mp h
  simp only at h
  obtain ⟨lowInd, -, h⟩ := bind_eq_ok.mp h
  obtain ⟨gl, hgl, h⟩ := bind_eq_ok.mp h
  cases h
  obtain ⟨-, -, -, ht⟩ := addBreakpoint_ok hgl
  have hlam : rlow.lambdaValue = lam := by
    have e1 := solveProblem_lambda hrlow
    have e2 := initializeContractedProblem_lambda hplow
    simp only at e1 e2
    rw [e1, e2, hlo]
  rw [hlam] at ht
  have hnb2 : nb = List.replicate numNodesIn lam := by
    rw [hnb]
    apply List.ext_getElem?
    intro i
    rw [List.getElem?_set]
    by_cases hi : 0 = i
    · subst hi
      simp only [if_true, List.length_replicate, hpos, List.getElem?_replicate]
    · simp only [if_neg hi]
  obtain ⟨-, hget⟩ := tightenEntries_spec lam lowInd _ _ _ ht
  have hsame : gl.nodeBreakpoints = nb := by
    apply List.ext_getElem?
    intro i
    rw [hget i]
    split
    · rename_i hc
      obtain ⟨b, hb, hgt⟩ := hc.2.2
      exfalso
      simp only at hb
      rw [hnb2, List.getElem?_replicate] at hb
      split at hb
      · cases hb
        exact lt_irrefl _ hgt
      · cases hb
    · rfl
  show (gl.nodeBreakpoints.take g0.numNodesSuper) = _
  rw [hsame, hnb2, hn, List.take_replicate, Nat.min_self]

theorem lowCrossing_read : readGraphSuper 3 2 0 2 [0, 1, 1, 1, 1, 2, 0, -1 / 20000000]
    (-49999999 / 50000000) 0 1
    = .ok (lowCrossing, [-49999999 / 50000000, 0, 0]) := by decide!

theorem lowCrossing_run : hpf_solve 8 8 3 2 0 2 [0, 1, 1, 1, 1, 2, 0, -1 / 20000000]
    (-49999999 / 50000000) 0 1
    = .ok { numBreakpoints := 2, cuts := [-1, 0, 0], breakpoints := [-1, 0],
            stats := [0, 0, 0, 0, 2] } := by decide!

theorem lowCrossing_run_exact : hpf_solve 8 8 3 2 0 2 [0, 1, 1, 1, 1, 2, 0, -1 / 20000000]
    (-49999999 / 50000000) 0 0
    = .ok { numBreakpoints := 2, cuts := [-49999999 / 50000000, 0, 0],
            breakpoints := [-20000000 / 20000001, 0], stats := [0, 0, 0, 0, 2] } := by decide!

/-- C15: the code returns a breakpoint outside the range.  On the valid input
with nodes 0, 1, 2, source 0, sink 2, the arcs (0,1) of capacity `1 + lambda`
and (1,2) of capacity `- lambda / 20000000`, the range
`[-0.99999998, 0]` and the rounding flag set, `hpf_solve` returns, for every
loop bound and depth bound from 8 on, the breakpoints [-1, 0]: the breakpoint
before the sentinel is -1, below `lambda_lo`.  The source sets at the two ends
are `{0}` and `{0, 1}`; their cut functions cross at `-20000000/20000001`,
inside the range, but with the flag set `computeIntersect` leaves out the
multiplier of the arc into the sink and returns -1, and `parametricCut`
appends that value because the probes at `lambda_lo` and at `-1 + TOL` find
different source sets.  With the flag at 0 the same input gives the breakpoints
`[-20000000/20000001, 0]`. -/
theorem breakpoint_below_range :
    ValidInput lowCrossing
    ∧ readGraphSuper 3 2 0 2 [0, 1, 1, 1, 1, 2, 0, -1 / 20000000] (-49999999 / 50000000) 0 1
        = .ok (lowCrossing, [-49999999 / 50000000, 0, 0])
    ∧ (∀ fuel depth : Nat,
        (hpf_solve (8 + fuel) (8 + depth) 3 2 0 2 [0, 1, 1, 1, 1, 2, 0, -1 / 20000000]
          (-49999999 / 50000000) 0 1).map
        (fun out => (out.numBreakpoints, out.breakpoints)) = .ok (2, [-1, 0]))
    ∧ (-1 : ℚ) < lowCrossing.LAMBDA_LOW
    ∧ computeIntersect lowCrossing [0, 1, 0] (0 - 0) = .ok (-1)
    ∧ cutLine lowCrossing [1, 0, 0] (-20000000 / 20000001)
        = cutLine lowCrossing [1, 1, 0] (-20000000 / 20000001)
    ∧ lowCrossing.LAMBDA_LOW < -20000000 / 20000001
    ∧ (-20000000 / 20000001 : ℚ) < lowCrossing.LAMBDA_HIGH
    ∧ (∀ fuel depth : Nat,
        (hpf_solve (8 + fuel) (8 + depth) 3 2 0 2 [0, 1, 1, 1, 1, 2, 0, -1 / 20000000]
          (-49999999 / 50000000) 0 0).map
        (fun out => (out.numBreakpoints, out.breakpoints))
          = .ok (2, [-20000000 / 20000001, 0])) := by
  refine ⟨by decide!, lowCrossing_read, fun fuel depth => ?_, by decide!, by decide!,
    by decide!, by decide!, by decide!, fun fuel depth => ?_⟩
  · rw [hpf_solve_mono (Nat.le_add_right 8 fuel) (Nat.le_add_right 8 depth) _ _ _ _ _ _ _ _ _
      lowCrossing_run]
    rfl
  · rw [hpf_solve_mono (Nat.le_add_right 8 fuel) (Nat.le_add_right 8 depth) _ _ _ _ _ _ _ _ _
      lowCrossing_run_exact]
    rfl

end HPF
